import Mathlib

/-!
# HBtree: a shallow embedding of `src/hbtree/hbtree.cpp`

The copy-on-write B+-tree engine of `HBtreePrivate` is embedded as pure
functions on an explicit state.

Modelling conventions
* A `QByteArray` is a `List Nat` of byte values.
* A `Page *` is the page number under which the object sits in `cache_`;
  dereferencing a pointer is a cache lookup, and a failed lookup (a null or
  dangling pointer in the source) makes the operation return `none`.
* A `HBtreeTransaction *` is an index into the table `transactions`.
* 16-bit quantities (`quint16`) are computed with explicit reduction modulo
  `65536`; page numbers and the 64-bit revision / sync counters are naturals.
* Loops that walk page links are bounded by the number of pages of the file
  (`lastPage_ + 1` steps); a walk that needs more does not end in the source
  and gives `none` here.
* The file is modelled at page granularity: `writePage` of a serialised page
  stores the page image, `readPage` followed by deserialisation returns the
  stored image with the run-time fields (parent, siblings, dirty) reset.
-/

namespace HBtree

/-- A `QByteArray`. -/
abbrev Bytes := List Nat

/-- The constant `PageInfo::INVALID_PAGE`. -/
def INVALID_PAGE : Nat := 0xFFFFFFFF

/-- Truncation of an integer to `quint16`. -/
def u16 (z : Int) : Nat := (z % 65536).toNat

/-- Modelled from the spec: the sizes of the on-disk structs declared in the
missing header `hbtree_p.h` (`PageInfo`, `NodePage::Meta`, `HistoryNode`,
`NodeHeader`, `MarkerPage::Meta`), as given by the field lists of the data
model. -/
structure Sizes where
  pageInfo : Nat := 16
  nodeMeta : Nat := 16
  historyNode : Nat := 16
  nodeHeader : Nat := 8
  markerMeta : Nat := 40
  deriving DecidableEq, Repr

/-- The signature of `HBtree::CompareFunction`. -/
abbrev CompareFunction := Bytes → Bytes → Int

/-- The parts of the engine that stay fixed while it runs: the struct sizes
and the installed comparator `compareFunction_` (`none` is the null pointer of
the constructor). -/
structure Env where
  sizes : Sizes := {}
  compareFunction_ : Option CompareFunction := none

/-- The struct `Spec`; `overflowThreshold` and `pageFillThreshold` get their
values in the missing header. -/
structure Spec where
  version : Nat := 0
  pageSize : Nat := 0
  keySize : Nat := 0
  overflowThreshold : Nat := 1000
  pageFillThreshold : Nat := 25
  deriving DecidableEq, Repr

/-- The enum `PageInfo::Type`. -/
inductive PageType where
  | Unknown
  | Spec
  | Marker
  | Branch
  | Leaf
  | Overflow
  deriving DecidableEq, Repr

/-- The struct `PageInfo`. -/
structure PageInfo where
  checksum : Nat := 0
  type : PageType := PageType.Unknown
  number : Nat := INVALID_PAGE
  lowerOffset : Nat := 0
  upperOffset : Nat := 0
  deriving DecidableEq, Repr

/-- The flag `NodeHeader::Overflow`. -/
def NodeHeader_Overflow : Nat := 1

/-- The struct `NodeValue`: inline data, or the head of an overflow chain
(leaf), or a child page number (branch). -/
structure NodeValue where
  flags : Nat := 0
  overflowPage : Nat := INVALID_PAGE
  data : Bytes := []
  deriving DecidableEq, Repr

/-- The test `value.flags & NodeHeader::Overflow`. -/
def NodeValue.isOverflow (v : NodeValue) : Bool := v.flags % 2 == 1

/-- The struct `HistoryNode`. -/
structure HistoryNode where
  pageNumber : Nat
  syncId : Nat
  deriving DecidableEq, Repr

/-- The struct `NodePage::Meta`. -/
structure NodeMeta where
  syncId : Nat := 0
  historySize : Nat := 0
  flags : Nat := 0
  deriving DecidableEq, Repr

/-- The struct `NodePage`; `nodes` is the `OrderedList` of entries, `parent`
the page number of the object the parent pointer designates. -/
structure NodePage where
  info : PageInfo
  meta : NodeMeta := {}
  history : List HistoryNode := []
  nodes : List (Bytes × NodeValue) := []
  parent : Option Nat := none
  parentKey : Bytes := []
  leftPageNumber : Nat := INVALID_PAGE
  rightPageNumber : Nat := INVALID_PAGE
  dirty : Bool := true
  deriving DecidableEq, Repr

/-- The struct `OverflowPage`. -/
structure OverflowPage where
  info : PageInfo
  data : Bytes := []
  nextPage : Nat := INVALID_PAGE
  dirty : Bool := true
  deriving DecidableEq, Repr

/-- A cached `Page` object: a node page or an overflow page. -/
inductive Page where
  | node (p : NodePage)
  | overflow (p : OverflowPage)
  deriving DecidableEq, Repr

/-- The struct `MarkerPage::Meta`. -/
structure MarkerMeta where
  root : Nat := INVALID_PAGE
  revision : Nat := 0
  syncId : Nat := 0
  tag : Nat := 0
  size : Nat := 0
  flags : Nat := 0
  deriving DecidableEq, Repr

/-- The flag `MarkerPage::DataOnOverflow`. -/
def MarkerPage_DataOnOverflow : Nat := 1

/-- The struct `MarkerPage`; `residueHistory` is a `QSet<quint32>`. -/
structure MarkerPage where
  info : PageInfo
  meta : MarkerMeta := {}
  residueHistory : List Nat := []
  overflowPage : Nat := INVALID_PAGE
  deriving DecidableEq, Repr

/-- The enum `HBtreeTransaction::Type`. -/
inductive TransactionType where
  | ReadOnly
  | ReadWrite
  deriving DecidableEq, Repr

/-- The enum `HBtree::OpenMode`. -/
inductive OpenMode where
  | ReadOnly
  | ReadWrite
  deriving DecidableEq, Repr

/-- The fields of `HBtreeTransaction` that the engine reads and writes. -/
structure HBtreeTransaction where
  type : TransactionType
  rootPage_ : Nat := INVALID_PAGE
  tag_ : Nat := 0
  revision_ : Nat := 0
  deriving DecidableEq, Repr

/-- The counters of `HBtree::Stat` that the engine updates. -/
structure Stat where
  numEntries : Int := 0
  numCommits : Nat := 0
  numSyncs : Nat := 0
  depth : Int := 0
  numBranchPages : Nat := 0
  numLeafPages : Nat := 0
  numOverflowPages : Nat := 0
  reads : Nat := 0
  writes : Nat := 0
  hits : Nat := 0
  deriving DecidableEq, Repr

/-- What a page-sized block of the file holds after `writePage`. -/
inductive DiskPage where
  | node (p : NodePage)
  | overflow (p : OverflowPage)
  | marker (p : MarkerPage)
  | spec (p : Spec)
  deriving DecidableEq, Repr

/-- The state of `HBtreePrivate` together with the file behind `fd_` and the
transaction objects handed out. `collectiblePages_` and `residueHistory_` are
sets kept in increasing order; `dirtyPages_` is the key list of the `QMap`
(its values point into `cache_`); `lru_` lists page numbers, least recent
first. `file` maps a page number to the image last written there and
`filePages` is the length of the file in pages. `failWrites` lists the page numbers for which `pwrite` fails, and
`lockHeld` says that another process holds the advisory lock. -/
structure HBtreePrivate where
  spec_ : Spec := {}
  openMode_ : OpenMode := OpenMode.ReadWrite
  size_ : Nat := 0
  lastSyncedId_ : Nat := 0
  cacheSize_ : Nat := 20
  marker_ : MarkerPage := { info := { type := PageType.Marker, number := 1 } }
  synced_ : MarkerPage := { info := { type := PageType.Marker, number := 1 } }
  cache_ : List (Nat × Page) := []
  lru_ : List Nat := []
  dirtyPages_ : List Nat := []
  collectiblePages_ : List Nat := []
  residueHistory_ : List Nat := []
  writeTransaction_ : Option Nat := none
  lastPage_ : Nat := 3
  stats_ : Stat := {}
  file : List (Nat × DiskPage) := []
  filePages : Nat := 3
  failWrites : List Nat := []
  lockHeld : Bool := false
  transactions : List (Nat × HBtreeTransaction) := []
  nextTransaction : Nat := 0
  deriving DecidableEq, Repr

/-! ## Keys and the ordered list of entries -/

/-- The comparison `memcmp` over the common length of two byte arrays. -/
def memcmp : Bytes → Bytes → Int
  | a :: as, b :: bs => if a < b then -1 else if b < a then 1 else memcmp as bs
  | _, _ => 0

/-- Modelled from the spec: the comparison of two `NodeKey`s (its operators
are declared in the missing header). With a comparator installed the result is
the comparator's, otherwise the byte-wise order of `QByteArray`, the shorter
array first on a common prefix. -/
def NodeKey.compare (env : Env) (a b : Bytes) : Int :=
  match env.compareFunction_ with
  | some f => f a b
  | none =>
    let c := memcmp a b
    if c = 0 then (a.length : Int) - (b.length : Int) else c

/-- The operator `<` of `NodeKey`. -/
def NodeKey.lt (env : Env) (a b : Bytes) : Bool := decide (NodeKey.compare env a b < 0)

/-- The operator `<=` of `NodeKey`. -/
def NodeKey.le (env : Env) (a b : Bytes) : Bool := decide (NodeKey.compare env a b ≤ 0)

/-- The operator `==` of `NodeKey`. -/
def NodeKey.eq (env : Env) (a b : Bytes) : Bool := decide (NodeKey.compare env a b = 0)

/-- The entries of a node page, an `OrderedList<NodeKey, NodeValue>`. -/
abbrev Nodes := List (Bytes × NodeValue)

/-- Modelled from the spec: `OrderedList::insert` (the header
`orderedlist_p.h` is missing); the entry goes to its sorted position and an
entry with an equal key is replaced, as the test `orderedList` shows. -/
def OrderedList.insert (env : Env) (k : Bytes) (v : NodeValue) : Nodes → Nodes
  | [] => [(k, v)]
  | (k', v') :: t =>
    if NodeKey.lt env k k' then (k, v) :: (k', v') :: t
    else if NodeKey.lt env k' k then (k', v') :: OrderedList.insert env k v t
    else (k, v) :: t

/-- Modelled from the spec: `OrderedList::lowerBound`, the index of the first
entry whose key is not less than `k`. -/
def OrderedList.lowerBound (env : Env) (k : Bytes) : Nodes → Nat
  | [] => 0
  | (k', _) :: t => if NodeKey.lt env k' k then OrderedList.lowerBound env k t + 1 else 0

/-- Modelled from the spec: `OrderedList::upperBound`, the index of the first
entry whose key is greater than `k`. -/
def OrderedList.upperBound (env : Env) (k : Bytes) : Nodes → Nat
  | [] => 0
  | (k', _) :: t => if NodeKey.lt env k k' then 0 else OrderedList.upperBound env k t + 1

/-- Modelled from the spec: `OrderedList::find`, the index of the entry with
key `k`; the list length stands for `constEnd()`. -/
def OrderedList.find (env : Env) (k : Bytes) (l : Nodes) : Nat :=
  let i := OrderedList.lowerBound env k l
  match l.get? i with
  | some (k', _) => if NodeKey.lt env k k' then l.length else i
  | none => l.length

/-- Modelled from the spec: `OrderedList::contains`. -/
def OrderedList.contains (env : Env) (k : Bytes) (l : Nodes) : Bool :=
  OrderedList.find env k l != l.length

/-- Modelled from the spec: `OrderedList::value(key, defaultValue)`. -/
def OrderedList.value (env : Env) (k : Bytes) (l : Nodes) (dflt : NodeValue) : NodeValue :=
  match l.get? (OrderedList.find env k l) with
  | some (_, v) => v
  | none => dflt

/-- Modelled from the spec: `OrderedList::remove`. -/
def OrderedList.remove (env : Env) (k : Bytes) (l : Nodes) : Nodes :=
  l.eraseIdx (OrderedList.find env k l)

/-! ## Sets and maps of page numbers -/

/-- Insertion into a `QSet<quint32>` kept in increasing order. -/
def setInsert (n : Nat) : List Nat → List Nat
  | [] => [n]
  | m :: t => if n < m then n :: m :: t else if n = m then m :: t else m :: setInsert n t

/-- The method `QSet::unite`. -/
def setUnite (s other : List Nat) : List Nat := other.foldl (fun acc n => setInsert n acc) s

/-- Lookup in a `QMap<quint32, T>`. -/
def mapFind {α : Type} (n : Nat) : List (Nat × α) → Option α
  | [] => none
  | (m, v) :: t => if m = n then some v else mapFind n t

/-- Removal of a key from a `QMap<quint32, T>`. -/
def mapRemove {α : Type} (n : Nat) (l : List (Nat × α)) : List (Nat × α) :=
  l.filter (fun e => e.1 != n)

/-- Insertion into a `QMap<quint32, T>` (key order, an equal key is replaced). -/
def mapInsert {α : Type} (n : Nat) (v : α) : List (Nat × α) → List (Nat × α)
  | [] => [(n, v)]
  | (m, w) :: t =>
    if n < m then (n, v) :: (m, w) :: t
    else if n = m then (n, v) :: t
    else (m, w) :: mapInsert n v t

/-! ## Space accounting -/

/-- The function `headerSize(const Page *)`, from the page type and the
number of history entries. -/
def headerSize (env : Env) (info : PageInfo) (historySize : Nat) : Nat :=
  match info.type with
  | PageType.Marker => u16 (env.sizes.pageInfo + env.sizes.markerMeta)
  | PageType.Leaf => u16 (env.sizes.pageInfo + env.sizes.nodeMeta + historySize * env.sizes.historyNode)
  | PageType.Branch => u16 (env.sizes.pageInfo + env.sizes.nodeMeta + historySize * env.sizes.historyNode)
  | PageType.Overflow => u16 (env.sizes.pageInfo + env.sizes.nodeHeader)
  | _ => 0

/-- The function `capacity(const Page *)`. -/
def capacity (env : Env) (spec : Spec) (info : PageInfo) (historySize : Nat) : Nat :=
  u16 ((spec.pageSize : Int) - headerSize env info historySize)

/-- The function `spaceUsed(const Page *)`. -/
def spaceUsed (info : PageInfo) : Nat := u16 (info.upperOffset + info.lowerOffset)

/-- The function `spaceLeft(const Page *)`. -/
def spaceLeft (env : Env) (spec : Spec) (info : PageInfo) (historySize : Nat) : Nat :=
  u16 ((capacity env spec info historySize : Int) - spaceUsed info)

/-- The function `spaceLeft` applied to a node page. -/
def NodePage.spaceLeft (env : Env) (spec : Spec) (p : NodePage) : Nat :=
  HBtree.spaceLeft env spec p.info p.meta.historySize

/-- The function `capacity` applied to a node page. -/
def NodePage.capacity (env : Env) (spec : Spec) (p : NodePage) : Nat :=
  HBtree.capacity env spec p.info p.meta.historySize

/-- The function `willCauseOverflow`. -/
def willCauseOverflow (spec : Spec) (_key value : Bytes) : Bool :=
  decide (value.length > spec.overflowThreshold)

/-- The function `spaceNeededForNode`, a `quint16`. -/
def spaceNeededForNode (env : Env) (spec : Spec) (key value : Bytes) : Nat :=
  if willCauseOverflow spec key value then
    u16 (env.sizes.nodeHeader + key.length + 2 + env.sizes.historyNode)
  else
    u16 (env.sizes.nodeHeader + key.length + value.length + 2 + env.sizes.historyNode)

/-- The function `pageFullEnough`. The source computes the fill percentage
`100 * (1 - spaceLeft / capacity)` in floating point; the embedding compares
the same quantities exactly. -/
def pageFullEnough (env : Env) (spec : Spec) (p : NodePage) : Bool :=
  let cap : Int := p.capacity env spec
  let left : Int := p.spaceLeft env spec
  decide (100 * (cap - left) > (spec.pageFillThreshold : Int) * cap)

/-- The function `hasSpaceFor`. -/
def hasSpaceFor (env : Env) (spec : Spec) (p : NodePage) (key : Bytes) (value : NodeValue) : Bool :=
  decide (p.spaceLeft env spec ≥ spaceNeededForNode env spec key value.data)

/-! ## The page cache -/

/-- The flag `dirty` of a cached page. -/
def Page.dirty : Page → Bool
  | Page.node p => p.dirty
  | Page.overflow p => p.dirty

/-- The field `info` of a cached page. -/
def Page.info : Page → PageInfo
  | Page.node p => p.info
  | Page.overflow p => p.info

/-- The function `cacheFind`. -/
def cacheFind (s : HBtreePrivate) (pgno : Nat) : Option Page := mapFind pgno s.cache_

/-- A cache lookup cast to `NodePage *`. -/
def findNode (s : HBtreePrivate) (pgno : Nat) : Option NodePage :=
  match cacheFind s pgno with
  | some (Page.node p) => some p
  | _ => none

/-- Assignment through a `NodePage *`: the object under `pgno` is replaced. -/
def setNode (s : HBtreePrivate) (pgno : Nat) (p : NodePage) : HBtreePrivate :=
  { s with cache_ := mapInsert pgno (Page.node p) s.cache_ }

/-- The function `cacheRemove`. -/
def cacheRemove (s : HBtreePrivate) (pgno : Nat) : HBtreePrivate :=
  match cacheFind s pgno with
  | some _ => { s with cache_ := mapRemove pgno s.cache_, lru_ := s.lru_.erase pgno }
  | none => s

/-- The function `cacheDelete`. -/
def cacheDelete (s : HBtreePrivate) (pgno : Nat) : HBtreePrivate := cacheRemove s pgno

/-- The function `cacheInsert`. -/
def cacheInsert (s : HBtreePrivate) (pgno : Nat) (page : Page) : HBtreePrivate :=
  { s with cache_ := mapInsert pgno page s.cache_, lru_ := s.lru_.erase pgno ++ [pgno] }

/-- The loop of `cachePrune` over the pages of `lru_` not yet visited; `kept`
collects, in reverse, the visited pages that stay. -/
def cachePruneLoop (cacheSize : Nat) :
    List Nat → List Nat → List (Nat × Page) → List Nat × List (Nat × Page)
  | [], kept, cache => (kept.reverse, cache)
  | n :: rest, kept, cache =>
    if kept.length + (n :: rest).length ≤ cacheSize then (kept.reverse ++ n :: rest, cache)
    else
      match mapFind n cache with
      | some page =>
        if !page.dirty then cachePruneLoop cacheSize rest kept (mapRemove n cache)
        else cachePruneLoop cacheSize rest (n :: kept) cache
      | none => cachePruneLoop cacheSize rest (n :: kept) cache

/-- The function `cachePrune`. -/
def cachePrune (s : HBtreePrivate) : HBtreePrivate :=
  if s.lru_.length > s.cacheSize_ then
    let r := cachePruneLoop s.cacheSize_ s.lru_ [] s.cache_
    { s with lru_ := r.1, cache_ := r.2 }
  else s

/-! ## Reading and writing pages -/

/-- The function `readPage` followed by `newDeserializePage`: the image stored
under `pageNumber`, its run-time fields reset, or `none` when the block was
never written or holds a marker. -/
def readPage (s : HBtreePrivate) (pageNumber : Nat) : Option Page :=
  match mapFind pageNumber s.file with
  | some (DiskPage.node p) =>
    some (Page.node { p with parent := none, parentKey := [], leftPageNumber := INVALID_PAGE,
                             rightPageNumber := INVALID_PAGE, dirty := false })
  | some (DiskPage.overflow p) => some (Page.overflow { p with dirty := false })
  | _ => none

/-- The function `writePage` applied to a serialised page; `false` when
`pwrite` fails. -/
def writePage (s : HBtreePrivate) (pageNumber : Nat) (image : DiskPage) : HBtreePrivate × Bool :=
  if pageNumber ∈ s.failWrites then (s, false)
  else ({ s with file := mapInsert pageNumber image s.file,
                 filePages := max s.filePages (pageNumber + 1),
                 stats_ := { s.stats_ with writes := s.stats_.writes + 1 } }, true)

/-- The function `getPage`: the cached object, moved to the most recent end of
`lru_`, or the page read from the file and inserted into the cache. -/
def getPage (s : HBtreePrivate) (pageNumber : Nat) : HBtreePrivate × Option Page :=
  match cacheFind s pageNumber with
  | some page =>
    ({ s with stats_ := { s.stats_ with hits := s.stats_.hits + 1 },
              lru_ := s.lru_.erase pageNumber ++ [pageNumber] }, some page)
  | none =>
    match readPage s pageNumber with
    | some page =>
      (cacheInsert { s with stats_ := { s.stats_ with reads := s.stats_.reads + 1 } } pageNumber page,
        some page)
    | none => (s, none)

/-- The function `getPage` cast to `NodePage *`; `none` stands for a null
result or a page of another type. -/
def getNodePage (s : HBtreePrivate) (pageNumber : Nat) : HBtreePrivate × Option NodePage :=
  match getPage s pageNumber with
  | (s1, some (Page.node p)) => (s1, some p)
  | (s1, _) => (s1, none)

/-! ## Page allocation, history and overflow chains -/

/-- The function `newPage`: a page number from `collectiblePages_` (the
model takes the smallest) or the next number past the end of the file; the
object cached under that number is dropped and a fresh dirty page is cached
and entered in `dirtyPages_`. Returns the new page number. -/
def newPage (s : HBtreePrivate) (type : PageType) : Option (HBtreePrivate × Nat) :=
  let (s1, pageNumber) :=
    match s.collectiblePages_ with
    | n :: rest => ({ s with collectiblePages_ := rest }, n)
    | [] => ({ s with lastPage_ := s.lastPage_ + 1 }, s.lastPage_)
  let s2 := cacheRemove s1 pageNumber
  let info : PageInfo := { type := type, number := pageNumber }
  match type with
  | PageType.Leaf =>
    let np : NodePage := { info := info, meta := { syncId := s2.lastSyncedId_ + 1 } }
    let s3 := cacheInsert s2 pageNumber (Page.node np)
    some ({ s3 with dirtyPages_ := setInsert pageNumber s3.dirtyPages_,
                    stats_ := { s3.stats_ with numLeafPages := s3.stats_.numLeafPages + 1 } },
          pageNumber)
  | PageType.Branch =>
    let np : NodePage := { info := info, meta := { syncId := s2.lastSyncedId_ + 1 } }
    let s3 := cacheInsert s2 pageNumber (Page.node np)
    some ({ s3 with dirtyPages_ := setInsert pageNumber s3.dirtyPages_,
                    stats_ := { s3.stats_ with numBranchPages := s3.stats_.numBranchPages + 1 } },
          pageNumber)
  | PageType.Overflow =>
    let op : OverflowPage := { info := info }
    let s3 := cacheInsert s2 pageNumber (Page.overflow op)
    some ({ s3 with dirtyPages_ := setInsert pageNumber s3.dirtyPages_,
                    stats_ := { s3.stats_ with numOverflowPages := s3.stats_.numOverflowPages + 1 } },
          pageNumber)
  | _ => none

/-- The function `addHistoryNode` for a page (`src` non-null): the entry is
prepended when the page has room for it, otherwise the page's whole history
and the entry go to `residueHistory_`. Returns the page and the residue set. -/
def addHistoryNodeTo (env : Env) (spec : Spec) (residue : List Nat) (src : NodePage)
    (hn : HistoryNode) : NodePage × List Nat :=
  if src.spaceLeft env spec ≥ env.sizes.historyNode then
    ({ src with history := hn :: src.history,
                meta := { src.meta with historySize := u16 (src.meta.historySize + 1) } }, residue)
  else
    ({ src with history := [], meta := { src.meta with historySize := 0 } },
      setInsert hn.pageNumber (setUnite residue (src.history.map (fun h => h.pageNumber))))

/-- The function `addHistoryNode`; `src = none` is the null pointer. -/
def addHistoryNode (env : Env) (s : HBtreePrivate) (src : Option Nat) (hn : HistoryNode) :
    Option HBtreePrivate :=
  match src with
  | some pgno =>
    match findNode s pgno with
    | some page =>
      let r := addHistoryNodeTo env s.spec_ s.residueHistory_ page hn
      some { (setNode s pgno r.1) with residueHistory_ := r.2 }
    | none => none
  | none => some { s with residueHistory_ := setInsert hn.pageNumber s.residueHistory_ }

/-- The loop of `collectHistory` over the history entries not yet visited:
returns the entries kept, the pages collected and the final `canCollect`. -/
def collectHistoryLoop (markerSyncId lastSyncedId : Nat) :
    List HistoryNode → Bool → List HistoryNode × List Nat
  | [], _ => ([], [])
  | h :: rest, canCollect =>
    if markerSyncId != 0 && h.syncId != lastSyncedId then
      if canCollect || decide (h.syncId > lastSyncedId) then
        let r := collectHistoryLoop markerSyncId lastSyncedId rest canCollect
        (r.1, h.pageNumber :: r.2)
      else
        let r := collectHistoryLoop markerSyncId lastSyncedId rest true
        (h :: r.1, r.2)
    else
      let r := collectHistoryLoop markerSyncId lastSyncedId rest canCollect
      (h :: r.1, r.2)

/-- The function `collectHistory`: history entries that are no longer needed
become collectible and leave the cache. -/
def collectHistory (s : HBtreePrivate) (pgno : Nat) : Option HBtreePrivate :=
  match findNode s pgno with
  | none => none
  | some page =>
    let r := collectHistoryLoop s.marker_.meta.syncId s.lastSyncedId_ page.history
      (decide (page.meta.syncId ≤ s.lastSyncedId_))
    let s1 := r.2.foldl (fun acc n => cacheDelete { acc with collectiblePages_ := setInsert n acc.collectiblePages_ } n) s
    match findNode s1 pgno with
    | none => none
    | some page1 =>
      let kept := r.1
      let numRemoved : Int := r.2.length
      some (setNode s1 pgno { page1 with
        history := kept,
        meta := { page1.meta with historySize := u16 ((page1.meta.historySize : Int) - numRemoved) } })

/-- Assignment to `leftPageNumber` of the cached node page `pgno`, if any. -/
def setLeftOf (s : HBtreePrivate) (pgno : Nat) (left : Nat) : HBtreePrivate :=
  match findNode s pgno with
  | some p => setNode s pgno { p with leftPageNumber := left }
  | none => s

/-- Assignment to `rightPageNumber` of the cached node page `pgno`, if any. -/
def setRightOf (s : HBtreePrivate) (pgno : Nat) (right : Nat) : HBtreePrivate :=
  match findNode s pgno with
  | some p => setNode s pgno { p with rightPageNumber := right }
  | none => s

/-- The statement `parent->nodes[key].overflowPage = child`; the subscript
operator creates the entry when it is absent. -/
def setChildPage (env : Env) (parent : NodePage) (key : Bytes) (child : Nat) : NodePage :=
  let old := OrderedList.value env key parent.nodes {}
  { parent with nodes := OrderedList.insert env key { old with overflowPage := child } parent.nodes }

/-- The function `touchNodePage`: returns the number of the dirty page that
stands for `pgno` from now on. -/
def touchNodePage (env : Env) (s : HBtreePrivate) (pgno : Nat) : Option (HBtreePrivate × Nat) :=
  match findNode s pgno with
  | none => none
  | some page0 =>
    if page0.dirty then some (s, pgno)
    else
      match collectHistory s pgno with
      | none => none
      | some s1 =>
        match findNode s1 pgno with
        | none => none
        | some page =>
          if page.meta.syncId > s1.lastSyncedId_ then
            some ({ (setNode s1 pgno { page with dirty := true }) with
                      dirtyPages_ := setInsert pgno s1.dirtyPages_ }, pgno)
          else
            match newPage s1 page.info.type with
            | none => none
            | some (s2, tn) =>
              match findNode s2 pgno with
              | none => none
              | some pageNow =>
                let touched : NodePage :=
                  { pageNow with info := { pageNow.info with number := tn },
                                 meta := { pageNow.meta with syncId := s2.lastSyncedId_ + 1 } }
                let s3 := setNode s2 tn touched
                let s4 : Option HBtreePrivate :=
                  match touched.parent with
                  | some par =>
                    match findNode s3 par with
                    | some pp => some (setNode s3 par (setChildPage env pp touched.parentKey tn))
                    | none => none
                  | none => some s3
                match s4 with
                | none => none
                | some s4 =>
                  let s5 := if touched.rightPageNumber != INVALID_PAGE
                            then setLeftOf s4 touched.rightPageNumber tn else s4
                  let s6 := if touched.leftPageNumber != INVALID_PAGE
                            then setRightOf s5 touched.leftPageNumber tn else s5
                  match findNode s6 tn with
                  | none => none
                  | some t6 =>
                    let s7 := setNode s6 tn { t6 with dirty := true }
                    match addHistoryNode env s7 (some tn)
                        { pageNumber := pageNow.info.number, syncId := pageNow.meta.syncId } with
                    | none => none
                    | some s8 => some (s8, tn)

/-- Assignment through an `OverflowPage *`. -/
def setOverflow (s : HBtreePrivate) (pgno : Nat) (p : OverflowPage) : HBtreePrivate :=
  { s with cache_ := mapInsert pgno (Page.overflow p) s.cache_ }

/-- A cache lookup cast to `OverflowPage *`. -/
def findOverflow (s : HBtreePrivate) (pgno : Nat) : Option OverflowPage :=
  match cacheFind s pgno with
  | some (Page.overflow p) => some p
  | _ => none

/-- The loop of `putDataOnOverflow`; `rest` is the part of the value not yet
put (`value.size() - sizePut` bytes), `head` the first page of the chain and
`prev` the page written last. -/
def putDataOnOverflowLoop (env : Env) :
    Nat → HBtreePrivate → Bytes → Nat → Option Nat → Option (HBtreePrivate × Nat)
  | 0, _, _, _, _ => none
  | fuel + 1, s, rest, head, prev =>
    if rest.length = 0 then some (s, head)
    else
      match newPage s PageType.Overflow with
      | none => none
      | some (s1, n) =>
        match findOverflow s1 n with
        | none => none
        | some op =>
          let head1 := if head = INVALID_PAGE then n else head
          let sizeToPut := min (u16 rest.length) (capacity env s1.spec_ op.info 0)
          let op1 : OverflowPage :=
            { op with data := rest.take sizeToPut,
                      info := { op.info with lowerOffset := u16 sizeToPut } }
          let s2 := setOverflow s1 n op1
          let s3 :=
            match prev with
            | some pn =>
              match findOverflow s2 pn with
              | some pp => setOverflow s2 pn { pp with nextPage := n }
              | none => s2
            | none => s2
          putDataOnOverflowLoop env fuel s3 (rest.drop sizeToPut) head1 (some n)

/-- The function `putDataOnOverflow`: writes `value` to a new chain of
overflow pages and returns the number of its first page. -/
def putDataOnOverflow (env : Env) (s : HBtreePrivate) (value : Bytes) :
    Option (HBtreePrivate × Nat) :=
  putDataOnOverflowLoop env (value.length + 1) s value INVALID_PAGE none

/-- The loop of `walkOverflowPages`: the data and the page numbers of the
chain from `startPage`, or `false` with both cleared when a page cannot be
fetched. -/
def walkOverflowPagesLoop :
    Nat → HBtreePrivate → Nat → Bytes → List Nat → Option (HBtreePrivate × Bool × Bytes × List Nat)
  | 0, _, _, _, _ => none
  | fuel + 1, s, startPage, data, pages =>
    if startPage = INVALID_PAGE then some (s, true, data, pages)
    else
      match getPage s startPage with
      | (s1, some (Page.overflow page)) =>
        walkOverflowPagesLoop fuel s1 page.nextPage (data ++ page.data) (pages ++ [startPage])
      | (_, some (Page.node _)) => none
      | (s1, none) => some (s1, false, [], [])

/-- The function `walkOverflowPages`. -/
def walkOverflowPages (s : HBtreePrivate) (startPage : Nat) :
    Option (HBtreePrivate × Bool × Bytes × List Nat) :=
  walkOverflowPagesLoop (s.lastPage_ + 1) s startPage [] []

/-- The function `getOverflowData`. -/
def getOverflowData (s : HBtreePrivate) (startPage : Nat) : Option (HBtreePrivate × Bool × Bytes) :=
  match walkOverflowPages s startPage with
  | some (s1, ok, data, _) => some (s1, ok, data)
  | none => none

/-- The function `getOverflowPageNumbers`. -/
def getOverflowPageNumbers (s : HBtreePrivate) (startPage : Nat) :
    Option (HBtreePrivate × Bool × List Nat) :=
  match walkOverflowPages s startPage with
  | some (s1, ok, _, pages) => some (s1, ok, pages)
  | none => none

/-- The function `getDataFromNode`. -/
def getDataFromNode (s : HBtreePrivate) (nval : NodeValue) : Option (HBtreePrivate × Bytes) :=
  if nval.isOverflow then
    match getOverflowData s nval.overflowPage with
    | some (s1, _, data) => some (s1, data)
    | none => none
  else some (s, nval.data)

/-- The function `removeFromTree`. -/
def removeFromTree (s : HBtreePrivate) (pgno : Nat) : Option HBtreePrivate :=
  match findNode s pgno with
  | none => none
  | some page =>
    let s1 :=
      if page.meta.syncId > s.lastSyncedId_ then
        { s with collectiblePages_ := setInsert page.info.number s.collectiblePages_ }
      else { s with residueHistory_ := setInsert page.info.number s.residueHistory_ }
    let s2 := page.history.foldl (fun acc hn =>
      if hn.syncId > acc.lastSyncedId_ then
        { acc with collectiblePages_ := setInsert hn.pageNumber acc.collectiblePages_ }
      else { acc with residueHistory_ := setInsert hn.pageNumber acc.residueHistory_ }) s1
    some (cacheDelete { s2 with dirtyPages_ := s2.dirtyPages_.erase page.info.number } page.info.number)

/-- The function `insertNode` on a page object (a cached page or the local
copy made by `split`). -/
def insertNode (env : Env) (s : HBtreePrivate) (page : NodePage) (key : Bytes) (value : NodeValue) :
    Option (HBtreePrivate × NodePage) :=
  let r : Option (HBtreePrivate × NodeValue × Bool) :=
    if page.info.type = PageType.Leaf && willCauseOverflow s.spec_ key value.data then
      match putDataOnOverflow env s value.data with
      | some (s1, head) => some (s1, { flags := NodeHeader_Overflow, overflowPage := head }, true)
      | none => none
    else if page.info.type = PageType.Branch then
      some (s, { overflowPage := value.overflowPage }, false)
    else if value.isOverflow then
      some (s, { flags := value.flags, overflowPage := value.overflowPage }, true)
    else some (s, { data := value.data }, false)
  match r with
  | none => none
  | some (s1, valueCopy, setFlag) =>
    let lowerOffset := u16 (page.info.lowerOffset + 2)
    let upperOffset := u16 (page.info.upperOffset + env.sizes.nodeHeader + key.length
      + valueCopy.data.length)
    let flags := if setFlag then (if page.meta.flags % 2 = 1 then page.meta.flags else page.meta.flags + 1)
                 else page.meta.flags
    some (s1, { page with
      nodes := OrderedList.insert env key valueCopy page.nodes,
      meta := { page.meta with flags := flags },
      info := { page.info with lowerOffset := lowerOffset, upperOffset := upperOffset } })

/-- The function `insertNode` through a pointer into the cache. -/
def insertNodeAt (env : Env) (s : HBtreePrivate) (pgno : Nat) (key : Bytes) (value : NodeValue) :
    Option HBtreePrivate :=
  match findNode s pgno with
  | none => none
  | some page =>
    match insertNode env s page key value with
    | none => none
    | some (s1, page1) => some (setNode s1 pgno page1)

/-- The function `removeNode` through a pointer into the cache; the Boolean
is its return value. -/
def removeNode (env : Env) (s : HBtreePrivate) (pgno : Nat) (key : Bytes) (isTransfer : Bool) :
    Option (HBtreePrivate × Bool) :=
  match findNode s pgno with
  | none => none
  | some page =>
    if !OrderedList.contains env key page.nodes then some (s, true)
    else
      let value := OrderedList.value env key page.nodes {}
      let r : Option (HBtreePrivate × Bool) :=
        if value.isOverflow && !isTransfer then
          match getOverflowPageNumbers s value.overflowPage with
          | none => none
          | some (s1, false, _) => some (s1, false)
          | some (s1, true, pages) =>
            some ({ s1 with residueHistory_ := setUnite s1.residueHistory_ pages }, true)
        else some (s, true)
      match r with
      | none => none
      | some (s1, false) => some (s1, false)
      | some (s1, true) =>
        match findNode s1 pgno with
        | none => none
        | some page1 =>
          let lowerOffset := u16 ((page1.info.lowerOffset : Int) - 2)
          let upperOffset := u16 ((page1.info.upperOffset : Int)
            - (env.sizes.nodeHeader + key.length + value.data.length))
          some (setNode s1 pgno { page1 with
            nodes := OrderedList.remove env key page1.nodes,
            info := { page1.info with lowerOffset := lowerOffset, upperOffset := upperOffset } }, true)

/-! ## Search -/

/-- The enum `SearchType`. -/
inductive SearchType where
  | SearchKey
  | SearchLast
  | SearchFirst
  deriving DecidableEq, Repr

/-- The loop of `getRightSibling` that descends `idx` levels along first
children. -/
def descendFirst : Nat → HBtreePrivate → Nat → Option (HBtreePrivate × Nat)
  | 0, s, pageNumber => some (s, pageNumber)
  | idx + 1, s, pageNumber =>
    match getNodePage s pageNumber with
    | (s1, some page) =>
      match page.nodes.head? with
      | some (_, v) => descendFirst idx s1 v.overflowPage
      | none => none
    | (_, none) => none

/-- The loop of `getLeftSibling` that descends `idx` levels along last
children. -/
def descendLast : Nat → HBtreePrivate → Nat → Option (HBtreePrivate × Nat)
  | 0, s, pageNumber => some (s, pageNumber)
  | idx + 1, s, pageNumber =>
    match getNodePage s pageNumber with
    | (s1, some page) =>
      match page.nodes.getLast? with
      | some (_, v) => descendLast idx s1 v.overflowPage
      | none => none
    | (_, none) => none

/-- The function `getRightSibling`; the head of the list is the top of the
stack. -/
def getRightSibling (s : HBtreePrivate) (rightQ : List Nat) : Option (HBtreePrivate × Nat) :=
  let q := rightQ.dropWhile (fun n => n == INVALID_PAGE)
  let idx := rightQ.length - q.length
  match q with
  | [] => some (s, INVALID_PAGE)
  | top :: _ => descendFirst idx s top

/-- The function `getLeftSibling`. -/
def getLeftSibling (s : HBtreePrivate) (leftQ : List Nat) : Option (HBtreePrivate × Nat) :=
  let q := leftQ.dropWhile (fun n => n == INVALID_PAGE)
  let idx := leftQ.length - q.length
  match q with
  | [] => some (s, INVALID_PAGE)
  | top :: _ => descendLast idx s top

/-- The index of the branch entry that `searchPageRoot` follows; `none` when
the iterator would leave the list. -/
def branchIndex (env : Env) (searchType : SearchType) (key : Bytes) (nodes : Nodes) : Option Nat :=
  match searchType with
  | SearchType.SearchLast => if nodes.length = 0 then none else some (nodes.length - 1)
  | SearchType.SearchFirst => if nodes.length = 0 then none else some 0
  | SearchType.SearchKey =>
    let ub := OrderedList.upperBound env key nodes
    if ub = 0 then none else some (ub - 1)

/-- The descent loop of `searchPageRoot` from the cached page `child`. -/
def searchPageLoop (env : Env) (cursor : Bool) (key : Bytes) (searchType : SearchType)
    (modify : Bool) :
    Nat → HBtreePrivate → Nat → List Nat → List Nat → Option (HBtreePrivate × Nat × List Nat × List Nat)
  | 0, _, _, _, _ => none
  | fuel + 1, s, child, leftQ, rightQ =>
    match findNode s child with
    | none => none
    | some cp =>
      if cp.info.type != PageType.Branch then some (s, child, leftQ, rightQ)
      else
        match branchIndex env searchType key cp.nodes with
        | none => none
        | some i =>
          match cp.nodes.get? i with
          | none => none
          | some (pkey, pval) =>
            let leftQ1 :=
              if cursor then
                (if i = 0 then INVALID_PAGE
                 else match cp.nodes.get? (i - 1) with
                      | some (_, v) => v.overflowPage
                      | none => INVALID_PAGE) :: leftQ
              else leftQ
            let rightQ1 :=
              if cursor then
                (match cp.nodes.get? (i + 1) with
                 | some (_, v) => v.overflowPage
                 | none => INVALID_PAGE) :: rightQ
              else rightQ
            match getNodePage s pval.overflowPage with
            | (_, none) => none
            | (s1, some c) =>
              let c1 : NodePage :=
                if c.info.type = PageType.Branch then
                  { c with leftPageNumber := INVALID_PAGE, rightPageNumber := INVALID_PAGE }
                else c
              let c2 : NodePage := { c1 with parent := some child, parentKey := pkey }
              let s2 := setNode s1 pval.overflowPage c2
              if modify then
                match touchNodePage env s2 pval.overflowPage with
                | none => none
                | some (s3, tn) => searchPageLoop env cursor key searchType modify fuel s3 tn leftQ1 rightQ1
              else searchPageLoop env cursor key searchType modify fuel s2 pval.overflowPage leftQ1 rightQ1

/-- The function `searchPageRoot`; `root = none` is the null pointer. The
result is the number of the leaf found (`none` when the function returns
`false`). -/
def searchPageRoot (env : Env) (s : HBtreePrivate) (cursor : Bool) (root : Option Nat)
    (key : Bytes) (searchType : SearchType) (modify : Bool) : Option (HBtreePrivate × Option Nat) :=
  match root with
  | none => some (s, none)
  | some r =>
    match searchPageLoop env cursor key searchType modify (s.lastPage_ + 1)
        s r [] [] with
    | none => none
    | some (s1, leaf, leftQ, rightQ) =>
      if cursor then
        match getRightSibling s1 rightQ with
        | none => none
        | some (s2, right) =>
          match getLeftSibling s2 leftQ with
          | none => none
          | some (s3, left) =>
            match findNode s3 leaf with
            | none => none
            | some lp =>
              some (setNode s3 leaf { lp with rightPageNumber := right, leftPageNumber := left },
                some leaf)
      else some (s1, some leaf)

/-- The root field of the transaction object `t`. -/
def transactionRoot (s : HBtreePrivate) (t : Nat) : Option Nat :=
  match mapFind t s.transactions with
  | some txn => some txn.rootPage_
  | none => none

/-- Assignment to `transaction->rootPage_`. -/
def setTransactionRoot (s : HBtreePrivate) (t : Nat) (root : Nat) : HBtreePrivate :=
  match mapFind t s.transactions with
  | some txn => { s with transactions := mapInsert t { txn with rootPage_ := root } s.transactions }
  | none => s

/-- The function `searchPage`; `transaction = none` is the null pointer, for
which the search starts at the root of the current marker. -/
def searchPage (env : Env) (s : HBtreePrivate) (cursor : Bool) (transaction : Option Nat)
    (key : Bytes) (searchType : SearchType) (modify : Bool) : Option (HBtreePrivate × Option Nat) :=
  let rootOpt : Option Nat :=
    match transaction with
    | none => some s.marker_.meta.root
    | some t => transactionRoot s t
  match rootOpt with
  | none => none
  | some root =>
    if root = INVALID_PAGE then some (s, none)
    else
      match getNodePage s root with
      | (s1, none) => searchPageRoot env s1 cursor none key searchType modify
      | (s1, some _) =>
        if modify then
          match transaction with
          | none => none
          | some t =>
            match touchNodePage env s1 root with
            | none => none
            | some (s2, tn) =>
              searchPageRoot env (setTransactionRoot s2 t tn) cursor (some tn) key searchType modify
        else searchPageRoot env s1 cursor (some root) key searchType modify

/-! ## Split -/

/-- The loop of `split` that finds the split index of a leaf: entries are
counted while the running sum `current` of their space stays below
`threshold`. -/
def splitIndexLeaf (env : Env) (spec : Spec) (threshold : Nat) : Nodes → Nat → Nat
  | [], _ => 0
  | (k, v) :: t, current =>
    if current < threshold then
      splitIndexLeaf env spec threshold t (u16 (current + spaceNeededForNode env spec k v.data)) + 1
    else 0

/-- The part of `split` that computes `splitIndex` from the copy of the page
with the new entry and from the emptied left page: above the middle for a
branch page; for a leaf the number of entries counted by the loop with the
threshold `capacity(left) / 2 - overflowThreshold / 2`, both of type
`quint16`. No index for another type of page. -/
def splitIndex (env : Env) (spec : Spec) (copy left : NodePage) : Option Nat :=
  if copy.info.type = PageType.Branch then some (copy.nodes.length / 2 + 1)
  else if copy.info.type = PageType.Leaf then
    let threshold := u16 ((u16 (left.capacity env spec / 2) : Int)
      - (spec.overflowThreshold / 2 : Nat))
    some (splitIndexLeaf env spec threshold copy.nodes 0)
  else none

/-- The loop of `split` that hands the entries of the copy to the left page
(index below `splitIndex`) or to the right page. -/
def splitDistribute (env : Env) (left right splitIndex : Nat) :
    Nodes → Nat → HBtreePrivate → Option HBtreePrivate
  | [], _, s => some s
  | (k, v) :: t, index, s =>
    match insertNodeAt env s (if index < splitIndex then left else right) k v with
    | none => none
    | some s1 => splitDistribute env left right splitIndex t (index + 1) s1

/-- The first part of `split`: a page without parent gets a new branch page
as parent, which becomes the root of the write transaction. -/
def splitMakeParent (env : Env) (s : HBtreePrivate) (pgno : Nat) : Option HBtreePrivate :=
  match findNode s pgno with
  | none => none
  | some left =>
    match left.parent with
    | some _ => some s
    | none =>
      match newPage s PageType.Branch with
      | none => none
      | some (s1, pn) =>
        match findNode s1 pgno, s1.writeTransaction_ with
        | some left1, some wt =>
          let s2 := setNode s1 pgno { left1 with parent := some pn, parentKey := [] }
          let s3 := setTransactionRoot s2 wt pn
          match insertNodeAt env s3 pn [] { overflowPage := left1.info.number } with
          | none => none
          | some s4 => some { s4 with stats_ := { s4.stats_ with depth := s4.stats_.depth + 1 } }
        | _, _ => none

/-- The function `split`: returns its Boolean result and the number of the
new right page. -/
def split (env : Env) :
    Nat → HBtreePrivate → Nat → Bytes → NodeValue → Option (HBtreePrivate × Bool × Nat)
  | 0, _, _, _, _ => none
  | fuel + 1, s, pgno, key, value =>
    match splitMakeParent env s pgno with
    | none => none
    | some s1 =>
      match findNode s1 pgno with
      | none => none
      | some left1 =>
        match newPage s1 left1.info.type with
        | none => none
        | some (s2, rn) =>
          match findNode s2 pgno with
          | none => none
          | some copy0 =>
            let s3 := setNode s2 pgno
              { copy0 with nodes := [], info := { copy0.info with lowerOffset := 0, upperOffset := 0 } }
            match insertNode env s3 copy0 key value with
            | none => none
            | some (s4, copy) =>
              match findNode s4 pgno with
              | none => none
              | some left =>
                match splitIndex env s4.spec_ copy left with
                | none => some (s4, false, rn)
                | some splitIndex =>
                  match copy.nodes.get? splitIndex, left.parent, findNode s4 rn with
                  | some (splitKey, _), some par, some right =>
                    let splitValue : NodeValue := { overflowPage := right.info.number }
                    let s5 := setNode s4 rn { right with parent := some par }
                    match findNode s5 par with
                    | none => none
                    | some parentPage =>
                      let s6 : Option (HBtreePrivate × Bool) :=
                        if spaceNeededForNode env s5.spec_ splitKey splitValue.data
                            ≥ parentPage.spaceLeft env s5.spec_ then
                          match split env fuel s5 par splitKey splitValue with
                          | none => none
                          | some (sa, ok, _) => some (sa, ok)
                        else
                          match findNode s5 rn with
                          | none => none
                          | some right1 =>
                            match insertNodeAt env (setNode s5 rn { right1 with parentKey := splitKey })
                                par splitKey splitValue with
                            | none => none
                            | some sa => some (sa, true)
                      match s6 with
                      | none => none
                      | some (s7, false) => some (s7, false, rn)
                      | some (s7, true) =>
                        match splitDistribute env pgno rn splitIndex copy.nodes 0 s7 with
                        | none => none
                        | some s8 =>
                          match findNode s8 pgno, findNode s8 rn with
                          | some l8, some r8 =>
                            if l8.info.type = PageType.Leaf then
                              let s9 := if l8.rightPageNumber != INVALID_PAGE
                                        then setLeftOf s8 l8.rightPageNumber r8.info.number else s8
                              match findNode s9 pgno, findNode s9 rn with
                              | some l9, some r9 =>
                                let s10 := setNode s9 pgno { l9 with rightPageNumber := r9.info.number }
                                match findNode s10 rn with
                                | some r10 =>
                                  some (setNode s10 rn { r10 with leftPageNumber := l9.info.number },
                                    true, rn)
                                | none => none
                              | _, _ => none
                            else some (s8, true, rn)
                          | _, _ => none
                  | _, _, _ => none

/-! ## Rebalance -/

/-- The part of `moveNode` that rewrites the parent entry of `pgno` with the
lowest key reachable from it. -/
def updateParentKey (env : Env) (s : HBtreePrivate) (pgno : Nat) : Option HBtreePrivate :=
  match searchPageRoot env s false (some pgno) [] SearchType.SearchFirst false with
  | some (s1, some lowest) =>
    match findNode s1 pgno, findNode s1 lowest with
    | some page, some low =>
      match page.parent, low.nodes.head? with
      | some par, some (lowKey, _) =>
        match removeNode env s1 par page.parentKey false with
        | none => none
        | some (s2, _) =>
          match findNode s2 pgno with
          | none => none
          | some page2 =>
            let s3 := setNode s2 pgno { page2 with parentKey := lowKey }
            insertNodeAt env s3 par lowKey { overflowPage := page2.info.number }
      | _, _ => none
    | _, _ => none
  | _ => none

/-- The function `moveNode`: the entry `(nkey, nval)` of `src` moves to
`dst`. -/
def moveNode (env : Env) (s : HBtreePrivate) (src dst : Nat) (nkey : Bytes) (nval : NodeValue) :
    Option (HBtreePrivate × Bool) :=
  match touchNodePage env s src with
  | none => none
  | some (s1, src1) =>
    match touchNodePage env s1 dst with
    | none => none
    | some (s2, dst1) =>
      match findNode s2 src1, findNode s2 dst1 with
      | some sp, some dp =>
        let decending := NodeKey.lt env dp.parentKey sp.parentKey
        match insertNodeAt env s2 dst1 nkey nval with
        | none => none
        | some s3 =>
          let s4 : Option HBtreePrivate :=
            if NodeKey.lt env nkey dp.parentKey then updateParentKey env s3 dst1 else some s3
          match s4 with
          | none => none
          | some s4 =>
            match removeNode env s4 src1 nkey true with
            | none => none
            | some (s5, _) =>
              match findNode s5 src1 with
              | none => none
              | some sp5 =>
                if NodeKey.le env sp5.parentKey nkey && decending then
                  match updateParentKey env s5 src1 with
                  | none => none
                  | some s6 => some (s6, true)
                else some (s5, true)
      | _, _ => none

/-- The loop of `mergePages` that inserts the entries of the merged page into
`dst`. -/
def mergeInsert (env : Env) (dst : Nat) : Nodes → HBtreePrivate → Option HBtreePrivate
  | [], s => some s
  | (k, v) :: t, s =>
    match insertNodeAt env s dst k v with
    | none => none
    | some s1 => mergeInsert env dst t s1

/-- The part of `mergePages` before the recursive call: `page` is merged
into `dst`; returns the state and the page that stands for `dst`. -/
def mergePagesStep (env : Env) (s : HBtreePrivate) (pgno dst0 : Nat) : Option (HBtreePrivate × Nat) :=
  match touchNodePage env s dst0 with
  | none => none
  | some (s1, dst) =>
    match findNode s1 pgno with
    | none => none
    | some page =>
      match mergeInsert env dst page.nodes s1 with
      | none => none
      | some s2 =>
        match findNode s2 pgno, findNode s2 dst with
        | some pg, some dp =>
          match dp.parent, pg.parent with
          | some dpar, some ppar =>
            let s3 : Option HBtreePrivate :=
              if NodeKey.lt env dp.parentKey pg.parentKey then
                match removeNode env s2 dpar pg.parentKey false with
                | none => none
                | some (sa, _) =>
                  if pg.rightPageNumber != INVALID_PAGE then
                    match findNode sa pg.rightPageNumber, findNode sa dst with
                    | some right, some d =>
                      let sb := setNode sa pg.rightPageNumber { right with leftPageNumber := d.info.number }
                      some (setRightOf sb dst right.info.number)
                    | _, _ => some sa
                  else some sa
              else
                match removeNode env s2 dpar dp.parentKey true with
                | none => none
                | some (sa, _) =>
                  match removeNode env sa ppar pg.parentKey false with
                  | none => none
                  | some (sb, _) =>
                    match findNode sb dst with
                    | none => none
                    | some d =>
                      match insertNodeAt env sb dpar pg.parentKey { overflowPage := d.info.number } with
                      | none => none
                      | some sc =>
                        match findNode sc dst with
                        | none => none
                        | some d1 =>
                          let sd := setNode sc dst { d1 with parentKey := pg.parentKey }
                          if pg.leftPageNumber != INVALID_PAGE then
                            match findNode sd pg.leftPageNumber with
                            | some left =>
                              let se := setNode sd pg.leftPageNumber { left with rightPageNumber := d1.info.number }
                              some (setLeftOf se dst left.info.number)
                            | none => some sd
                          else some sd
            match s3 with
            | none => none
            | some s3 =>
              match findNode s3 pgno, findNode s3 dst with
              | some pg3, some d3 =>
                let s4 :=
                  if pg3.meta.flags % 2 = 1 then
                    setNode s3 dst { d3 with meta := { d3.meta with
                      flags := if d3.meta.flags % 2 = 1 then d3.meta.flags else d3.meta.flags + 1 } }
                  else s3
                match removeFromTree s4 pgno with
                | none => none
                | some s5 => some (s5, dst)
              | _, _ => none
          | _, _ => none
        | _, _ => none

/-- The part of `rebalance` for a page without parent (the root). -/
def rebalanceRoot (s : HBtreePrivate) (pgno : Nat) (page : NodePage) : Option (HBtreePrivate × Bool) :=
  match s.writeTransaction_ with
  | none => none
  | some wt =>
    if page.nodes.length = 0 then
      match removeFromTree (setTransactionRoot s wt INVALID_PAGE) pgno with
      | none => none
      | some s1 => some (s1, true)
    else if page.info.type = PageType.Branch && page.nodes.length = 1 then
      match page.nodes.head? with
      | none => none
      | some (_, v) =>
        match getNodePage s v.overflowPage with
        | (_, none) => none
        | (s1, some root) =>
          let s2 := setNode s1 v.overflowPage { root with parent := none }
          let s3 := setTransactionRoot s2 wt v.overflowPage
          let s4 := { s3 with stats_ := { s3.stats_ with depth := s3.stats_.depth - 1 } }
          match removeFromTree s4 pgno with
          | none => none
          | some s5 => some (s5, true)
    else some (s, true)

/-- The test of `rebalance` whether the parent keys can be rewritten when
the entry with key `sourceKey` at index `sourceIdx` of the neighbour moves
to index `destIdx` of the page. -/
def canUpdate (env : Env) (spec : Spec) (parent page neighbour : NodePage)
    (pageIdx neighbourIdx sourceIdx destIdx : Nat) (sourceKey : Bytes) : Bool :=
  let c1 :=
    if neighbourIdx != 0 && sourceIdx == 0 then
      if sourceKey.length > neighbour.parentKey.length then
        !decide (u16 ((sourceKey.length : Int) - neighbour.parentKey.length) > parent.spaceLeft env spec)
      else true
    else true
  if c1 && destIdx == 0 && pageIdx != 0 then
    if sourceKey.length > page.parentKey.length then
      !decide (u16 ((sourceKey.length : Int) - page.parentKey.length) > parent.spaceLeft env spec)
    else true
  else c1

/-- The function `rebalance`, with `mergePages` unfolded at its two call
sites (its tail call comes back to `rebalance` on the parent). -/
def rebalance (env : Env) : Nat → HBtreePrivate → Nat → Option (HBtreePrivate × Bool)
  | 0, _, _ => none
  | fuel + 1, s, pgno =>
    match findNode s pgno with
    | none => none
    | some page =>
      if pageFullEnough env s.spec_ page then some (s, true)
      else
        match page.parent with
        | none => rebalanceRoot s pgno page
        | some par =>
          match findNode s par with
          | none => none
          | some parent =>
            let pageIdx := OrderedList.find env page.parentKey parent.nodes
            let neighbourIdxOpt : Option Nat := some (if pageIdx = 0 then 1 else pageIdx - 1)
            match neighbourIdxOpt with
            | none => none
            | some neighbourIdx =>
              match parent.nodes.get? neighbourIdx with
              | none => none
              | some (nbKey, nbVal) =>
                match getNodePage s nbVal.overflowPage with
                | (_, none) => none
                | (s1, some nb0) =>
                  let nb : NodePage := { nb0 with parent := page.parent, parentKey := nbKey }
                  let s2 := setNode s1 nbVal.overflowPage nb
                  let sourceIdx := if pageIdx = 0 then 0 else nb.nodes.length - 1
                  let destIdx := if pageIdx = 0 then page.nodes.length - 1 else 0
                  match findNode s2 pgno, findNode s2 par with
                  | some page2, some parent2 =>
                    let moveOk : Option (Bytes × NodeValue) :=
                      if pageFullEnough env s2.spec_ nb && decide (nb.nodes.length > 2) then
                        match nb.nodes.get? sourceIdx with
                        | some (sk, sv) => if hasSpaceFor env s2.spec_ page2 sk sv then some (sk, sv) else none
                        | none => none
                      else none
                    match moveOk with
                    | some (sk, sv) =>
                      if canUpdate env s2.spec_ parent2 page2 nb pageIdx neighbourIdx sourceIdx destIdx sk then
                        moveNode env s2 nbVal.overflowPage pgno sk sv
                      else some (s2, true)
                    | none =>
                      if (page2.spaceLeft env s2.spec_ : Nat)
                          ≥ spaceUsed nb.info + env.sizes.historyNode * (nb.history.length + 1) then
                        match mergePagesStep env s2 nbVal.overflowPage pgno with
                        | none => none
                        | some (s3, dst) =>
                          match findNode s3 dst with
                          | some d =>
                            match d.parent with
                            | some dpar => rebalance env fuel s3 dpar
                            | none => none
                          | none => none
                      else if (nb.spaceLeft env s2.spec_ : Nat)
                          ≥ spaceUsed page2.info + env.sizes.historyNode * (page2.history.length + 1) then
                        match mergePagesStep env s2 pgno nbVal.overflowPage with
                        | none => none
                        | some (s3, dst) =>
                          match findNode s3 dst with
                          | some d =>
                            match d.parent with
                            | some dpar => rebalance env fuel s3 dpar
                            | none => none
                          | none => none
                      else some (s2, true)
                  | _, _ => none

/-! ## Transactions, put, get and del -/

/-- The function `beginTransaction`: the new transaction object, or `none`
(the null pointer) when the request is refused. -/
def beginTransaction (s : HBtreePrivate) (type : TransactionType) : HBtreePrivate × Option Nat :=
  if type = TransactionType.ReadWrite && s.writeTransaction_.isSome then (s, none)
  else if type = TransactionType.ReadWrite && s.openMode_ = OpenMode.ReadOnly then (s, none)
  else if type = TransactionType.ReadWrite && s.lockHeld then (s, none)
  else
    let t := s.nextTransaction
    let txn : HBtreeTransaction :=
      { type := type, rootPage_ := s.marker_.meta.root, tag_ := s.marker_.meta.tag,
        revision_ := s.marker_.meta.revision }
    ({ s with transactions := mapInsert t txn s.transactions,
              nextTransaction := t + 1,
              writeTransaction_ := if type = TransactionType.ReadWrite then some t
                                   else s.writeTransaction_ }, some t)

/-- The function `abort`. -/
def abort (s : HBtreePrivate) (transaction : Nat) : Option HBtreePrivate :=
  match mapFind transaction s.transactions with
  | none => none
  | some txn =>
    let s1 := s.dirtyPages_.foldl (fun acc n => cacheDelete acc n) s
    let s2 := { s1 with dirtyPages_ := [] }
    let s3 := if txn.type = TransactionType.ReadWrite then { s2 with writeTransaction_ := none } else s2
    some (cachePrune { s3 with transactions := mapRemove transaction s3.transactions })

/-- The image that `serializePage` produces for a cached page. The file of
this embedding holds one page object for each block: the object stands for
the bytes that `serializeNodePage` and `serializeOverflowPage` write, which
`deserializeNodePage` and `deserializeOverflowPage` read back as the same
page when the header, the history and the entries are within the buffer of
`pageSize` bytes (the byte-level functions are embedded further down). The
source has no bound check: for a page beyond the capacity it writes outside
the buffer, and the page object stored here has no counterpart in the
program, so what is stated of `commit`, `readPage` and `open` through this
function describes the program on pages within capacity only. -/
def serializePage : Page → DiskPage
  | Page.node p => DiskPage.node p
  | Page.overflow p => DiskPage.overflow p

/-- The loop of `commit` over `dirtyPages_`: every dirty page is written and
marked clean; overflow pages leave the cache. `false` when a write fails. -/
def commitLoop : List Nat → HBtreePrivate → Option (HBtreePrivate × Bool)
  | [], s => some (s, true)
  | n :: rest, s =>
    match cacheFind s n with
    | none => none
    | some page =>
      match writePage s page.info.number (serializePage page) with
      | (s1, false) => some (s1, false)
      | (s1, true) =>
        let s2 :=
          match page with
          | Page.node p => setNode s1 n { p with dirty := false }
          | Page.overflow p => cacheDelete (setOverflow s1 n { p with dirty := false }) p.info.number
        commitLoop rest { s2 with dirtyPages_ := s2.dirtyPages_.erase n }

/-- The function `commit`. -/
def commit (s : HBtreePrivate) (transaction : Nat) (tag : Nat) : Option (HBtreePrivate × Bool) :=
  match commitLoop s.dirtyPages_ s with
  | none => none
  | some (s1, false) => some (s1, false)
  | some (s1, true) =>
    match mapFind transaction s1.transactions with
    | none => none
    | some txn =>
      let s2 := { s1 with size_ := s1.filePages * s1.spec_.pageSize, dirtyPages_ := [] }
      let mp : MarkerPage :=
        { s2.marker_ with
          meta := { s2.marker_.meta with
            revision := s2.marker_.meta.revision + 1,
            syncId := s2.lastSyncedId_ + 1,
            root := txn.rootPage_,
            tag := tag,
            size := 0 },
          residueHistory := s2.residueHistory_,
          info := { s2.marker_.info with upperOffset := u16 (s2.residueHistory_.length * 4) } }
      match abort { s2 with marker_ := mp } transaction with
      | none => none
      | some s3 => some ({ s3 with stats_ := { s3.stats_ with numCommits := s3.stats_.numCommits + 1 } }, true)

/-- The part of `put` after its two checks: the leaf for the key is found and
made dirty (a new root leaf when the tree is empty), an entry with the same
key is removed, and the entry is inserted, with a split when the leaf lacks
the space. -/
def putInsert (env : Env) (s : HBtreePrivate) (transaction : Nat) (txn : HBtreeTransaction)
    (keyData valueData : Bytes) : Option (HBtreePrivate × Bool) :=
  let nval : NodeValue := { data := valueData }
  let found : Option (HBtreePrivate × Option Nat) :=
    if txn.rootPage_ = INVALID_PAGE then
      match newPage s PageType.Leaf with
      | none => none
      | some (s1, n) => some (setTransactionRoot s1 transaction n, some n)
    else
      match searchPage env s false (some transaction) keyData SearchType.SearchKey true with
      | none => none
      | some (_, none) => none
      | some (s1, some pg) =>
        match findNode s1 pg with
        | none => none
        | some page =>
          if OrderedList.contains env keyData page.nodes then
            match removeNode env s1 pg keyData false with
            | none => none
            | some (s2, false) => some (s2, none)
            | some (s2, true) =>
              some ({ s2 with stats_ := { s2.stats_ with numEntries := s2.stats_.numEntries - 1 } },
                some pg)
          else some (s1, some pg)
  match found with
  | none => none
  | some (s1, none) => some (s1, false)
  | some (s1, some pg) =>
    match findNode s1 pg with
    | none => none
    | some page =>
      let r : Option (HBtreePrivate × Bool) :=
        if spaceNeededForNode env s1.spec_ keyData valueData ≤ page.spaceLeft env s1.spec_ then
          match insertNodeAt env s1 pg keyData nval with
          | none => none
          | some s2 => some (s2, true)
        else
          match split env (s1.lastPage_ + 1) s1 pg keyData nval with
          | none => none
          | some (s2, ok, _) => some (s2, ok)
      match r with
      | none => none
      | some (s2, ok) =>
        some (cachePrune { s2 with stats_ := { s2.stats_ with numEntries := s2.stats_.numEntries + 1 } },
          ok)

/-- The function `put`. -/
def put (env : Env) (s : HBtreePrivate) (transaction : Nat) (keyData valueData : Bytes) :
    Option (HBtreePrivate × Bool) :=
  match mapFind transaction s.transactions with
  | none => none
  | some txn =>
    if txn.type = TransactionType.ReadOnly then some (s, false)
    else if keyData.length > s.spec_.overflowThreshold then some (s, false)
    else putInsert env s transaction txn keyData valueData

/-- The function `get`: the value stored under `keyData`, the empty array
when there is none; `transaction = none` reads from the current marker. -/
def get (env : Env) (s : HBtreePrivate) (transaction : Option Nat) (keyData : Bytes) :
    Option (HBtreePrivate × Bytes) :=
  match searchPage env s false transaction keyData SearchType.SearchKey false with
  | none => none
  | some (s1, none) => some (s1, [])
  | some (s1, some pg) =>
    match findNode s1 pg with
    | none => none
    | some page =>
      match getDataFromNode s1 (OrderedList.value env keyData page.nodes {}) with
      | none => none
      | some (s2, ret) => some (cachePrune s2, ret)

/-- The part of `del` after its check of the transaction type: the entry is
searched for and removed, and the leaf is rebalanced. -/
def delRemove (env : Env) (s : HBtreePrivate) (transaction : Nat) (keyData : Bytes) :
    Option (HBtreePrivate × Bool) :=
  let removed : Option (HBtreePrivate × Bool × Option Nat) :=
    match searchPage env s false (some transaction) keyData SearchType.SearchKey true with
    | none => none
    | some (s1, none) => some (s1, false, none)
    | some (s1, some pg) =>
      match findNode s1 pg with
      | none => none
      | some page =>
        if OrderedList.contains env keyData page.nodes then
          match removeNode env s1 pg keyData false with
          | none => none
          | some (s2, ok) => some (s2, ok, some pg)
        else some (s1, false, some pg)
  match removed with
  | none => none
  | some (s1, ok, page) =>
    let r : Option (HBtreePrivate × Bool) :=
      if ok then
        match page with
        | none => none
        | some pg => rebalance env (s1.lastPage_ + 1) s1 pg
      else some (s1, true)
    match r with
    | none => none
    | some (s2, false) => some (s2, false)
    | some (s2, true) =>
      some (cachePrune { s2 with stats_ := { s2.stats_ with numEntries := s2.stats_.numEntries - 1 } },
        ok)

/-- The function `del`. -/
def del (env : Env) (s : HBtreePrivate) (transaction : Nat) (keyData : Bytes) :
    Option (HBtreePrivate × Bool) :=
  match mapFind transaction s.transactions with
  | none => none
  | some txn =>
    if txn.type = TransactionType.ReadOnly then some (s, false)
    else delRemove env s transaction keyData

/-! ## Markers, sync and open -/

/-- Modelled from the spec: `PageInfo::hasPayload` (declared in the missing
header), true when one of the two offsets is set. -/
def PageInfo.hasPayload (info : PageInfo) : Bool := info.lowerOffset > 0 || info.upperOffset > 0

/-- The four bytes that `memcpy` writes for a `quint32` (little endian). -/
def bytesOfU32 (n : Nat) : Bytes := [n % 256, n / 256 % 256, n / 65536 % 256, n / 16777216 % 256]

/-- The loop of `writeMarker` that writes the dirty (overflow) pages of the
residue list. -/
def writeDirtyLoop : List Nat → HBtreePrivate → Option (HBtreePrivate × Bool)
  | [], s => some (s, true)
  | n :: rest, s =>
    match cacheFind s n with
    | none => none
    | some page =>
      match writePage s page.info.number (serializePage page) with
      | (s1, false) => some (s1, false)
      | (s1, true) => writeDirtyLoop rest s1

/-- The function `writeMarker`: returns the marker object as the function
leaves it and the Boolean result. The image written holds the page
information, the meta data and the residue list that the function
serialises. -/
def writeMarker (env : Env) (s : HBtreePrivate) (page : MarkerPage) :
    Option (HBtreePrivate × MarkerPage × Bool) :=
  let mp1 : MarkerPage :=
    { page with info := { page.info with lowerOffset := 0,
                                         upperOffset := u16 (page.residueHistory.length * 4) } }
  let mp2 : MarkerPage := if mp1.info.number != 1 then { mp1 with residueHistory := [] } else mp1
  let useOverflow := decide (mp2.info.upperOffset > capacity env s.spec_ mp2.info 0)
  let mp3 : MarkerPage :=
    if useOverflow then
      { mp2 with meta := { mp2.meta with
          flags := if mp2.meta.flags % 2 = 1 then mp2.meta.flags else mp2.meta.flags + 1 } }
    else mp2
  let r : Option (HBtreePrivate × MarkerPage × Bool) :=
    if mp3.info.hasPayload && useOverflow then
      let extra : Bytes :=
        if mp3.info.number = 1 then
          ((mp3.residueHistory.map bytesOfU32).flatten ++ List.replicate mp3.info.upperOffset 0).take
            mp3.info.upperOffset
        else []
      let head : Option (HBtreePrivate × Nat) :=
        if mp3.info.number = 1 then putDataOnOverflow env s extra else some (s, mp3.overflowPage)
      match head with
      | none => none
      | some (s1, h) =>
        match writeDirtyLoop s1.dirtyPages_ s1 with
        | none => none
        | some (s2, false) => some (s2, mp3, false)
        | some (s2, true) => some ({ s2 with dirtyPages_ := [] }, { mp3 with overflowPage := h }, true)
    else some (s, mp3, true)
  match r with
  | none => none
  | some (s1, mp4, false) => some (s1, mp4, false)
  | some (s1, mp4, true) =>
    let (s2, mp5) :=
      if mp4.meta.size = 0 then
        ({ s1 with size_ := s1.filePages * s1.spec_.pageSize },
          { mp4 with meta := { mp4.meta with size := s1.filePages * s1.spec_.pageSize } })
      else (s1, mp4)
    match writePage s2 mp5.info.number (DiskPage.marker mp5) with
    | (s3, ok) => some (s3, mp5, ok)

/-- The function `copy` for marker pages: everything but the page number. -/
def copyMarker (src dst : MarkerPage) : MarkerPage :=
  { src with info := { src.info with number := dst.info.number } }

/-- The function `sync`. -/
def sync (env : Env) (s : HBtreePrivate) : Option (HBtreePrivate × Bool) :=
  if s.openMode_ = OpenMode.ReadOnly then some (s, true)
  else if s.marker_.meta.syncId = s.lastSyncedId_ then some (s, true)
  else
    let synced0 := copyMarker s.marker_ { info := { type := PageType.Marker, number := 1 } }
    match writeMarker env s synced0 with
    | none => none
    | some (s1, _, false) => some (s1, false)
    | some (s1, synced0w, true) =>
      let s2 : Option (HBtreePrivate × Bool) :=
        if s1.synced_.meta.flags % 2 = 1 then
          match getOverflowPageNumbers s1 s1.synced_.overflowPage with
          | none => none
          | some (sa, false, _) => some (sa, false)
          | some (sa, true, pages) =>
            some ({ sa with collectiblePages_ := setUnite sa.collectiblePages_ pages }, true)
        else some (s1, true)
      match s2 with
      | none => none
      | some (s3, false) => some (s3, false)
      | some (s3, true) =>
        let info1 : PageInfo := { s3.marker_.info with upperOffset := 0 }
        let marker1 : MarkerPage := { s3.marker_ with residueHistory := [], info := info1 }
        let s4 : HBtreePrivate :=
          { s3 with
            lastSyncedId_ := s3.lastSyncedId_ + 1,
            synced_ := copyMarker synced0w s3.synced_,
            collectiblePages_ := setUnite s3.collectiblePages_ s3.marker_.residueHistory,
            marker_ := marker1,
            residueHistory_ := [],
            stats_ := { s3.stats_ with numSyncs := s3.stats_.numSyncs + 1 } }
        let synced1 := copyMarker synced0w { info := { type := PageType.Marker, number := 2 } }
        match writeMarker env s4 synced1 with
        | none => none
        | some (s5, _, ok) => some (s5, ok)

/-- The function `open` on an empty file (`pread` returns 0): the spec page
and the two sync markers are written. `blockSize` is `st_blksize`. -/
def openNew (env : Env) (blockSize : Nat) (overflowThreshold pageFillThreshold : Nat) :
    Option (HBtreePrivate × Bool) :=
  let spec : Spec :=
    { version := 0xdeadc0de, keySize := 255, pageSize := if blockSize > 4096 then blockSize else 4096,
      overflowThreshold := overflowThreshold, pageFillThreshold := pageFillThreshold }
  let s0 : HBtreePrivate := { spec_ := spec, filePages := 0 }
  match writePage s0 0 (DiskPage.spec spec) with
  | (s1, false) => some ({ s1 with spec_ := {} }, false)
  | (s1, true) =>
    let initSize := spec.pageSize * 3
    let synced0 : MarkerPage := { info := { type := PageType.Marker, number := 1 }, meta := { size := initSize } }
    let synced1 : MarkerPage := { info := { type := PageType.Marker, number := 2 }, meta := { size := initSize } }
    match writeMarker env s1 synced0 with
    | none => none
    | some (s2, _, false) => some (s2, false)
    | some (s2, m0, true) =>
      match writeMarker env s2 synced1 with
      | none => none
      | some (s3, _, false) => some (s3, false)
      | some (s3, _, true) =>
        some ({ s3 with marker_ := m0, synced_ := m0, lastSyncedId_ := 0, size_ := initSize,
                        lastPage_ := initSize / spec.pageSize }, true)

/-- The loop of `readMarker` that reads `count` values of type `quint32`
(little endian) from a buffer; `none` when the buffer is too short. -/
def u32sOfBytes : Nat → Bytes → Option (List Nat)
  | 0, _ => some []
  | count + 1, a :: b :: c :: d :: rest =>
    match u32sOfBytes count rest with
    | some l => some ((a + 256 * b + 65536 * c + 16777216 * d) :: l)
    | none => none
  | _ + 1, _ => none

/-- The residue area of a marker image whose list is stored in the page: the
values that `writeMarker` copies, followed by the zero bytes of the
initialised buffer. -/
def markerPayload (env : Env) (spec : Spec) (img : MarkerPage) : Bytes :=
  ((img.residueHistory.map bytesOfU32).flatten ++
    List.replicate (capacity env spec img.info 0) 0).take (capacity env spec img.info 0)

/-- The function `readMarker`: the page information and the meta data of the
image of page `pgno` are copied to `markerOut` and the values of the residue
area (of the overflow chain when the image has the flag `DataOnOverflow`) are
inserted into its residue set. The result is `false`, with `markerOut`
untouched, when `readPage` gives an empty buffer. An image that has the flag
but no chain of its own is not covered and gives `none`. -/
def readMarker (env : Env) (s : HBtreePrivate) (pgno : Nat) (markerOut : MarkerPage) :
    Option (HBtreePrivate × MarkerPage × Bool) :=
  match mapFind pgno s.file with
  | some (DiskPage.marker img) =>
    if img.info.number != pgno then some (s, markerOut, false)
    else
      let s0 := { s with stats_ := { s.stats_ with reads := s.stats_.reads + 1 } }
      let mp : MarkerPage := { markerOut with info := img.info, meta := img.meta }
      let count := (img.info.upperOffset + 3) / 4
      if mp.meta.flags % 2 = 1 then
        if img.info.upperOffset > capacity env s.spec_ img.info 0 then
          match getOverflowData s0 img.overflowPage with
          | none => none
          | some (s1, _, overflowData) =>
            match u32sOfBytes count overflowData with
            | none => none
            | some l =>
              some (s1, { mp with overflowPage := img.overflowPage,
                                  residueHistory := setUnite mp.residueHistory l }, true)
        else none
      else if mp.info.hasPayload then
        match u32sOfBytes count (markerPayload env s.spec_ img) with
        | none => none
        | some l => some (s0, { mp with residueHistory := setUnite mp.residueHistory l }, true)
      else some (s0, mp, true)
  | some _ => none
  | none => some (s, markerOut, false)

/-- The function `readSyncedMarker`. -/
def readSyncedMarker (env : Env) (s : HBtreePrivate) (markerOut : MarkerPage) :
    Option (HBtreePrivate × MarkerPage × Bool) :=
  match readMarker env s 1 markerOut with
  | none => none
  | some (s1, m, true) => some (s1, m, true)
  | some (s1, m, false) => readMarker env s1 2 m

/-- The function `cacheClear`. -/
def cacheClear (s : HBtreePrivate) : HBtreePrivate := { s with cache_ := [], lru_ := [] }

/-- The function `close` on an open file. -/
def close (env : Env) (s : HBtreePrivate) (doSync : Bool) : Option HBtreePrivate :=
  let r : Option HBtreePrivate :=
    if doSync then
      match sync env s with
      | some (s1, _) => some s1
      | none => none
    else some s
  match r with
  | none => none
  | some s1 =>
    some { (cacheClear s1) with
      dirtyPages_ := [],
      collectiblePages_ := [],
      spec_ := {},
      lastSyncedId_ := 0,
      residueHistory_ := [],
      marker_ := { info := { type := PageType.Marker, number := 0 } },
      synced_ := { info := { type := PageType.Marker, number := 0 } } }

/-- The function `open` on a closed handle whose file has a first page
(`pread` returns the page size): the spec page and a sync marker are read. In
`ReadWrite` mode the file is cut to the size the marker records and the
residue set of the marker becomes collectible. -/
def openExisting (env : Env) (s : HBtreePrivate) : Option (HBtreePrivate × Bool) :=
  let s0 : HBtreePrivate := { s with stats_ := { reads := 1 } }
  match mapFind 0 s0.file with
  | some (DiskPage.spec sp) =>
    if sp.version != 0xdeadc0de then some (s0, false)
    else if sp.pageSize = 0 then none
    else
      let s1 := { s0 with spec_ := sp }
      match readSyncedMarker env s1 s1.marker_ with
      | none => none
      | some (s2, _, false) => some (s2, false)
      | some (s2, m, true) =>
        let s3 := { s2 with marker_ := m, synced_ := m }
        let s4 : HBtreePrivate :=
          if s3.openMode_ = OpenMode.ReadWrite then
            let pages := m.meta.size / sp.pageSize
            let s3a :=
              if pages < s3.filePages then
                { s3 with filePages := pages, file := s3.file.filter (fun e => decide (e.1 < pages)) }
              else s3
            { s3a with
              size_ := m.meta.size,
              lastSyncedId_ := m.meta.syncId,
              collectiblePages_ := setUnite s3a.collectiblePages_ m.residueHistory,
              marker_ := { m with residueHistory := [], info := { m.info with upperOffset := 0 } } }
          else { s3 with size_ := m.meta.size }
        some ({ s4 with lastPage_ := s4.size_ / sp.pageSize }, true)
  | _ => some (s0, false)

/-- A block that can no longer be read back: `readPage` returns an empty
buffer for a block whose checksum does not match, as for a block that was
never written. -/
def corruptPage (s : HBtreePrivate) (pgno : Nat) : HBtreePrivate :=
  { s with file := mapRemove pgno s.file }

/-! ## Cursors -/

/-- The enum `HBtreeCursor::Op`. -/
inductive CursorOp where
  | ExactMatch
  | FuzzyMatch
  | Next
  | Previous
  | First
  | Last
  deriving DecidableEq, Repr

/-- The fields of `HBtreeCursor` that the engine reads and writes;
`transaction_ = none` is the null pointer. -/
structure HBtreeCursor where
  transaction_ : Option Nat := none
  key_ : Bytes := []
  value_ : Bytes := []
  valid_ : Bool := false
  lastLeaf_ : Nat := INVALID_PAGE
  deriving DecidableEq, Repr

/-- The result of a cursor function: the state, the cursor, the Boolean
returned and the arrays `keyOut` and `valueOut`. -/
abbrev CursorResult := HBtreePrivate × HBtreeCursor × Bool × Bytes × Bytes

/-- The tail shared by the cursor functions: the key of the entry and the
data that `getDataFromNode` gives for it go to the output arrays. -/
def cursorOut (s : HBtreePrivate) (cursor : HBtreeCursor) (node : Bytes × NodeValue) :
    Option CursorResult :=
  match getDataFromNode s node.2 with
  | none => none
  | some (s1, data) => some (s1, cursor, true, node.1, data)

/-- The function `cursorLast`. -/
def cursorLast (env : Env) (s : HBtreePrivate) (cursor : HBtreeCursor) : Option CursorResult :=
  match searchPage env s true cursor.transaction_ [] SearchType.SearchLast false with
  | none => none
  | some (s1, none) => some (s1, cursor, false, [], [])
  | some (s1, some pg) =>
    match findNode s1 pg with
    | none => none
    | some page =>
      match page.nodes.getLast? with
      | none => none
      | some node => cursorOut s1 { cursor with lastLeaf_ := page.info.number } node

/-- The function `cursorFirst`. -/
def cursorFirst (env : Env) (s : HBtreePrivate) (cursor : HBtreeCursor) : Option CursorResult :=
  match searchPage env s true cursor.transaction_ [] SearchType.SearchFirst false with
  | none => none
  | some (s1, none) => some (s1, cursor, false, [], [])
  | some (s1, some pg) =>
    match findNode s1 pg with
    | none => none
    | some page =>
      match page.nodes.head? with
      | none => none
      | some node => cursorOut s1 { cursor with lastLeaf_ := page.info.number } node

/-- The function `cursorNext`. -/
def cursorNext (env : Env) (s : HBtreePrivate) (cursor : HBtreeCursor) : Option CursorResult :=
  if !cursor.valid_ then cursorFirst env s cursor
  else
    match searchPage env s true cursor.transaction_ cursor.key_ SearchType.SearchKey false with
    | none => none
    | some (s1, none) => some (s1, cursor, false, [], [])
    | some (s1, some pg) =>
      match findNode s1 pg with
      | none => none
      | some page =>
        let cursor1 := { cursor with lastLeaf_ := page.info.number }
        let node := OrderedList.lowerBound env cursor.key_ page.nodes
        let checkRight : Bool :=
          match page.nodes.get? node with
          | none => true
          | some (k, _) => NodeKey.eq env k cursor.key_
        let node1 := if checkRight && node != page.nodes.length then node + 1 else node
        if checkRight && (node == page.nodes.length || node1 == page.nodes.length) then
          if page.rightPageNumber != INVALID_PAGE then
            match getNodePage s1 page.rightPageNumber with
            | (_, none) => none
            | (s2, some right) =>
              match right.nodes.head? with
              | some n => cursorOut s2 cursor1 n
              | none => some (s2, cursor1, false, [], [])
          else some (s1, cursor1, false, [], [])
        else
          match page.nodes.get? node1 with
          | none => none
          | some n => cursorOut s1 cursor1 n

/-- The function `cursorPrev`. -/
def cursorPrev (env : Env) (s : HBtreePrivate) (cursor : HBtreeCursor) : Option CursorResult :=
  if !cursor.valid_ then cursorLast env s cursor
  else
    match searchPage env s true cursor.transaction_ cursor.key_ SearchType.SearchKey false with
    | none => none
    | some (s1, none) => some (s1, cursor, false, [], [])
    | some (s1, some pg) =>
      match findNode s1 pg with
      | none => none
      | some page =>
        let cursor1 := { cursor with lastLeaf_ := page.info.number }
        let node := OrderedList.find env cursor.key_ page.nodes
        if node = 0 then
          if page.leftPageNumber != INVALID_PAGE then
            match getNodePage s1 page.leftPageNumber with
            | (_, none) => none
            | (s2, some left) =>
              match left.nodes.getLast? with
              | some n => cursorOut s2 cursor1 n
              | none => some (s2, cursor1, false, [], [])
          else some (s1, cursor1, false, [], [])
        else
          match page.nodes.get? (node - 1) with
          | none => none
          | some n => cursorOut s1 cursor1 n

/-- The function `cursorSet`. -/
def cursorSet (env : Env) (s : HBtreePrivate) (cursor : HBtreeCursor) (matchKey : Bytes)
    (exact : Bool) : Option CursorResult :=
  match searchPage env s true cursor.transaction_ matchKey SearchType.SearchKey false with
  | none => none
  | some (s1, none) => some (s1, cursor, false, [], [])
  | some (s1, some pg) =>
    match findNode s1 pg with
    | none => none
    | some page =>
      let cursor1 := { cursor with lastLeaf_ := page.info.number }
      if OrderedList.contains env matchKey page.nodes then
        match getDataFromNode s1 (OrderedList.value env matchKey page.nodes {}) with
        | none => none
        | some (s2, data) => some (s2, cursor1, true, matchKey, data)
      else if !exact then
        match page.nodes.get? (OrderedList.lowerBound env matchKey page.nodes) with
        | some n => cursorOut s1 cursor1 n
        | none =>
          if page.rightPageNumber != INVALID_PAGE then
            match getNodePage s1 page.rightPageNumber with
            | (_, none) => none
            | (s2, some right) =>
              match right.nodes.get? (OrderedList.lowerBound env matchKey right.nodes) with
              | some n => cursorOut s2 cursor1 n
              | none => some (s2, cursor1, false, [], [])
          else some (s1, cursor1, false, [], [])
      else some (s1, cursor1, false, [], [])

/-- The function `doCursorOp`: the state, the cursor as the call leaves it
and the Boolean returned. -/
def doCursorOp (env : Env) (s : HBtreePrivate) (cursor : HBtreeCursor) (op : CursorOp)
    (key : Bytes) : Option (HBtreePrivate × HBtreeCursor × Bool) :=
  let r : Option CursorResult :=
    match op with
    | CursorOp.ExactMatch => cursorSet env s cursor key true
    | CursorOp.FuzzyMatch => cursorSet env s cursor key false
    | CursorOp.Next => cursorNext env s cursor
    | CursorOp.Previous => cursorPrev env s cursor
    | CursorOp.First => cursorFirst env s cursor
    | CursorOp.Last => cursorLast env s cursor
  match r with
  | none => none
  | some (s1, cursor1, ok, keyOut, valueOut) =>
    let cursor2 : HBtreeCursor :=
      if ok then { cursor1 with valid_ := true, key_ := keyOut, value_ := valueOut }
      else { cursor1 with valid_ := false, key_ := [], value_ := [] }
    some (cachePrune s1, cursor2, ok)

/-! ## Fields that the tree operations leave alone -/

/-- The part of the state that only `open`, `beginTransaction`, `commit`,
`abort` and `sync` change: the registered writer, the markers, the file and
the settings. -/
def control (s : HBtreePrivate) :
    Option Nat × MarkerPage × MarkerPage × Nat × Spec × OpenMode × List (Nat × DiskPage)
      × Nat × List Nat × Bool × Nat × Nat × Nat :=
  (s.writeTransaction_, s.marker_, s.synced_, s.lastSyncedId_, s.spec_, s.openMode_, s.file,
    s.filePages, s.failWrites, s.lockHeld, s.size_, s.cacheSize_, s.nextTransaction)

/-- The state `s1` has the control part and the transaction objects of `s`. -/
def Same (s s1 : HBtreePrivate) : Prop :=
  control s1 = control s ∧ s1.transactions = s.transactions

/-- The fields of a transaction object that `beginTransaction` sets once. -/
def snapshot (txn : HBtreeTransaction) : TransactionType × Nat × Nat :=
  (txn.type, txn.tag_, txn.revision_)

/-- The state `s1` has the control part of `s`; every transaction object keeps
its type, tag and revision, and only the transaction `t` and the registered
writer may have a new root. -/
def Frame (t : Nat) (s s1 : HBtreePrivate) : Prop :=
  control s1 = control s ∧
  ∀ r, (mapFind r s1.transactions).map snapshot = (mapFind r s.transactions).map snapshot ∧
    (r ≠ t → some r ≠ s.writeTransaction_ →
      mapFind r s1.transactions = mapFind r s.transactions)

/-- The state without its page cache. -/
def rest (s : HBtreePrivate) : HBtreePrivate := { s with cache_ := [], lru_ := [] }

/-- The state without its page cache, its file and file size, its dirty set
and its counters: what the page writes of `commit` leave alone. -/
def core (s : HBtreePrivate) : HBtreePrivate :=
  { s with cache_ := [], lru_ := [], file := [], filePages := 0, stats_ := {}, dirtyPages_ := [],
           size_ := 0 }

/-- The marker that `commit` builds from the marker `m`. -/
def commitMarker (m : MarkerPage) (lastSyncedId root tag : Nat) (residue : List Nat) : MarkerPage :=
  { m with
    meta := { m.meta with revision := m.meta.revision + 1, syncId := lastSyncedId + 1,
                          root := root, tag := tag, size := 0 },
    residueHistory := residue,
    info := { m.info with upperOffset := u16 (residue.length * 4) } }

/-- Every read-write transaction object in the table is the registered
writer. -/
def oneWriter (s : HBtreePrivate) : Prop :=
  ∀ r txn, mapFind r s.transactions = some txn → txn.type = TransactionType.ReadWrite →
    s.writeTransaction_ = some r

/-! ## Overflow chains and the allocator: predicates of the proofs -/

/-- The pages `pages` form the overflow chain that starts at `start` and holds
`data`, `cap` bytes to the page: every page is a cached overflow page with the
next `cap` bytes of the data that remain (the last page has what is left), it
links to the page after it, and the link of the last page is `INVALID_PAGE`. -/
def IsChain (s : HBtreePrivate) (cap : Nat) : List Nat → Nat → Bytes → Prop
  | [], start, data => start = INVALID_PAGE ∧ data = []
  | p :: ps, start, data =>
    start = p ∧ p ≠ INVALID_PAGE ∧ data ≠ [] ∧
    ∃ op, findOverflow s p = some op ∧ op.data = data.take cap ∧
      IsChain s cap ps op.nextPage (data.drop cap)

/-- The allocator state is in order for `k` more pages: the collectible pages
are distinct and lie below `lastPage_`, and `k` pages past `lastPage_` stay
below `INVALID_PAGE`. -/
def Alloc (s : HBtreePrivate) (k : Nat) : Prop :=
  s.collectiblePages_.Nodup ∧ (∀ n ∈ s.collectiblePages_, n < s.lastPage_) ∧
    s.lastPage_ + k < INVALID_PAGE

/-- The statement `if (prevPage) prevPage->nextPage = overflowPage->info.number`
of `putDataOnOverflow`. -/
def linkPrev (s : HBtreePrivate) (prev : Option Nat) (n : Nat) : HBtreePrivate :=
  match prev with
  | some pn =>
    match findOverflow s pn with
    | some pp => setOverflow s pn { pp with nextPage := n }
    | none => s
  | none => s

/-! ## What a read-only operation sees of the pages -/

/-- A page without its run-time fields (parent, siblings, dirty flag): the
form in which `readPage` delivers it. -/
def Page.content : Page → Page
  | Page.node p =>
    Page.node { p with parent := none, parentKey := [], leftPageNumber := INVALID_PAGE,
                       rightPageNumber := INVALID_PAGE, dirty := false }
  | Page.overflow p => Page.overflow { p with dirty := false }

/-- The page that `getPage` delivers for a page number, without its run-time
fields: the cached object if there is one, else the image in the file. -/
def contentAt (s : HBtreePrivate) (pg : Nat) : Option Page :=
  match cacheFind s pg with
  | some p => some p.content
  | none => readPage s pg

/-- Every clean page of the cache agrees with its image in the file. -/
def Coherent (s : HBtreePrivate) : Prop :=
  ∀ pg p, cacheFind s pg = some p → p.dirty = false → readPage s pg = some p.content

/-- The state `s1` reads like `s`: same control part and transaction objects,
same `lastPage_`, and every page number delivers the same page. -/
def Reads (s s1 : HBtreePrivate) : Prop :=
  Same s s1 ∧ s1.lastPage_ = s.lastPage_ ∧ (∀ pg, contentAt s1 pg = contentAt s pg) ∧
    (Coherent s → Coherent s1)

/-- A view of the pages: what each page number delivers. -/
abbrev View := Nat → Option Page

/-- The walk of `walkOverflowPages` over a view: the data and the pages of
the chain from `startPage`, `false` with both cleared when a page is
missing. -/
def walkV (v : View) : Nat → Nat → Bytes → List Nat → Option (Bool × Bytes × List Nat)
  | 0, _, _, _ => none
  | fuel + 1, startPage, data, pages =>
    if startPage = INVALID_PAGE then some (true, data, pages)
    else
      match v startPage with
      | some (Page.overflow page) => walkV v fuel page.nextPage (data ++ page.data) (pages ++ [startPage])
      | some (Page.node _) => none
      | none => some (false, [], [])

/-- The data that `getDataFromNode` delivers over a view. -/
def dataV (v : View) (fuel : Nat) (nval : NodeValue) : Option Bytes :=
  if nval.isOverflow then
    match walkV v fuel nval.overflowPage [] [] with
    | some (_, data, _) => some data
    | none => none
  else some nval.data

/-- The descent of `searchPageRoot` over a view; the two stacks grow in a
cursor search. -/
def searchV (env : Env) (v : View) (cursor : Bool) (key : Bytes) (searchType : SearchType) :
    Nat → Nat → List Nat → List Nat → Option (Nat × List Nat × List Nat)
  | 0, _, _, _ => none
  | fuel + 1, child, leftQ, rightQ =>
    match v child with
    | some (Page.node cp) =>
      if cp.info.type != PageType.Branch then some (child, leftQ, rightQ)
      else
        match branchIndex env searchType key cp.nodes with
        | none => none
        | some i =>
          match cp.nodes.get? i with
          | none => none
          | some (_, pval) =>
            let leftQ1 :=
              if cursor then
                (if i = 0 then INVALID_PAGE
                 else match cp.nodes.get? (i - 1) with
                      | some (_, x) => x.overflowPage
                      | none => INVALID_PAGE) :: leftQ
              else leftQ
            let rightQ1 :=
              if cursor then
                (match cp.nodes.get? (i + 1) with
                 | some (_, x) => x.overflowPage
                 | none => INVALID_PAGE) :: rightQ
              else rightQ
            match v pval.overflowPage with
            | some (Page.node _) =>
              searchV env v cursor key searchType fuel pval.overflowPage leftQ1 rightQ1
            | _ => none
    | _ => none

/-- The loop of `getRightSibling` over a view. -/
def descendFirstV (v : View) : Nat → Nat → Option Nat
  | 0, pageNumber => some pageNumber
  | idx + 1, pageNumber =>
    match v pageNumber with
    | some (Page.node page) =>
      match page.nodes.head? with
      | some (_, x) => descendFirstV v idx x.overflowPage
      | none => none
    | _ => none

/-- The loop of `getLeftSibling` over a view. -/
def descendLastV (v : View) : Nat → Nat → Option Nat
  | 0, pageNumber => some pageNumber
  | idx + 1, pageNumber =>
    match v pageNumber with
    | some (Page.node page) =>
      match page.nodes.getLast? with
      | some (_, x) => descendLastV v idx x.overflowPage
      | none => none
    | _ => none

/-- The function `getRightSibling` over a view. -/
def getRightSiblingV (v : View) (rightQ : List Nat) : Option Nat :=
  let q := rightQ.dropWhile (fun n => n == INVALID_PAGE)
  match q with
  | [] => some INVALID_PAGE
  | top :: _ => descendFirstV v (rightQ.length - q.length) top

/-- The function `getLeftSibling` over a view. -/
def getLeftSiblingV (v : View) (leftQ : List Nat) : Option Nat :=
  let q := leftQ.dropWhile (fun n => n == INVALID_PAGE)
  match q with
  | [] => some INVALID_PAGE
  | top :: _ => descendLastV v (leftQ.length - q.length) top

/-- The stateful result `r` of a read-only step from `s` agrees with the
result `p` over the view: both have no result, or the step delivers `p` and a
state that reads like `s`. -/
def Agrees {α : Type} (r : Option (HBtreePrivate × α)) (s : HBtreePrivate) (p : Option α) : Prop :=
  match p with
  | none => r = none
  | some a => ∃ s1, r = some (s1, a) ∧ Reads s s1

/-- The function `searchPageRoot` over a view, for a root that is there: the
leaf found and, in a cursor search, its right and left sibling. -/
def searchRootV (env : Env) (v : View) (cursor : Bool) (root : Nat) (key : Bytes)
    (searchType : SearchType) (fuel : Nat) : Option (Nat × Nat × Nat) :=
  match searchV env v cursor key searchType fuel root [] [] with
  | none => none
  | some (leaf, leftQ, rightQ) =>
    if cursor then
      match getRightSiblingV v rightQ with
      | none => none
      | some right =>
        match getLeftSiblingV v leftQ with
        | none => none
        | some left => some (leaf, right, left)
    else some (leaf, INVALID_PAGE, INVALID_PAGE)

/-- Every object of the cache of `s` is in the cache of `s1`. -/
def Keeps (s s1 : HBtreePrivate) : Prop :=
  ∀ q x, cacheFind s q = some x → cacheFind s1 q = some x

/-- The function `get` over a view, from the root `root`. -/
def getV (env : Env) (v : View) (root : Nat) (key : Bytes) (fuel : Nat) : Option Bytes :=
  if root = INVALID_PAGE then some []
  else
    match v root with
    | some (Page.node _) =>
      match searchRootV env v false root key SearchType.SearchKey fuel with
      | none => none
      | some (leaf, _, _) =>
        match v leaf with
        | some (Page.node lp) => dataV v fuel (OrderedList.value env key lp.nodes {})
        | _ => none
    | _ => some []

/-- The marker that `writeMarker` writes and leaves for a residue list that
fits into the page; `fileSize` is the length of the file. -/
def markerImage (page : MarkerPage) (fileSize : Nat) : MarkerPage :=
  { info := { page.info with lowerOffset := 0, upperOffset := u16 (page.residueHistory.length * 4) },
    meta := { page.meta with size := if page.meta.size = 0 then fileSize else page.meta.size },
    residueHistory := if page.info.number != 1 then [] else page.residueHistory,
    overflowPage := page.overflowPage }

/-- The comparator orders the keys strictly and totally, the empty key first,
and `==` holds for equal keys only. -/
structure KeyOrder (env : Env) : Prop where
  irrefl : ∀ a, NodeKey.lt env a a = false
  trans : ∀ a b c, NodeKey.lt env a b = true → NodeKey.lt env b c = true →
    NodeKey.lt env a c = true
  total : ∀ a b, NodeKey.lt env a b = false → NodeKey.lt env b a = false → a = b
  least : ∀ a, NodeKey.lt env a [] = false
  eq_iff : ∀ a b, NodeKey.eq env a b = true ↔ a = b

/-- The entries are in strictly increasing key order. -/
def SortedKeys (env : Env) (nodes : Nodes) : Prop :=
  nodes.Pairwise (fun a b => NodeKey.lt env a.1 b.1 = true)

/-- The tree of height `h` below page `pg` is well formed for the keys from
`lo` (inclusive) to `hi` (exclusive, `none` for no bound). A leaf has entries,
in increasing key order, all within the bounds. A branch has entries in
increasing key order; its first key is at most `lo`, its other keys lie
between `lo` and `hi`, and the child of entry `i` is a well-formed tree of
height `h - 1` for the keys from its own key (from `lo` for the first child)
to the key of the next entry (to `hi` for the last child). -/
def WF (env : Env) (v : View) : Nat → Nat → Bytes → Option Bytes → Prop
  | 0, pg, lo, hi =>
    ∃ p, v pg = some (Page.node p) ∧ p.info.type = PageType.Leaf ∧ p.nodes ≠ [] ∧
      SortedKeys env p.nodes ∧
      ∀ e ∈ p.nodes, NodeKey.lt env e.1 lo = false ∧
        ∀ x, hi = some x → NodeKey.lt env e.1 x = true
  | h + 1, pg, lo, hi =>
    ∃ p, v pg = some (Page.node p) ∧ p.info.type = PageType.Branch ∧ p.nodes ≠ [] ∧
      SortedKeys env p.nodes ∧
      (∀ e, p.nodes.head? = some e → NodeKey.lt env lo e.1 = false) ∧
      (∀ e ∈ p.nodes.tail, NodeKey.lt env lo e.1 = true ∧
        ∀ x, hi = some x → NodeKey.lt env e.1 x = true) ∧
      ∀ i e, p.nodes.get? i = some e →
        e.2.overflowPage ≠ INVALID_PAGE ∧
        WF env v h e.2.overflowPage (if i = 0 then lo else e.1)
          (match p.nodes.get? (i + 1) with
           | some e2 => some e2.1
           | none => hi)

/-- The entries of the leaves of the tree of height `h` below page `pg`, from
left to right. -/
def entriesV (v : View) : Nat → Nat → Nodes
  | 0, pg =>
    match v pg with
    | some (Page.node p) => p.nodes
    | _ => []
  | h + 1, pg =>
    match v pg with
    | some (Page.node p) => (p.nodes.map (fun e => entriesV v h e.2.overflowPage)).flatten
    | _ => []

/-- The leaf that `getRightSibling` finds for the stack `rightQ`, seen from
a page `h` levels above the leaves. -/
def rightOfV (v : View) (h : Nat) (rightQ : List Nat) : Option Nat :=
  let q := rightQ.dropWhile (fun n => n == INVALID_PAGE)
  match q with
  | [] => some INVALID_PAGE
  | top :: _ => descendFirstV v (rightQ.length - q.length + h) top

/-- The leaf that `getLeftSibling` finds for the stack `leftQ`, seen from a
page `h` levels above the leaves. -/
def leftOfV (v : View) (h : Nat) (leftQ : List Nat) : Option Nat :=
  let q := leftQ.dropWhile (fun n => n == INVALID_PAGE)
  match q with
  | [] => some INVALID_PAGE
  | top :: _ => descendLastV v (leftQ.length - q.length + h) top

/-! ## Page buffers: the checksum, `readPage` and `writePage` on bytes

The functions of this part work on the bytes of a page and of the file. The
layout of `PageInfo` and of `NodePage::Meta` is declared in the missing
header; the offsets follow the field lists of the data model, with the
integers stored as a little-endian host stores them. -/

/-- The bytes of a buffer from offset `b` up to offset `e`. -/
def slice (buffer : Bytes) (b e : Nat) : Bytes := (buffer.drop b).take (e - b)

/-- The `quint32` that four bytes hold. -/
def u32OfBytes : Bytes → Nat
  | [a, b, c, d] => a % 256 + 256 * (b % 256) + 65536 * (c % 256) + 16777216 * (d % 256)
  | _ => 0

/-- The `quint16` that two bytes hold. -/
def u16OfBytes : Bytes → Nat
  | [a, b] => a % 256 + 256 * (b % 256)
  | _ => 0

/-- Modelled from the spec: the values of the enum `PageInfo::Type`, in the
order of the data model. -/
def pageTypeOfTag : Nat → PageType
  | 1 => PageType.Spec
  | 2 => PageType.Marker
  | 3 => PageType.Branch
  | 4 => PageType.Leaf
  | 5 => PageType.Overflow
  | _ => PageType.Unknown

/-- Modelled from the spec: `sizeof(Spec)`, for the three fields the data
model names and the two thresholds. -/
def sizeofSpec : Nat := 20

/-- The function `deserializePageInfo`. Modelled from the spec: the fields
`checksum`, `type`, `number`, `lowerOffset` and `upperOffset` lie at the
offsets 0, 4, 8, 12 and 14. -/
def deserializePageInfo (buffer : Bytes) : PageInfo :=
  { checksum := u32OfBytes (slice buffer 0 4),
    type := pageTypeOfTag (u32OfBytes (slice buffer 4 8)),
    number := u32OfBytes (slice buffer 8 12),
    lowerOffset := u16OfBytes (slice buffer 12 14),
    upperOffset := u16OfBytes (slice buffer 14 16) }

/-- The function `deserializePageNumber`. -/
def deserializePageNumber (buffer : Bytes) : Nat := u32OfBytes (slice buffer 8 12)

/-- The field `historySize` of the result of `deserializeNodePageMeta`.
Modelled from the spec: the field follows the eight bytes of `syncId`. -/
def deserializeHistorySize (env : Env) (buffer : Bytes) : Nat :=
  u16OfBytes (slice buffer (env.sizes.pageInfo + 8) (env.sizes.pageInfo + 10))

/-- The function `PageInfo::headerSize`. -/
def PageInfo.headerSize (env : Env) (info : PageInfo) : Nat :=
  match info.type with
  | PageType.Marker => u16 (env.sizes.pageInfo + env.sizes.markerMeta)
  | PageType.Leaf => u16 (env.sizes.pageInfo + env.sizes.nodeMeta)
  | PageType.Branch => u16 (env.sizes.pageInfo + env.sizes.nodeMeta)
  | PageType.Overflow => u16 (env.sizes.pageInfo + env.sizes.nodeHeader)
  | _ => 0

/-- The table `crctable` of `calculateChecksum`. -/
def crctable : List Nat :=
  [0x00000000, 0x77073096, 0xee0e612c, 0x990951ba, 0x076dc419, 0x706af48f,
   0xe963a535, 0x9e6495a3, 0x0edb8832, 0x79dcb8a4, 0xe0d5e91e, 0x97d2d988,
   0x09b64c2b, 0x7eb17cbd, 0xe7b82d07, 0x90bf1d91, 0x1db71064, 0x6ab020f2,
   0xf3b97148, 0x84be41de, 0x1adad47d, 0x6ddde4eb, 0xf4d4b551, 0x83d385c7,
   0x136c9856, 0x646ba8c0, 0xfd62f97a, 0x8a65c9ec, 0x14015c4f, 0x63066cd9,
   0xfa0f3d63, 0x8d080df5, 0x3b6e20c8, 0x4c69105e, 0xd56041e4, 0xa2677172,
   0x3c03e4d1, 0x4b04d447, 0xd20d85fd, 0xa50ab56b, 0x35b5a8fa, 0x42b2986c,
   0xdbbbc9d6, 0xacbcf940, 0x32d86ce3, 0x45df5c75, 0xdcd60dcf, 0xabd13d59,
   0x26d930ac, 0x51de003a, 0xc8d75180, 0xbfd06116, 0x21b4f4b5, 0x56b3c423,
   0xcfba9599, 0xb8bda50f, 0x2802b89e, 0x5f058808, 0xc60cd9b2, 0xb10be924,
   0x2f6f7c87, 0x58684c11, 0xc1611dab, 0xb6662d3d, 0x76dc4190, 0x01db7106,
   0x98d220bc, 0xefd5102a, 0x71b18589, 0x06b6b51f, 0x9fbfe4a5, 0xe8b8d433,
   0x7807c9a2, 0x0f00f934, 0x9609a88e, 0xe10e9818, 0x7f6a0dbb, 0x086d3d2d,
   0x91646c97, 0xe6635c01, 0x6b6b51f4, 0x1c6c6162, 0x856530d8, 0xf262004e,
   0x6c0695ed, 0x1b01a57b, 0x8208f4c1, 0xf50fc457, 0x65b0d9c6, 0x12b7e950,
   0x8bbeb8ea, 0xfcb9887c, 0x62dd1ddf, 0x15da2d49, 0x8cd37cf3, 0xfbd44c65,
   0x4db26158, 0x3ab551ce, 0xa3bc0074, 0xd4bb30e2, 0x4adfa541, 0x3dd895d7,
   0xa4d1c46d, 0xd3d6f4fb, 0x4369e96a, 0x346ed9fc, 0xad678846, 0xda60b8d0,
   0x44042d73, 0x33031de5, 0xaa0a4c5f, 0xdd0d7cc9, 0x5005713c, 0x270241aa,
   0xbe0b1010, 0xc90c2086, 0x5768b525, 0x206f85b3, 0xb966d409, 0xce61e49f,
   0x5edef90e, 0x29d9c998, 0xb0d09822, 0xc7d7a8b4, 0x59b33d17, 0x2eb40d81,
   0xb7bd5c3b, 0xc0ba6cad, 0xedb88320, 0x9abfb3b6, 0x03b6e20c, 0x74b1d29a,
   0xead54739, 0x9dd277af, 0x04db2615, 0x73dc1683, 0xe3630b12, 0x94643b84,
   0x0d6d6a3e, 0x7a6a5aa8, 0xe40ecf0b, 0x9309ff9d, 0x0a00ae27, 0x7d079eb1,
   0xf00f9344, 0x8708a3d2, 0x1e01f268, 0x6906c2fe, 0xf762575d, 0x806567cb,
   0x196c3671, 0x6e6b06e7, 0xfed41b76, 0x89d32be0, 0x10da7a5a, 0x67dd4acc,
   0xf9b9df6f, 0x8ebeeff9, 0x17b7be43, 0x60b08ed5, 0xd6d6a3e8, 0xa1d1937e,
   0x38d8c2c4, 0x4fdff252, 0xd1bb67f1, 0xa6bc5767, 0x3fb506dd, 0x48b2364b,
   0xd80d2bda, 0xaf0a1b4c, 0x36034af6, 0x41047a60, 0xdf60efc3, 0xa867df55,
   0x316e8eef, 0x4669be79, 0xcb61b38c, 0xbc66831a, 0x256fd2a0, 0x5268e236,
   0xcc0c7795, 0xbb0b4703, 0x220216b9, 0x5505262f, 0xc5ba3bbe, 0xb2bd0b28,
   0x2bb45a92, 0x5cb36a04, 0xc2d7ffa7, 0xb5d0cf31, 0x2cd99e8b, 0x5bdeae1d,
   0x9b64c2b0, 0xec63f226, 0x756aa39c, 0x026d930a, 0x9c0906a9, 0xeb0e363f,
   0x72076785, 0x05005713, 0x95bf4a82, 0xe2b87a14, 0x7bb12bae, 0x0cb61b38,
   0x92d28e9b, 0xe5d5be0d, 0x7cdcefb7, 0x0bdbdf21, 0x86d3d2d4, 0xf1d4e242,
   0x68ddb3f8, 0x1fda836e, 0x81be16cd, 0xf6b9265b, 0x6fb077e1, 0x18b74777,
   0x88085ae6, 0xff0f6a70, 0x66063bca, 0x11010b5c, 0x8f659eff, 0xf862ae69,
   0x616bffd3, 0x166ccf45, 0xa00ae278, 0xd70dd2ee, 0x4e048354, 0x3903b3c2,
   0xa7672661, 0xd06016f7, 0x4969474d, 0x3e6e77db, 0xaed16a4a, 0xd9d65adc,
   0x40df0b66, 0x37d83bf0, 0xa9bcae53, 0xdebb9ec5, 0x47b2cf7f, 0x30b5ffe9,
   0xbdbdf21c, 0xcabac28a, 0x53b39330, 0x24b4a3a6, 0xbad03605, 0xcdd70693,
   0x54de5729, 0x23d967bf, 0xb3667a2e, 0xc4614ab8, 0x5d681b02, 0x2a6f2b94,
   0xb40bbe37, 0xc30c8ea1, 0x5a05df1b, 0x2d02ef8d]

/-- The complement `~x` of a `quint32`. -/
def not32 (x : Nat) : Nat := 4294967295 - x % 4294967296

/-- The step `crc = (crc >> 8) ^ crctable[(crc ^ b) & 0xff]` of the checksum
loops for the byte `b`. -/
def crcStep (crc b : Nat) : Nat := (crc >>> 8) ^^^ crctable.getD ((crc ^^^ (b % 256)) &&& 255) 0

/-- The function `calculateChecksum(const char *begin, const char *end)` on
the bytes between the two pointers: nothing is computed for fewer than four
bytes; else the first word is complemented, the words after it and the
remaining bytes are hashed byte by byte, and the result is complemented. -/
def calculateChecksumRange (data : Bytes) : Nat :=
  if data.length < 4 then 0
  else not32 ((data.drop 4).foldl crcStep (not32 (u32OfBytes (data.take 4))))

/-- A call `calculateChecksum(begin + b, begin + e)` on a page buffer, without
result when the pointers leave the buffer. -/
def checksumOf (buffer : Bytes) (b e : Nat) : Option Nat :=
  if e ≤ buffer.length then some (calculateChecksumRange (slice buffer b e)) else none

/-- The function `calculateChecksum(const QByteArray &)`. It has no result for
a buffer that is not of the page size or too short for a `PageInfo`, and when
the region of a node page named by `upperOffset` begins before the buffer. -/
def calculateChecksum (env : Env) (spec : Spec) (buffer : Bytes) : Option Nat :=
  if buffer.length ≠ spec.pageSize ∨ buffer.length < 16 then none
  else
    let info := deserializePageInfo buffer
    match info.type with
    | PageType.Spec => checksumOf buffer 4 (env.sizes.pageInfo + sizeofSpec)
    | PageType.Branch | PageType.Leaf =>
      let lower := info.headerSize env + deserializeHistorySize env buffer * env.sizes.historyNode
        + info.lowerOffset
      if info.upperOffset ≤ spec.pageSize then
        match checksumOf buffer 4 lower with
        | some c1 =>
          some (c1 ^^^ calculateChecksumRange
            (slice buffer (spec.pageSize - info.upperOffset) spec.pageSize))
        | none => none
      else none
    | PageType.Marker => checksumOf buffer 4 (info.headerSize env)
    | PageType.Overflow => checksumOf buffer 4 (info.headerSize env + info.lowerOffset)
    | PageType.Unknown => some 0

/-- The function `serializeChecksum`. -/
def serializeChecksum (checksum : Nat) (buffer : Bytes) : Bytes :=
  bytesOfU32 checksum ++ buffer.drop 4

/-- The file as `read` and `pwrite` see it, with the two counters of `stats_`
that the pager keeps. -/
structure RawFile where
  bytes : Bytes := []
  reads : Nat := 0
  writes : Nat := 0
  deriving DecidableEq, Repr

/-- The system call `pwrite` of a whole buffer: the file grows by zero bytes
up to `offset` when it is shorter. -/
def pwrite (file buffer : Bytes) (offset : Nat) : Bytes :=
  (file ++ List.replicate (offset - file.length) 0).take offset ++ buffer
    ++ file.drop (offset + buffer.length)

/-- The offset `pageNumber * spec_.pageSize` of a page, a product of 32-bit
unsigned integers. -/
def pageOffset (spec : Spec) (pageNumber : Nat) : Nat := (pageNumber * spec.pageSize) % 4294967296

/-- The function `readPage` on the bytes of the file: the buffer read, or the
empty buffer when fewer bytes than a page are read, when the page number of
the header is not `pageNumber` or when the checksum of the header is not the
one calculated. -/
def readPageBuffer (env : Env) (spec : Spec) (f : RawFile) (pageNumber : Nat) :
    Option (RawFile × Bytes) :=
  let buffer := (f.bytes.drop (pageOffset spec pageNumber)).take spec.pageSize
  if buffer.length ≠ spec.pageSize then some (f, [])
  else if buffer.length < 16 then none
  else
    let pageInfo := deserializePageInfo buffer
    if pageInfo.number ≠ pageNumber then some (f, [])
    else
      match calculateChecksum env spec buffer with
      | none => none
      | some c =>
        if pageInfo.checksum ≠ c then some (f, [])
        else some ({ f with reads := f.reads + 1 }, buffer)

/-- The function `writePage` on the bytes of the file: the checksum is
calculated and stored in the buffer, and the buffer is written at the offset
of the page number it holds. The result has the buffer as the call leaves it.
A `pwrite` that writes fewer bytes is not modelled. -/
def writePageBuffer (env : Env) (spec : Spec) (f : RawFile) (buffer : Bytes) :
    Option (RawFile × Bytes × Bool) :=
  match calculateChecksum env spec buffer with
  | none => none
  | some checksum =>
    let buffer1 := serializeChecksum checksum buffer
    let pageNumber := deserializePageNumber buffer1
    some ({ f with bytes := pwrite f.bytes buffer1 (pageOffset spec pageNumber),
                   writes := f.writes + 1 }, buffer1, true)

/-- The value of `current` in the loop of `split` after `j` entries of the
page: the sum of `spaceNeededForNode` over the first `j` entries, in
`quint16`. -/
def splitCurrent (env : Env) (spec : Spec) (nodes : Nodes) (j : Nat) : Nat :=
  (nodes.take j).foldl (fun cur e => u16 (cur + spaceNeededForNode env spec e.1 e.2.data)) 0

/-- The threshold of the loop of `split` for a leaf. -/
def splitThreshold (env : Env) (spec : Spec) (left : NodePage) : Nat :=
  u16 ((u16 (left.capacity env spec / 2) : Int) - (spec.overflowThreshold / 2 : Nat))

/-- What `collectHistory` does with the history of the cached page `p`: the
entries it keeps and the page numbers it makes collectible. -/
def collectedHistory (s : HBtreePrivate) (p : NodePage) : List HistoryNode × List Nat :=
  collectHistoryLoop s.marker_.meta.syncId s.lastSyncedId_ p.history
    (decide (p.meta.syncId ≤ s.lastSyncedId_))

/-- The page `p` as `collectHistory` leaves it. -/
def afterCollect (s : HBtreePrivate) (p : NodePage) : NodePage :=
  { p with history := (collectedHistory s p).1,
           meta := { p.meta with
             historySize := u16 ((p.meta.historySize : Int) - (collectedHistory s p).2.length) } }

/-- The page number that `newPage` hands out after `collectHistory` of the
page `p`: the least collectible page, the history pages just collected
included, or else the first page beyond the end. -/
def touchedNumber (s : HBtreePrivate) (p : NodePage) : Nat :=
  ((collectedHistory s p).2.foldl (fun acc n => setInsert n acc) s.collectiblePages_).headD
    s.lastPage_

/-- The page `n` is in the cache and not dirty: what `cachePrune` tests before
it evicts a page. -/
def cleanCached (cache : List (Nat × Page)) (n : Nat) : Bool :=
  match mapFind n cache with
  | some page => !page.dirty
  | none => false

/-- The part of the state that `sync` works on and that page allocation and
page writes leave alone: both markers, `lastSyncedId_`, the residue set of
the write in progress and the open mode. -/
def ledger (s : HBtreePrivate) : MarkerPage × MarkerPage × Nat × List Nat × OpenMode :=
  (s.marker_, s.synced_, s.lastSyncedId_, s.residueHistory_, s.openMode_)

/-- The part of `put` that finds the target leaf: a new root leaf when the
tree is empty, else the leaf that `searchPage` delivers for the key, made
dirty, from which an entry with the same key is removed first. The result is
the leaf's page number, or `none` when the removal fails. -/
def putFound (env : Env) (s : HBtreePrivate) (transaction : Nat) (txn : HBtreeTransaction)
    (keyData : Bytes) : Option (HBtreePrivate × Option Nat) :=
  if txn.rootPage_ = INVALID_PAGE then
    match newPage s PageType.Leaf with
    | none => none
    | some (s1, n) => some (setTransactionRoot s1 transaction n, some n)
  else
    match searchPage env s false (some transaction) keyData SearchType.SearchKey true with
    | none => none
    | some (_, none) => none
    | some (s1, some pg) =>
      match findNode s1 pg with
      | none => none
      | some page =>
        if OrderedList.contains env keyData page.nodes then
          match removeNode env s1 pg keyData false with
          | none => none
          | some (s2, false) => some (s2, none)
          | some (s2, true) =>
            some ({ s2 with stats_ := { s2.stats_ with numEntries := s2.stats_.numEntries - 1 } },
              some pg)
        else some (s1, some pg)

/-- The end of `put`: the entry counter is incremented and the cache is
pruned. -/
def putDone (s : HBtreePrivate) : HBtreePrivate :=
  cachePrune { s with stats_ := { s.stats_ with numEntries := s.stats_.numEntries + 1 } }

/-- The offset bookkeeping of a node page: `lowerOffset` is two bytes per
entry and `upperOffset` is the sum, over the entries, of the node header, the
key and the value bytes stored on the page. -/
def offsetsKept (sizes : Sizes) (page : NodePage) : Prop :=
  page.info.lowerOffset = 2 * page.nodes.length ∧
  page.info.upperOffset =
    (page.nodes.map (fun e => sizes.nodeHeader + e.1.length + e.2.data.length)).sum

/-- The offset bookkeeping of a page can be computed. -/
def offsetsKeptDec (sizes : Sizes) (page : NodePage) : Decidable (offsetsKept sizes page) :=
  inferInstanceAs (Decidable (_ ∧ _))

/-- The two bytes that `memcpy` writes for a `quint16` (little endian). -/
def bytesOfU16 (n : Nat) : Bytes := [n % 256, n / 256 % 256]

/-- The eight bytes that `memcpy` writes for a `quint64` (little endian). -/
def bytesOfU64 (n : Nat) : Bytes := bytesOfU32 (n % 4294967296) ++ bytesOfU32 (n / 4294967296)

/-- The `quint64` that eight bytes hold. -/
def u64OfBytes (b : Bytes) : Nat := u32OfBytes (b.take 4) + 4294967296 * u32OfBytes (b.drop 4)

/-- Modelled from the spec: the value of the enum `PageInfo::Type` for a page
type, the inverse of `pageTypeOfTag`. -/
def tagOfPageType : PageType → Nat
  | PageType.Unknown => 0
  | PageType.Spec => 1
  | PageType.Marker => 2
  | PageType.Branch => 3
  | PageType.Leaf => 4
  | PageType.Overflow => 5

/-- Modelled from the spec: the sixteen bytes of the struct `PageInfo`, the
fields at the offsets that `deserializePageInfo` reads. -/
def bytesOfPageInfo (info : PageInfo) : Bytes :=
  bytesOfU32 info.checksum ++ bytesOfU32 (tagOfPageType info.type) ++ bytesOfU32 info.number
    ++ bytesOfU16 info.lowerOffset ++ bytesOfU16 info.upperOffset

/-- Modelled from the spec: the sixteen bytes of the struct `NodePage::Meta`:
the sync id (eight bytes), `historySize` and `flags` (two bytes each) and four
bytes of padding. -/
def bytesOfNodeMeta (meta : NodeMeta) : Bytes :=
  bytesOfU64 meta.syncId ++ bytesOfU16 meta.historySize ++ bytesOfU16 meta.flags ++ [0, 0, 0, 0]

/-- Modelled from the spec: the sixteen bytes of the struct `HistoryNode`: the
page number, four bytes of padding and the sync id. -/
def bytesOfHistoryNode (hn : HistoryNode) : Bytes :=
  bytesOfU32 hn.pageNumber ++ [0, 0, 0, 0] ++ bytesOfU64 hn.syncId

/-- Modelled from the spec: the eight bytes of the struct `NodeHeader`:
`flags`, `keySize` and the union `context`. -/
def bytesOfNodeHeader (flags keySize context : Nat) : Bytes :=
  bytesOfU16 flags ++ bytesOfU16 keySize ++ bytesOfU32 context

/-- A call `memcpy(buffer.data() + offset, src, n)` with the `n` bytes `src`;
without result when the bytes written leave the buffer. -/
def memcpyAt (buffer : Bytes) (offset : Nat) (src : Bytes) : Option Bytes :=
  if offset + src.length ≤ buffer.length then
    some (buffer.take offset ++ src ++ buffer.drop (offset + src.length))
  else none

/-- The function `qInitializedByteArray`. -/
def qInitializedByteArray (spec : Spec) : Bytes := List.replicate spec.pageSize 0

/-- The function `serializePageInfo`. -/
def serializePageInfo (info : PageInfo) (buffer : Bytes) : Option Bytes :=
  memcpyAt buffer 0 (bytesOfPageInfo info)

/-- The loop of `serializeNodePage` over the history: each node is copied to
`offset`, which moves on by `sizeof(HistoryNode)`. -/
def serializeHistory : List HistoryNode → Nat → Bytes → Option Bytes
  | [], _, buffer => some buffer
  | hn :: rest, offset, buffer =>
    match memcpyAt buffer offset (bytesOfHistoryNode hn) with
    | none => none
    | some buffer1 => serializeHistory rest (offset + 16) buffer1

/-- The loop of `serializeNodePage` over the entries. `upper` is the distance
of `upperPtr` from the end of the buffer and `i` the next index; `offset` is
where the indices begin. There is no result when `upperPtr` leaves the buffer. -/
def serializeNodes (type : PageType) (offset : Nat) :
    List (Bytes × NodeValue) → Nat → Nat → Bytes → Option Bytes
  | [], _, _, buffer => some buffer
  | (key, value) :: rest, i, upper, buffer =>
    let nodeSize := (value.data.length + key.length + 8) % 65536
    let upper1 := upper + nodeSize
    if upper1 > buffer.length then none
    else
      let upperPtr := buffer.length - upper1
      let context :=
        if value.isOverflow || type == PageType.Branch then value.overflowPage
        else value.data.length
      match memcpyAt buffer upperPtr (bytesOfNodeHeader value.flags key.length context) with
      | none => none
      | some buffer1 =>
        match memcpyAt buffer1 (upperPtr + 8) key with
        | none => none
        | some buffer2 =>
          match memcpyAt buffer2 (upperPtr + 8 + key.length) value.data with
          | none => none
          | some buffer3 =>
            match memcpyAt buffer3 (offset + 2 * i) (bytesOfU16 upper1) with
            | none => none
            | some buffer4 => serializeNodes type offset rest (i + 1) upper1 buffer4

/-- The function `serializeNodePage`; without result when a `memcpy` leaves
the buffer. -/
def serializeNodePage (spec : Spec) (page : NodePage) : Option Bytes :=
  match serializePageInfo page.info (qInitializedByteArray spec) with
  | none => none
  | some buffer1 =>
    match memcpyAt buffer1 16 (bytesOfNodeMeta page.meta) with
    | none => none
    | some buffer2 =>
      match serializeHistory page.history 32 buffer2 with
      | none => none
      | some buffer3 =>
        if page.info.hasPayload then
          serializeNodes page.info.type (32 + 16 * page.history.length) page.nodes 0 0 buffer3
        else some buffer3

/-- The body of the loop of `deserializeNodePage` over the entries: the
entry that index `i` points to. A pointer that would lie before the buffer is
the start of the buffer here and bytes behind the buffer are not read. -/
def deserializeNode (type : PageType) (buffer : Bytes) (offset i : Nat) : Bytes × NodeValue :=
  let index := u16OfBytes (slice buffer (offset + 2 * i) (offset + 2 * i + 2))
  let nodePtr := buffer.length - index
  let flags := u16OfBytes (slice buffer nodePtr (nodePtr + 2))
  let keySize := u16OfBytes (slice buffer (nodePtr + 2) (nodePtr + 4))
  let context := u32OfBytes (slice buffer (nodePtr + 4) (nodePtr + 8))
  let key := slice buffer (nodePtr + 8) (nodePtr + 8 + keySize)
  if flags % 2 == 1 || type == PageType.Branch then
    (key, { overflowPage := context,
            flags := if type == PageType.Leaf then NodeHeader_Overflow else 0 })
  else (key, { data := slice buffer (nodePtr + 8 + keySize) (nodePtr + 8 + keySize + context) })

/-- The history node that `deserializeNodePage` reads at `offset`. -/
def deserializeHistoryNode (buffer : Bytes) (offset : Nat) : HistoryNode :=
  { pageNumber := u32OfBytes (slice buffer offset (offset + 4)),
    syncId := u64OfBytes (slice buffer (offset + 8) (offset + 16)) }

/-- The function `deserializeNodePage`. The fields of the result that are
not read from the buffer have the values of a new `NodePage`. -/
def deserializeNodePage (buffer : Bytes) : NodePage :=
  let info := deserializePageInfo buffer
  let meta : NodeMeta :=
    { syncId := u64OfBytes (slice buffer 16 24),
      historySize := u16OfBytes (slice buffer 24 26),
      flags := u16OfBytes (slice buffer 26 28) }
  let history := (List.range meta.historySize).map (fun i => deserializeHistoryNode buffer (32 + 16 * i))
  let offset := 32 + 16 * meta.historySize
  let nodes :=
    if info.hasPayload then
      (List.range (info.lowerOffset / 2)).map (deserializeNode info.type buffer offset)
    else []
  { info := info, meta := meta, history := history, nodes := nodes }

/-- The function `serializeOverflowPage`; without result when a `memcpy`
leaves the buffer. -/
def serializeOverflowPage (spec : Spec) (page : OverflowPage) : Option Bytes :=
  match serializePageInfo page.info (qInitializedByteArray spec) with
  | none => none
  | some buffer1 =>
    match memcpyAt buffer1 16 (bytesOfNodeHeader 0 page.data.length page.nextPage) with
    | none => none
    | some buffer2 => memcpyAt buffer2 24 page.data

/-- The function `deserializeOverflowPage`. -/
def deserializeOverflowPage (buffer : Bytes) : OverflowPage :=
  let keySize := u16OfBytes (slice buffer 18 20)
  { info := deserializePageInfo buffer,
    nextPage := u32OfBytes (slice buffer 20 24),
    data := slice buffer 24 (24 + keySize) }

/-- What the page image keeps of an entry: the key, the value bytes or the
overflow or child page number, and the overflow flag. -/
def storedEntry (type : PageType) (e : Bytes × NodeValue) : Bytes × (Bytes ⊕ Nat) × Bool :=
  if e.2.isOverflow || type == PageType.Branch then (e.1, Sum.inr e.2.overflowPage, e.2.isOverflow)
  else (e.1, Sum.inl e.2.data, false)

/-- The bytes `w` stand at offset `x` of the buffer. -/
def holds (buffer : Bytes) (x : Nat) (w : Bytes) : Prop :=
  ∀ j, j < w.length → buffer[x + j]? = w[j]?

/-- The sum of the sizes of the entries on a page image: the node header, the
key and the value bytes of each. -/
def recordsSize (nodes : List (Bytes × NodeValue)) : Nat :=
  (nodes.map (fun e => 8 + e.1.length + e.2.data.length)).sum

/-- The entries `nodes` stand in the buffer as `serializeNodePage` writes
them, from index `i` on and below the distance `upper` from the end. -/
def recordsAt (type : PageType) (offset : Nat) (buffer : Bytes) :
    List (Bytes × NodeValue) → Nat → Nat → Prop
  | [], _, _ => True
  | (key, value) :: rest, i, upper =>
    holds buffer (offset + 2 * i) (bytesOfU16 (upper + (8 + key.length + value.data.length))) ∧
    holds buffer (buffer.length - (upper + (8 + key.length + value.data.length)))
      (bytesOfNodeHeader value.flags key.length
        (if value.isOverflow || type == PageType.Branch then value.overflowPage
         else value.data.length) ++ key ++ value.data) ∧
    recordsAt type offset buffer rest (i + 1) (upper + (8 + key.length + value.data.length))

/-- The history nodes `history` stand in the buffer from index `j` on. -/
def historyAt (buffer : Bytes) : List HistoryNode → Nat → Prop
  | [], _ => True
  | hn :: rest, j => holds buffer (32 + 16 * j) (bytesOfHistoryNode hn) ∧ historyAt buffer rest (j + 1)

/-- The fields of a node page hold values of their C types: 32-bit checksum,
page numbers, value sizes and child or overflow page numbers, 16-bit offsets,
sizes and flags, 64-bit sync ids. -/
def NodePage.fieldsFit (p : NodePage) : Prop :=
  p.info.checksum < 4294967296 ∧ p.info.number < 4294967296
  ∧ p.info.lowerOffset < 65536 ∧ p.info.upperOffset < 65536
  ∧ p.meta.syncId < 18446744073709551616 ∧ p.meta.historySize < 65536 ∧ p.meta.flags < 65536
  ∧ (∀ hn ∈ p.history, hn.pageNumber < 4294967296 ∧ hn.syncId < 18446744073709551616)
  ∧ (∀ e ∈ p.nodes, e.2.flags < 65536 ∧ e.2.overflowPage < 4294967296)

/-- The fields of an overflow page hold values of their C types and the data
has a 16-bit size. -/
def OverflowPage.fieldsFit (o : OverflowPage) : Prop :=
  o.info.checksum < 4294967296 ∧ o.info.number < 4294967296
  ∧ o.info.lowerOffset < 65536 ∧ o.info.upperOffset < 65536
  ∧ o.nextPage < 4294967296 ∧ o.data.length < 65536

/-- What a search and `get` read of a page: of a node page the type and the
entries, of an overflow page the data and the link to the next page. -/
def Page.ess : Page → Page
  | Page.node p => Page.node { info := { type := p.info.type }, nodes := p.nodes, dirty := false }
  | Page.overflow p =>
    Page.overflow { info := {}, data := p.data, nextPage := p.nextPage, dirty := false }

/-- The sync id of a cached page; an overflow page has none. -/
def Page.syncId : Page → Nat
  | Page.node p => p.meta.syncId
  | Page.overflow _ => 0

/-- The parent pointer of a cached page; an overflow page has none. -/
def Page.parentPage : Page → Option Nat
  | Page.node p => p.parent
  | Page.overflow _ => none

/-- The history of a cached page; an overflow page has none. -/
def Page.historyNodes : Page → List HistoryNode
  | Page.node p => p.history
  | Page.overflow _ => []

/-- A snapshot with its reader and the writer beside it: the pages `T` of the
tree and of its overflow chains, what each of them holds (`v`), the root, the
two transactions, the id of the last sync, and the fuel with which every
search of the snapshot ends. The field `top` is the root of the snapshot as
long as the writer may still have it as its own root, and `none` once the root
of the writer is outside the snapshot. -/
structure Shot where
  T : List Nat
  v : View
  root : Nat
  top : Option Nat
  reader : Nat
  writer : Nat
  lastSynced : Nat
  fuel : Nat

/-- The page object `pg` found under the page number `x` leaves the snapshot
`c` alone. If `x` is a page of the snapshot, `pg` reads like that page, is
clean and was synced (so that `touchNodePage` copies it). While the writer is
open (`live`), a history entry that names a page of the snapshot is on a dirty
page and has a sync id up to the last sync (so that neither `collectHistory`
nor `removeFromTree` frees the page). If `x` is outside the snapshot, or is
the root that the writer may still have, the parent pointer of `pg` is outside
the snapshot (so that `touchNodePage`, `split` and `rebalance` write outside).
If `x` is outside the snapshot so is the page number that `pg` carries, and a
page of the snapshot carries its own number (so that `commit` writes it where
it is). -/
def PageOk (c : Shot) (live : Bool) (x : Nat) (pg : Page) : Prop :=
  (x ∈ c.T → (c.v x).map Page.ess = some pg.ess ∧ pg.dirty = false ∧ pg.syncId ≤ c.lastSynced) ∧
  (live = true → ∀ hn ∈ pg.historyNodes, hn.pageNumber ∈ c.T →
    pg.dirty = true ∧ hn.syncId ≤ c.lastSynced) ∧
  ((x ∉ c.T ∨ some x = c.top) → ∀ q ∈ pg.parentPage, q ∉ c.T) ∧
  (x ∉ c.T → pg.info.number ∉ c.T) ∧
  (x ∈ c.T → pg.info.number = x)

/-- The state `s` leaves the snapshot `c` alone: every page in the cache and
every page image in the file satisfies `PageOk`; the pages of the snapshot are
in the file, are not collectible and are below `lastPage_`; the root of the
writer is outside the snapshot unless it is the page `top`; the
reader has the root of the snapshot; and, while the writer is open, it is the
registered writer. -/
structure Snap (c : Shot) (live : Bool) (s : HBtreePrivate) : Prop where
  cacheOk : ∀ x pg, cacheFind s x = some pg → PageOk c live x pg
  fileOk : ∀ x pf, readPage s x = some pf → PageOk c live x pf
  fileHas : ∀ y ∈ c.T, readPage s y ≠ none
  settled : ∀ y ∈ c.T, y ∉ s.collectiblePages_ ∧ y < s.lastPage_
  rootW : ∀ r0, transactionRoot s c.writer = some r0 → r0 ∈ c.T → some r0 = c.top
  rootR : transactionRoot s c.reader = some c.root
  writing : live = true → s.writeTransaction_ = some c.writer
  synced : s.lastSyncedId_ = c.lastSynced
  fueled : c.fuel ≤ s.lastPage_ + 1

/-- The snapshot once the root of the writer is outside of it. -/
def Shot.lower (c : Shot) : Shot := { c with top := none }

/-- The environment of the examples: default struct sizes, no comparator. -/
def exEnv : Env := {}

/-- The state after `open` on an empty file. -/
def exNew : HBtreePrivate :=
  match openNew exEnv 4096 1024 25 with
  | some (s, _) => s
  | none => {}

/-- The state of a step that returns a Boolean; the empty state stands for a
step without result. -/
def exState (r : Option (HBtreePrivate × Bool)) : HBtreePrivate :=
  match r with
  | some (s, _) => s
  | none => {}

/-- A value of `len` bytes `c`. -/
def exValue (len c : Nat) : Bytes := List.replicate len c

/-- A new file with one read transaction (number 0) open. -/
def exReader : HBtreePrivate := (beginTransaction exNew TransactionType.ReadOnly).1

/-- A new file with one write transaction (number 0) open. -/
def exWriter : HBtreePrivate := (beginTransaction exNew TransactionType.ReadWrite).1

/-- The write transaction of `exWriter` after `put("k", "v")`. -/
def exPut : HBtreePrivate := exState (put exEnv exWriter 0 [107] [118])

/-- The state after the commit of that transaction with tag 7. -/
def exCommitted : HBtreePrivate := exState (commit exPut 0 7)

/-- The write transaction of `exWriter` after a `put` with a key of 256
bytes. -/
def exLongKey : HBtreePrivate := exState (put exEnv exWriter 0 (exValue 256 107) [118])

/-- The value that `get` returns, `none` for a step without result. -/
def exGet (r : Option (HBtreePrivate × Bytes)) : Option Bytes := r.map Prod.snd

/-- The Boolean that a step returns, `none` for a step without result. -/
def exOk (r : Option (HBtreePrivate × Bool)) : Option Bool := r.map Prod.snd

/-- The state that `get` leaves; the empty state stands for a step without
result. -/
def exAfter (r : Option (HBtreePrivate × Bytes)) : HBtreePrivate :=
  match r with
  | some (s, _) => s
  | none => {}

/-- The state that `abort` leaves. -/
def exAborted (r : Option HBtreePrivate) : HBtreePrivate := r.getD {}

/-- The puts of the one-byte keys `k` with the values of 1000 bytes `k`. -/
def exPuts (t : Nat) : List Nat → HBtreePrivate → HBtreePrivate
  | [], s => s
  | k :: ks, s => exPuts t ks (exState (put exEnv s t [k] (exValue 1000 k)))

/-- The dels of one-byte keys. -/
def exDels (t : Nat) : List Nat → HBtreePrivate → HBtreePrivate
  | [], s => s
  | k :: ks, s => exDels t ks (exState (del exEnv s t [k]))

/-! ### An aborted put, then a put in a later transaction

Transaction 0 puts "10" and "2" with values of 1025 bytes, deletes "10" and
commits. Transaction 1 puts "2" again and is aborted. Transaction 2 commits
without a change, and the tree is synced. Transaction 3 then puts "20". -/

/-- Transaction 0 after `put("10", 1025 bytes 1)`. -/
def exA1 : HBtreePrivate := exState (put exEnv exWriter 0 [49, 48] (exValue 1025 1))

/-- Transaction 0 after `put("2", 1025 bytes 2)`. -/
def exA2 : HBtreePrivate := exState (put exEnv exA1 0 [50] (exValue 1025 2))

/-- Transaction 0 after `del("10")`. -/
def exA3 : HBtreePrivate := exState (del exEnv exA2 0 [49, 48])

/-- After the commit of transaction 0. -/
def exA4 : HBtreePrivate := exState (commit exA3 0 0)

/-- Write transaction 1 begun. -/
def exA5 : HBtreePrivate := (beginTransaction exA4 TransactionType.ReadWrite).1

/-- Transaction 1 after `put("2", 1025 bytes 3)`. -/
def exA6 : HBtreePrivate := exState (put exEnv exA5 1 [50] (exValue 1025 3))

/-- After the abort of transaction 1. -/
def exA7 : HBtreePrivate := exAborted (abort exA6 1)

/-- Write transaction 2 begun. -/
def exA8 : HBtreePrivate := (beginTransaction exA7 TransactionType.ReadWrite).1

/-- After the commit of transaction 2. -/
def exA9 : HBtreePrivate := exState (commit exA8 2 0)

/-- After `sync`. -/
def exA10 : HBtreePrivate := exState (sync exEnv exA9)

/-- Write transaction 3 begun. -/
def exA11 : HBtreePrivate := (beginTransaction exA10 TransactionType.ReadWrite).1

/-- Transaction 3 after `get("2")`. -/
def exA12 : HBtreePrivate := exAfter (get exEnv exA11 (some 3) [50])

/-- Transaction 3 after `put("20", 1025 bytes 4)`. -/
def exA13 : HBtreePrivate := exState (put exEnv exA12 3 [50, 48] (exValue 1025 4))

/-! ### Aborted dels, then a del in a later transaction

Transaction 0 puts the keys "a" to "i" with values of 1000 bytes and commits;
the tree (root 4 over the leaves 3, 5, 6 and 7) is synced. Transaction 1
deletes "a", "b" and "c" and is aborted. Transaction 2 commits without a
change, and the tree is synced. Transaction 3 then deletes "g". -/

/-- Transaction 0 after the puts of "a" to "i". -/
def exB1 : HBtreePrivate :=
  exPuts 0 [97, 98, 99, 100, 101, 102, 103, 104, 105] exWriter

/-- After the commit of transaction 0. -/
def exB2 : HBtreePrivate := exState (commit exB1 0 0)

/-- After `sync`. -/
def exB3 : HBtreePrivate := exState (sync exEnv exB2)

/-- Write transaction 1 begun. -/
def exB4 : HBtreePrivate := (beginTransaction exB3 TransactionType.ReadWrite).1

/-- Transaction 1 after the dels of "a", "b" and "c". -/
def exB5 : HBtreePrivate := exDels 1 [97, 98, 99] exB4

/-- After the abort of transaction 1. -/
def exB6 : HBtreePrivate := exAborted (abort exB5 1)

/-- Write transaction 2 begun. -/
def exB7 : HBtreePrivate := (beginTransaction exB6 TransactionType.ReadWrite).1

/-- After the commit of transaction 2. -/
def exB8 : HBtreePrivate := exState (commit exB7 2 0)

/-- After the second `sync`. -/
def exB9 : HBtreePrivate := exState (sync exEnv exB8)

/-- Write transaction 3 begun. -/
def exB10 : HBtreePrivate := (beginTransaction exB9 TransactionType.ReadWrite).1

/-- Transaction 3 after `get("e")`. -/
def exB11 : HBtreePrivate := exAfter (get exEnv exB10 (some 3) [101])

/-- Transaction 3 after `del("g")`. -/
def exB12 : HBtreePrivate := exState (del exEnv exB11 3 [103])

/-! ### A reader and a writer on a committed, unsynced tree -/

/-- After `put("foo", [1])` and `commit(42)` of transaction 0. -/
def exC1 : HBtreePrivate :=
  exState (commit (exState (put exEnv exWriter 0 [102, 111, 111] [1])) 0 42)

/-- After the commit of the transaction of `exPut`. -/
def exE1 : HBtreePrivate := exState (commit exPut 0 0)

/-- Write transaction 1 begun. -/
def exE2 : HBtreePrivate := (beginTransaction exE1 TransactionType.ReadWrite).1

/-- Transaction 1 after `del("k")`. -/
def exE3 : HBtreePrivate := exState (del exEnv exE2 1 [107])

/-- After the abort of transaction 1. -/
def exE4 : HBtreePrivate := exAborted (abort exE3 1)

/-- Write transaction 2 begun. -/
def exE5 : HBtreePrivate := (beginTransaction exE4 TransactionType.ReadWrite).1

/-- Transaction 2 after `put("k", [1])`. -/
def exE6 : HBtreePrivate := exState (put exEnv exE5 2 [107] [1])

/-- Transaction 2 after `put("k", 1025 bytes 2)`. -/
def exE7 : HBtreePrivate := exState (put exEnv exE6 2 [107] (exValue 1025 2))

/-! ### The same run without the aborted transaction

From `exA4` on: a transaction that commits without a change, `sync`, and a
transaction that gets "2" and puts "20". -/

/-- Write transaction 1 begun. -/
def exG1 : HBtreePrivate := (beginTransaction exA4 TransactionType.ReadWrite).1

/-- After the commit of transaction 1. -/
def exG2 : HBtreePrivate := exState (commit exG1 1 0)

/-- After `sync`. -/
def exG3 : HBtreePrivate := exState (sync exEnv exG2)

/-- Write transaction 2 begun. -/
def exG4 : HBtreePrivate := (beginTransaction exG3 TransactionType.ReadWrite).1

/-- Transaction 2 after `get("2")`. -/
def exG5 : HBtreePrivate := exAfter (get exEnv exG4 (some 2) [50])

/-- Transaction 2 after `put("20", 1025 bytes 4)`. -/
def exG6 : HBtreePrivate := exState (put exEnv exG5 2 [50, 48] (exValue 1025 4))

/-! ### A sync with a residue page, then `open` with sync marker 1 corrupted

Transaction 0 puts "1" with a value of 1025 bytes (leaf 3, overflow page 4)
and commits; the tree is synced. Transaction 1 puts "1" again (leaf 5,
overflow page 6; page 4 goes to the residue set) and commits with tag 7; the
tree is synced and the file is closed. -/

/-- Transaction 0 after `put("1", 1025 bytes 1)`. -/
def exH1 : HBtreePrivate := exState (put exEnv exWriter 0 [49] (exValue 1025 1))

/-- After the commit of transaction 0. -/
def exH2 : HBtreePrivate := exState (commit exH1 0 0)

/-- After `sync`. -/
def exH3 : HBtreePrivate := exState (sync exEnv exH2)

/-- Write transaction 1 begun. -/
def exH4 : HBtreePrivate := (beginTransaction exH3 TransactionType.ReadWrite).1

/-- Transaction 1 after `put("1", 1025 bytes 2)`. -/
def exH5 : HBtreePrivate := exState (put exEnv exH4 1 [49] (exValue 1025 2))

/-- After the commit of transaction 1 with tag 7. -/
def exH6 : HBtreePrivate := exState (commit exH5 1 7)

/-- After the second `sync`. -/
def exH7 : HBtreePrivate := exState (sync exEnv exH6)

/-- The handle after `close`. -/
def exH8 : HBtreePrivate := (close exEnv exH7 true).getD {}

/-- The file opened again as it is. -/
def exH9 : HBtreePrivate := exState (openExisting exEnv exH8)

/-- The file opened again with sync marker 1 corrupted. -/
def exH10 : HBtreePrivate := exState (openExisting exEnv (corruptPage exH8 1))

/-- Write transaction 2 begun on the file opened from sync marker 2. -/
def exH11 : HBtreePrivate := (beginTransaction exH10 TransactionType.ReadWrite).1

/-- Transaction 2 after `put("2", "x")`. -/
def exH12 : HBtreePrivate := exState (put exEnv exH11 2 [50] [120])

/-- After the commit of transaction 2. -/
def exH13 : HBtreePrivate := exState (commit exH12 2 8)

/-- The handle after the second `close`. -/
def exH14 : HBtreePrivate := (close exEnv exH13 true).getD {}

/-! ### The ten commits of the corruption tests, then `close` -/

/-- One pass of the loop of the corruption tests: a write transaction puts
`key` (as key and as value) and commits with tag `n`. -/
def exPutCommit (s : HBtreePrivate) (n : Nat) (key : Bytes) : HBtreePrivate :=
  match beginTransaction s TransactionType.ReadWrite with
  | (s1, some t) => exState (commit (exState (put exEnv s1 t key key)) t n)
  | (_, none) => {}

/-- The state after ten commits: the keys "0" to "9", one write transaction
each. -/
def exJ1 : HBtreePrivate :=
  (List.range 10).foldl (fun s i => exPutCommit s i [48 + i]) exNew

/-- The handle after `close`; the file stays. -/
def exJ2 : HBtreePrivate := (close exEnv exJ1 true).getD {}

/-- The closed file with the two sync markers corrupted. -/
def exJ3 : HBtreePrivate := corruptPage (corruptPage exJ2 1) 2

/-! ### Keys of about a thousand bytes

A key may be as long as the overflow threshold, so a page holds few entries:
four on a leaf and, beside the empty first key, three on a branch. -/

/-- The key of 1000 bytes that begins with the byte `d`. -/
def exWideKey (d : Nat) : Bytes := d :: exValue 999 120

/-- The puts of the keys `exWideKey k` with the one-byte values `k`. -/
def exWidePuts (t : Nat) : List Nat → HBtreePrivate → HBtreePrivate
  | [], s => s
  | k :: ks, s => exWidePuts t ks (exState (put exEnv s t (exWideKey k) [k]))

/-- Transaction 0 after the puts of the ten keys that begin with "A" to
"J": the root is branch 4 with the leaves 3, 5, 6 and 7. -/
def exR1 : HBtreePrivate := exWidePuts 0 [65, 66, 67, 68, 69, 70, 71, 72, 73, 74] exWriter

/-- Transaction 0 after the put of the key that begins with "K": leaf 7 is
split, branch 4 has no room for the separator and is split as well. -/
def exR2 : HBtreePrivate := exState (put exEnv exR1 0 (exWideKey 75) [75])

/-- The keys (first byte of each) and child pages of the cached node page
`pg`. -/
def exEntries (s : HBtreePrivate) (pg : Nat) : Option (List (Bytes × Nat)) :=
  (findNode s pg).map (fun p => p.nodes.map (fun e => (e.1.take 2, e.2.overflowPage)))

/-! ### A leaf split that overfills the right page -/

/-- Transaction 0 after `put("1", 739 bytes)`. -/
def exN1 : HBtreePrivate := exState (put exEnv exWriter 0 [49] (exValue 739 1))

/-- Transaction 0 after `put("2", 739 bytes)`. -/
def exN2 : HBtreePrivate := exState (put exEnv exN1 0 [50] (exValue 739 2))

/-- Transaction 0 after the put of the 1000-byte key "3xx…" with 1000
bytes. -/
def exN3 : HBtreePrivate := exState (put exEnv exN2 0 (exWideKey 51) (exValue 1000 3))

/-- Transaction 0 after `put("4", 527 bytes)`: the root leaf 3 has 16 bytes
left. -/
def exN4 : HBtreePrivate := exState (put exEnv exN3 0 [52] (exValue 527 4))

/-- Transaction 0 after the put of the 1000-byte key "5xx…" with 1000
bytes. -/
def exN5 : HBtreePrivate := exState (put exEnv exN4 0 (exWideKey 53) (exValue 1000 5))

/-- The bytes that a cached node page takes of its block: header with
history, index and entries. -/
def exPageBytes (s : HBtreePrivate) (pg : Nat) : Option Nat :=
  (findNode s pg).map (fun p =>
    exEnv.sizes.pageInfo + exEnv.sizes.nodeMeta + p.history.length * exEnv.sizes.historyNode
      + p.info.upperOffset + p.info.lowerOffset)

/-! ### A merge of branch pages that breaks the order of the tree

Thirty-two puts and dels of keys of about a thousand bytes in one write
transaction on a new file; every call returns true. The keys are written by
their first bytes: "1x" stands for "1" followed by 990 bytes "x", so that
"18" < "19" < "1w" < "1x" < "20".

After the del of "26" branch 14 is left with one entry and borrows the entry
(19 -> leaf 5) from branch 4; `moveNode` then rewrites the separator of branch
14 on the root to "20", the lowest key below it, and the first key of branch
14 stays "19". The puts of "1w" and "1x" therefore go to branch 4 and its last
leaf 13. With the del of "10" branch 4 falls below the fill threshold and
`mergePages` copies the entries of branch 14 into it, the stale key "19"
included. -/

/-- The key that begins with the bytes `d`, followed by 990 bytes "x". -/
def exKey (d : Bytes) : Bytes := d ++ exValue 990 120

/-- A run of puts and dels in transaction `t`: `(d, n + 1)` is the put of
`exKey d` with `n + 1` zero bytes, `(d, 0)` the del of `exKey d`. The run has
a result only when every call returns true. -/
def exRun (t : Nat) : List (Bytes × Nat) → HBtreePrivate → Option HBtreePrivate
  | [], s => some s
  | (d, 0) :: ops, s =>
    match del exEnv s t (exKey d) with
    | some (s1, true) => exRun t ops s1
    | _ => none
  | (d, n + 1) :: ops, s =>
    match put exEnv s t (exKey d) (exValue (n + 1) 0) with
    | some (s1, true) => exRun t ops s1
    | _ => none

/-- The first thirty-one calls of the run. -/
def exOps : List (Bytes × Nat) :=
  [([52, 51], 4), ([49, 50], 3), ([51, 49], 2), ([48], 1), ([49, 57], 8), ([51, 56], 7),
   ([55], 6), ([50, 54], 5), ([51, 51], 2), ([50], 1), ([50, 51], 8), ([49, 49], 6),
   ([49, 56], 3), ([50, 53], 8), ([49, 51], 6), ([49], 4), ([50, 48], 3), ([50, 55], 8),
   ([49, 53], 6), ([49, 48], 1), ([50, 57], 8), ([49, 55], 6), ([50, 50], 8),
   ([49, 57], 0), ([49], 0), ([50, 53], 0), ([50, 54], 0), ([49, 56], 0),
   ([49, 119], 3), ([49], 7), ([49, 50], 0)]

/-- Transaction 0 after the thirty-one calls. -/
def exT1 : HBtreePrivate := (exRun 0 exOps exWriter).getD {}

/-- Transaction 0 after the last call, `del` of the key "10". -/
def exT2 : HBtreePrivate := exState (del exEnv exT1 0 (exKey [49, 48]))

/-- The keys on the leaves below page `pg`, from left to right. -/
def exSubtreeKeys (s : HBtreePrivate) : Nat → Nat → List Bytes
  | 0, _ => []
  | fuel + 1, pg =>
    match (getNodePage s pg).2 with
    | none => []
    | some p =>
      if p.info.type = PageType.Leaf then p.nodes.map Prod.fst
      else (p.nodes.map (fun e => exSubtreeKeys s fuel e.2.overflowPage)).flatten

/-- The branch ordering invariant below page `pg`: for every branch page and
every slot `i`, each key on the leaves below the child is not less than the
key of the slot and is less than the key of slot `i + 1`, if there is one. -/
def exBranchOrdered (s : HBtreePrivate) : Nat → Nat → Bool
  | 0, _ => true
  | fuel + 1, pg =>
    match (getNodePage s pg).2 with
    | none => true
    | some p =>
      if p.info.type = PageType.Leaf then true
      else
        (List.range p.nodes.length).all (fun i =>
          match p.nodes.get? i with
          | none => true
          | some e =>
            (exSubtreeKeys s fuel e.2.overflowPage).all (fun k =>
              !NodeKey.lt exEnv k e.1 &&
              (match p.nodes.get? (i + 1) with
               | some e2 => NodeKey.lt exEnv k e2.1
               | none => true)) &&
            exBranchOrdered s fuel e.2.overflowPage)

/-- The client loop `while (cursor.next())`, or the same with `previous`, cut
off after `fuel` calls: the first two bytes of the keys that the calls
deliver, and whether the loop has ended with a call that returned false. -/
def exCursorLoop (op : CursorOp) : Nat → HBtreePrivate → HBtreeCursor → Option (List Bytes × Bool)
  | 0, _, _ => some ([], false)
  | fuel + 1, s, c =>
    match doCursorOp exEnv s c op [] with
    | none => none
    | some (_, _, false) => some ([], true)
    | some (s1, c1, true) =>
      (exCursorLoop op fuel s1 c1).map (fun r => (c1.key_.take 2 :: r.1, r.2))

/-- What a cursor call leaves to the client: the Boolean returned, whether the
cursor is valid, the first two bytes of its key and its value. -/
def exCursor (r : Option (HBtreePrivate × HBtreeCursor × Bool)) :
    Option (Bool × Bool × Bytes × Bytes) :=
  r.map (fun x => (x.2.2, x.2.1.valid_, x.2.1.key_.take 2, x.2.1.value_))

/-! ### Page buffers -/

/-- The image of leaf page 0 with the entry ("k", "v"): `PageInfo` with the
offsets 2 and 10, the meta data with sync id 1, one index, the free bytes and
the entry. -/
def exLeafImage : Bytes :=
  [0, 0, 0, 0, 4, 0, 0, 0, 0, 0, 0, 0, 2, 0, 10, 0] ++
  [1, 0, 0, 0, 0, 0, 0, 0, 0, 0, 0, 0, 0, 0, 0, 0] ++
  [10, 0] ++ exValue 4052 0 ++ [0, 0, 1, 0, 1, 0, 0, 0, 107, 118]

/-- A buffer of the page size with the type `Leaf`, the page number 0 and an
`upperOffset` of 4096, the whole page. -/
def exFullUpper : Bytes :=
  [0, 0, 0, 0, 4, 0, 0, 0, 0, 0, 0, 0, 0, 0, 0, 16] ++ exValue 4080 0

/-! ### Split indices -/

/-- A branch page with five entries, as the copy that `split` makes of branch
4 of `exR1` with the new separator. -/
def exBranchCopy : NodePage :=
  { info := { type := PageType.Branch, number := 4 },
    nodes := [([], { overflowPage := 3 }), (exWideKey 67, { overflowPage := 5 }),
              (exWideKey 69, { overflowPage := 6 }), (exWideKey 71, { overflowPage := 7 }),
              (exWideKey 73, { overflowPage := 8 })] }

/-- A leaf page with three entries of 760 bytes each, the 16 bytes reserved
for a history entry included. -/
def exLeafCopy : NodePage :=
  { info := { type := PageType.Leaf, number := 3 },
    nodes := [([49], { data := exValue 733 1 }), ([50], { data := exValue 733 2 }),
              ([51], { data := exValue 733 3 })] }

/-! ### A page touched for the second time after a sync

Transaction 0 puts five keys with 1000 bytes each (root branch 4, leaves 3 and
5) and commits; sync. Transaction 1 puts "a" again, which copies the root to
page 6 and the leaf to page 7, and commits; sync. Transaction 2 is begun. -/

/-- Transaction 0 after the puts of "a" to "e". -/
def exU1 : HBtreePrivate := exPuts 0 [97, 98, 99, 100, 101] exWriter

/-- After the commit of transaction 0. -/
def exU2 : HBtreePrivate := exState (commit exU1 0 0)

/-- After the first `sync`. -/
def exU3 : HBtreePrivate := exState (sync exEnv exU2)

/-- Write transaction 1 begun. -/
def exU4 : HBtreePrivate := (beginTransaction exU3 TransactionType.ReadWrite).1

/-- Transaction 1 after `put("a", [1])`. -/
def exU5 : HBtreePrivate := exState (put exEnv exU4 1 [97] [1])

/-- After the commit of transaction 1. -/
def exU6 : HBtreePrivate := exState (commit exU5 1 0)

/-- After the second `sync`. -/
def exU7 : HBtreePrivate := exState (sync exEnv exU6)

/-- Write transaction 2 begun. -/
def exU8 : HBtreePrivate := (beginTransaction exU7 TransactionType.ReadWrite).1

/-- The state that `touchNodePage` leaves; the empty state stands for a call
without result. -/
def exTouched (r : Option (HBtreePrivate × Nat)) : HBtreePrivate :=
  match r with
  | some (s, _) => s
  | none => {}

/-- Transaction 2 after `touchNodePage` of the root, page 6, which is copied
to page 4. -/
def exU9 : HBtreePrivate := exTouched (touchNodePage exEnv exU8 6)

/-- A cached node page, or an empty leaf when there is none. -/
def exNode (s : HBtreePrivate) (pg : Nat) : NodePage :=
  match findNode s pg with
  | some p => p
  | none => { info := { type := PageType.Leaf } }

/-- The state in which `searchPageRoot` calls `touchNodePage` for leaf 7: the
leaf has its parent pointer and parent key set to the slot of the new root. -/
def exU10 : HBtreePrivate := setNode exU9 7 { exNode exU9 7 with parent := some 4, parentKey := [] }

/-- The history of a cached node page with its recorded size. -/
def exHistory (s : HBtreePrivate) (pg : Nat) : Option (List (Nat × Nat) × Nat) :=
  (findNode s pg).map (fun p => (p.history.map (fun h => (h.pageNumber, h.syncId)), p.meta.historySize))

/-- The puts of one-byte keys with values of 1025 bytes, one overflow page
each. -/
def exBigPuts (t : Nat) : List Nat → HBtreePrivate → HBtreePrivate
  | [], s => s
  | k :: ks, s => exBigPuts t ks (exState (put exEnv s t [k] (exValue 1025 k)))

/-- Write transaction 1 of `exH4` after twenty puts of values of 1025 bytes:
the cache holds the dirty leaf 5 and twenty dirty overflow pages; the clean
leaf 3 of the synced tree has been evicted. -/
def exQ1 : HBtreePrivate := exBigPuts 1 (List.range' 97 20) exH4

/-- The state `exQ1` after `getNodePage(3)`: the synced leaf 3 is read from
the file and is the most recently used page. -/
def exQ2 : HBtreePrivate := (getNodePage exQ1 3).1

/-- Transaction 0 after `put("1", 1025 bytes 1)`, with a file that refuses the
write of page 4. -/
def exM1 : HBtreePrivate := { exH1 with failWrites := [4] }

/-- The state that the commit of transaction 0 leaves. -/
def exM2 : HBtreePrivate := exState (commit exM1 0 7)

/-- The state after `open` on an empty file with an overflow threshold of
1500 bytes. -/
def exY0 : HBtreePrivate :=
  match openNew exEnv 4096 1500 25 with
  | some (s, _) => s
  | none => {}

/-- Write transaction 0 begun. -/
def exY1 : HBtreePrivate := (beginTransaction exY0 TransactionType.ReadWrite).1

/-- Transaction 0 after `put("a", 1080 bytes)`: the root leaf 3 has 2973 bytes
left. -/
def exY2 : HBtreePrivate := exState (put exEnv exY1 0 [97] (exValue 1080 1))

/-- The copy of leaf 3 that `split` makes for the key of 1500 bytes "b" with a
value of 1500 bytes: the entry of "a" and the new entry. -/
def exYCopy : NodePage :=
  { exNode exY2 3 with
    nodes := OrderedList.insert exEnv (exValue 1500 98) { data := exValue 1500 2 }
      (exNode exY2 3).nodes }

/-- The emptied left page of that split. -/
def exYLeft : NodePage :=
  { exNode exY2 3 with
    nodes := [], info := { (exNode exY2 3).info with lowerOffset := 0, upperOffset := 0 } }

/-- A leaf copy with five entries, each a key of 1000 bytes with a value of
one byte: four entries fill a leaf of 4 KiB and the fifth does not fit. -/
def exYFull : NodePage :=
  { info := { type := PageType.Leaf, number := 7 },
    nodes := [(exWideKey 71, { data := [71] }), (exWideKey 72, { data := [72] }),
              (exWideKey 73, { data := [73] }), (exWideKey 74, { data := [74] }),
              (exWideKey 75, { data := [75] })] }

/-- Transaction 0 after the put of the 1000-byte key "a…" with 1010 bytes. -/
def exZ1 : HBtreePrivate := exState (put exEnv exWriter 0 (exWideKey 97) (exValue 1010 1))

/-- Transaction 0 after the put of the 1000-byte key "b…" with 1010 bytes: the
root leaf 3 has 24 bytes left. -/
def exZ2 : HBtreePrivate := exState (put exEnv exZ1 0 (exWideKey 98) (exValue 1010 2))

/-- Transaction 0 after the put of the 1010-byte key "c…" with 1016 bytes: the
leaf is split, "a…" stays on leaf 3, "b…" and "c…" are on the new leaf 5,
which has 8 bytes left. -/
def exZ3 : HBtreePrivate := exState (put exEnv exZ2 0 (99 :: exValue 1009 120) (exValue 1016 3))

/-- Transaction 0 after `del` of the key "a…". -/
def exZ4 : HBtreePrivate := exState (del exEnv exZ3 0 (exWideKey 97))

/-- A run of puts in transaction 0: `(d, n)` is the put of the key `d`
followed by 1000 bytes "x" with `n` zero bytes. The run has a result only when
every call returns true. -/
def exZRun : List (Bytes × Nat) → HBtreePrivate → Option HBtreePrivate
  | [], s => some s
  | (d, n) :: ops, s =>
    match put exEnv s 0 (d ++ exValue 1000 120) (exValue n 0) with
    | some (s1, true) => exZRun ops s1
    | _ => none

/-- Fourteen puts. -/
def exZOps : List (Bytes × Nat) :=
  [([48], 33), ([53, 57], 64), ([53, 56], 95), ([53, 55], 126), ([53, 54], 157),
   ([53, 53], 188), ([53, 52], 219), ([53, 49], 312), ([52, 49], 622), ([51, 55], 746),
   ([51], 800), ([51, 56], 817), ([52, 53], 193), ([53, 50], 792)]

/-- Transaction 0 after the fourteen puts. -/
def exZ5 : HBtreePrivate := (exZRun exZOps exWriter).getD {}

/-- Write transaction 1 begun on `exCommitted`: the tree with the key "k" on
leaf 3 is committed and not synced. -/
def exI1 : HBtreePrivate := (beginTransaction exCommitted TransactionType.ReadWrite).1

/-- Transaction 1 after `del("k")`. -/
def exI2 : HBtreePrivate := exState (del exEnv exI1 1 [107])

/-- After the abort of transaction 1. -/
def exI3 : HBtreePrivate := exAborted (abort exI2 1)

/-- Write transaction 2 begun. -/
def exI4 : HBtreePrivate := (beginTransaction exI3 TransactionType.ReadWrite).1

/-- Transaction 2 after `put("x", 1025 bytes)`. -/
def exI5 : HBtreePrivate := exState (put exEnv exI4 2 [120] (exValue 1025 9))

/-- Transaction 0 of `exT2` after `put` of the key "1x" with five bytes and
`del` of the key "20". -/
def exV1 : HBtreePrivate := (exRun 0 [([49], 5), ([50, 48], 0)] exT2).getD {}

/-- The state after `del` of the key "22" in `exV1`. -/
def exV2 : HBtreePrivate := exState (del exEnv exV1 0 (exKey [50, 50]))

/-- The entries of page `pg` (the first two bytes of each key with the length
of its value), its two offsets and whether it keeps the offset bookkeeping. -/
def exOffsets (s : HBtreePrivate) (pg : Nat) : Option (List (Bytes × Nat) × Nat × Nat × Bool) :=
  (findNode s pg).map (fun p =>
    (p.nodes.map (fun e => (e.1.take 2, e.2.data.length)), p.info.lowerOffset, p.info.upperOffset,
      (offsetsKeptDec exEnv.sizes p).decide))

/-- The state in which `del` of the key "22" in `exV1` calls `rebalance`: leaf 5
is found and touched and the entry is taken off it. -/
def exW1 : HBtreePrivate :=
  match searchPage exEnv exV1 false (some 0) (exKey [50, 50]) SearchType.SearchKey true with
  | some (s1, some pg) => exState (removeNode exEnv s1 pg (exKey [50, 50]) false)
  | _ => {}

/-- The state after `rebalance` of leaf 5 in `exW1`. -/
def exW2 : HBtreePrivate := exState (rebalance exEnv (exW1.lastPage_ + 1) exW1 5)

/-- The entries on the leaves below page `pg`, from left to right: the first
two bytes of each key and the length of its value. -/
def exSubtreePairs (s : HBtreePrivate) : Nat → Nat → List (Bytes × Nat)
  | 0, _ => []
  | fuel + 1, pg =>
    match (getNodePage s pg).2 with
    | none => []
    | some p =>
      if p.info.type = PageType.Leaf then p.nodes.map (fun e => (e.1.take 2, e.2.data.length))
      else (p.nodes.map (fun e => exSubtreePairs s fuel e.2.overflowPage)).flatten

/-- The root of transaction 0, the entries below it and the length of the
value that `get` returns for the key "1x". -/
def exLookup (s : HBtreePrivate) : Option Nat × List (Bytes × Nat) × Option Nat :=
  (transactionRoot s 0, exSubtreePairs s 4 10,
    (exGet (get exEnv s (some 0) (exKey [49]))).map List.length)

/-- A `Spec` with pages of 4096 bytes. -/
def exImageSpec : Spec := { pageSize := 4096 }

/-- A leaf page with one history node and two entries: "k" with the value "v"
and "lm" with an overflow value whose chain begins on page 12. -/
def exImageLeaf : NodePage :=
  { info := { checksum := 99, type := PageType.Leaf, number := 7, lowerOffset := 4, upperOffset := 20 },
    meta := { syncId := 5, historySize := 1, flags := 1 },
    history := [{ pageNumber := 3, syncId := 4 }],
    nodes := [([107], { data := [118] }), ([108, 109], { flags := 1, overflowPage := 12 })] }

/-- An overflow page with three bytes and the next page 9. -/
def exImageOverflow : OverflowPage :=
  { info := { type := PageType.Overflow, number := 3 }, data := [1, 2, 3], nextPage := 9 }

/-- Write transaction 1 begun on the committed, unsynced tree of `exC1`. -/
def exF1 : HBtreePrivate := (beginTransaction exC1 TransactionType.ReadWrite).1

/-- Transaction 1 after `put("foo", [2])`: the root leaf 3 is changed in place. -/
def exF2 : HBtreePrivate := exState (put exEnv exF1 1 [102, 111, 111] [2])

/-- Transaction 1 after `put("bar", 1025 bytes)`, whose value goes to the
overflow page 4, with a file that refuses the write of page 4. -/
def exF3 : HBtreePrivate :=
  { exState (put exEnv exF2 1 [98, 97, 114] (exValue 1025 3)) with failWrites := [4] }

/-- The state that the commit of transaction 1 leaves. -/
def exF4 : HBtreePrivate := exState (commit exF3 1 64)

/-- After the abort of transaction 1. -/
def exF5 : HBtreePrivate := exAborted (abort exF4 1)

/-- Read transaction 2 begun. -/
def exF6 : HBtreePrivate := (beginTransaction exF5 TransactionType.ReadOnly).1

/-- After the commit of transaction 0 of `exT2` with tag 1. -/
def exL1 : HBtreePrivate := exState (commit exT2 0 1)

/-- The handle after `close`, which syncs. -/
def exL2 : HBtreePrivate := (close exEnv exL1 true).getD {}

/-- The file opened again. -/
def exL3 : HBtreePrivate := exState (openExisting exEnv exL2)

/-- Whether the header, the indices and the entries of the cached node page
`pg` fit a page of the file. -/
def exFits (s : HBtreePrivate) (pg : Nat) : Option Bool :=
  (findNode s pg).map (fun p =>
    decide (32 + 16 * p.history.length + p.info.lowerOffset + p.info.upperOffset ≤ s.spec_.pageSize))

theorem Same.refl (s : HBtreePrivate) : Same s s := ⟨rfl, rfl⟩

theorem Same.trans {a b c : HBtreePrivate} (h1 : Same a b) (h2 : Same b c) : Same a c :=
  ⟨h2.1.trans h1.1, h2.2.trans h1.2⟩

theorem setNode_same (s : HBtreePrivate) (n : Nat) (p : NodePage) : Same s (setNode s n p) :=
  ⟨rfl, rfl⟩

theorem setOverflow_same (s : HBtreePrivate) (n : Nat) (p : OverflowPage) :
    Same s (setOverflow s n p) := ⟨rfl, rfl⟩

theorem cacheRemove_same (s : HBtreePrivate) (n : Nat) : Same s (cacheRemove s n) := by
  unfold cacheRemove; split <;> exact ⟨rfl, rfl⟩

theorem cacheDelete_same (s : HBtreePrivate) (n : Nat) : Same s (cacheDelete s n) :=
  cacheRemove_same s n

theorem cacheInsert_same (s : HBtreePrivate) (n : Nat) (p : Page) : Same s (cacheInsert s n p) :=
  ⟨rfl, rfl⟩

theorem cachePrune_same (s : HBtreePrivate) : Same s (cachePrune s) := by
  unfold cachePrune; split <;> exact ⟨rfl, rfl⟩

theorem getPage_same (s : HBtreePrivate) (n : Nat) : Same s (getPage s n).1 := by
  unfold getPage
  split
  · exact ⟨rfl, rfl⟩
  · split
    · exact ⟨rfl, rfl⟩
    · exact ⟨rfl, rfl⟩

theorem getNodePage_same (s : HBtreePrivate) (n : Nat) : Same s (getNodePage s n).1 := by
  unfold getNodePage
  have h := getPage_same s n
  split <;> simp_all

theorem setLeftOf_same (s : HBtreePrivate) (n m : Nat) : Same s (setLeftOf s n m) := by
  unfold setLeftOf; split <;> exact ⟨rfl, rfl⟩

theorem setRightOf_same (s : HBtreePrivate) (n m : Nat) : Same s (setRightOf s n m) := by
  unfold setRightOf; split <;> exact ⟨rfl, rfl⟩

theorem newPage_same {s s1 : HBtreePrivate} {ty : PageType} {n : Nat}
    (h : newPage s ty = some (s1, n)) : Same s s1 := by
  unfold newPage at h
  cases hc : s.collectiblePages_ <;> cases ty <;> simp [hc] at h <;>
    (obtain ⟨rfl, _⟩ := h; simp [Same, control, cacheInsert, cacheRemove]; split <;> simp)

theorem foldl_same {α : Type} (f : HBtreePrivate → α → HBtreePrivate)
    (hf : ∀ acc x, Same acc (f acc x)) : ∀ (l : List α) (s : HBtreePrivate), Same s (l.foldl f s)
  | [], s => Same.refl s
  | x :: l, s => (hf s x).trans (foldl_same f hf l (f s x))

theorem addHistoryNode_same {env : Env} {s s1 : HBtreePrivate} {src : Option Nat} {hn : HistoryNode}
    (h : addHistoryNode env s src hn = some s1) : Same s s1 := by
  unfold addHistoryNode at h
  split at h
  · split at h
    · simp at h; subst h; exact ⟨rfl, rfl⟩
    · simp at h
  · simp at h; subst h; exact ⟨rfl, rfl⟩

theorem collectHistory_same {s s1 : HBtreePrivate} {pgno : Nat}
    (h : collectHistory s pgno = some s1) : Same s s1 := by
  unfold collectHistory at h
  split at h
  · simp at h
  · simp only at h
    split at h
    · simp at h
    · simp at h; subst h
      refine Same.trans (foldl_same _ ?_ _ _) (setNode_same _ _ _)
      intro acc x
      exact Same.trans ⟨rfl, rfl⟩ (cacheDelete_same _ _)

theorem touchNodePage_same {env : Env} {s s1 : HBtreePrivate} {pgno tn : Nat}
    (h : touchNodePage env s pgno = some (s1, tn)) : Same s s1 := by
  unfold touchNodePage at h
  split at h
  · simp at h
  · split at h
    · simp at h; rw [← h.1]; exact Same.refl s
    · split at h
      · simp at h
      · rename_i sa hca
        have h1 := collectHistory_same hca
        split at h
        · simp at h
        · split at h
          · simp at h; rw [← h.1]
            exact h1.trans ⟨rfl, rfl⟩
          · split at h
            · simp at h
            · rename_i sb tnb hnp
              have h2 := newPage_same hnp
              split at h
              · simp at h
              · simp only at h
                split at h
                · simp at h
                · rename_i sc hsc
                  split at h
                  · simp at h
                  · rename_i t6 ht6
                    split at h
                    · simp at h
                    · rename_i sd hah
                      have h3 := addHistoryNode_same hah
                      simp at h; rw [← h.1]
                      refine h1.trans (h2.trans (Same.trans ?_ h3))
                      refine Same.trans ?_ (setNode_same _ _ _)
                      have h4 : Same sb sc := by
                        split at hsc
                        · split at hsc
                          · simp at hsc; rw [← hsc]
                            exact (setNode_same _ _ _).trans (setNode_same _ _ _)
                          · simp at hsc
                        · simp at hsc; rw [← hsc]; exact setNode_same _ _ _
                      refine h4.trans ?_
                      split <;> split <;>
                        first
                          | exact Same.refl _
                          | exact setLeftOf_same _ _ _
                          | exact setRightOf_same _ _ _
                          | exact (setLeftOf_same _ _ _).trans (setRightOf_same _ _ _)

theorem putDataOnOverflowLoop_same (env : Env) :
    ∀ (fuel : Nat) (s : HBtreePrivate) (rest : Bytes) (head : Nat) (prev : Option Nat)
      (s1 : HBtreePrivate) (h1 : Nat),
      putDataOnOverflowLoop env fuel s rest head prev = some (s1, h1) → Same s s1
  | 0, _, _, _, _, _, _, h => by simp [putDataOnOverflowLoop] at h
  | fuel + 1, s, rest, head, prev, s1, h1, h => by
    unfold putDataOnOverflowLoop at h
    split at h
    · simp at h; rw [← h.1]; exact Same.refl s
    · split at h
      · simp at h
      · rename_i sa n hnp
        split at h
        · simp at h
        · simp only at h
          have ih := putDataOnOverflowLoop_same env fuel _ _ _ _ _ _ h
          refine (newPage_same hnp).trans (Same.trans ?_ ih)
          split
          · split
            · exact (setOverflow_same _ _ _).trans (setOverflow_same _ _ _)
            · exact setOverflow_same _ _ _
          · exact setOverflow_same _ _ _

theorem putDataOnOverflow_same {env : Env} {s s1 : HBtreePrivate} {value : Bytes} {head : Nat}
    (h : putDataOnOverflow env s value = some (s1, head)) : Same s s1 :=
  putDataOnOverflowLoop_same env _ _ _ _ _ _ _ h

theorem walkOverflowPagesLoop_same :
    ∀ (fuel : Nat) (s : HBtreePrivate) (start : Nat) (data : Bytes) (pages : List Nat)
      (r : HBtreePrivate × Bool × Bytes × List Nat),
      walkOverflowPagesLoop fuel s start data pages = some r → Same s r.1
  | 0, _, _, _, _, _, h => by simp [walkOverflowPagesLoop] at h
  | fuel + 1, s, start, data, pages, r, h => by
    unfold walkOverflowPagesLoop at h
    split at h
    · simp at h; rw [← h]; exact Same.refl s
    · have hg := getPage_same s start
      split at h
      · rename_i s1 page heq
        rw [heq] at hg
        exact hg.trans (walkOverflowPagesLoop_same fuel _ _ _ _ _ h)
      · simp at h
      · rename_i s1 heq
        rw [heq] at hg
        simp at h; rw [← h]; exact hg

theorem getOverflowData_same {s : HBtreePrivate} {start : Nat} {r : HBtreePrivate × Bool × Bytes}
    (h : getOverflowData s start = some r) : Same s r.1 := by
  unfold getOverflowData walkOverflowPages at h
  split at h
  · rename_i s1 ok data pages heq
    simp at h; rw [← h]
    exact walkOverflowPagesLoop_same _ _ _ _ _ _ heq
  · simp at h

theorem getOverflowPageNumbers_same {s : HBtreePrivate} {start : Nat}
    {r : HBtreePrivate × Bool × List Nat}
    (h : getOverflowPageNumbers s start = some r) : Same s r.1 := by
  unfold getOverflowPageNumbers walkOverflowPages at h
  split at h
  · rename_i s1 ok data pages heq
    simp at h; rw [← h]
    exact walkOverflowPagesLoop_same _ _ _ _ _ _ heq
  · simp at h

theorem getDataFromNode_same {s : HBtreePrivate} {nval : NodeValue} {r : HBtreePrivate × Bytes}
    (h : getDataFromNode s nval = some r) : Same s r.1 := by
  unfold getDataFromNode at h
  split at h
  · split at h
    · rename_i s1 ok data heq
      simp at h; rw [← h]
      exact getOverflowData_same heq
    · simp at h
  · simp at h; rw [← h]; exact Same.refl s

theorem removeFromTree_same {s s1 : HBtreePrivate} {pgno : Nat}
    (h : removeFromTree s pgno = some s1) : Same s s1 := by
  unfold removeFromTree at h
  split at h
  · simp at h
  · simp at h; rw [← h]
    refine Same.trans ?_ (cacheDelete_same _ _)
    refine Same.trans ?_ ⟨rfl, rfl⟩
    refine Same.trans ?_ (foldl_same _ ?_ _ _)
    · split <;> exact ⟨rfl, rfl⟩
    · intro acc x; split <;> exact ⟨rfl, rfl⟩

theorem insertNode_same {env : Env} {s s1 : HBtreePrivate} {page page1 : NodePage} {key : Bytes}
    {value : NodeValue} (h : insertNode env s page key value = some (s1, page1)) : Same s s1 := by
  unfold insertNode at h
  simp only at h
  split at h
  · simp at h
  · rename_i sa vc fl heq
    simp at h; rw [← h.1]
    split at heq
    · split at heq
      · rename_i sb hd hp
        simp at heq; rw [← heq.1]; exact putDataOnOverflow_same hp
      · simp at heq
    · split at heq
      · simp at heq; rw [← heq.1]; exact Same.refl s
      · split at heq <;> (simp at heq; rw [← heq.1]; exact Same.refl s)

theorem insertNodeAt_same {env : Env} {s s1 : HBtreePrivate} {pgno : Nat} {key : Bytes}
    {value : NodeValue} (h : insertNodeAt env s pgno key value = some s1) : Same s s1 := by
  unfold insertNodeAt at h
  split at h
  · simp at h
  · split at h
    · simp at h
    · rename_i sa pa heq
      simp at h; rw [← h]
      exact (insertNode_same heq).trans (setNode_same _ _ _)

theorem removeNode_same {env : Env} {s s1 : HBtreePrivate} {pgno : Nat} {key : Bytes}
    {tr ok : Bool} (h : removeNode env s pgno key tr = some (s1, ok)) : Same s s1 := by
  unfold removeNode at h
  split at h
  · simp at h
  · split at h
    · simp at h; rw [← h.1]; exact Same.refl s
    · simp only at h
      split at h
      · simp at h
      · rename_i sa heq
        simp at h; rw [← h.1]
        split at heq
        · split at heq
          · simp at heq
          · rename_i sb pages hp
            simp at heq; rw [← heq]; exact getOverflowPageNumbers_same hp
          · simp at heq
        · simp at heq
      · rename_i sa heq
        have hs : Same s sa := by
          split at heq
          · split at heq
            · simp at heq
            · simp at heq
            · rename_i sb pages hp
              simp at heq; rw [← heq]
              exact (getOverflowPageNumbers_same hp).trans ⟨rfl, rfl⟩
          · simp at heq; rw [← heq]; exact Same.refl s
        split at h
        · simp at h
        · simp at h; rw [← h.1]; exact hs.trans (setNode_same _ _ _)

theorem descendFirst_same :
    ∀ (idx : Nat) (s : HBtreePrivate) (n : Nat) (r : HBtreePrivate × Nat),
      descendFirst idx s n = some r → Same s r.1
  | 0, s, n, r, h => by simp [descendFirst] at h; rw [← h]; exact Same.refl s
  | idx + 1, s, n, r, h => by
    unfold descendFirst at h
    have hg := getNodePage_same s n
    split at h
    · rename_i s1 page heq
      rw [heq] at hg
      split at h
      · exact hg.trans (descendFirst_same idx _ _ _ h)
      · simp at h
    · simp at h

theorem descendLast_same :
    ∀ (idx : Nat) (s : HBtreePrivate) (n : Nat) (r : HBtreePrivate × Nat),
      descendLast idx s n = some r → Same s r.1
  | 0, s, n, r, h => by simp [descendLast] at h; rw [← h]; exact Same.refl s
  | idx + 1, s, n, r, h => by
    unfold descendLast at h
    have hg := getNodePage_same s n
    split at h
    · rename_i s1 page heq
      rw [heq] at hg
      split at h
      · exact hg.trans (descendLast_same idx _ _ _ h)
      · simp at h
    · simp at h

theorem getRightSibling_same {s : HBtreePrivate} {q : List Nat} {r : HBtreePrivate × Nat}
    (h : getRightSibling s q = some r) : Same s r.1 := by
  unfold getRightSibling at h
  simp only at h
  split at h
  · simp at h; rw [← h]; exact Same.refl s
  · exact descendFirst_same _ _ _ _ h

theorem getLeftSibling_same {s : HBtreePrivate} {q : List Nat} {r : HBtreePrivate × Nat}
    (h : getLeftSibling s q = some r) : Same s r.1 := by
  unfold getLeftSibling at h
  simp only at h
  split at h
  · simp at h; rw [← h]; exact Same.refl s
  · exact descendLast_same _ _ _ _ h

theorem searchPageLoop_same (env : Env) (cursor : Bool) (key : Bytes) (st : SearchType)
    (modify : Bool) :
    ∀ (fuel : Nat) (s : HBtreePrivate) (child : Nat) (lq rq : List Nat)
      (r : HBtreePrivate × Nat × List Nat × List Nat),
      searchPageLoop env cursor key st modify fuel s child lq rq = some r → Same s r.1
  | 0, _, _, _, _, _, h => by simp [searchPageLoop] at h
  | fuel + 1, s, child, lq, rq, r, h => by
    unfold searchPageLoop at h
    split at h
    · simp at h
    · split at h
      · simp at h; rw [← h]; exact Same.refl s
      · split at h
        · simp at h
        · split at h
          · simp at h
          · simp only at h
            rename_i pkey pval hget
            have hg := getNodePage_same s pval.overflowPage
            split at h
            · simp at h
            · rename_i s1 c heq
              rw [heq] at hg
              split at h
              · split at h
                · simp at h
                · rename_i s3 tn ht
                  have h3 := touchNodePage_same ht
                  exact hg.trans ((Same.trans (setNode_same _ _ _) h3).trans
                    (searchPageLoop_same env cursor key st modify fuel _ _ _ _ _ h))
              · exact hg.trans ((setNode_same _ _ _).trans
                  (searchPageLoop_same env cursor key st modify fuel _ _ _ _ _ h))

theorem searchPageRoot_same {env : Env} {s : HBtreePrivate} {cursor : Bool} {root : Option Nat}
    {key : Bytes} {st : SearchType} {modify : Bool} {r : HBtreePrivate × Option Nat}
    (h : searchPageRoot env s cursor root key st modify = some r) : Same s r.1 := by
  unfold searchPageRoot at h
  split at h
  · simp at h; rw [← h]; exact Same.refl s
  · split at h
    · simp at h
    · rename_i s1 leaf lq rq hl
      have h1 := searchPageLoop_same _ _ _ _ _ _ _ _ _ _ _ hl
      split at h
      · split at h
        · simp at h
        · rename_i s2 right hr
          have h2 := getRightSibling_same hr
          split at h
          · simp at h
          · rename_i s3 left hlft
            have h3 := getLeftSibling_same hlft
            split at h
            · simp at h
            · simp at h; rw [← h]
              exact h1.trans (h2.trans (h3.trans (setNode_same _ _ _)))
      · simp at h; rw [← h]; exact h1

theorem updateParentKey_same {env : Env} {s s1 : HBtreePrivate} {pgno : Nat}
    (h : updateParentKey env s pgno = some s1) : Same s s1 := by
  unfold updateParentKey at h
  split at h
  · rename_i sa lowest hsr
    have h1 := searchPageRoot_same hsr
    split at h
    · split at h
      · split at h
        · simp at h
        · rename_i sb okb hrm
          have h2 := removeNode_same hrm
          split at h
          · simp at h
          · have h3 := insertNodeAt_same h
            exact h1.trans (h2.trans ((setNode_same _ _ _).trans h3))
      · simp at h
    · simp at h
  · simp at h

theorem moveNode_same {env : Env} {s s1 : HBtreePrivate} {src dst : Nat} {nkey : Bytes}
    {nval : NodeValue} {ok : Bool} (h : moveNode env s src dst nkey nval = some (s1, ok)) :
    Same s s1 := by
  unfold moveNode at h
  split at h
  · simp at h
  · rename_i sa src1 ht1
    have h1 := touchNodePage_same ht1
    split at h
    · simp at h
    · rename_i sb dst1 ht2
      have h2 := touchNodePage_same ht2
      split at h
      · simp only at h
        split at h
        · simp at h
        · rename_i sc hins
          have h3 := insertNodeAt_same hins
          split at h
          · simp at h
          · rename_i x sd hsd
            have h4 : Same sc sd := by
              split at hsd
              · exact updateParentKey_same hsd
              · simp at hsd; rw [← hsd]; exact Same.refl _
            split at h
            · simp at h
            · rename_i se oke hrm
              have h5 := removeNode_same hrm
              split at h
              · simp at h
              · split at h
                · split at h
                  · simp at h
                  · rename_i sf hup
                    simp at h; rw [← h.1]
                    exact h1.trans (h2.trans (h3.trans (h4.trans (h5.trans (updateParentKey_same hup)))))
                · simp at h; rw [← h.1]
                  exact h1.trans (h2.trans (h3.trans (h4.trans h5)))
      · simp at h

theorem mergeInsert_same (env : Env) (dst : Nat) :
    ∀ (l : Nodes) (s s1 : HBtreePrivate), mergeInsert env dst l s = some s1 → Same s s1
  | [], s, s1, h => by simp [mergeInsert] at h; rw [← h]; exact Same.refl s
  | (k, v) :: l, s, s1, h => by
    unfold mergeInsert at h
    split at h
    · simp at h
    · rename_i sa hins
      exact (insertNodeAt_same hins).trans (mergeInsert_same env dst l _ _ h)

theorem splitDistribute_same (env : Env) (left right splitIndex : Nat) :
    ∀ (l : Nodes) (index : Nat) (s s1 : HBtreePrivate),
      splitDistribute env left right splitIndex l index s = some s1 → Same s s1
  | [], _, s, s1, h => by simp [splitDistribute] at h; rw [← h]; exact Same.refl s
  | (k, v) :: l, index, s, s1, h => by
    unfold splitDistribute at h
    split at h
    · simp at h
    · rename_i sa hins
      exact (insertNodeAt_same hins).trans
        (splitDistribute_same env left right splitIndex l _ _ _ h)

theorem mergePagesStep_same {env : Env} {s s1 : HBtreePrivate} {pgno dst0 dst : Nat}
    (h : mergePagesStep env s pgno dst0 = some (s1, dst)) : Same s s1 := by
  unfold mergePagesStep at h
  split at h
  · simp at h
  · rename_i sa d ht
    have h1 := touchNodePage_same ht
    split at h
    · simp at h
    · split at h
      · simp at h
      · rename_i sb hmi
        have h2 := mergeInsert_same _ _ _ _ _ hmi
        split at h
        · split at h
          · simp only at h
            split at h
            · simp at h
            · rename_i x sc hsc
              have h3 : Same sb sc := by
                split at hsc
                · split at hsc
                  · simp at hsc
                  · rename_i sx okx hrm
                    have hr := removeNode_same hrm
                    split at hsc
                    · split at hsc
                      · simp at hsc; rw [← hsc]
                        exact hr.trans ((setNode_same _ _ _).trans (setRightOf_same _ _ _))
                      · simp at hsc; rw [← hsc]; exact hr
                    · simp at hsc; rw [← hsc]; exact hr
                · split at hsc
                  · simp at hsc
                  · rename_i sx okx hrm
                    have hr := removeNode_same hrm
                    split at hsc
                    · simp at hsc
                    · rename_i sy oky hrm2
                      have hr2 := removeNode_same hrm2
                      split at hsc
                      · simp at hsc
                      · split at hsc
                        · simp at hsc
                        · rename_i sz hins
                          have hi := insertNodeAt_same hins
                          split at hsc
                          · simp at hsc
                          · split at hsc
                            · split at hsc
                              · simp at hsc; rw [← hsc]
                                exact hr.trans (hr2.trans (hi.trans ((setNode_same _ _ _).trans
                                  ((setNode_same _ _ _).trans (setLeftOf_same _ _ _)))))
                              · simp at hsc; rw [← hsc]
                                exact hr.trans (hr2.trans (hi.trans (setNode_same _ _ _)))
                            · simp at hsc; rw [← hsc]
                              exact hr.trans (hr2.trans (hi.trans (setNode_same _ _ _)))
              split at h
              · split at h
                · simp at h
                · rename_i s5 hrt
                  simp at h; rw [← h.1]
                  refine h1.trans (h2.trans (h3.trans (Same.trans ?_ (removeFromTree_same hrt))))
                  split
                  · exact setNode_same _ _ _
                  · exact Same.refl _
              · simp at h
          · simp at h
        · simp at h

theorem Same.frame {s s1 : HBtreePrivate} (t : Nat) (h : Same s s1) : Frame t s s1 :=
  ⟨h.1, fun r => by rw [h.2]; exact ⟨rfl, fun _ _ => rfl⟩⟩

theorem Frame.seq {t : Nat} {a b c : HBtreePrivate} (h1 : Frame t a b) (h2 : Frame t b c) :
    Frame t a c := by
  refine ⟨h2.1.trans h1.1, fun r => ⟨((h2.2 r).1).trans ((h1.2 r).1), fun hr hw => ?_⟩⟩
  have hwt : b.writeTransaction_ = a.writeTransaction_ := by
    have := congrArg Prod.fst h1.1
    simpa [control] using this
  exact ((h2.2 r).2 hr (by rw [hwt]; exact hw)).trans ((h1.2 r).2 hr hw)

theorem mapFind_mapInsert {α : Type} (n m : Nat) (v : α) :
    ∀ l : List (Nat × α), mapFind n (mapInsert m v l) = if n = m then some v else mapFind n l
  | [] => by
    by_cases h : n = m
    · simp [mapInsert, mapFind, h]
    · have h2 : ¬ m = n := fun e => h e.symm
      simp [mapInsert, mapFind, h, h2]
  | (k, w) :: l => by
    have ih := mapFind_mapInsert n m v l
    unfold mapInsert
    by_cases h1 : m < k
    · by_cases h : n = m
      · simp [h1, mapFind, h]
      · have h2 : ¬ m = n := fun e => h e.symm
        simp [h1, mapFind, h, h2]
    · by_cases h2 : m = k
      · subst h2
        by_cases h : n = m
        · simp [mapFind, h]
        · have h3 : ¬ m = n := fun e => h e.symm
          simp [mapFind, h, h3]
      · by_cases h : n = m
        · subst h
          have h3 : ¬ k = n := fun e => h2 e.symm
          simp [h1, h2, mapFind, h3, ih]
        · simp [h1, h2, mapFind, ih, h]

theorem setTransactionRoot_frame (t : Nat) (s : HBtreePrivate) (t1 root : Nat)
    (ht : t1 = t ∨ some t1 = s.writeTransaction_) : Frame t s (setTransactionRoot s t1 root) := by
  unfold setTransactionRoot
  split
  · rename_i txn hfind
    refine ⟨rfl, fun r => ?_⟩
    simp only [mapFind_mapInsert]
    constructor
    · by_cases hr : r = t1
      · subst hr; simp [hfind, snapshot]
      · simp [hr]
    · intro h1 h2
      have hr : r ≠ t1 := by
        rcases ht with ht | ht
        · rw [ht]; exact h1
        · intro e; apply h2; rw [e]; exact ht
      simp [hr]
  · exact (Same.refl s).frame t

theorem same_writer {s s1 : HBtreePrivate} (h : control s1 = control s) :
    s1.writeTransaction_ = s.writeTransaction_ := by
  have := congrArg Prod.fst h
  simpa [control] using this

theorem searchPage_frame {env : Env} {s : HBtreePrivate} {cursor : Bool} {t : Nat} {key : Bytes}
    {st : SearchType} {modify : Bool} {r : HBtreePrivate × Option Nat}
    (h : searchPage env s cursor (some t) key st modify = some r) : Frame t s r.1 := by
  unfold searchPage at h
  simp only at h
  split at h
  · simp at h
  · split at h
    · simp at h; rw [← h]; exact (Same.refl s).frame t
    · have hg := getNodePage_same s ‹Nat›
      split at h
      · rename_i s1 heq
        rw [heq] at hg
        exact (hg.trans (searchPageRoot_same h)).frame t
      · rename_i s1 pg heq
        rw [heq] at hg
        split at h
        · split at h
          · simp at h
          · rename_i s2 tn ht
            have h2 := touchNodePage_same ht
            exact ((hg.trans h2).frame t).seq
              ((setTransactionRoot_frame t s2 t tn (Or.inl rfl)).seq
                ((searchPageRoot_same h).frame t))
        · exact (hg.trans (searchPageRoot_same h)).frame t

theorem searchPage_same_read {env : Env} {s : HBtreePrivate} {cursor : Bool}
    {transaction : Option Nat} {key : Bytes} {st : SearchType} {r : HBtreePrivate × Option Nat}
    (h : searchPage env s cursor transaction key st false = some r) : Same s r.1 := by
  unfold searchPage at h
  simp only at h
  split at h
  · simp at h
  · split at h
    · simp at h; rw [← h]; exact Same.refl s
    · have hg := getNodePage_same s ‹Nat›
      split at h
      · rename_i s1 heq
        rw [heq] at hg
        exact hg.trans (searchPageRoot_same h)
      · rename_i s1 pg heq
        rw [heq] at hg
        simp at h
        exact hg.trans (searchPageRoot_same h)

theorem splitMakeParent_frame {env : Env} {s s1 : HBtreePrivate} {pgno : Nat} (t : Nat)
    (h : splitMakeParent env s pgno = some s1) : Frame t s s1 := by
  unfold splitMakeParent at h
  split at h
  · simp at h
  · split at h
    · simp at h; rw [← h]; exact (Same.refl s).frame t
    · split at h
      · simp at h
      · rename_i sa pn hnp
        have h1 := newPage_same hnp
        split at h
        · rename_i left1 wt hl hw
          simp only at h
          split at h
          · simp at h
          · rename_i s4 hins
            simp at h; rw [← h]
            have h3 := insertNodeAt_same hins
            have hwt : some wt = (setNode sa pgno
                { left1 with parent := some pn, parentKey := [] }).writeTransaction_ := by
              rw [← hw]; rfl
            refine (h1.frame t).seq (((setNode_same _ _ _).frame t).seq
              ((setTransactionRoot_frame t _ wt pn (Or.inr hwt)).seq ?_))
            exact (h3.trans ⟨rfl, rfl⟩).frame t
        · simp at h

theorem split_frame (env : Env) (t : Nat) :
    ∀ (fuel : Nat) (s : HBtreePrivate) (pgno : Nat) (key : Bytes) (value : NodeValue)
      (r : HBtreePrivate × Bool × Nat), split env fuel s pgno key value = some r → Frame t s r.1
  | 0, _, _, _, _, _, h => by simp [split] at h
  | fuel + 1, s, pgno, key, value, r, h => by
    unfold split at h
    split at h
    · simp at h
    · rename_i s1 hmp
      have h1 := splitMakeParent_frame t hmp
      split at h
      · simp at h
      · split at h
        · simp at h
        · rename_i s2 rn hnp
          have h2 := newPage_same hnp
          split at h
          · simp at h
          · simp only at h
            split at h
            · simp at h
            · rename_i s4 copy hins
              have h3 := insertNode_same hins
              have h04 : Frame t s s4 :=
                h1.seq ((h2.trans ((setNode_same _ _ _).trans h3)).frame t)
              clear h1 h2 h3 hins hnp hmp
              split at h
              · simp at h
              · split at h
                · simp at h
                  rw [← h]
                  exact h04
                · split at h
                  · rename_i splitKey sv par right hk hp hr
                    try simp only at h
                    split at h
                    · simp at h
                    · rename_i parentPage hpp
                      split at h
                      · simp at h
                      · rename_i s6 s7 hs6
                        have h6 : Frame t s s7 := by
                          split at hs6
                          · split at hs6
                            · simp at hs6
                            · rename_i sa ok xx hrec
                              have h5 := split_frame env t fuel _ _ _ _ _ hrec
                              simp at hs6
                              rw [← hs6.1]
                              exact h04.seq (((setNode_same _ _ _).frame t).seq h5)
                          · split at hs6
                            · simp at hs6
                            · split at hs6
                              · simp at hs6
                              · rename_i right1 hr1 sa hia
                                have h5 := insertNodeAt_same hia
                                simp at hs6
                        simp at h
                        rw [← h]
                        exact h6
                      · rename_i s6 s7 hs6
                        have h6 : Frame t s s7 := by
                          split at hs6
                          · split at hs6
                            · simp at hs6
                            · rename_i sa ok xx hrec
                              have h5 := split_frame env t fuel _ _ _ _ _ hrec
                              simp at hs6
                              rw [← hs6.1]
                              exact h04.seq (((setNode_same _ _ _).frame t).seq h5)
                          · split at hs6
                            · simp at hs6
                            · split at hs6
                              · simp at hs6
                              · rename_i right1 hr1 sa hia
                                have h5 := insertNodeAt_same hia
                                simp at hs6
                                rw [← hs6]
                                exact h04.seq
                                  (((setNode_same _ _ _).trans ((setNode_same _ _ _).trans h5)).frame t)
                        clear hs6 h04
                        split at h
                        · simp at h
                        · rename_i s8 hsd
                          have h7 := splitDistribute_same _ _ _ _ _ _ _ _ hsd
                          split at h
                          · split at h
                            · try simp only at h
                              split at h
                              · split at h
                                · simp at h
                                  rw [← h]
                                  refine h6.seq ((h7.trans ?_).frame t)
                                  refine Same.trans ?_ (setNode_same _ _ _)
                                  refine Same.trans ?_ (setNode_same _ _ _)
                                  split
                                  · exact Same.refl _
                                  · exact setLeftOf_same _ _ _
                                · simp at h
                              · simp at h
                            · simp at h
                              rw [← h]
                              exact h6.seq (h7.frame t)
                          · simp at h
                  · simp at h

theorem stats_same (s : HBtreePrivate) (st : Stat) : Same s { s with stats_ := st } := ⟨rfl, rfl⟩

theorem rebalanceRoot_frame {s : HBtreePrivate} {pgno : Nat} {page : NodePage} (t : Nat)
    {r : HBtreePrivate × Bool} (h : rebalanceRoot s pgno page = some r) : Frame t s r.1 := by
  unfold rebalanceRoot at h
  split at h
  · simp at h
  · rename_i wt hwt
    split at h
    · split at h
      · simp at h
      · rename_i s1 hrm
        have h1 := removeFromTree_same hrm
        simp at h
        rw [← h]
        exact (setTransactionRoot_frame t s wt _ (Or.inr hwt.symm)).seq (h1.frame t)
    · split at h
      · split at h
        · simp at h
        · rename_i k v hhead
          split at h
          · simp at h
          · rename_i s1 root hg
            have h1 : Same s s1 := by
              have := getNodePage_same s v.overflowPage
              rw [hg] at this
              exact this
            try simp only at h
            split at h
            · simp at h
            · rename_i s5 hrm
              have h5 := removeFromTree_same hrm
              simp at h
              rw [← h]
              have hw : some wt = (setNode s1 v.overflowPage { root with parent := none }).writeTransaction_ := by
                rw [same_writer ((h1.trans (setNode_same _ _ _)).1)]
                exact hwt.symm
              exact (h1.frame t).seq (((setNode_same _ _ _).frame t).seq
                ((setTransactionRoot_frame t _ wt _ (Or.inr hw)).seq
                  (((stats_same _ _).trans h5).frame t)))
      · simp at h
        rw [← h]
        exact (Same.refl _).frame t

theorem moveOrKeep_same {env : Env} {s : HBtreePrivate} {c : Bool} {src dst : Nat} {nkey : Bytes}
    {nval : NodeValue} {r : HBtreePrivate × Bool}
    (h : (if c = true then moveNode env s src dst nkey nval else some (s, true)) = some r) :
    Same s r.1 := by
  cases c
  · simp at h
    rw [← h]
    exact Same.refl _
  · simp at h
    obtain ⟨s3, ok⟩ := r
    exact moveNode_same h

theorem rebalance_frame (env : Env) (t : Nat) :
    ∀ (fuel : Nat) (s : HBtreePrivate) (pgno : Nat) (r : HBtreePrivate × Bool),
      rebalance env fuel s pgno = some r → Frame t s r.1
  | 0, _, _, _, h => by simp [rebalance] at h
  | fuel + 1, s, pgno, r, h => by
    unfold rebalance at h
    split at h
    · simp at h
    · rename_i page hpage
      split at h
      · simp at h
        rw [← h]
        exact (Same.refl _).frame t
      · split at h
        · exact rebalanceRoot_frame t h
        · rename_i par hpar
          split at h
          · simp at h
          · rename_i parent hparent
            simp only at h
            split at h
            · simp at h
            · rename_i nbKey nbVal hnb
              split at h
              · simp at h
              · rename_i s1 nb0 hg
                have h1 : Same s s1 := by
                  have := getNodePage_same s nbVal.overflowPage
                  rw [hg] at this
                  exact this
                have h2 : Frame t s (setNode s1 nbVal.overflowPage
                    { nb0 with parent := page.parent, parentKey := nbKey }) :=
                  (h1.trans (setNode_same _ _ _)).frame t
                clear hg h1
                split at h
                · rename_i page2 parent2 hp2 hpar2
                  split at h
                  · rename_i sk sv hmv
                    exact h2.seq ((moveOrKeep_same h).frame t)
                  · split at h
                    · split at h
                      · simp at h
                      · rename_i s3 dst hmg
                        have h3 := mergePagesStep_same hmg
                        split at h
                        · split at h
                          · rename_i d hd dpar hdp
                            exact h2.seq ((h3.frame t).seq (rebalance_frame env t fuel _ _ _ h))
                          · simp at h
                        · simp at h
                    · split at h
                      · split at h
                        · simp at h
                        · rename_i s3 dst hmg
                          have h3 := mergePagesStep_same hmg
                          split at h
                          · split at h
                            · rename_i d hd dpar hdp
                              exact h2.seq ((h3.frame t).seq (rebalance_frame env t fuel _ _ _ h))
                            · simp at h
                          · simp at h
                      · simp at h
                        rw [← h]
                        exact h2
                · simp at h

theorem putInsert_frame {env : Env} {s : HBtreePrivate} {t : Nat} {txn : HBtreeTransaction}
    {keyData valueData : Bytes} {r : HBtreePrivate × Bool}
    (h : putInsert env s t txn keyData valueData = some r) : Frame t s r.1 := by
  unfold putInsert at h
  simp only at h
  split at h
  · simp at h
  · rename_i found s1 hfound
    have h1 : Frame t s s1 := by
      split at hfound
      · split at hfound
        · simp at hfound
        · rename_i s0 n hnp
          simp at hfound
      · split at hfound
        · simp at hfound
        · simp at hfound
        · rename_i s0 pg hsp
          have hs := searchPage_frame hsp
          split at hfound
          · simp at hfound
          · split at hfound
            · split at hfound
              · simp at hfound
              · rename_i s2 hrm
                have h2 := removeNode_same hrm
                simp at hfound
                rw [← hfound]
                exact hs.seq (h2.frame t)
              · simp at hfound
            · simp at hfound
    simp at h
    rw [← h]
    exact h1
  · rename_i found s1 pg hfound
    have h1 : Frame t s s1 := by
      split at hfound
      · split at hfound
        · simp at hfound
        · rename_i s0 n hnp
          simp at hfound
          rw [← hfound.1]
          exact ((newPage_same hnp).frame t).seq (setTransactionRoot_frame t _ t _ (Or.inl rfl))
      · split at hfound
        · simp at hfound
        · simp at hfound
        · rename_i s0 pg0 hsp
          have hs := searchPage_frame hsp
          split at hfound
          · simp at hfound
          · split at hfound
            · split at hfound
              · simp at hfound
              · simp at hfound
              · rename_i s2 hrm
                have h2 := removeNode_same hrm
                simp at hfound
                rw [← hfound.1]
                exact hs.seq ((h2.trans (stats_same _ _)).frame t)
            · simp at hfound
              rw [← hfound.1]
              exact hs
    clear hfound
    split at h
    · simp at h
    · rename_i page hpage
      split at h
      · simp at h
      · rename_i rr s2 ok hr
        have h2 : Frame t s1 s2 := by
          split at hr
          · split at hr
            · simp at hr
            · rename_i s3 hia
              simp at hr
              rw [← hr.1]
              exact (insertNodeAt_same hia).frame t
          · split at hr
            · simp at hr
            · rename_i s3 ok3 rn hsplit
              simp at hr
              rw [← hr.1]
              exact split_frame env t _ _ _ _ _ _ hsplit
        simp at h
        rw [← h]
        exact h1.seq (h2.seq (((stats_same _ _).trans (cachePrune_same _)).frame t))

theorem put_frame {env : Env} {s : HBtreePrivate} {t : Nat} {keyData valueData : Bytes}
    {r : HBtreePrivate × Bool} (h : put env s t keyData valueData = some r) : Frame t s r.1 := by
  unfold put at h
  split at h
  · simp at h
  · split at h
    · simp at h
      rw [← h]
      exact (Same.refl _).frame t
    · split at h
      · simp at h
        rw [← h]
        exact (Same.refl _).frame t
      · exact putInsert_frame h

theorem get_same {env : Env} {s : HBtreePrivate} {transaction : Option Nat} {keyData : Bytes}
    {r : HBtreePrivate × Bytes} (h : get env s transaction keyData = some r) : Same s r.1 := by
  unfold get at h
  split at h
  · simp at h
  · rename_i s1 hsp
    have h1 := searchPage_same_read hsp
    simp at h
    rw [← h]
    exact h1
  · rename_i s1 pg hsp
    have h1 := searchPage_same_read hsp
    split at h
    · simp at h
    · split at h
      · simp at h
      · rename_i s2 ret hgd
        have h2 := getDataFromNode_same hgd
        simp at h
        rw [← h]
        exact h1.trans (h2.trans (cachePrune_same _))

theorem delRemove_frame {env : Env} {s : HBtreePrivate} {t : Nat} {keyData : Bytes}
    {r : HBtreePrivate × Bool} (h : delRemove env s t keyData = some r) : Frame t s r.1 := by
  unfold delRemove at h
  simp only at h
  split at h
  · simp at h
  · rename_i removed s1 ok page hrem
    have h1 : Frame t s s1 := by
      split at hrem
      · simp at hrem
      · rename_i s0 hsp
        have hs := searchPage_frame hsp
        simp at hrem
        rw [← hrem.1]
        exact hs
      · rename_i s0 pg hsp
        have hs := searchPage_frame hsp
        split at hrem
        · simp at hrem
        · split at hrem
          · split at hrem
            · simp at hrem
            · rename_i s2 ok2 hrm
              have h2 := removeNode_same hrm
              simp at hrem
              rw [← hrem.1]
              exact hs.seq (h2.frame t)
          · simp at hrem
            rw [← hrem.1]
            exact hs
    clear hrem
    split at h
    · simp at h
    · rename_i rr s2 hr
      have h2 : Frame t s1 s2 := by
        split at hr
        · split at hr
          · simp at hr
          · exact rebalance_frame env t _ _ _ _ hr
        · simp at hr
      simp at h
      rw [← h]
      exact h1.seq h2
    · rename_i rr s2 hr
      have h2 : Frame t s1 s2 := by
        split at hr
        · split at hr
          · simp at hr
          · exact rebalance_frame env t _ _ _ _ hr
        · simp at hr
          rw [← hr]
          exact (Same.refl _).frame t
      simp at h
      rw [← h]
      exact h1.seq (h2.seq (((stats_same _ _).trans (cachePrune_same _)).frame t))

theorem del_frame {env : Env} {s : HBtreePrivate} {t : Nat} {keyData : Bytes}
    {r : HBtreePrivate × Bool} (h : del env s t keyData = some r) : Frame t s r.1 := by
  unfold del at h
  split at h
  · simp at h
  · split at h
    · simp at h
      rw [← h]
      exact (Same.refl _).frame t
    · exact delRemove_frame h

theorem cachePrune_rest (s : HBtreePrivate) : rest (cachePrune s) = rest s := by
  unfold cachePrune
  split <;> rfl

theorem cacheDelete_rest (s : HBtreePrivate) (n : Nat) : rest (cacheDelete s n) = rest s := by
  unfold cacheDelete cacheRemove
  split <;> rfl

theorem foldl_cacheDelete_rest (l : List Nat) :
    ∀ s : HBtreePrivate, rest (l.foldl (fun acc n => cacheDelete acc n) s) = rest s := by
  induction l with
  | nil => intro s; rfl
  | cons n l ih =>
    intro s
    simp only [List.foldl_cons]
    rw [ih, cacheDelete_rest]

theorem core_of_rest {s s1 : HBtreePrivate} (h : rest s1 = rest s) : core s1 = core s := by
  have : core s1 = core (rest s1) := rfl
  rw [this, h]
  rfl

theorem commitLoop_core :
    ∀ (l : List Nat) (s : HBtreePrivate) (r : HBtreePrivate × Bool),
      commitLoop l s = some r → core r.1 = core s
  | [], s, r, h => by
    simp [commitLoop] at h
    rw [← h]
  | n :: l, s, r, h => by
    unfold commitLoop at h
    split at h
    · simp at h
    · rename_i page hpage
      split at h
      · rename_i s1 hw
        simp at h
        rw [← h]
        unfold writePage at hw
        split at hw
        · simp at hw
          rw [← hw]
        · simp at hw
      · rename_i s1 hw
        have h1 : core s1 = core s := by
          unfold writePage at hw
          split at hw
          · simp at hw
          · simp at hw
            rw [← hw]
            rfl
        have h2 := commitLoop_core l _ r h
        rw [h2, ← h1]
        cases page with
        | node p => rfl
        | overflow p =>
          show core (cacheDelete (setOverflow s1 n { p with dirty := false }) p.info.number) = core s1
          exact (core_of_rest (cacheDelete_rest _ _)).trans rfl

theorem abort_rest {s s1 : HBtreePrivate} {t : Nat} (h : abort s t = some s1) :
    ∃ txn, mapFind t s.transactions = some txn ∧
      rest s1 = rest { s with
        dirtyPages_ := [],
        writeTransaction_ := if txn.type = TransactionType.ReadWrite then none
                             else s.writeTransaction_,
        transactions := mapRemove t s.transactions } := by
  unfold abort at h
  split at h
  · simp at h
  · rename_i txn hfind
    refine ⟨txn, hfind, ?_⟩
    simp only [Option.some.injEq] at h
    rw [← h, cachePrune_rest]
    have hf := foldl_cacheDelete_rest s.dirtyPages_ s
    by_cases hty : txn.type = TransactionType.ReadWrite
    · simp only [hty, if_true]
      exact congrArg (fun x : HBtreePrivate =>
        { x with dirtyPages_ := [], writeTransaction_ := none,
                 transactions := mapRemove t x.transactions }) hf
    · simp only [hty, if_false]
      exact congrArg (fun x : HBtreePrivate =>
        { x with dirtyPages_ := [], transactions := mapRemove t x.transactions }) hf

theorem commit_core {s s1 : HBtreePrivate} {t tag : Nat} (h : commit s t tag = some (s1, true)) :
    ∃ txn, mapFind t s.transactions = some txn ∧
      core s1 = core { s with
        marker_ := commitMarker s.marker_ s.lastSyncedId_ txn.rootPage_ tag s.residueHistory_,
        writeTransaction_ := if txn.type = TransactionType.ReadWrite then none
                             else s.writeTransaction_,
        transactions := mapRemove t s.transactions } ∧
      s1.dirtyPages_ = [] := by
  unfold commit at h
  split at h
  · simp at h
  · simp at h
  · rename_i sa hloop
    have hc := commitLoop_core _ _ _ hloop
    simp only at hc
    have htr : sa.transactions = s.transactions :=
      (congrArg HBtreePrivate.transactions hc : (core sa).transactions = (core s).transactions)
    split at h
    · simp at h
    · rename_i txn hfind
      rw [htr] at hfind
      refine ⟨txn, hfind, ?_⟩
      simp only at h
      split at h
      · simp at h
      · rename_i s3 hab
        obtain ⟨txn2, hfind2, hr⟩ := abort_rest hab
        simp only [htr, hfind] at hfind2
        simp only [Option.some.injEq] at hfind2
        subst hfind2
        simp only [Option.some.injEq, Prod.mk.injEq, and_true] at h
        subst h
        constructor
        · have e1 : core { s3 with stats_ := { s3.stats_ with numCommits := s3.stats_.numCommits + 1 } }
              = core (rest s3) := rfl
          rw [e1, hr]
          exact congrArg (fun y : HBtreePrivate => core { y with
            marker_ := commitMarker y.marker_ y.lastSyncedId_ txn.rootPage_ tag y.residueHistory_,
            writeTransaction_ := if txn.type = TransactionType.ReadWrite then none
                                 else y.writeTransaction_,
            transactions := mapRemove t y.transactions }) hc
        · exact congrArg HBtreePrivate.dirtyPages_ hr

theorem mapFind_mapRemove {α : Type} (n m : Nat) :
    ∀ l : List (Nat × α), mapFind n (mapRemove m l) = if n = m then none else mapFind n l
  | [] => by simp [mapRemove, mapFind]
  | (k, v) :: l => by
    have ih := mapFind_mapRemove n m l
    unfold mapRemove at ih ⊢
    by_cases hk : k = m
    · subst hk
      simp only [List.filter, bne_self_eq_false]
      rw [ih]
      by_cases hn : n = k
      · simp [hn]
      · have : ¬ k = n := fun h => hn h.symm
        simp [hn, mapFind, this]
    · have hb : ((k, v).1 != m) = true := by simpa using hk
      simp only [List.filter, hb]
      simp only [mapFind]
      rw [ih]
      by_cases hkn : k = n
      · subst hkn
        simp [hk]
      · simp [hkn]

theorem begin_refused (s : HBtreePrivate)
    (h : s.writeTransaction_.isSome ∨ s.openMode_ = OpenMode.ReadOnly ∨ s.lockHeld = true) :
    beginTransaction s TransactionType.ReadWrite = (s, none) := by
  unfold beginTransaction
  rcases h with h | h | h
  · simp [h]
  · simp [h]
  · simp [h]

theorem begin_done {s s1 : HBtreePrivate} {ty : TransactionType} {t : Nat}
    (h : beginTransaction s ty = (s1, some t)) :
    t = s.nextTransaction ∧
    (ty = TransactionType.ReadWrite → s.writeTransaction_ = none) ∧
    s1 = { s with
      transactions := mapInsert t { type := ty, rootPage_ := s.marker_.meta.root,
                                    tag_ := s.marker_.meta.tag,
                                    revision_ := s.marker_.meta.revision } s.transactions,
      nextTransaction := t + 1,
      writeTransaction_ := if ty = TransactionType.ReadWrite then some t
                           else s.writeTransaction_ } := by
  unfold beginTransaction at h
  split at h
  · simp at h
  · rename_i h1
    split at h
    · simp at h
    · split at h
      · simp at h
      · simp only [Prod.mk.injEq, Option.some.injEq] at h
        obtain ⟨hs, ht⟩ := h
        subst ht
        refine ⟨rfl, ?_, hs.symm⟩
        intro hty
        subst hty
        cases hw : s.writeTransaction_ with
        | none => rfl
        | some w => simp [hw] at h1

theorem oneWriter_frame {t : Nat} {s s1 : HBtreePrivate} (h : Frame t s s1) (hw : oneWriter s) :
    oneWriter s1 := by
  intro r txn hfind hty
  rw [same_writer h.1]
  have hsnap := (h.2 r).1
  rw [hfind] at hsnap
  cases hf : mapFind r s.transactions with
  | none => simp [hf] at hsnap
  | some txn0 =>
    simp only [hf, Option.map_some', Option.some.injEq, snapshot, Prod.mk.injEq] at hsnap
    exact hw r txn0 hf (hsnap.1 ▸ hty)

theorem oneWriter_begin {s s1 : HBtreePrivate} {ty : TransactionType} {t : Nat}
    (h : beginTransaction s ty = (s1, some t)) (hw : oneWriter s) : oneWriter s1 := by
  obtain ⟨_, hnone, hs⟩ := begin_done h
  intro r txn hfind hty
  subst hs
  simp only [mapFind_mapInsert] at hfind
  by_cases hr : r = t
  · subst hr
    simp only [if_true, Option.some.injEq] at hfind
    subst hfind
    simp only at hty
    simp [hty]
  · simp only [hr, if_false] at hfind
    have hold := hw r txn hfind hty
    by_cases hrw : ty = TransactionType.ReadWrite
    · rw [hnone hrw] at hold
      simp at hold
    · simp only [hrw, if_false]
      exact hold

theorem oneWriter_removed {s : HBtreePrivate} {t : Nat} {txn : HBtreeTransaction}
    (hfind : mapFind t s.transactions = some txn) (hw : oneWriter s) :
    oneWriter { s with
      writeTransaction_ := if txn.type = TransactionType.ReadWrite then none
                           else s.writeTransaction_,
      transactions := mapRemove t s.transactions } := by
  intro r x hx hty
  simp only [mapFind_mapRemove] at hx
  by_cases hr : r = t
  · simp [hr] at hx
  · simp only [hr, if_false] at hx
    have hold := hw r x hx hty
    by_cases hrw : txn.type = TransactionType.ReadWrite
    · have := hw t txn hfind hrw
      rw [hold] at this
      simp only [Option.some.injEq] at this
      exact absurd this hr
    · simp only [hrw, if_false]
      exact hold

theorem oneWriter_abort {s s1 : HBtreePrivate} {t : Nat} (h : abort s t = some s1)
    (hw : oneWriter s) : oneWriter s1 := by
  obtain ⟨txn, hfind, hr⟩ := abort_rest h
  have h1 := oneWriter_removed hfind hw
  intro r x hx hty
  have ht : s1.transactions = mapRemove t s.transactions :=
    congrArg HBtreePrivate.transactions hr
  have hwt : s1.writeTransaction_ = (if txn.type = TransactionType.ReadWrite then none
      else s.writeTransaction_) := congrArg HBtreePrivate.writeTransaction_ hr
  rw [hwt]
  rw [ht] at hx
  exact h1 r x hx hty

theorem commit_false_core {s s1 : HBtreePrivate} {t tag : Nat}
    (h : commit s t tag = some (s1, false)) : core s1 = core s := by
  unfold commit at h
  split at h
  · simp at h
  · rename_i sa hloop
    have hc := commitLoop_core _ _ _ hloop
    simp only [Option.some.injEq, Prod.mk.injEq, and_true] at h
    subst h
    exact hc
  · split at h
    · simp at h
    · simp only at h
      split at h
      · simp at h
      · simp at h

theorem oneWriter_commit {s : HBtreePrivate} {t tag : Nat} {r : HBtreePrivate × Bool}
    (h : commit s t tag = some r) (hw : oneWriter s) : oneWriter r.1 := by
  obtain ⟨s1, ok⟩ := r
  cases ok with
  | true =>
    obtain ⟨txn, hfind, hc, _⟩ := commit_core h
    have h1 := oneWriter_removed hfind hw
    intro r x hx hty
    have ht : s1.transactions = mapRemove t s.transactions :=
      congrArg HBtreePrivate.transactions hc
    have hwt : s1.writeTransaction_ = (if txn.type = TransactionType.ReadWrite then none
        else s.writeTransaction_) := congrArg HBtreePrivate.writeTransaction_ hc
    simp only at hx ⊢
    rw [hwt]
    rw [ht] at hx
    exact h1 r x hx hty
  | false =>
    have hc := commit_false_core h
    intro r x hx hty
    have ht : s1.transactions = s.transactions :=
      (congrArg HBtreePrivate.transactions hc : (core s1).transactions = (core s).transactions)
    have hwt : s1.writeTransaction_ = s.writeTransaction_ :=
      (congrArg HBtreePrivate.writeTransaction_ hc :
        (core s1).writeTransaction_ = (core s).writeTransaction_)
    simp only at hx ⊢
    rw [hwt]
    rw [ht] at hx
    exact hw r x hx hty

theorem u16_natCast (n : Nat) : u16 (n : Int) = n % 65536 := by
  unfold u16
  omega

theorem putDataOnOverflowLoop_none (env : Env) :
    ∀ (fuel : Nat) (s : HBtreePrivate) (rest : Bytes) (head : Nat) (prev : Option Nat),
      65536 ≤ rest.length → putDataOnOverflowLoop env fuel s rest head prev = none := by
  intro fuel
  induction fuel with
  | zero => intro s rest head prev _; rfl
  | succ fuel ih =>
    intro s rest head prev hlen
    unfold putDataOnOverflowLoop
    have h0 : ¬ rest.length = 0 := by omega
    simp only [h0, if_false]
    split
    · rfl
    · split
      · rfl
      · apply ih
        simp only [List.length_drop, u16_natCast]
        rename_i s2 _ _ _ op _
        have := Nat.min_le_left (rest.length % 65536) (capacity env s2.spec_ op.info 0)
        have h2 := Nat.div_add_mod rest.length 65536
        have h3 : 1 ≤ rest.length / 65536 := by omega
        omega

theorem findOverflow_iff {s : HBtreePrivate} {n : Nat} {op : OverflowPage} :
    findOverflow s n = some op ↔ cacheFind s n = some (Page.overflow op) := by
  unfold findOverflow
  split
  · rename_i p h; simp [h]
  · rename_i h
    constructor
    · intro h1; simp at h1
    · intro h1; exact absurd h1 (h op)

theorem cacheFind_setOverflow (s : HBtreePrivate) (n q : Nat) (op : OverflowPage) :
    cacheFind (setOverflow s n op) q = if q = n then some (Page.overflow op) else cacheFind s q := by
  simp [cacheFind, setOverflow, mapFind_mapInsert]

theorem newPage_overflow (s : HBtreePrivate) :
    ∃ s1 n, newPage s PageType.Overflow = some (s1, n) ∧
      n = s.collectiblePages_.headD s.lastPage_ ∧
      s1.collectiblePages_ = s.collectiblePages_.tail ∧
      s1.lastPage_ = (if s.collectiblePages_ = [] then s.lastPage_ + 1 else s.lastPage_) ∧
      s1.spec_ = s.spec_ ∧
      (∀ q, cacheFind s1 q =
        if q = n then some (Page.overflow { info := { type := PageType.Overflow, number := n } })
        else cacheFind s q) := by
  unfold newPage
  cases hc : s.collectiblePages_ with
  | nil =>
    refine ⟨_, _, rfl, rfl, ?_, ?_, ?_, ?_⟩
    · simp [cacheInsert, cacheRemove]; split <;> simp [hc]
    · simp [cacheInsert, cacheRemove]; split <;> simp
    · simp [cacheInsert, cacheRemove]; split <;> simp
    · intro q
      simp only [cacheFind, cacheInsert, cacheRemove, mapFind_mapInsert, List.headD_nil]
      split
      · rfl
      · rename_i hq
        split
        · simp [mapFind_mapRemove, hq]
        · rfl
  | cons m rest =>
    refine ⟨_, _, rfl, rfl, ?_, ?_, ?_, ?_⟩
    · simp [cacheInsert, cacheRemove]; split <;> simp [hc]
    · simp [cacheInsert, cacheRemove]; split <;> simp
    · simp [cacheInsert, cacheRemove]; split <;> simp
    · intro q
      simp only [cacheFind, cacheInsert, cacheRemove, mapFind_mapInsert, List.headD_cons]
      split
      · rfl
      · rename_i hq
        split
        · simp [mapFind_mapRemove, hq]
        · rfl

theorem take_min_length (l : Bytes) (c : Nat) : l.take (min l.length c) = l.take c := by
  by_cases h : l.length ≤ c
  · rw [Nat.min_eq_left h, List.take_of_length_le h, List.take_of_length_le (le_refl _)]
  · rw [Nat.min_eq_right (by omega)]

theorem drop_min_length (l : Bytes) (c : Nat) : l.drop (min l.length c) = l.drop c := by
  by_cases h : l.length ≤ c
  · rw [Nat.min_eq_left h, List.drop_of_length_le h, List.drop_of_length_le (le_refl _)]
  · rw [Nat.min_eq_right (by omega)]

theorem capacity_overflow (env : Env) (spec : Spec) (n : Nat) :
    capacity env spec { type := PageType.Overflow, number := n } 0 =
      capacity env spec { type := PageType.Overflow } 0 := rfl

theorem putDataOnOverflowLoop_succ (env : Env) (fuel : Nat) (s s1 : HBtreePrivate) (rest : Bytes)
    (head n c : Nat) (prev : Option Nat) (h0 : rest.length ≠ 0) (hlt : rest.length < 65536)
    (hc : c = capacity env s1.spec_ { type := PageType.Overflow } 0)
    (hnew : newPage s PageType.Overflow = some (s1, n))
    (hfo : findOverflow s1 n = some { info := { type := PageType.Overflow, number := n } }) :
    putDataOnOverflowLoop env (fuel + 1) s rest head prev =
      putDataOnOverflowLoop env fuel
        (linkPrev (setOverflow s1 n
          { info := { type := PageType.Overflow, number := n,
                      lowerOffset := min rest.length c % 65536 },
            data := rest.take c }) prev n)
        (rest.drop c) (if head = INVALID_PAGE then n else head) (some n) := by
  rw [← take_min_length, ← drop_min_length, hc]
  conv => lhs; unfold putDataOnOverflowLoop
  simp only [h0, if_false, hnew, hfo, u16_natCast, Nat.mod_eq_of_lt hlt, capacity_overflow]
  rfl

theorem linkPrev_fields (s : HBtreePrivate) (prev : Option Nat) (n : Nat) :
    (linkPrev s prev n).collectiblePages_ = s.collectiblePages_ ∧
    (linkPrev s prev n).lastPage_ = s.lastPage_ ∧
    (linkPrev s prev n).spec_ = s.spec_ := by
  unfold linkPrev
  cases prev with
  | none => exact ⟨rfl, rfl, rfl⟩
  | some pn =>
    simp only
    split <;> exact ⟨rfl, rfl, rfl⟩

theorem putDataOnOverflowLoop_chain (env : Env) (cap : Nat) (hcap : 0 < cap) :
    ∀ (fuel : Nat) (s : HBtreePrivate) (rest : Bytes) (head : Nat) (prev : Option Nat),
      cap = capacity env s.spec_ { type := PageType.Overflow } 0 →
      Alloc s rest.length → rest.length < 65536 → rest.length < fuel →
      (∀ pn, prev = some pn → pn ∉ s.collectiblePages_ ∧ pn < s.lastPage_ ∧
        ∃ op, findOverflow s pn = some op) →
      ∃ s1 ps,
        putDataOnOverflowLoop env fuel s rest head prev =
          some (s1, if head = INVALID_PAGE then ps.headD INVALID_PAGE else head) ∧
        IsChain s1 cap ps (ps.headD INVALID_PAGE) rest ∧
        (∀ p ∈ ps, (p ∈ s.collectiblePages_ ∨ s.lastPage_ ≤ p) ∧ p < s1.lastPage_) ∧
        ps.Nodup ∧ s.lastPage_ ≤ s1.lastPage_ ∧
        (∀ q, q ∉ s.collectiblePages_ → q < s.lastPage_ → prev ≠ some q →
          cacheFind s1 q = cacheFind s q) ∧
        (∀ pn op, prev = some pn → findOverflow s pn = some op →
          findOverflow s1 pn = some { op with nextPage := ps.headD op.nextPage }) := by
  intro fuel
  induction fuel with
  | zero => intro s rest head prev _ _ _ hf; omega
  | succ fuel ih =>
    intro s rest head prev hc ha hlt hf hprev
    by_cases h0 : rest.length = 0
    · have hr : rest = [] := List.length_eq_zero.mp h0
      subst hr
      refine ⟨s, [], ?_, ⟨rfl, rfl⟩, ?_, List.nodup_nil, le_refl _, ?_, ?_⟩
      · unfold putDataOnOverflowLoop
        simp
        split <;> simp_all
      · intro p hp; simp at hp
      · intro q _ _ _; rfl
      · intro pn op _ h; exact h
    · obtain ⟨s1, n, hnew, hn, hcoll, hlast, hspec, hcache⟩ := newPage_overflow s
      have hfo : findOverflow s1 n = some { info := { type := PageType.Overflow, number := n } } := by
        rw [findOverflow_iff, hcache]; simp
      have hc1 : cap = capacity env s1.spec_ { type := PageType.Overflow } 0 := by rw [hspec]; exact hc
      rw [putDataOnOverflowLoop_succ env fuel s s1 rest head n cap prev h0 hlt hc1 hnew hfo]
      obtain ⟨hnd, hbd, hinv⟩ := ha
      -- the page allocated
      have hn1 : (n ∈ s.collectiblePages_ ∨ s.lastPage_ ≤ n) := by
        rw [hn]; cases hcl : s.collectiblePages_ with
        | nil => right; simp
        | cons m t => left; simp
      have hn2 : n < s1.lastPage_ := by
        rw [hn, hlast]; cases hcl : s.collectiblePages_ with
        | nil => simp
        | cons m t => simp; exact hbd m (by rw [hcl]; simp)
      have hn3 : n ∉ s1.collectiblePages_ := by
        rw [hn, hcoll]; cases hcl : s.collectiblePages_ with
        | nil => simp
        | cons m t => rw [hcl] at hnd; simp; exact (List.nodup_cons.mp hnd).1
      have hn4 : n ≠ INVALID_PAGE := by
        have : n < s.lastPage_ + 1 := by
          rcases hn1 with h | h
          · exact Nat.lt_succ_of_lt (hbd n h)
          · rw [hlast] at hn2; split at hn2 <;> omega
        omega
      have hsub : ∀ q, q ∈ s1.collectiblePages_ → q ∈ s.collectiblePages_ := by
        intro q hq; rw [hcoll] at hq; exact List.mem_of_mem_tail hq
      have hle : s.lastPage_ ≤ s1.lastPage_ := by rw [hlast]; split <;> omega
      have hpn : ∀ pn, prev = some pn → pn ≠ n := by
        intro pn hp e
        obtain ⟨h1, h2, _⟩ := hprev pn hp
        rw [e] at h1 h2
        rcases hn1 with h | h
        · exact h1 h
        · omega
      generalize hop1 : ({ info := { type := PageType.Overflow, number := n,
                                     lowerOffset := min rest.length cap % 65536 },
                           data := rest.take cap } : OverflowPage) = op1
      have hop1d : op1.data = rest.take cap := by rw [← hop1]
      have hop1n : op1.nextPage = INVALID_PAGE := by rw [← hop1]
      generalize hs3 : linkPrev (setOverflow s1 n op1) prev n = s3
      have hf3 := linkPrev_fields (setOverflow s1 n op1) prev n
      rw [hs3] at hf3
      obtain ⟨hf3c, hf3l, hf3s⟩ := hf3
      have hf3c1 : s3.collectiblePages_ = s1.collectiblePages_ := hf3c
      have hf3l1 : s3.lastPage_ = s1.lastPage_ := hf3l
      have hf3s1 : s3.spec_ = s1.spec_ := hf3s
      have hF2 : ∀ q, prev ≠ some q → q ≠ n → cacheFind s3 q = cacheFind s q := by
        intro q hq hqn
        rw [← hs3]
        unfold linkPrev
        cases prev with
        | none => simp only; rw [cacheFind_setOverflow, hcache]; simp [hqn]
        | some pn =>
          have hqp : q ≠ pn := fun e => hq (by rw [e])
          simp only
          split
          · rw [cacheFind_setOverflow, cacheFind_setOverflow, hcache]; simp [hqn, hqp]
          · rw [cacheFind_setOverflow, hcache]; simp [hqn]
      have hF3 : findOverflow s3 n = some op1 := by
        rw [← hs3, findOverflow_iff]
        unfold linkPrev
        cases prev with
        | none => simp only; rw [cacheFind_setOverflow]; simp
        | some pn =>
          have hne := hpn pn rfl
          simp only
          split
          · rw [cacheFind_setOverflow, cacheFind_setOverflow]; simp [hne.symm]
          · rw [cacheFind_setOverflow]; simp
      have hF4 : ∀ pn op, prev = some pn → findOverflow s pn = some op →
          findOverflow s3 pn = some { op with nextPage := n } := by
        intro pn op hp hfo1
        have hne := hpn pn hp
        subst hp
        have h2 : findOverflow (setOverflow s1 n op1) pn = some op := by
          rw [findOverflow_iff, cacheFind_setOverflow, hcache]
          simp [hne]
          exact findOverflow_iff.mp hfo1
        rw [← hs3, findOverflow_iff]
        unfold linkPrev
        simp only [h2]
        rw [cacheFind_setOverflow]; simp
      have hlen : (rest.drop cap).length = rest.length - cap := List.length_drop cap rest
      have hlast1 : s1.lastPage_ ≤ s.lastPage_ + 1 := by rw [hlast]; split <;> omega
      obtain ⟨s4, ps, e1, e2, e3, e4, e5, e6, e7⟩ :=
        ih s3 (rest.drop cap) (if head = INVALID_PAGE then n else head) (some n)
          (by rw [hf3s1]; exact hc1)
          ⟨by rw [hf3c1, hcoll]; exact hnd.tail,
           by intro q hq; rw [hf3c1] at hq; rw [hf3l1]; exact lt_of_lt_of_le (hbd q (hsub q hq)) hle,
           by rw [hf3l1, hlen]; omega⟩
          (by rw [hlen]; omega) (by rw [hlen]; omega)
          (by intro pn hp
              simp only [Option.some.injEq] at hp
              subst hp
              exact ⟨by rw [hf3c1]; exact hn3, by rw [hf3l1]; exact hn2, op1, hF3⟩)
      have hhead : (if (if head = INVALID_PAGE then n else head) = INVALID_PAGE
            then ps.headD INVALID_PAGE else (if head = INVALID_PAGE then n else head))
          = (if head = INVALID_PAGE then (n :: ps).headD INVALID_PAGE else head) := by
        by_cases hh : head = INVALID_PAGE
        · simp [hh, hn4]
        · simp [hh]
      rw [hhead] at e1
      have hmem : ∀ p ∈ ps, p ≠ n := by
        intro p hp e
        obtain ⟨h1, _⟩ := e3 p hp
        rw [e, hf3c1, hf3l1] at h1
        rcases h1 with h | h
        · exact hn3 h
        · omega
      refine ⟨s4, n :: ps, e1, ?_, ?_, ?_, ?_, ?_, ?_⟩
      · refine ⟨rfl, hn4, fun e => h0 (by rw [e]; rfl), ?_⟩
        have h7 := e7 n op1 rfl hF3
        refine ⟨_, h7, hop1d, ?_⟩
        simp only
        rw [hop1n]
        exact e2
      · intro p hp
        rcases List.mem_cons.mp hp with h | h
        · rw [h]; exact ⟨hn1, lt_of_lt_of_le (by rw [hf3l1]; exact hn2) e5⟩
        · obtain ⟨h1, h2⟩ := e3 p h
          refine ⟨?_, h2⟩
          rw [hf3c1, hf3l1] at h1
          rcases h1 with h1 | h1
          · exact Or.inl (hsub p h1)
          · exact Or.inr (le_trans hle h1)
      · exact List.nodup_cons.mpr ⟨fun h => hmem n h rfl, e4⟩
      · rw [hf3l1] at e5; exact le_trans hle e5
      · intro q hq1 hq2 hq3
        have hqn : q ≠ n := by
          intro e; rw [e] at hq1 hq2
          rcases hn1 with h | h
          · exact hq1 h
          · omega
        rw [e6 q (by rw [hf3c1]; exact fun h => hq1 (hsub q h)) (by rw [hf3l1]; omega)
          (by simp; exact fun e => hqn e.symm)]
        exact hF2 q hq3 hqn
      · intro pn op hp hfo1
        have hne := hpn pn hp
        have h3 := hF4 pn op hp hfo1
        have hq := hprev pn hp
        have h6 := e6 pn (by rw [hf3c1]; exact fun h => hq.1 (hsub pn h)) (by rw [hf3l1]; omega)
          (by simp; exact fun e => hne e.symm)
        rw [findOverflow_iff, h6]
        exact findOverflow_iff.mp h3

theorem walkOverflowPagesLoop_chain (s : HBtreePrivate) (cap : Nat) :
    ∀ (ps : List Nat) (start : Nat) (data : Bytes), IsChain s cap ps start data →
      ∀ (fuel : Nat) (s2 : HBtreePrivate) (acc : Bytes) (accp : List Nat),
        ps.length < fuel → s2.cache_ = s.cache_ →
        ∃ s3, walkOverflowPagesLoop fuel s2 start acc accp = some (s3, true, acc ++ data, accp ++ ps) ∧
          s3.cache_ = s.cache_
  | [], start, data, h, fuel, s2, acc, accp, hf, hc => by
    obtain ⟨h1, h2⟩ := h
    subst h1 h2
    cases fuel with
    | zero => simp at hf
    | succ fuel =>
      refine ⟨s2, ?_, hc⟩
      unfold walkOverflowPagesLoop
      simp
  | p :: ps, start, data, h, fuel, s2, acc, accp, hf, hc => by
    obtain ⟨h1, h2, h3, op, h4, h5, h6⟩ := h
    subst h1
    cases fuel with
    | zero => simp at hf
    | succ fuel =>
      have hfind : cacheFind s2 start = some (Page.overflow op) := by
        have := findOverflow_iff.mp h4
        unfold cacheFind at this ⊢
        rw [hc]; exact this
      obtain ⟨s3, e1, e2⟩ := walkOverflowPagesLoop_chain s cap ps op.nextPage (data.drop cap) h6 fuel
        { s2 with stats_ := { s2.stats_ with hits := s2.stats_.hits + 1 },
                  lru_ := s2.lru_.erase start ++ [start] } (acc ++ op.data) (accp ++ [start])
        (by simp at hf; omega) hc
      refine ⟨s3, ?_, e2⟩
      unfold walkOverflowPagesLoop
      simp only [h2, if_false, getPage, hfind]
      rw [e1, h5]
      simp [List.append_assoc, List.take_append_drop]

theorem isChain_length (s : HBtreePrivate) (cap : Nat) (hcap : 0 < cap) :
    ∀ (ps : List Nat) (start : Nat) (data : Bytes), IsChain s cap ps start data →
      ps.length = (data.length + cap - 1) / cap
  | [], start, data, h => by
    obtain ⟨_, h2⟩ := h
    subst h2
    simp
    exact (Nat.div_eq_of_lt (by omega)).symm
  | p :: ps, start, data, h => by
    obtain ⟨_, _, h3, op, _, _, h6⟩ := h
    have ih := isChain_length s cap hcap ps op.nextPage (data.drop cap) h6
    have hl : 0 < data.length := List.length_pos.mpr h3
    simp only [List.length_cons, ih, List.length_drop]
    by_cases hle : data.length ≤ cap
    · have h1 : data.length - cap = 0 := by omega
      rw [h1]
      have h2 : (0 + cap - 1) / cap = 0 := Nat.div_eq_of_lt (by omega)
      have h3 : (data.length + cap - 1) / cap = 1 := by
        apply Nat.div_eq_of_lt_le <;> omega
      omega
    · have h1 : data.length + cap - 1 = (data.length - cap + cap - 1) + cap := by omega
      rw [h1, Nat.add_div_right _ hcap]

theorem isChain_pages (s : HBtreePrivate) (cap : Nat) :
    ∀ (ps : List Nat) (start : Nat) (data : Bytes), IsChain s cap ps start data →
      ∀ i p, ps.get? i = some p →
        ∃ op, findOverflow s p = some op ∧ op.data = (data.drop (i * cap)).take cap ∧
          op.nextPage = (ps.get? (i + 1)).getD INVALID_PAGE
  | [], _, _, _, i, p, hi => by simp at hi
  | q :: ps, start, data, h, i, p, hi => by
    obtain ⟨_, _, _, op, h4, h5, h6⟩ := h
    cases i with
    | zero =>
      simp at hi
      subst hi
      refine ⟨op, h4, by simpa using h5, ?_⟩
      cases ps with
      | nil => simp; exact h6.1
      | cons r ps => simp; exact h6.1
    | succ i =>
      simp at hi
      obtain ⟨op2, e1, e2, e3⟩ := isChain_pages s cap ps op.nextPage (data.drop cap) h6 i p (by simpa using hi)
      refine ⟨op2, e1, ?_, ?_⟩
      · rw [e2, List.drop_drop]
        congr 2
        ring
      · simpa using e3

theorem nodup_length_le (ps : List Nat) (n : Nat) (hn : ps.Nodup) (hb : ∀ p ∈ ps, p < n) :
    ps.length ≤ n := by
  have h1 : ps.toFinset.card = ps.length := List.toFinset_card_of_nodup hn
  have h2 : ps.toFinset ⊆ Finset.range n := by
    intro x hx
    simp at hx
    simp
    exact hb x hx
  have h3 := Finset.card_le_card h2
  simp at h3
  omega

theorem Reads.same (s : HBtreePrivate) : Reads s s := ⟨Same.refl s, rfl, fun _ => rfl, id⟩

theorem Reads.andThen {a b c : HBtreePrivate} (h1 : Reads a b) (h2 : Reads b c) : Reads a c :=
  ⟨h1.1.trans h2.1, h2.2.1.trans h1.2.1, fun pg => (h2.2.2.1 pg).trans (h1.2.2.1 pg),
    fun h => h2.2.2.2 (h1.2.2.2 h)⟩

theorem Reads.view {a b : HBtreePrivate} (h : Reads a b) : contentAt b = contentAt a :=
  funext h.2.2.1

theorem content_content (p : Page) : p.content.content = p.content := by
  cases p <;> rfl

theorem readPage_content {s : HBtreePrivate} {pg : Nat} {q : Page} (h : readPage s pg = some q) :
    q.content = q := by
  unfold readPage at h
  split at h
  · simp at h; rw [← h]; rfl
  · simp at h; rw [← h]; rfl
  · simp at h

theorem readPage_dirty {s : HBtreePrivate} {pg : Nat} {q : Page} (h : readPage s pg = some q) :
    q.dirty = false := by
  unfold readPage at h
  split at h
  · simp at h; rw [← h]; rfl
  · simp at h; rw [← h]; rfl
  · simp at h

theorem readPage_file {s s1 : HBtreePrivate} (h : s1.file = s.file) (pg : Nat) :
    readPage s1 pg = readPage s pg := by
  unfold readPage; rw [h]

theorem Same.file {s s1 : HBtreePrivate} (h : Same s s1) : s1.file = s.file := by
  have := h.1
  unfold control at this
  simp only [Prod.mk.injEq] at this
  exact this.2.2.2.2.2.2.1

/-- The page that `getPage` returns, without its run-time fields, is the
content of the page number; the state it leaves reads like the one before. -/
theorem getPage_reads (s : HBtreePrivate) (pg : Nat) :
    Reads s (getPage s pg).1 ∧ ((getPage s pg).2).map Page.content = contentAt s pg ∧
    (∀ p, (getPage s pg).2 = some p → cacheFind (getPage s pg).1 pg = some p) := by
  unfold getPage contentAt
  cases hc : cacheFind s pg with
  | some p =>
    simp only
    refine ⟨⟨⟨rfl, rfl⟩, rfl, fun q => rfl, fun h => h⟩, rfl, ?_⟩
    intro p1 h1
    simp at h1
    rw [← h1]
    exact hc
  | none =>
    simp only
    cases hr : readPage s pg with
    | none => exact ⟨Reads.same s, rfl, fun p h => by simp at h⟩
    | some page =>
      simp only
      have hfind : ∀ q, cacheFind (cacheInsert { s with stats_ := { s.stats_ with reads := s.stats_.reads + 1 } } pg page) q
          = if q = pg then some page else cacheFind s q := by
        intro q
        simp [cacheFind, cacheInsert, mapFind_mapInsert]
      refine ⟨⟨⟨rfl, rfl⟩, rfl, ?_, ?_⟩, ?_, ?_⟩
      · intro q
        unfold contentAt
        rw [hfind]
        by_cases hq : q = pg
        · subst hq
          simp only [if_true, hc]
          rw [readPage_content hr]
          exact hr.symm
        · simp only [hq, if_false]
          rfl
      · intro hco q p hq hd
        rw [hfind] at hq
        by_cases hqp : q = pg
        · subst hqp
          simp only [if_true, Option.some.injEq] at hq
          subst hq
          rw [readPage_content hr]
          exact hr
        · simp only [hqp, if_false] at hq
          exact hco q p hq hd
      · simp [readPage_content hr]
      · intro p h
        simp at h
        rw [hfind, ← h]
        simp

theorem getNodePage_reads (s : HBtreePrivate) (pg : Nat) :
    Reads s (getNodePage s pg).1 ∧
    (∀ p, (getNodePage s pg).2 = some p →
      contentAt s pg = some (Page.node p).content ∧ findNode (getNodePage s pg).1 pg = some p) ∧
    ((getNodePage s pg).2 = none → ∀ p, contentAt s pg ≠ some (Page.node p)) := by
  obtain ⟨h1, h2, h3⟩ := getPage_reads s pg
  unfold getNodePage
  cases hg : getPage s pg with
  | mk s1 r =>
    rw [hg] at h1 h2 h3
    simp only at h1 h2 h3
    cases r with
    | none =>
      simp only
      refine ⟨h1, fun p h => by simp at h, fun _ p hp => ?_⟩
      rw [← h2] at hp
      simp at hp
    | some pgv =>
      cases pgv with
      | node p =>
        simp only
        refine ⟨h1, fun p1 hp => ?_, fun h => by simp at h⟩
        simp at hp
        subst hp
        refine ⟨by rw [← h2]; rfl, ?_⟩
        unfold findNode
        rw [h3 _ rfl]
      | overflow p =>
        simp only
        refine ⟨h1, fun p1 hp => by simp at hp, fun _ p1 hp => ?_⟩
        rw [← h2] at hp
        simp [Page.content] at hp

theorem findNode_iff {s : HBtreePrivate} {n : Nat} {p : NodePage} :
    findNode s n = some p ↔ cacheFind s n = some (Page.node p) := by
  unfold findNode
  split
  · rename_i q h; simp [h]
  · rename_i h
    constructor
    · intro h1; simp at h1
    · intro h1; exact absurd h1 (h p)

theorem contentAt_of_findNode {s : HBtreePrivate} {n : Nat} {p : NodePage}
    (h : findNode s n = some p) : contentAt s n = some (Page.node p).content := by
  unfold contentAt
  rw [findNode_iff.mp h]

/-- Writing back a cached node page with other run-time fields leaves a state
that reads like the one before. -/
theorem setNode_reads {s : HBtreePrivate} {pg : Nat} {p p1 : NodePage}
    (h : findNode s pg = some p) (hc : (Page.node p1).content = (Page.node p).content)
    (hd : p1.dirty = p.dirty) : Reads s (setNode s pg p1) := by
  have hfind : ∀ q, cacheFind (setNode s pg p1) q = if q = pg then some (Page.node p1) else cacheFind s q := by
    intro q
    simp [cacheFind, setNode, mapFind_mapInsert]
  refine ⟨setNode_same s pg p1, rfl, ?_, ?_⟩
  · intro q
    unfold contentAt
    rw [hfind]
    by_cases hq : q = pg
    · subst hq
      simp only [if_true, findNode_iff.mp h, hc]
    · simp only [hq, if_false]
      rfl
  · intro hco q x hq hx
    rw [hfind] at hq
    by_cases hqp : q = pg
    · subst hqp
      simp only [if_true, Option.some.injEq] at hq
      subst hq
      rw [hc]
      have := hco q (Page.node p) (findNode_iff.mp h) (by show p.dirty = false; rw [← hd]; exact hx)
      exact this
    · simp only [hqp, if_false] at hq
      exact hco q x hq hx

theorem findNode_setNode (s : HBtreePrivate) (pg q : Nat) (p : NodePage) :
    findNode (setNode s pg p) q = if q = pg then some p else findNode s q := by
  unfold findNode
  have : cacheFind (setNode s pg p) q = if q = pg then some (Page.node p) else cacheFind s q := by
    simp [cacheFind, setNode, mapFind_mapInsert]
  rw [this]
  by_cases h : q = pg <;> simp [h]

theorem cachePruneLoop_find (cacheSize : Nat) :
    ∀ (lru kept : List Nat) (cache : List (Nat × Page)) (q : Nat),
      mapFind q (cachePruneLoop cacheSize lru kept cache).2 = mapFind q cache ∨
      (mapFind q (cachePruneLoop cacheSize lru kept cache).2 = none ∧
        ∃ p, mapFind q cache = some p ∧ p.dirty = false)
  | [], kept, cache, q => by left; rfl
  | n :: rest, kept, cache, q => by
    unfold cachePruneLoop
    split
    · left; rfl
    · split
      · rename_i page hp
        split
        · rename_i hd
          have ih := cachePruneLoop_find cacheSize rest kept (mapRemove n cache) q
          rw [mapFind_mapRemove] at ih
          by_cases hq : q = n
          · subst hq
            simp only [if_true] at ih
            right
            refine ⟨?_, page, hp, by simpa using hd⟩
            rcases ih with h | h
            · exact h
            · exact h.1
          · simp only [hq, if_false] at ih
            exact ih
        · exact cachePruneLoop_find cacheSize rest (n :: kept) cache q
      · exact cachePruneLoop_find cacheSize rest (n :: kept) cache q

/-- Pruning a coherent cache leaves a state that reads like the one before. -/
theorem cachePrune_reads (s : HBtreePrivate) (hco : Coherent s) : Reads s (cachePrune s) := by
  have hfind : ∀ q, cacheFind (cachePrune s) q = cacheFind s q ∨
      (cacheFind (cachePrune s) q = none ∧ ∃ p, cacheFind s q = some p ∧ p.dirty = false) := by
    intro q
    unfold cachePrune
    split
    · exact cachePruneLoop_find s.cacheSize_ s.lru_ [] s.cache_ q
    · left; rfl
  have hfile : (cachePrune s).file = s.file := (cachePrune_same s).file
  refine ⟨cachePrune_same s, ?_, ?_, ?_⟩
  · unfold cachePrune; split <;> rfl
  · intro q
    unfold contentAt
    rcases hfind q with h | ⟨h1, p, h2, h3⟩
    · rw [h, readPage_file hfile]
    · rw [h1, h2, readPage_file hfile]
      exact hco q p h2 h3
  · intro _ q p hq hd
    rcases hfind q with h | ⟨h1, _⟩
    · rw [h] at hq
      rw [readPage_file hfile]
      exact hco q p hq hd
    · rw [h1] at hq; simp at hq

theorem Agrees.mono {α : Type} {r : Option (HBtreePrivate × α)} {s0 s : HBtreePrivate}
    {p : Option α} (h0 : Reads s0 s) (h : Agrees r s p) : Agrees r s0 p := by
  unfold Agrees at h ⊢
  cases p with
  | none => exact h
  | some a =>
    obtain ⟨s1, e, hr⟩ := h
    exact ⟨s1, e, h0.andThen hr⟩

theorem walkOverflowPagesLoop_agrees :
    ∀ (fuel : Nat) (s : HBtreePrivate) (start : Nat) (data : Bytes) (pages : List Nat),
      Agrees (walkOverflowPagesLoop fuel s start data pages) s
        (walkV (contentAt s) fuel start data pages)
  | 0, s, start, data, pages => by
    unfold walkV walkOverflowPagesLoop Agrees
    rfl
  | fuel + 1, s, start, data, pages => by
    unfold walkV walkOverflowPagesLoop
    by_cases h0 : start = INVALID_PAGE
    · simp only [h0, if_true]
      exact ⟨s, rfl, Reads.same s⟩
    · simp only [h0, if_false]
      obtain ⟨h1, h2, _⟩ := getPage_reads s start
      cases hg : getPage s start with
      | mk s1 r =>
        rw [hg] at h1 h2
        simp only at h1 h2
        cases r with
        | none =>
          simp only [Option.map_none'] at h2
          rw [← h2]
          exact ⟨s1, rfl, h1⟩
        | some pgv =>
          cases pgv with
          | node p =>
            simp only [Option.map_some'] at h2
            rw [← h2]
            simp only [Page.content]
            rfl
          | overflow p =>
            simp only [Option.map_some'] at h2
            rw [← h2]
            simp only [Page.content]
            have ih := walkOverflowPagesLoop_agrees fuel s1 p.nextPage (data ++ p.data) (pages ++ [start])
            rw [h1.view] at ih
            exact ih.mono h1

theorem getDataFromNode_agrees (s : HBtreePrivate) (nval : NodeValue) :
    Agrees (getDataFromNode s nval) s (dataV (contentAt s) (s.lastPage_ + 1) nval) := by
  unfold getDataFromNode dataV
  by_cases h : nval.isOverflow
  · simp only [h, if_true]
    unfold getOverflowData walkOverflowPages
    have hw := walkOverflowPagesLoop_agrees (s.lastPage_ + 1) s nval.overflowPage [] []
    unfold Agrees at hw
    cases hv : walkV (contentAt s) (s.lastPage_ + 1) nval.overflowPage [] [] with
    | none =>
      rw [hv] at hw
      simp only at hw
      rw [hw]
      rfl
    | some r =>
      rw [hv] at hw
      simp only at hw
      obtain ⟨s1, e, hr⟩ := hw
      rw [e]
      obtain ⟨ok, d, ps⟩ := r
      exact ⟨s1, rfl, hr⟩
  · simp only [h]
    exact ⟨s, rfl, Reads.same s⟩

theorem searchPageLoop_agrees (env : Env) (cursor : Bool) (key : Bytes) (st : SearchType) :
    ∀ (fuel : Nat) (s : HBtreePrivate) (child : Nat) (lq rq : List Nat),
      (∃ cp, findNode s child = some cp) →
      Agrees (searchPageLoop env cursor key st false fuel s child lq rq) s
        (searchV env (contentAt s) cursor key st fuel child lq rq) ∧
      (∀ s1 r, searchPageLoop env cursor key st false fuel s child lq rq = some (s1, r) →
        ∃ lp, findNode s1 r.1 = some lp)
  | 0, s, child, lq, rq, _ => by
    unfold searchV searchPageLoop Agrees
    exact ⟨rfl, fun s1 r h => by simp at h⟩
  | fuel + 1, s, child, lq, rq, ⟨cp, hcp⟩ => by
    unfold searchV searchPageLoop
    rw [hcp, contentAt_of_findNode hcp]
    simp only [Page.content]
    by_cases hb : cp.info.type != PageType.Branch
    · simp only [hb, if_true]
      refine ⟨⟨s, rfl, Reads.same s⟩, ?_⟩
      intro s1 r h
      simp at h
      obtain ⟨h1, h2⟩ := h
      subst h1; subst h2
      exact ⟨cp, hcp⟩
    · simp only [hb]
      cases hi : branchIndex env st key cp.nodes with
      | none => exact ⟨rfl, fun s1 r h => by simp at h⟩
      | some i =>
        simp only
        cases hg : cp.nodes.get? i with
        | none => exact ⟨rfl, fun s1 r h => by simp at h⟩
        | some kv =>
          obtain ⟨pkey, pval⟩ := kv
          simp only
          obtain ⟨g1, g2, g3⟩ := getNodePage_reads s pval.overflowPage
          cases hn : getNodePage s pval.overflowPage with
          | mk s1 r =>
            rw [hn] at g1 g2 g3
            simp only at g1 g2 g3
            cases r with
            | none =>
              simp only
              have hnone := g3 rfl
              cases hv : contentAt s pval.overflowPage with
              | none => exact ⟨rfl, fun s1 r h => by simp at h⟩
              | some pgv =>
                cases pgv with
                | node p => exact absurd hv (hnone p)
                | overflow p => exact ⟨rfl, fun s1 r h => by simp at h⟩
            | some c =>
              obtain ⟨g4, g5⟩ := g2 c rfl
              rw [g4]
              simp only [Page.content, Bool.false_eq_true, if_false]
              have key2 : ∀ (c2 : NodePage) (lq1 rq1 : List Nat),
                  (Page.node c2).content = (Page.node c).content → c2.dirty = c.dirty →
                  Agrees (searchPageLoop env cursor key st false fuel
                      (setNode s1 pval.overflowPage c2) pval.overflowPage lq1 rq1) s
                    (searchV env (contentAt s) cursor key st fuel pval.overflowPage lq1 rq1) ∧
                  (∀ sx r, searchPageLoop env cursor key st false fuel
                      (setNode s1 pval.overflowPage c2) pval.overflowPage lq1 rq1 = some (sx, r) →
                    ∃ lp, findNode sx r.1 = some lp) := by
                intro c2 lq1 rq1 e1 e2
                have hr2 : Reads s (setNode s1 pval.overflowPage c2) :=
                  g1.andThen (setNode_reads g5 e1 e2)
                obtain ⟨i1, i2⟩ := searchPageLoop_agrees env cursor key st fuel
                  (setNode s1 pval.overflowPage c2) pval.overflowPage lq1 rq1
                  ⟨c2, by rw [findNode_setNode]; simp⟩
                rw [hr2.view] at i1
                exact ⟨i1.mono hr2, i2⟩
              exact key2 _ _ _
                (by by_cases h : c.info.type = PageType.Branch <;> simp [h, Page.content])
                (by by_cases h : c.info.type = PageType.Branch <;> simp [h])

theorem Keeps.self (s : HBtreePrivate) : Keeps s s := fun _ _ h => h

theorem Keeps.chain {a b c : HBtreePrivate} (h1 : Keeps a b) (h2 : Keeps b c) : Keeps a c :=
  fun q x h => h2 q x (h1 q x h)

theorem getPage_keeps (s : HBtreePrivate) (pg : Nat) : Keeps s (getPage s pg).1 := by
  intro q x hq
  unfold getPage
  cases hc : cacheFind s pg with
  | some p => exact hq
  | none =>
    simp only
    cases hr : readPage s pg with
    | none => exact hq
    | some page =>
      simp only [cacheFind, cacheInsert, mapFind_mapInsert]
      by_cases h : q = pg
      · subst h; rw [hc] at hq; simp at hq
      · simp only [h, if_false]; exact hq

theorem getNodePage_keeps (s : HBtreePrivate) (pg : Nat) : Keeps s (getNodePage s pg).1 := by
  have h := getPage_keeps s pg
  unfold getNodePage
  split <;> simp_all

theorem descendFirst_agrees :
    ∀ (idx : Nat) (s : HBtreePrivate) (pg : Nat),
      match descendFirstV (contentAt s) idx pg with
      | none => descendFirst idx s pg = none
      | some a => ∃ s1, descendFirst idx s pg = some (s1, a) ∧ Reads s s1 ∧ Keeps s s1
  | 0, s, pg => by
    unfold descendFirstV descendFirst
    exact ⟨s, rfl, Reads.same s, Keeps.self s⟩
  | idx + 1, s, pg => by
    unfold descendFirstV descendFirst
    obtain ⟨g1, g2, g3⟩ := getNodePage_reads s pg
    have gk := getNodePage_keeps s pg
    cases hn : getNodePage s pg with
    | mk s1 r =>
      rw [hn] at g1 g2 g3 gk
      simp only at g1 g2 g3 gk
      cases r with
      | none =>
        have hnone := g3 rfl
        cases hv : contentAt s pg with
        | none => rfl
        | some pgv =>
          cases pgv with
          | node p => exact absurd hv (hnone p)
          | overflow p => rfl
      | some c =>
        obtain ⟨g4, _⟩ := g2 c rfl
        rw [g4]
        simp only [Page.content]
        cases hh : c.nodes.head? with
        | none => rfl
        | some kv =>
          obtain ⟨k, x⟩ := kv
          simp only
          have ih := descendFirst_agrees idx s1 x.overflowPage
          rw [g1.view] at ih
          cases hd : descendFirstV (contentAt s) idx x.overflowPage with
          | none => rw [hd] at ih; exact ih
          | some a =>
            rw [hd] at ih
            obtain ⟨s2, e, r2, k2⟩ := ih
            exact ⟨s2, e, g1.andThen r2, gk.chain k2⟩

theorem descendLast_agrees :
    ∀ (idx : Nat) (s : HBtreePrivate) (pg : Nat),
      match descendLastV (contentAt s) idx pg with
      | none => descendLast idx s pg = none
      | some a => ∃ s1, descendLast idx s pg = some (s1, a) ∧ Reads s s1 ∧ Keeps s s1
  | 0, s, pg => by
    unfold descendLastV descendLast
    exact ⟨s, rfl, Reads.same s, Keeps.self s⟩
  | idx + 1, s, pg => by
    unfold descendLastV descendLast
    obtain ⟨g1, g2, g3⟩ := getNodePage_reads s pg
    have gk := getNodePage_keeps s pg
    cases hn : getNodePage s pg with
    | mk s1 r =>
      rw [hn] at g1 g2 g3 gk
      simp only at g1 g2 g3 gk
      cases r with
      | none =>
        have hnone := g3 rfl
        cases hv : contentAt s pg with
        | none => rfl
        | some pgv =>
          cases pgv with
          | node p => exact absurd hv (hnone p)
          | overflow p => rfl
      | some c =>
        obtain ⟨g4, _⟩ := g2 c rfl
        rw [g4]
        simp only [Page.content]
        cases hh : c.nodes.getLast? with
        | none => rfl
        | some kv =>
          obtain ⟨k, x⟩ := kv
          simp only
          have ih := descendLast_agrees idx s1 x.overflowPage
          rw [g1.view] at ih
          cases hd : descendLastV (contentAt s) idx x.overflowPage with
          | none => rw [hd] at ih; exact ih
          | some a =>
            rw [hd] at ih
            obtain ⟨s2, e, r2, k2⟩ := ih
            exact ⟨s2, e, g1.andThen r2, gk.chain k2⟩

theorem getRightSibling_agrees (s : HBtreePrivate) (rq : List Nat) :
    match getRightSiblingV (contentAt s) rq with
    | none => getRightSibling s rq = none
    | some a => ∃ s1, getRightSibling s rq = some (s1, a) ∧ Reads s s1 ∧ Keeps s s1 := by
  unfold getRightSiblingV getRightSibling
  simp only
  cases hq : rq.dropWhile (fun n => n == INVALID_PAGE) with
  | nil => exact ⟨s, rfl, Reads.same s, Keeps.self s⟩
  | cons top t => exact descendFirst_agrees _ s top

theorem getLeftSibling_agrees (s : HBtreePrivate) (lq : List Nat) :
    match getLeftSiblingV (contentAt s) lq with
    | none => getLeftSibling s lq = none
    | some a => ∃ s1, getLeftSibling s lq = some (s1, a) ∧ Reads s s1 ∧ Keeps s s1 := by
  unfold getLeftSiblingV getLeftSibling
  simp only
  cases hq : lq.dropWhile (fun n => n == INVALID_PAGE) with
  | nil => exact ⟨s, rfl, Reads.same s, Keeps.self s⟩
  | cons top t => exact descendLast_agrees _ s top

theorem searchPageRoot_agrees (env : Env) (s : HBtreePrivate) (cursor : Bool) (root : Nat)
    (key : Bytes) (st : SearchType) (h : ∃ cp, findNode s root = some cp) :
    match searchRootV env (contentAt s) cursor root key st (s.lastPage_ + 1) with
    | none => searchPageRoot env s cursor (some root) key st false = none
    | some (leaf, right, left) =>
      ∃ s1 lp, searchPageRoot env s cursor (some root) key st false = some (s1, some leaf) ∧
        Reads s s1 ∧ findNode s1 leaf = some lp ∧
        (cursor = true → lp.rightPageNumber = right ∧ lp.leftPageNumber = left) := by
  obtain ⟨a1, a2⟩ := searchPageLoop_agrees env cursor key st (s.lastPage_ + 1) s root [] [] h
  unfold searchRootV searchPageRoot
  simp only
  unfold Agrees at a1
  cases hv : searchV env (contentAt s) cursor key st (s.lastPage_ + 1) root [] [] with
  | none =>
    rw [hv] at a1
    simp only at a1
    rw [a1]
  | some r =>
    obtain ⟨leaf, lq, rq⟩ := r
    rw [hv] at a1
    simp only at a1
    obtain ⟨s1, e1, r1⟩ := a1
    obtain ⟨lp, hlp⟩ := a2 s1 _ e1
    simp only at hlp
    rw [e1]
    simp only
    cases cursor with
    | false =>
      simp only [Bool.false_eq_true, if_false]
      exact ⟨s1, lp, rfl, r1, hlp, fun h => by simp at h⟩
    | true =>
      simp only [if_true]
      have hR := getRightSibling_agrees s1 rq
      rw [r1.view] at hR
      cases hr : getRightSiblingV (contentAt s) rq with
      | none =>
        rw [hr] at hR
        simp only at hR
        rw [hR]
      | some right =>
        rw [hr] at hR
        simp only at hR
        obtain ⟨s2, e2, r2, k2⟩ := hR
        rw [e2]
        simp only
        have hL := getLeftSibling_agrees s2 lq
        rw [r2.view, r1.view] at hL
        cases hl : getLeftSiblingV (contentAt s) lq with
        | none =>
          rw [hl] at hL
          simp only at hL
          rw [hL]
        | some left =>
          rw [hl] at hL
          simp only at hL
          obtain ⟨s3, e3, r3, k3⟩ := hL
          rw [e3]
          simp only
          have hlp3 : findNode s3 leaf = some lp :=
            findNode_iff.mpr (k3 _ _ (k2 _ _ (findNode_iff.mp hlp)))
          rw [hlp3]
          simp only
          refine ⟨_, { lp with rightPageNumber := right, leftPageNumber := left }, rfl, ?_,
            by rw [findNode_setNode]; simp, fun _ => ⟨rfl, rfl⟩⟩
          exact ((r1.andThen r2).andThen r3).andThen (setNode_reads hlp3 rfl rfl)

/-- The root that `searchPage` starts from: the root of the transaction, or of
the current marker for the null pointer. -/
theorem searchPage_agrees (env : Env) (s : HBtreePrivate) (cursor : Bool) (transaction : Option Nat)
    (root : Nat) (key : Bytes) (st : SearchType)
    (hroot : (match transaction with
      | none => some s.marker_.meta.root
      | some t => transactionRoot s t) = some root)
    (hne : root ≠ INVALID_PAGE) (hcp : ∃ cp, contentAt s root = some (Page.node cp)) :
    match searchRootV env (contentAt s) cursor root key st (s.lastPage_ + 1) with
    | none => searchPage env s cursor transaction key st false = none
    | some (leaf, right, left) =>
      ∃ s1 lp, searchPage env s cursor transaction key st false = some (s1, some leaf) ∧
        Reads s s1 ∧ findNode s1 leaf = some lp ∧
        (cursor = true → lp.rightPageNumber = right ∧ lp.leftPageNumber = left) := by
  have hsp : searchPage env s cursor transaction key st false =
      match getNodePage s root with
      | (s1, none) => searchPageRoot env s1 cursor none key st false
      | (s1, some _) => searchPageRoot env s1 cursor (some root) key st false := by
    unfold searchPage
    cases transaction with
    | none =>
      simp only [Option.some.injEq] at hroot
      simp only [hroot, hne, if_false, Bool.false_eq_true]
    | some t =>
      simp only at hroot
      simp only [hroot, hne, if_false, Bool.false_eq_true]
  rw [hsp]
  obtain ⟨g1, g2, g3⟩ := getNodePage_reads s root
  cases hn : getNodePage s root with
  | mk s1 r =>
    rw [hn] at g1 g2 g3
    simp only at g1 g2 g3
    cases r with
    | none =>
      obtain ⟨cp, hcp⟩ := hcp
      exact absurd hcp (g3 rfl cp)
    | some c =>
      obtain ⟨_, g5⟩ := g2 c rfl
      have h1 := searchPageRoot_agrees env s1 cursor root key st ⟨c, g5⟩
      rw [g1.view, g1.2.1] at h1
      cases hv : searchRootV env (contentAt s) cursor root key st (s.lastPage_ + 1) with
      | none => rw [hv] at h1; exact h1
      | some r =>
        obtain ⟨leaf, right, left⟩ := r
        rw [hv] at h1
        simp only at h1 ⊢
        obtain ⟨s2, lp, e, r2, f, c2⟩ := h1
        exact ⟨s2, lp, e, g1.andThen r2, f, c2⟩

theorem get_unreadable_root (env : Env) (s : HBtreePrivate) (transaction : Option Nat) (root : Nat)
    (key : Bytes)
    (hroot : (match transaction with
      | none => some s.marker_.meta.root
      | some t => transactionRoot s t) = some root)
    (hne : root ≠ INVALID_PAGE) (hv : ∀ p, contentAt s root ≠ some (Page.node p)) :
    (get env s transaction key).map Prod.snd = some [] := by
  obtain ⟨_, g2, _⟩ := getNodePage_reads s root
  have hn : (getNodePage s root).2 = none := by
    cases h : (getNodePage s root).2 with
    | none => rfl
    | some p => exact absurd (g2 p h).1 (by rw [show (Page.node p).content = Page.node _ from rfl]; exact hv _)
  have hsp : searchPage env s false transaction key SearchType.SearchKey false =
      some ((getNodePage s root).1, none) := by
    unfold searchPage
    cases transaction with
    | none =>
      simp only [Option.some.injEq] at hroot
      simp only [hroot, hne, if_false, Bool.false_eq_true]
      cases hg : getNodePage s root with
      | mk a b =>
        rw [hg] at hn
        simp only at hn
        subst hn
        rfl
    | some t =>
      simp only at hroot
      simp only [hroot, hne, if_false, Bool.false_eq_true]
      cases hg : getNodePage s root with
      | mk a b =>
        rw [hg] at hn
        simp only at hn
        subst hn
        rfl
  unfold get
  rw [hsp]
  rfl

/-- The value that `get` returns is the value over the view of the state. -/
theorem get_value (env : Env) (s : HBtreePrivate) (transaction : Option Nat) (root : Nat)
    (key : Bytes)
    (hroot : (match transaction with
      | none => some s.marker_.meta.root
      | some t => transactionRoot s t) = some root) :
    (get env s transaction key).map Prod.snd = getV env (contentAt s) root key (s.lastPage_ + 1) := by
  unfold getV
  by_cases hne : root = INVALID_PAGE
  · simp only [hne, if_true]
    unfold get searchPage
    cases transaction with
    | none =>
      simp only [Option.some.injEq] at hroot
      simp [hroot, hne]
    | some t =>
      simp only at hroot
      simp [hroot, hne]
  · simp only [hne, if_false]
    cases hv : contentAt s root with
    | none =>
      simp only
      exact get_unreadable_root env s transaction root key hroot hne (fun p h => by rw [hv] at h; simp at h)
    | some pgv =>
      cases pgv with
      | overflow p =>
        simp only
        exact get_unreadable_root env s transaction root key hroot hne (fun p h => by rw [hv] at h; simp at h)
      | node cp =>
        simp only
        have h1 := searchPage_agrees env s false transaction root key SearchType.SearchKey hroot hne
          ⟨cp, hv⟩
        unfold get
        cases hs : searchRootV env (contentAt s) false root key SearchType.SearchKey (s.lastPage_ + 1) with
        | none =>
          rw [hs] at h1
          simp only at h1
          rw [h1]
          rfl
        | some r =>
          obtain ⟨leaf, right, left⟩ := r
          rw [hs] at h1
          simp only at h1 ⊢
          obtain ⟨s1, lp, e, r1, f, _⟩ := h1
          rw [e]
          simp only [f]
          have hc := contentAt_of_findNode f
          rw [r1.view] at hc
          rw [hc]
          simp only [Page.content]
          have hd := getDataFromNode_agrees s1 (OrderedList.value env key lp.nodes {})
          rw [r1.view, r1.2.1] at hd
          unfold Agrees at hd
          cases hdv : dataV (contentAt s) (s.lastPage_ + 1) (OrderedList.value env key lp.nodes {}) with
          | none =>
            rw [hdv] at hd
            simp only at hd
            rw [hd]
            rfl
          | some d =>
            rw [hdv] at hd
            simp only at hd
            obtain ⟨s2, e2, _⟩ := hd
            rw [e2]
            rfl

theorem capacity_marker (env : Env) (spec : Spec) (c n l u : Nat) :
    capacity env spec { checksum := c, type := PageType.Marker, number := n, lowerOffset := l,
                        upperOffset := u } 0 = capacity env spec { type := PageType.Marker } 0 := rfl

theorem writeMarker_inline (env : Env) (s : HBtreePrivate) (page : MarkerPage)
    (hty : page.info.type = PageType.Marker)
    (hfit : u16 (page.residueHistory.length * 4) ≤ capacity env s.spec_ { type := PageType.Marker } 0)
    (hw : page.info.number ∉ s.failWrites) :
    writeMarker env s page =
      some ({ s with
          size_ := if page.meta.size = 0 then s.filePages * s.spec_.pageSize else s.size_,
          file := mapInsert page.info.number
            (DiskPage.marker (markerImage page (s.filePages * s.spec_.pageSize))) s.file,
          filePages := max s.filePages (page.info.number + 1),
          stats_ := { s.stats_ with writes := s.stats_.writes + 1 } },
        markerImage page (s.filePages * s.spec_.pageSize), true) := by
  unfold writeMarker
  by_cases hn : (page.info.number != 1) = true <;> by_cases hz : page.meta.size = 0 <;>
    simp only [hn, hz, hty, capacity_marker, not_lt.mpr hfit, gt_iff_lt, decide_False,
      Bool.and_false, if_false, if_true, Bool.false_eq_true, writePage, hw, markerImage]

theorem u32sOfBytes_some : ∀ (count : Nat) (b : Bytes), count * 4 ≤ b.length →
    ∃ l, u32sOfBytes count b = some l
  | 0, _, _ => ⟨[], rfl⟩
  | count + 1, b, h => by
    match b, h with
    | a :: b1 :: c :: d :: rest, h =>
      obtain ⟨l, hl⟩ := u32sOfBytes_some count rest (by simp at h; omega)
      exact ⟨_, by unfold u32sOfBytes; rw [hl]⟩
    | [], h => simp at h
    | [_], h => simp at h; omega
    | [_, _], h => simp at h; omega
    | [_, _, _], h => simp at h; omega

theorem markerPayload_length (env : Env) (spec : Spec) (img : MarkerPage) :
    (markerPayload env spec img).length = capacity env spec img.info 0 := by
  unfold markerPayload
  simp

theorem readMarker_inline (env : Env) (s : HBtreePrivate) (pgno : Nat) (markerOut img : MarkerPage)
    (hf : mapFind pgno s.file = some (DiskPage.marker img)) (hn : img.info.number = pgno)
    (hflag : img.meta.flags % 2 = 0)
    (hfit : img.info.upperOffset ≤ capacity env s.spec_ img.info 0)
    (h4 : img.info.upperOffset % 4 = 0) :
    ∃ l, readMarker env s pgno markerOut =
      some ({ s with stats_ := { s.stats_ with reads := s.stats_.reads + 1 } },
        { markerOut with info := img.info, meta := img.meta,
                         residueHistory := setUnite markerOut.residueHistory l }, true) := by
  unfold readMarker
  have hne : ¬ (img.meta.flags % 2 = 1) := by omega
  simp only [hf, hn, bne_self_eq_false, Bool.false_eq_true, if_false, hne]
  by_cases hp : img.info.hasPayload = true
  · simp only [hp, if_true]
    obtain ⟨l, hl⟩ := u32sOfBytes_some ((img.info.upperOffset + 3) / 4) (markerPayload env s.spec_ img)
      (by rw [markerPayload_length]; omega)
    rw [hl]
    exact ⟨l, rfl⟩
  · simp only [hp, if_false]
    exact ⟨[], rfl⟩

theorem capacity_of_type (env : Env) (spec : Spec) (info : PageInfo)
    (h : info.type = PageType.Marker) :
    capacity env spec info 0 = capacity env spec { type := PageType.Marker } 0 := by
  unfold capacity headerSize
  simp only [h]

theorem sync_inline (env : Env) (s : HBtreePrivate)
    (h1 : s.openMode_ = OpenMode.ReadWrite)
    (h2 : s.marker_.meta.syncId ≠ s.lastSyncedId_)
    (h3b : s.synced_.meta.flags % 2 = 0)
    (h5 : s.marker_.info.type = PageType.Marker)
    (h4 : u16 (s.marker_.residueHistory.length * 4) ≤ capacity env s.spec_ { type := PageType.Marker } 0)
    (h6 : 1 ∉ s.failWrites) (h6b : 2 ∉ s.failWrites) :
    ∃ s5, sync env s = some (s5, true) ∧
      s5.file = mapInsert 2 (DiskPage.marker (markerImage (copyMarker
          (markerImage (copyMarker s.marker_ { info := { type := PageType.Marker, number := 1 } })
            (s.filePages * s.spec_.pageSize))
          { info := { type := PageType.Marker, number := 2 } })
          (max s.filePages 2 * s.spec_.pageSize)))
        (mapInsert 1 (DiskPage.marker
          (markerImage (copyMarker s.marker_ { info := { type := PageType.Marker, number := 1 } })
            (s.filePages * s.spec_.pageSize))) s.file) ∧
      s5.filePages = max (max s.filePages 2) 3 ∧ s5.openMode_ = s.openMode_ ∧
      s5.spec_ = s.spec_ ∧ s5.transactions = s.transactions ∧ s5.failWrites = s.failWrites := by
  unfold sync
  have hro : ¬ (s.openMode_ = OpenMode.ReadOnly) := by rw [h1]; simp
  simp only [hro, h2, if_false]
  rw [writeMarker_inline env s _ (by exact h5) (by exact h4) (by exact h6)]
  have hf1 : ¬ (s.synced_.meta.flags % 2 = 1) := by omega
  simp only [hf1, if_false]
  rw [writeMarker_inline env _ _ (by exact h5) _ (by exact h6b)]
  · exact ⟨_, rfl, rfl, rfl, rfl, rfl, rfl, rfl⟩
  · exact h4

theorem openExisting_inline (env : Env) (sc : HBtreePrivate) (sp : Spec) (img : MarkerPage)
    (h0 : mapFind 0 sc.file = some (DiskPage.spec sp)) (hv : sp.version = 0xdeadc0de)
    (hp : sp.pageSize ≠ 0)
    (hf : mapFind 1 sc.file = some (DiskPage.marker img)) (hn : img.info.number = 1)
    (hflag : img.meta.flags % 2 = 0)
    (hfit : img.info.upperOffset ≤ capacity env sp img.info 0)
    (h4 : img.info.upperOffset % 4 = 0)
    (hmode : sc.openMode_ = OpenMode.ReadWrite)
    (hsz : sc.filePages ≤ img.meta.size / sp.pageSize) :
    ∃ s1, openExisting env sc = some (s1, true) ∧ s1.file = sc.file ∧ s1.cache_ = sc.cache_ ∧
      s1.marker_.meta = img.meta ∧ s1.lastPage_ = img.meta.size / sp.pageSize ∧
      s1.transactions = sc.transactions := by
  unfold openExisting
  have hv2 : (sp.version != 0xdeadc0de) = false := by rw [hv]; rfl
  simp only [h0, hv2, hp, Bool.false_eq_true, if_false]
  unfold readSyncedMarker
  obtain ⟨l, hl⟩ := readMarker_inline env
    { sc with stats_ := { reads := 1 }, spec_ := sp } 1 sc.marker_ img hf hn hflag hfit h4
  simp only at hl
  rw [hl]
  have hlt : ¬ (img.meta.size / sp.pageSize < sc.filePages) := by omega
  simp only [hmode, if_true, hlt, if_false]
  exact ⟨_, rfl, rfl, rfl, rfl, rfl, rfl⟩

theorem mapFind_mem {α : Type} (n : Nat) (v : α) :
    ∀ l : List (Nat × α), mapFind n l = some v → (n, v) ∈ l
  | [], h => by simp [mapFind] at h
  | (m, w) :: t, h => by
    unfold mapFind at h
    by_cases hm : m = n
    · simp only [hm, if_true, Option.some.injEq] at h
      subst hm; subst h
      exact List.mem_cons_self _ _
    · simp only [hm, if_false] at h
      exact List.mem_cons_of_mem _ (mapFind_mem n v t h)

theorem readPage_entry {s s1 : HBtreePrivate} {pg : Nat}
    (h : mapFind pg s1.file = mapFind pg s.file) : readPage s1 pg = readPage s pg := by
  unfold readPage; rw [h]

theorem readPage_marker {s : HBtreePrivate} {pg : Nat} {m : MarkerPage}
    (h : mapFind pg s.file = some (DiskPage.marker m)) : readPage s pg = none := by
  unfold readPage; rw [h]

theorem u16_mul4_mod (n : Nat) : u16 (n * 4 : Nat) % 4 = 0 := by
  rw [u16_natCast]
  omega

theorem lowerBound_split (env : Env) (ko : KeyOrder env) (key : Bytes) :
    ∀ nodes : Nodes, SortedKeys env nodes →
      OrderedList.lowerBound env key nodes ≤ nodes.length ∧
      (∀ e ∈ nodes.take (OrderedList.lowerBound env key nodes), NodeKey.lt env e.1 key = true) ∧
      (∀ e ∈ nodes.drop (OrderedList.lowerBound env key nodes), NodeKey.lt env e.1 key = false)
  | [], _ => by simp [OrderedList.lowerBound]
  | (k, x) :: t, hs => by
    have hs2 := List.pairwise_cons.mp hs
    unfold OrderedList.lowerBound
    by_cases h : NodeKey.lt env k key = true
    · simp only [h, if_true]
      obtain ⟨i1, i2, i3⟩ := lowerBound_split env ko key t hs2.2
      refine ⟨by simp; omega, ?_, ?_⟩
      · intro e he
        simp only [List.take_succ_cons, List.mem_cons] at he
        rcases he with he | he
        · rw [he]; exact h
        · exact i2 e he
      · intro e he
        simp only [List.drop_succ_cons] at he
        exact i3 e he
    · simp only [h, Bool.false_eq_true, if_false]
      refine ⟨by simp, by simp, ?_⟩
      intro e he
      simp only [List.drop_zero, List.mem_cons] at he
      have hk : NodeKey.lt env k key = false := by simpa using h
      rcases he with he | he
      · rw [he]; exact hk
      · have h1 := hs2.1 e he
        simp only at h1
        cases h2 : NodeKey.lt env e.1 key with
        | false => rfl
        | true => rw [ko.trans k e.1 key h1 h2] at hk; simp at hk

theorem upperBound_split (env : Env) (ko : KeyOrder env) (key : Bytes) :
    ∀ nodes : Nodes, SortedKeys env nodes →
      OrderedList.upperBound env key nodes ≤ nodes.length ∧
      (∀ e ∈ nodes.take (OrderedList.upperBound env key nodes), NodeKey.lt env key e.1 = false) ∧
      (∀ e ∈ nodes.drop (OrderedList.upperBound env key nodes), NodeKey.lt env key e.1 = true)
  | [], _ => by simp [OrderedList.upperBound]
  | (k, x) :: t, hs => by
    have hs2 := List.pairwise_cons.mp hs
    unfold OrderedList.upperBound
    by_cases h : NodeKey.lt env key k = true
    · simp only [h, if_true]
      refine ⟨by simp, by simp, ?_⟩
      intro e he
      simp only [List.drop_zero, List.mem_cons] at he
      rcases he with he | he
      · rw [he]; exact h
      · exact ko.trans key k e.1 h (hs2.1 e he)
    · simp only [h, Bool.false_eq_true, if_false]
      obtain ⟨i1, i2, i3⟩ := upperBound_split env ko key t hs2.2
      refine ⟨by simp; omega, ?_, ?_⟩
      · intro e he
        simp only [List.take_succ_cons, List.mem_cons] at he
        rcases he with he | he
        · rw [he]; simpa using h
        · exact i2 e he
      · intro e he
        simp only [List.drop_succ_cons] at he
        exact i3 e he

theorem rightOfV_zero (v : View) (rq : List Nat) : rightOfV v 0 rq = getRightSiblingV v rq := rfl

theorem leftOfV_zero (v : View) (lq : List Nat) : leftOfV v 0 lq = getLeftSiblingV v lq := rfl

theorem dropWhile_length_le {α : Type} (p : α → Bool) : ∀ l : List α, (l.dropWhile p).length ≤ l.length
  | [] => by simp
  | a :: l => by
    rw [List.dropWhile_cons]
    split
    · have := dropWhile_length_le p l
      simp
      omega
    · simp

theorem rightOfV_cons (v : View) (h x : Nat) (rq : List Nat) :
    rightOfV v h (x :: rq) =
      if x = INVALID_PAGE then rightOfV v (h + 1) rq else descendFirstV v h x := by
  unfold rightOfV
  by_cases hx : x = INVALID_PAGE
  · simp only [hx, if_true, List.dropWhile_cons, beq_self_eq_true]
    have hl := dropWhile_length_le (fun n => n == INVALID_PAGE) rq
    cases hq : rq.dropWhile (fun n => n == INVALID_PAGE) with
    | nil => rfl
    | cons top t =>
      simp only
      rw [hq] at hl
      congr 1
      simp only [List.length_cons] at hl ⊢
      omega
  · have hb : (x == INVALID_PAGE) = false := by simpa using hx
    simp only [hx, if_false, List.dropWhile_cons, hb]
    simp

theorem leftOfV_cons (v : View) (h x : Nat) (lq : List Nat) :
    leftOfV v h (x :: lq) =
      if x = INVALID_PAGE then leftOfV v (h + 1) lq else descendLastV v h x := by
  unfold leftOfV
  by_cases hx : x = INVALID_PAGE
  · simp only [hx, if_true, List.dropWhile_cons, beq_self_eq_true]
    have hl := dropWhile_length_le (fun n => n == INVALID_PAGE) lq
    cases hq : lq.dropWhile (fun n => n == INVALID_PAGE) with
    | nil => rfl
    | cons top t =>
      simp only
      rw [hq] at hl
      congr 1
      simp only [List.length_cons] at hl ⊢
      omega
  · have hb : (x == INVALID_PAGE) = false := by simpa using hx
    simp only [hx, if_false, List.dropWhile_cons, hb]
    simp

theorem KeyOrder.lt_of_lt_of_le {env : Env} (ko : KeyOrder env) {a b c : Bytes}
    (h1 : NodeKey.lt env a b = true) (h2 : NodeKey.lt env c b = false) :
    NodeKey.lt env a c = true := by
  cases h3 : NodeKey.lt env a c with
  | true => rfl
  | false =>
    cases h4 : NodeKey.lt env c a with
    | true => rw [ko.trans c a b h4 h1] at h2; simp at h2
    | false =>
      have e := ko.total a c h3 h4
      subst e
      rw [h1] at h2; simp at h2

theorem KeyOrder.lt_of_le_of_lt {env : Env} (ko : KeyOrder env) {a b c : Bytes}
    (h1 : NodeKey.lt env b a = false) (h2 : NodeKey.lt env b c = true) :
    NodeKey.lt env a c = true := by
  cases h3 : NodeKey.lt env a c with
  | true => rfl
  | false =>
    cases h4 : NodeKey.lt env c a with
    | true => rw [ko.trans b c a h2 h4] at h1; simp at h1
    | false =>
      have e := ko.total a c h3 h4
      subst e
      rw [h2] at h1; simp at h1

theorem KeyOrder.le_trans {env : Env} (ko : KeyOrder env) {a b c : Bytes}
    (h1 : NodeKey.lt env b a = false) (h2 : NodeKey.lt env c b = false) :
    NodeKey.lt env c a = false := by
  cases h3 : NodeKey.lt env c a with
  | false => rfl
  | true => rw [ko.lt_of_lt_of_le h3 h1] at h2; simp at h2

theorem KeyOrder.asymm {env : Env} (ko : KeyOrder env) {a b : Bytes}
    (h1 : NodeKey.lt env a b = true) : NodeKey.lt env b a = false := by
  cases h3 : NodeKey.lt env b a with
  | false => rfl
  | true =>
    have := ko.trans a b a h1 h3
    rw [ko.irrefl] at this
    simp at this

theorem get?_mem_tail {α : Type} : ∀ (l : List α) (i : Nat) (e : α),
    l.get? (i + 1) = some e → e ∈ l.tail
  | [], i, e, h => by simp at h
  | a :: l, i, e, h => by
    simp only [List.get?_cons_succ] at h
    simp only [List.tail_cons]
    exact List.get?_mem h

/-- The entries of a well-formed tree lie within its bounds. -/
theorem WF_bounds (env : Env) (ko : KeyOrder env) (v : View) :
    ∀ (h pg : Nat) (lo : Bytes) (hi : Option Bytes), WF env v h pg lo hi →
      ∀ e ∈ entriesV v h pg, NodeKey.lt env e.1 lo = false ∧
        ∀ x, hi = some x → NodeKey.lt env e.1 x = true
  | 0, pg, lo, hi, hw => by
    obtain ⟨p, hp, _, _, _, hb⟩ := hw
    intro e he
    unfold entriesV at he
    rw [hp] at he
    exact hb e he
  | h + 1, pg, lo, hi, hw => by
    obtain ⟨p, hp, _, _, hs, hfirst, htail, hkids⟩ := hw
    intro e he
    unfold entriesV at he
    rw [hp] at he
    simp only [List.mem_flatten, List.mem_map] at he
    obtain ⟨l, ⟨c, hc, rfl⟩, hel⟩ := he
    obtain ⟨i, hi1⟩ := List.get?_of_mem hc
    obtain ⟨_, hwc⟩ := hkids i c hi1
    obtain ⟨b1, b2⟩ := WF_bounds env ko v h _ _ _ hwc e hel
    constructor
    · by_cases h0 : i = 0
      · simpa [h0] using b1
      · simp only [h0, if_false] at b1
        obtain ⟨j, rfl⟩ : ∃ j, i = j + 1 := ⟨i - 1, by omega⟩
        have hct := (htail c (get?_mem_tail _ _ _ hi1)).1
        exact ko.le_trans (ko.asymm hct) b1
    · intro x hx
      cases hn : p.nodes.get? (i + 1) with
      | none =>
        rw [hn] at b2
        exact b2 x hx
      | some e2 =>
        rw [hn] at b2
        have h1 := b2 e2.1 rfl
        have h2 := (htail e2 (get?_mem_tail _ _ _ hn)).2 x hx
        exact ko.trans _ _ _ h1 h2

theorem slice_splice (w buffer : Bytes) (b e : Nat) (hw : w.length = 4) (h4 : 4 ≤ b) :
    slice (w ++ buffer.drop 4) b e = slice buffer b e := by
  unfold slice
  obtain ⟨k, rfl⟩ := Nat.exists_eq_add_of_le h4
  have h1 : (w ++ buffer.drop 4).drop (4 + k) = buffer.drop (4 + k) := by
    rw [← hw, List.drop_append, List.drop_drop, hw, Nat.add_comm]
  rw [h1]

theorem splice_length (w buffer : Bytes) (hw : w.length = 4) (hb : 4 ≤ buffer.length) :
    (w ++ buffer.drop 4).length = buffer.length := by
  rw [List.length_append, List.length_drop, hw]; omega

theorem slice_set_high (buffer : Bytes) (i x b e : Nat) (h : i < b) :
    slice (buffer.set i x) b e = slice buffer b e := by
  unfold slice
  rw [List.drop_set_of_lt x buffer h]

theorem slice_set_low (buffer : Bytes) (i x b e : Nat) (h : e ≤ i) :
    slice (buffer.set i x) b e = slice buffer b e := by
  by_cases hib : i < b
  · exact slice_set_high buffer i x b e hib
  · unfold slice
    rw [List.drop_set, if_neg hib, List.set_take, List.set_eq_of_length_le]
    rw [List.length_take]
    omega

theorem not32_lt (x : Nat) : not32 x < 4294967296 := by
  unfold not32; omega

theorem calculateChecksumRange_lt (data : Bytes) : calculateChecksumRange data < 4294967296 := by
  unfold calculateChecksumRange
  split
  · decide
  · exact not32_lt _

theorem u32OfBytes_bytesOfU32 (c : Nat) (h : c < 4294967296) :
    u32OfBytes (bytesOfU32 c) = c := by
  unfold bytesOfU32 u32OfBytes
  simp only [Nat.mod_mod]
  omega

theorem pwrite_read (file buffer : Bytes) (offset : Nat) :
    ((pwrite file buffer offset).drop offset).take buffer.length = buffer := by
  unfold pwrite
  generalize hp : (file ++ List.replicate (offset - file.length) 0).take offset = p
  have hl : p.length = offset := by
    rw [← hp, List.length_take, List.length_append, List.length_replicate]; omega
  rw [List.append_assoc, ← hl, List.drop_left, List.take_left]

theorem deserializePageInfo_splice (w buffer : Bytes) (hw : w.length = 4) :
    (deserializePageInfo (w ++ buffer.drop 4)).type = (deserializePageInfo buffer).type ∧
    (deserializePageInfo (w ++ buffer.drop 4)).number = (deserializePageInfo buffer).number ∧
    (deserializePageInfo (w ++ buffer.drop 4)).lowerOffset = (deserializePageInfo buffer).lowerOffset ∧
    (deserializePageInfo (w ++ buffer.drop 4)).upperOffset = (deserializePageInfo buffer).upperOffset := by
  simp only [deserializePageInfo]
  rw [slice_splice w buffer 4 8 hw (by decide), slice_splice w buffer 8 12 hw (by decide),
    slice_splice w buffer 12 14 hw (by decide), slice_splice w buffer 14 16 hw (by decide)]
  exact ⟨rfl, rfl, rfl, rfl⟩

theorem headerSize_type (env : Env) (i j : PageInfo) (h : i.type = j.type) :
    i.headerSize env = j.headerSize env := by
  unfold PageInfo.headerSize; rw [h]

theorem calculateChecksum_splice (env : Env) (spec : Spec) (buffer w : Bytes) (hw : w.length = 4)
    (h16 : 16 ≤ buffer.length)
    (hup : (deserializePageInfo buffer).type = PageType.Branch ∨
        (deserializePageInfo buffer).type = PageType.Leaf →
      (deserializePageInfo buffer).upperOffset + 4 ≤ spec.pageSize) :
    calculateChecksum env spec (w ++ buffer.drop 4) = calculateChecksum env spec buffer := by
  obtain ⟨ht, _, hlo, hup1⟩ := deserializePageInfo_splice w buffer hw
  have hl := splice_length w buffer hw (by omega)
  have hh := headerSize_type env _ _ ht
  have hhist : deserializeHistorySize env (w ++ buffer.drop 4) = deserializeHistorySize env buffer := by
    unfold deserializeHistorySize
    rw [slice_splice w buffer _ _ hw (by omega)]
  unfold calculateChecksum checksumOf
  dsimp only
  rw [hl, ht, hlo, hup1, hh, hhist]
  simp only [slice_splice w buffer 4 _ hw (Nat.le_refl 4)]
  by_cases hn : (deserializePageInfo buffer).type = PageType.Branch ∨
      (deserializePageInfo buffer).type = PageType.Leaf
  · have h4 := hup hn
    rw [slice_splice w buffer _ _ hw (by omega)]
  · cases hty : (deserializePageInfo buffer).type <;> simp_all

theorem calculateChecksum_lt {env : Env} {spec : Spec} {buffer : Bytes} {c : Nat}
    (h : calculateChecksum env spec buffer = some c) : c < 4294967296 := by
  have hx : ∀ a b : Nat, a < 4294967296 → b < 4294967296 → a ^^^ b < 4294967296 :=
    fun a b ha hb => Nat.xor_lt_two_pow (n := 32) ha hb
  have hco : ∀ b e c, checksumOf buffer b e = some c → c < 4294967296 := by
    intro b e c hc
    unfold checksumOf at hc
    split at hc
    · simp only [Option.some.injEq] at hc; rw [← hc]; exact calculateChecksumRange_lt _
    · exact absurd hc (by simp)
  unfold calculateChecksum at h
  split at h
  · exact absurd h (by simp)
  · simp only at h
    split at h
    · exact hco _ _ _ h
    · split at h
      · split at h
        · simp only [Option.some.injEq] at h; rw [← h]
          exact hx _ _ (hco _ _ _ (by assumption)) (calculateChecksumRange_lt _)
        · exact absurd h (by simp)
      · exact absurd h (by simp)
    · split at h
      · split at h
        · simp only [Option.some.injEq] at h; rw [← h]
          exact hx _ _ (hco _ _ _ (by assumption)) (calculateChecksumRange_lt _)
        · exact absurd h (by simp)
      · exact absurd h (by simp)
    · exact hco _ _ _ h
    · exact hco _ _ _ h
    · simp only [Option.some.injEq] at h; omega

theorem calculateChecksum_length {env : Env} {spec : Spec} {buffer : Bytes} {c : Nat}
    (h : calculateChecksum env spec buffer = some c) :
    buffer.length = spec.pageSize ∧ 16 ≤ buffer.length := by
  unfold calculateChecksum at h
  split at h
  · exact absurd h (by simp)
  · rename_i hn
    simp only [not_or, not_not, Nat.not_lt] at hn
    exact hn

theorem splitIndexLeaf_spec (env : Env) (spec : Spec) (threshold : Nat) :
    ∀ (nodes : Nodes) (current : Nat),
      splitIndexLeaf env spec threshold nodes current ≤ nodes.length ∧
      (∀ j, j < splitIndexLeaf env spec threshold nodes current →
        (nodes.take j).foldl (fun cur e => u16 (cur + spaceNeededForNode env spec e.1 e.2.data))
          current < threshold) ∧
      (splitIndexLeaf env spec threshold nodes current < nodes.length →
        threshold ≤ (nodes.take (splitIndexLeaf env spec threshold nodes current)).foldl
          (fun cur e => u16 (cur + spaceNeededForNode env spec e.1 e.2.data)) current)
  | [], current => by
    simp [splitIndexLeaf]
  | (k, v) :: t, current => by
    unfold splitIndexLeaf
    by_cases hc : current < threshold
    · rw [if_pos hc]
      obtain ⟨h1, h2, h3⟩ := splitIndexLeaf_spec env spec threshold t
        (u16 (current + spaceNeededForNode env spec k v.data))
      refine ⟨by simp only [List.length_cons]; omega, ?_, ?_⟩
      · intro j hj
        cases j with
        | zero => simpa using hc
        | succ j =>
          simp only [List.take_succ_cons, List.foldl_cons]
          exact h2 j (by omega)
      · intro hlt
        simp only [List.take_succ_cons, List.foldl_cons]
        exact h3 (by simp only [List.length_cons] at hlt; omega)
    · rw [if_neg hc]
      refine ⟨Nat.zero_le _, fun j hj => absurd hj (Nat.not_lt_zero j), ?_⟩
      intro _
      simpa using Nat.le_of_not_lt hc

theorem findNode_cacheDelete (s : HBtreePrivate) (n q : Nat) :
    findNode (cacheDelete s n) q = if q = n then none else findNode s q := by
  unfold cacheDelete cacheRemove
  cases hc : cacheFind s n with
  | none =>
    simp only
    by_cases h : q = n
    · rw [if_pos h, h]; unfold findNode; rw [hc]
    · rw [if_neg h]
  | some pg =>
    simp only
    unfold findNode cacheFind
    simp only [mapFind_mapRemove]
    by_cases h : q = n
    · simp [h]
    · simp [h]

theorem collectFold_spec :
    ∀ (l : List Nat) (s : HBtreePrivate),
      (∀ q, q ∉ l → findNode (l.foldl (fun acc n =>
          cacheDelete { acc with collectiblePages_ := setInsert n acc.collectiblePages_ } n) s) q
        = findNode s q) ∧
      (l.foldl (fun acc n =>
          cacheDelete { acc with collectiblePages_ := setInsert n acc.collectiblePages_ } n) s).collectiblePages_
        = l.foldl (fun acc n => setInsert n acc) s.collectiblePages_ ∧
      (l.foldl (fun acc n =>
          cacheDelete { acc with collectiblePages_ := setInsert n acc.collectiblePages_ } n) s).lastPage_
        = s.lastPage_
  | [], s => ⟨fun _ _ => rfl, rfl, rfl⟩
  | n :: l, s => by
    obtain ⟨h1, h2, h3⟩ := collectFold_spec l
      (cacheDelete { s with collectiblePages_ := setInsert n s.collectiblePages_ } n)
    have hcol : (cacheDelete { s with collectiblePages_ := setInsert n s.collectiblePages_ } n).collectiblePages_
        = setInsert n s.collectiblePages_ := by
      unfold cacheDelete cacheRemove; split <;> rfl
    have hlp : (cacheDelete { s with collectiblePages_ := setInsert n s.collectiblePages_ } n).lastPage_
        = s.lastPage_ := by
      unfold cacheDelete cacheRemove; split <;> rfl
    refine ⟨?_, ?_, ?_⟩
    · intro q hq
      simp only [List.mem_cons, not_or] at hq
      simp only [List.foldl_cons]
      rw [h1 q hq.2, findNode_cacheDelete, if_neg hq.1]
      rfl
    · simp only [List.foldl_cons]; rw [h2, hcol]
    · simp only [List.foldl_cons]; rw [h3, hlp]

theorem collectHistory_eq {s : HBtreePrivate} {pgno : Nat} {p : NodePage}
    (hp : findNode s pgno = some p) (hself : pgno ∉ (collectedHistory s p).2) :
    collectHistory s pgno = some (setNode ((collectedHistory s p).2.foldl (fun acc n =>
        cacheDelete { acc with collectiblePages_ := setInsert n acc.collectiblePages_ } n) s)
      pgno (afterCollect s p)) := by
  have h1 := (collectFold_spec (collectedHistory s p).2 s).1 pgno hself
  unfold collectHistory
  rw [hp]
  simp only
  unfold collectedHistory at h1
  rw [h1, hp]
  rfl

theorem cacheFind_cacheRemove (s : HBtreePrivate) (n q : Nat) :
    cacheFind (cacheRemove s n) q = if q = n then none else cacheFind s q := by
  unfold cacheRemove
  cases hc : cacheFind s n with
  | none =>
    simp only
    by_cases h : q = n
    · rw [if_pos h, h, hc]
    · rw [if_neg h]
  | some pg =>
    simp only [cacheFind, mapFind_mapRemove]

theorem cacheRemove_lastSyncedId (s : HBtreePrivate) (n : Nat) :
    (cacheRemove s n).lastSyncedId_ = s.lastSyncedId_ := by
  unfold cacheRemove; split <;> rfl

theorem findNode_inserted (s1 s2 : HBtreePrivate) (n q : Nat) (np : NodePage)
    (hcache : s2.cache_ = mapInsert n (Page.node np) (cacheRemove s1 n).cache_) :
    findNode s2 q = if q = n then some np else findNode s1 q := by
  have h1 : cacheFind s2 q = if q = n then some (Page.node np) else cacheFind (cacheRemove s1 n) q := by
    unfold cacheFind; rw [hcache, mapFind_mapInsert]
  unfold findNode
  rw [h1]
  by_cases h : q = n
  · simp only [if_pos h]
  · simp only [if_neg h, cacheFind_cacheRemove]

theorem newPage_node (s : HBtreePrivate) (ty : PageType)
    (hty : ty = PageType.Leaf ∨ ty = PageType.Branch) :
    ∃ s2, newPage s ty = some (s2, s.collectiblePages_.headD s.lastPage_) ∧
      ∀ q, findNode s2 q =
        if q = s.collectiblePages_.headD s.lastPage_ then
          some { info := { type := ty, number := s.collectiblePages_.headD s.lastPage_ },
                 meta := { syncId := s.lastSyncedId_ + 1 } }
        else findNode s q := by
  unfold newPage
  cases hc : s.collectiblePages_ with
  | nil =>
    rcases hty with h | h <;> subst h
    · refine ⟨_, rfl, fun q => ?_⟩
      rw [findNode_inserted { s with collectiblePages_ := [], lastPage_ := s.lastPage_ + 1 } _ s.lastPage_ q _ rfl,
        cacheRemove_lastSyncedId]
      rfl
    · refine ⟨_, rfl, fun q => ?_⟩
      rw [findNode_inserted { s with collectiblePages_ := [], lastPage_ := s.lastPage_ + 1 } _ s.lastPage_ q _ rfl,
        cacheRemove_lastSyncedId]
      rfl
  | cons n rest =>
    rcases hty with h | h <;> subst h
    · refine ⟨_, rfl, fun q => ?_⟩
      rw [findNode_inserted { s with collectiblePages_ := rest } _ n q _ rfl,
        cacheRemove_lastSyncedId]
      rfl
    · refine ⟨_, rfl, fun q => ?_⟩
      rw [findNode_inserted { s with collectiblePages_ := rest } _ n q _ rfl,
        cacheRemove_lastSyncedId]
      rfl

theorem findNode_setLeftOf_ne (s : HBtreePrivate) (a b q : Nat) (h : q ≠ a) :
    findNode (setLeftOf s a b) q = findNode s q := by
  unfold setLeftOf
  split
  · rw [findNode_setNode, if_neg h]
  · rfl

theorem findNode_setRightOf_ne (s : HBtreePrivate) (a b q : Nat) (h : q ≠ a) :
    findNode (setRightOf s a b) q = findNode s q := by
  unfold setRightOf
  split
  · rw [findNode_setNode, if_neg h]
  · rfl

theorem findNode_linkLeft (s : HBtreePrivate) (c : Prop) [Decidable c] (a b q : Nat) (h : q ≠ a) :
    findNode (if c then setLeftOf s a b else s) q = findNode s q := by
  split
  · exact findNode_setLeftOf_ne s a b q h
  · rfl

theorem findNode_linkRight (s : HBtreePrivate) (c : Prop) [Decidable c] (a b q : Nat) (h : q ≠ a) :
    findNode (if c then setRightOf s a b else s) q = findNode s q := by
  split
  · exact findNode_setRightOf_ne s a b q h
  · rfl

theorem spec_linkLeft (s : HBtreePrivate) (c : Prop) [Decidable c] (a b : Nat) :
    (if c then setLeftOf s a b else s).spec_ = s.spec_ := by
  split
  · unfold setLeftOf; split <;> rfl
  · rfl

theorem spec_linkRight (s : HBtreePrivate) (c : Prop) [Decidable c] (a b : Nat) :
    (if c then setRightOf s a b else s).spec_ = s.spec_ := by
  split
  · unfold setRightOf; split <;> rfl
  · rfl

theorem addHistoryNodeTo_fields (env : Env) (spec : Spec) (residue : List Nat) (src : NodePage)
    (hn : HistoryNode) :
    (addHistoryNodeTo env spec residue src hn).1.dirty = src.dirty ∧
    (addHistoryNodeTo env spec residue src hn).1.nodes = src.nodes ∧
    (addHistoryNodeTo env spec residue src hn).1.info = src.info ∧
    (addHistoryNodeTo env spec residue src hn).1.meta.syncId = src.meta.syncId ∧
    (src.spaceLeft env spec ≥ env.sizes.historyNode →
      (addHistoryNodeTo env spec residue src hn).1.history = hn :: src.history) := by
  unfold addHistoryNodeTo
  split
  · exact ⟨rfl, rfl, rfl, rfl, fun _ => rfl⟩
  · rename_i h
    exact ⟨rfl, rfl, rfl, rfl, fun h1 => absurd h1 h⟩

theorem cachePruneLoop_cons (cs n : Nat) (rest kept : List Nat) (cache : List (Nat × Page)) :
    cachePruneLoop cs (n :: rest) kept cache =
      if kept.length + (rest.length + 1) ≤ cs then (kept.reverse ++ n :: rest, cache)
      else if cleanCached cache n = true then cachePruneLoop cs rest kept (mapRemove n cache)
      else cachePruneLoop cs rest (n :: kept) cache := by
  rw [cachePruneLoop]
  unfold cleanCached
  simp only [List.length_cons]
  split
  · rfl
  · cases h : mapFind n cache with
    | none => simp
    | some page => simp

theorem cleanCached_mapRemove (cache : List (Nat × Page)) (n m : Nat) (h : m ≠ n) :
    cleanCached (mapRemove n cache) m = cleanCached cache m := by
  unfold cleanCached
  rw [mapFind_mapRemove, if_neg h]

theorem cachePruneLoop_order (cs : Nat) :
    ∀ (lru kept : List Nat) (cache : List (Nat × Page)), lru.Nodup →
      ∃ pre suf, lru = pre ++ suf ∧
        (cachePruneLoop cs lru kept cache).1 =
          kept.reverse ++ (pre.filter (fun n => !cleanCached cache n) ++ suf) ∧
        (cachePruneLoop cs lru kept cache).2 =
          (pre.filter (cleanCached cache)).foldl (fun c n => mapRemove n c) cache
  | [], kept, cache, _ => ⟨[], [], rfl, by simp [cachePruneLoop], rfl⟩
  | n :: rest, kept, cache, hnd => by
    have hnd2 := List.nodup_cons.mp hnd
    rw [cachePruneLoop_cons]
    split
    · exact ⟨[], n :: rest, rfl, rfl, rfl⟩
    · split
      · rename_i hc
        obtain ⟨pre, suf, h1, h2, h3⟩ := cachePruneLoop_order cs rest kept (mapRemove n cache) hnd2.2
        have hpre : ∀ m ∈ pre, m ≠ n := by
          intro m hm hmn
          apply hnd2.1
          rw [h1, ← hmn]
          exact List.mem_append_left _ hm
        have hf1 : pre.filter (fun m => !cleanCached (mapRemove n cache) m) =
            pre.filter (fun m => !cleanCached cache m) :=
          List.filter_congr (fun m hm => by rw [cleanCached_mapRemove cache n m (hpre m hm)])
        have hf2 : pre.filter (cleanCached (mapRemove n cache)) = pre.filter (cleanCached cache) :=
          List.filter_congr (fun m hm => by rw [cleanCached_mapRemove cache n m (hpre m hm)])
        refine ⟨n :: pre, suf, by rw [h1]; rfl, ?_, ?_⟩
        · rw [h2, hf1, List.filter_cons_of_neg (by simp [hc])]
        · rw [h3, hf2, List.filter_cons_of_pos hc]
          rfl
      · rename_i hc
        obtain ⟨pre, suf, h1, h2, h3⟩ := cachePruneLoop_order cs rest (n :: kept) cache hnd2.2
        refine ⟨n :: pre, suf, by rw [h1]; rfl, ?_, ?_⟩
        · rw [h2, List.filter_cons_of_pos (by simp [hc])]
          simp
        · rw [h3, List.filter_cons_of_neg hc]

theorem cachePruneLoop_lru (cs : Nat) :
    ∀ (lru kept : List Nat) (cache : List (Nat × Page)),
      ∃ x, (cachePruneLoop cs lru kept cache).1 = kept.reverse ++ x ∧ x.Sublist lru ∧
        (∀ n ∈ lru, ∀ p, mapFind n cache = some p → p.dirty = true → n ∈ x) ∧
        min (kept.length + lru.length) cs ≤ (cachePruneLoop cs lru kept cache).1.length ∧
        ((cachePruneLoop cs lru kept cache).1.length ≤ cs ∨
          ∀ n ∈ x, ∀ p, mapFind n (cachePruneLoop cs lru kept cache).2 = some p → p.dirty = true)
  | [], kept, cache => by
    refine ⟨[], by simp [cachePruneLoop], List.Sublist.refl _, fun n hn => (by cases hn), ?_, ?_⟩
    · simp [cachePruneLoop]
    · right; intro n hn; cases hn
  | n :: rest, kept, cache => by
    rw [cachePruneLoop_cons]
    split
    · rename_i hle
      refine ⟨n :: rest, rfl, List.Sublist.refl _, fun m hm _ _ _ => hm, ?_, ?_⟩
      · simp only [List.length_append, List.length_reverse, List.length_cons]
        omega
      · left
        simp only [List.length_append, List.length_reverse, List.length_cons]
        omega
    · rename_i hgt
      split
      · rename_i hc
        obtain ⟨x, h1, h2, h3, h4, h5⟩ := cachePruneLoop_lru cs rest kept (mapRemove n cache)
        refine ⟨x, h1, h2.trans (List.sublist_cons_self n rest), fun m hm p hp hd => ?_, ?_, h5⟩
        · have hmn : m ≠ n := by
            intro hmn
            rw [hmn] at hp
            unfold cleanCached at hc
            rw [hp] at hc
            simp [hd] at hc
          rcases List.mem_cons.mp hm with h | h
          · exact absurd h hmn
          · exact h3 m h p (by rw [mapFind_mapRemove, if_neg hmn]; exact hp) hd
        · simp only [List.length_cons] at hgt ⊢
          omega
      · rename_i hc
        obtain ⟨x, h1, h2, h3, h4, h5⟩ := cachePruneLoop_lru cs rest (n :: kept) cache
        refine ⟨n :: x, by rw [h1]; simp, h2.cons₂ n, fun m hm p hp hd => ?_, ?_, ?_⟩
        · rcases List.mem_cons.mp hm with h | h
          · rw [h]; exact List.mem_cons_self _ _
          · exact List.mem_cons_of_mem _ (h3 m h p hp hd)
        · simp only [List.length_cons] at h4 ⊢
          omega
        · rcases h5 with h5 | h5
          · exact Or.inl h5
          · right
            intro m hm p hp
            rcases List.mem_cons.mp hm with h | h
            · rw [h] at hp
              rcases cachePruneLoop_find cs rest (n :: kept) cache n with hf | hf
              · rw [hf] at hp
                unfold cleanCached at hc
                rw [hp] at hc
                simpa using hc
              · rw [hf.1] at hp
                cases hp
            · exact h5 m h p hp

theorem ledger_cacheRemove (s : HBtreePrivate) (n : Nat) :
    ledger (cacheRemove s n) = ledger s ∧
      (cacheRemove s n).collectiblePages_ = s.collectiblePages_ := by
  unfold cacheRemove
  split <;> exact ⟨rfl, rfl⟩

theorem ledger_newPage {s s1 : HBtreePrivate} {ty : PageType} {n : Nat}
    (h : newPage s ty = some (s1, n)) : ledger s1 = ledger s := by
  unfold newPage at h
  cases hc : s.collectiblePages_ <;> cases ty <;> simp [hc] at h <;>
    (obtain ⟨rfl, _⟩ := h; simp [ledger, cacheInsert, cacheRemove]; split <;> simp)

theorem ledger_putDataOnOverflowLoop (env : Env) :
    ∀ (fuel : Nat) (s : HBtreePrivate) (rest : Bytes) (head : Nat) (prev : Option Nat)
      (s1 : HBtreePrivate) (h1 : Nat),
      putDataOnOverflowLoop env fuel s rest head prev = some (s1, h1) → ledger s1 = ledger s
  | 0, _, _, _, _, _, _, h => by simp [putDataOnOverflowLoop] at h
  | fuel + 1, s, rest, head, prev, s1, h1, h => by
    unfold putDataOnOverflowLoop at h
    split at h
    · simp at h; rw [← h.1]
    · split at h
      · simp at h
      · rename_i sa n hnp
        split at h
        · simp at h
        · simp only at h
          have ih := ledger_putDataOnOverflowLoop env fuel _ _ _ _ _ _ h
          rw [ih, ← ledger_newPage hnp]
          split
          · split <;> rfl
          · rfl

theorem ledger_writePage (s : HBtreePrivate) (n : Nat) (image : DiskPage) :
    ledger (writePage s n image).1 = ledger s ∧
      (writePage s n image).1.collectiblePages_ = s.collectiblePages_ := by
  unfold writePage
  split <;> exact ⟨rfl, rfl⟩

theorem ledger_writeDirtyLoop :
    ∀ (l : List Nat) (s : HBtreePrivate) (r : HBtreePrivate × Bool),
      writeDirtyLoop l s = some r →
      ledger r.1 = ledger s ∧ r.1.collectiblePages_ = s.collectiblePages_
  | [], s, r, h => by
    simp [writeDirtyLoop] at h
    rw [← h]
    exact ⟨rfl, rfl⟩
  | n :: l, s, r, h => by
    unfold writeDirtyLoop at h
    split at h
    · simp at h
    · rename_i page hpage
      have hw := ledger_writePage s page.info.number (serializePage page)
      split at h
      · rename_i s1 heq
        rw [heq] at hw
        simp at h
        rw [← h]
        exact hw
      · rename_i s1 heq
        rw [heq] at hw
        have ih := ledger_writeDirtyLoop l s1 r h
        exact ⟨ih.1.trans hw.1, ih.2.trans hw.2⟩

theorem ledger_getPage (s : HBtreePrivate) (n : Nat) :
    ledger (getPage s n).1 = ledger s ∧ (getPage s n).1.collectiblePages_ = s.collectiblePages_ := by
  unfold getPage
  split
  · exact ⟨rfl, rfl⟩
  · split <;> exact ⟨rfl, rfl⟩

theorem ledger_walkOverflowPagesLoop :
    ∀ (fuel : Nat) (s : HBtreePrivate) (start : Nat) (data : Bytes) (pages : List Nat)
      (r : HBtreePrivate × Bool × Bytes × List Nat),
      walkOverflowPagesLoop fuel s start data pages = some r →
      ledger r.1 = ledger s ∧ r.1.collectiblePages_ = s.collectiblePages_
  | 0, _, _, _, _, _, h => by simp [walkOverflowPagesLoop] at h
  | fuel + 1, s, start, data, pages, r, h => by
    unfold walkOverflowPagesLoop at h
    split at h
    · simp at h; rw [← h]; exact ⟨rfl, rfl⟩
    · have hg := ledger_getPage s start
      split at h
      · rename_i s1 page heq
        rw [heq] at hg
        have ih := ledger_walkOverflowPagesLoop fuel _ _ _ _ _ h
        exact ⟨ih.1.trans hg.1, ih.2.trans hg.2⟩
      · simp at h
      · rename_i s1 heq
        rw [heq] at hg
        simp at h; rw [← h]; exact hg

theorem ledger_getOverflowPageNumbers {s : HBtreePrivate} {start : Nat}
    {r : HBtreePrivate × Bool × List Nat} (h : getOverflowPageNumbers s start = some r) :
    ledger r.1 = ledger s ∧ r.1.collectiblePages_ = s.collectiblePages_ := by
  unfold getOverflowPageNumbers walkOverflowPages at h
  split at h
  · rename_i s1 ok data pages heq
    simp at h; rw [← h]
    exact ledger_walkOverflowPagesLoop _ _ _ _ _ _ heq
  · simp at h

theorem ledger_writeMarker {env : Env} {s : HBtreePrivate} {page : MarkerPage}
    {r : HBtreePrivate × MarkerPage × Bool} (h : writeMarker env s page = some r) :
    ledger r.1 = ledger s ∧
      (page.info.number ≠ 1 → r.1.collectiblePages_ = s.collectiblePages_) := by
  have inner : ∀ (mp3 : MarkerPage) (c : Bool) (extra : Bytes) (x : HBtreePrivate × MarkerPage × Bool),
      mp3.info.number = page.info.number →
      (if c = true then
        match (if mp3.info.number = 1 then putDataOnOverflow env s extra
               else some (s, mp3.overflowPage)) with
        | none => none
        | some (s1, h) =>
          match writeDirtyLoop s1.dirtyPages_ s1 with
          | none => none
          | some (s2, false) => some (s2, mp3, false)
          | some (s2, true) => some ({ s2 with dirtyPages_ := [] }, { mp3 with overflowPage := h }, true)
      else some (s, mp3, true)) = some x →
      ledger x.1 = ledger s ∧ x.2.1.info.number = page.info.number ∧
        (page.info.number ≠ 1 → x.1.collectiblePages_ = s.collectiblePages_) := by
    intro mp3 c extra x hnum hx
    split at hx
    · split at hx
      · simp at hx
      · rename_i s1 hd hhead
        have h1 : ledger s1 = ledger s ∧
            (page.info.number ≠ 1 → s1.collectiblePages_ = s.collectiblePages_) := by
          split at hhead
          · exact ⟨ledger_putDataOnOverflowLoop env _ _ _ _ _ _ _ hhead,
              fun hne => absurd (by rw [← hnum]; assumption) hne⟩
          · simp only [Option.some.injEq, Prod.mk.injEq] at hhead
            rw [← hhead.1]
            exact ⟨rfl, fun _ => rfl⟩
        split at hx
        · simp at hx
        · rename_i s2 hw
          have h2 := ledger_writeDirtyLoop _ _ _ hw
          simp only [Option.some.injEq] at hx
          rw [← hx]
          exact ⟨h2.1.trans h1.1, hnum, fun hne => h2.2.trans (h1.2 hne)⟩
        · rename_i s2 hw
          have h2 := ledger_writeDirtyLoop _ _ _ hw
          simp only [Option.some.injEq] at hx
          rw [← hx]
          exact ⟨h2.1.trans h1.1, hnum, fun hne => h2.2.trans (h1.2 hne)⟩
    · simp only [Option.some.injEq] at hx
      rw [← hx]
      exact ⟨rfl, hnum, fun _ => rfl⟩
  unfold writeMarker at h
  simp only at h
  split at h
  · simp at h
  · rename_i s1 mp4 hr
    have h1 := inner _ _ _ _ (by split <;> (try split) <;> rfl) hr
    simp only [Option.some.injEq] at h
    rw [← h]
    exact ⟨h1.1, h1.2.2⟩
  · rename_i s1 mp4 hr
    have h1 := inner _ _ _ _ (by split <;> (try split) <;> rfl) hr
    split at h
    · simp only [Option.some.injEq] at h
      rw [← h]
      exact ⟨(ledger_writePage _ _ _).1.trans h1.1,
        fun hne => (ledger_writePage _ _ _).2.trans (h1.2.2 hne)⟩
    · simp only [Option.some.injEq] at h
      rw [← h]
      exact ⟨(ledger_writePage _ _ _).1.trans h1.1,
        fun hne => (ledger_writePage _ _ _).2.trans (h1.2.2 hne)⟩

theorem mem_setInsert (p n : Nat) : ∀ l : List Nat, p ∈ setInsert n l ↔ p = n ∨ p ∈ l
  | [] => by simp [setInsert]
  | m :: t => by
    unfold setInsert
    split
    · simp
    · split
      · rename_i h
        simp only [List.mem_cons]
        constructor
        · intro h1; exact Or.inr h1
        · rintro (h1 | h1)
          · left; rw [h1, h]
          · exact h1
      · simp only [List.mem_cons, mem_setInsert p n t]
        tauto

theorem mem_setUnite (p : Nat) : ∀ (b a : List Nat), p ∈ setUnite a b ↔ p ∈ a ∨ p ∈ b
  | [], a => by simp [setUnite]
  | n :: b, a => by
    have ih := mem_setUnite p b (setInsert n a)
    unfold setUnite at ih ⊢
    rw [List.foldl_cons, ih, mem_setInsert]
    simp only [List.mem_cons]
    tauto

theorem exState_eq (r : Option (HBtreePrivate × Bool)) (ok : Bool) (h : exOk r = some ok) :
    r = some (exState r, ok) := by
  cases r with
  | none => cases h
  | some x =>
    obtain ⟨s, b⟩ := x
    have h1 : some b = some ok := h
    injection h1 with h1
    rw [← h1]
    rfl

theorem failWrites_cacheRemove (s : HBtreePrivate) (n : Nat) :
    (cacheRemove s n).failWrites = s.failWrites ∧ (cacheRemove s n).file = s.file := by
  unfold cacheRemove
  split <;> exact ⟨rfl, rfl⟩

theorem contentAt_written (s s2 : HBtreePrivate) (n : Nat) (page : Page)
    (hpage : cacheFind s n = some page)
    (hfile : s2.file = mapInsert n (serializePage page) s.file)
    (hother : ∀ m, m ≠ n → cacheFind s2 m = cacheFind s m)
    (hn : cacheFind s2 n = none ∨ ∃ q, cacheFind s2 n = some q ∧ q.content = page.content) :
    ∀ pg, contentAt s2 pg = contentAt s pg := by
  intro pg
  unfold contentAt
  by_cases h : pg = n
  · rw [h, hpage]
    rcases hn with h1 | ⟨q, h1, h2⟩
    · rw [h1]
      simp only
      unfold readPage
      rw [hfile, mapFind_mapInsert, if_pos rfl]
      cases page <;> rfl
    · rw [h1]
      simp only [h2]
  · rw [hother pg h]
    have : readPage s2 pg = readPage s pg := by
      unfold readPage
      rw [hfile, mapFind_mapInsert, if_neg h]
    rw [this]

theorem commitLoop_spec :
    ∀ (l : List Nat) (s : HBtreePrivate), l.Nodup →
      (∀ n ∈ l, ∃ p, cacheFind s n = some p ∧ p.info.number = n) →
      ∃ r, commitLoop l s = some r ∧ (r.2 = false ↔ ∃ n ∈ l, n ∈ s.failWrites) ∧
        ∀ pg, contentAt r.1 pg = contentAt s pg
  | [], s, _, _ => ⟨(s, true), rfl, by simp, fun _ => rfl⟩
  | n :: rest, s, hnd, hd => by
    obtain ⟨page, hpage, hnum⟩ := hd n (List.mem_cons_self _ _)
    have hnd2 := List.nodup_cons.mp hnd
    by_cases hf : n ∈ s.failWrites
    · unfold commitLoop
      rw [hpage]
      simp only [hnum, writePage, if_pos hf]
      exact ⟨(s, false), rfl, by simp; exact Or.inl hf, fun _ => rfl⟩
    · have key : ∀ s2 : HBtreePrivate, s2.failWrites = s.failWrites →
          (∀ m, m ≠ n → cacheFind s2 m = cacheFind s m) →
          (∀ pg, contentAt s2 pg = contentAt s pg) →
          ∃ r, commitLoop rest s2 = some r ∧
            (r.2 = false ↔ ∃ m ∈ n :: rest, m ∈ s.failWrites) ∧
            ∀ pg, contentAt r.1 pg = contentAt s pg := by
        intro s2 h1 h2 h3
        obtain ⟨r, e1, e2, e3⟩ := commitLoop_spec rest s2 hnd2.2 (fun m hm => by
          have hmn : m ≠ n := fun e => hnd2.1 (e ▸ hm)
          rw [h2 m hmn]
          exact hd m (List.mem_cons_of_mem _ hm))
        refine ⟨r, e1, ?_, fun pg => (e3 pg).trans (h3 pg)⟩
        rw [e2, h1]
        simp only [List.mem_cons, exists_eq_or_imp, hf, false_or]
      cases page with
      | node p =>
        have hnum1 : p.info.number = n := hnum
        unfold commitLoop
        rw [hpage]
        simp only [Page.info, hnum1, writePage, if_neg hf]
        have hc : ∀ m, cacheFind (setNode { s with file := mapInsert n (serializePage (Page.node p)) s.file, filePages := max s.filePages (n + 1), stats_ := { s.stats_ with writes := s.stats_.writes + 1 } } n { p with dirty := false }) m = if m = n then some (Page.node { p with dirty := false }) else cacheFind s m := by
          intro m
          show mapFind m (mapInsert n _ s.cache_) = _
          rw [mapFind_mapInsert]
          rfl
        apply key
        · rfl
        · intro m hm
          exact (hc m).trans (if_neg hm)
        · refine contentAt_written s _ n (Page.node p) hpage rfl (fun m hm => (hc m).trans (if_neg hm))
            (Or.inr ⟨_, (hc n).trans (if_pos rfl), rfl⟩)
      | overflow p =>
        have hnum1 : p.info.number = n := hnum
        unfold commitLoop
        rw [hpage]
        simp only [Page.info, hnum1, writePage, if_neg hf]
        have hc : ∀ m, cacheFind (cacheDelete (setOverflow { s with file := mapInsert n (serializePage (Page.overflow p)) s.file, filePages := max s.filePages (n + 1), stats_ := { s.stats_ with writes := s.stats_.writes + 1 } } n { p with dirty := false }) n) m = if m = n then none else cacheFind s m := by
          intro m
          unfold cacheDelete
          rw [cacheFind_cacheRemove, cacheFind_setOverflow]
          by_cases h : m = n
          · simp only [if_pos h]
          · simp only [if_neg h]
            rfl
        apply key
        · exact (failWrites_cacheRemove _ _).1
        · intro m hm
          exact (hc m).trans (if_neg hm)
        · refine contentAt_written s _ n (Page.overflow p) hpage (failWrites_cacheRemove _ _).2
            (fun m hm => (hc m).trans (if_neg hm)) (Or.inl ((hc n).trans (if_pos rfl)))

theorem foldl_need_sum (f : Bytes × NodeValue → Nat) :
    ∀ (l : Nodes) (cur : Nat), cur + (l.map f).sum < 65536 →
      l.foldl (fun c e => u16 ((c : Int) + (f e : Nat))) cur = cur + (l.map f).sum
  | [], cur, _ => by simp
  | e :: t, cur, h => by
    simp only [List.map_cons, List.sum_cons] at h
    simp only [List.foldl_cons, List.map_cons, List.sum_cons]
    have h1 : u16 ((cur : Int) + (f e : Nat)) = cur + f e := by
      have := u16_natCast (cur + f e)
      push_cast at this
      rw [this, Nat.mod_eq_of_lt (by omega)]
    rw [h1, foldl_need_sum f t (cur + f e) (by omega)]
    omega

theorem sum_take_le (l : List Nat) (j : Nat) : (l.take j).sum ≤ l.sum := by
  have h : (l.take j).sum + (l.drop j).sum = l.sum := by
    rw [← List.sum_append, List.take_append_drop]
  omega

theorem splitCurrent_sum (env : Env) (spec : Spec) (nodes : Nodes) (j : Nat)
    (h : (nodes.map (fun e => spaceNeededForNode env spec e.1 e.2.data)).sum < 65536) :
    splitCurrent env spec nodes j =
      ((nodes.take j).map (fun e => spaceNeededForNode env spec e.1 e.2.data)).sum := by
  unfold splitCurrent
  have h1 := foldl_need_sum (fun e => spaceNeededForNode env spec e.1 e.2.data) (nodes.take j) 0
    (by
      have := sum_take_le (nodes.map (fun e => spaceNeededForNode env spec e.1 e.2.data)) j
      rw [← List.map_take] at this
      omega)
  simp only [Nat.zero_add] at h1
  rw [← h1]

theorem sum_all_but_last (l : List Nat) (hne : l ≠ []) :
    ∃ x ∈ l, (l.take (l.length - 1)).sum + x = l.sum := by
  refine ⟨l.getLast hne, List.getLast_mem hne, ?_⟩
  have h := List.dropLast_append_getLast hne
  have h2 : l.take (l.length - 1) = l.dropLast := (List.dropLast_eq_take l).symm
  rw [h2]
  conv_rhs => rw [← h]
  rw [List.sum_append, List.sum_singleton]

/-- An entry inserted under a key that differs from every key of the list
adds one entry. -/
theorem insert_new_length (env : Env) (k : Bytes) (v : NodeValue) :
    ∀ (l : Nodes), (∀ e ∈ l, NodeKey.lt env k e.1 = true ∨ NodeKey.lt env e.1 k = true) →
      (OrderedList.insert env k v l).length = l.length + 1 := by
  intro l
  induction l with
  | nil => intro _; rfl
  | cons e t ih =>
    obtain ⟨k', v'⟩ := e
    intro h
    unfold OrderedList.insert
    by_cases h1 : NodeKey.lt env k k' = true
    · rw [if_pos h1]; rfl
    · rw [if_neg h1]
      have h2 : NodeKey.lt env k' k = true := by
        rcases h (k', v') (List.mem_cons_self _ _) with h3 | h3
        · exact absurd h3 h1
        · exact h3
      rw [if_pos h2]
      simp only [List.length_cons]
      rw [ih (fun e he => h e (List.mem_cons_of_mem _ he))]

/-- An entry inserted under a key that differs from every key of the list
adds its own size to the sum of the entry sizes. -/
theorem insert_new_sum (env : Env) (k : Bytes) (v : NodeValue) (f : Bytes × NodeValue → Nat) :
    ∀ (l : Nodes), (∀ e ∈ l, NodeKey.lt env k e.1 = true ∨ NodeKey.lt env e.1 k = true) →
      ((OrderedList.insert env k v l).map f).sum = (l.map f).sum + f (k, v) := by
  intro l
  induction l with
  | nil => intro _; simp [OrderedList.insert]
  | cons e t ih =>
    obtain ⟨k', v'⟩ := e
    intro h
    unfold OrderedList.insert
    by_cases h1 : NodeKey.lt env k k' = true
    · rw [if_pos h1]; simp only [List.map_cons, List.sum_cons]; omega
    · rw [if_neg h1]
      have h2 : NodeKey.lt env k' k = true := by
        rcases h (k', v') (List.mem_cons_self _ _) with h3 | h3
        · exact absurd h3 h1
        · exact h3
      rw [if_pos h2]
      simp only [List.map_cons, List.sum_cons]
      rw [ih (fun e he => h e (List.mem_cons_of_mem _ he))]
      omega

/-- The entry at the lower bound of `k` has a key that is not less than `k`. -/
theorem lowerBound_not_less (env : Env) (k : Bytes) :
    ∀ (l : Nodes) (e : Bytes × NodeValue), l.get? (OrderedList.lowerBound env k l) = some e →
      NodeKey.lt env e.1 k = false := by
  intro l
  induction l with
  | nil => intro e h; simp [OrderedList.lowerBound] at h
  | cons a t ih =>
    obtain ⟨k', v'⟩ := a
    intro e h
    unfold OrderedList.lowerBound at h
    by_cases h1 : NodeKey.lt env k' k = true
    · rw [if_pos h1] at h
      simp only [List.get?_cons_succ] at h
      exact ih e h
    · rw [if_neg h1] at h
      simp only [List.get?_cons_zero, Option.some.injEq] at h
      subst h
      simpa using h1

/-- The entry that `find` points to for a key on the list: it carries the key
itself when the order is total. -/
theorem find_entry (env : Env) (ko : KeyOrder env) (k : Bytes) (l : Nodes)
    (h : OrderedList.contains env k l = true) :
    ∃ v, l.get? (OrderedList.find env k l) = some (k, v)
      ∧ OrderedList.value env k l {} = v := by
  unfold OrderedList.contains at h
  have hfind : OrderedList.find env k l =
      match l.get? (OrderedList.lowerBound env k l) with
      | some (k', _) => if NodeKey.lt env k k' then l.length else OrderedList.lowerBound env k l
      | none => l.length := rfl
  cases hg : l.get? (OrderedList.lowerBound env k l) with
  | none =>
    rw [hg] at hfind
    simp only at hfind
    rw [hfind] at h
    simp at h
  | some e =>
    obtain ⟨k', v'⟩ := e
    rw [hg] at hfind
    simp only at hfind
    by_cases h1 : NodeKey.lt env k k' = true
    · rw [if_pos h1] at hfind
      rw [hfind] at h
      simp at h
    · rw [if_neg h1] at hfind
      have h2 := lowerBound_not_less env k l (k', v') hg
      have hk : k = k' := ko.total k k' (by simpa using h1) h2
      subst hk
      refine ⟨v', ?_, ?_⟩
      · rw [hfind]; exact hg
      · unfold OrderedList.value
        rw [hfind, hg]

/-- Erasing the entry at an index takes its size from the sum of the sizes. -/
theorem eraseIdx_sum (f : Bytes × NodeValue → Nat) :
    ∀ (l : Nodes) (i : Nat) (e : Bytes × NodeValue), l.get? i = some e →
      ((l.eraseIdx i).map f).sum + f e = (l.map f).sum ∧ (l.eraseIdx i).length + 1 = l.length := by
  intro l
  induction l with
  | nil => intro i e h; simp at h
  | cons a t ih =>
    intro i e h
    cases i with
    | zero =>
      simp only [List.get?_cons_zero, Option.some.injEq] at h
      subst h
      simp only [List.eraseIdx_cons_zero, List.map_cons, List.sum_cons, List.length_cons]
      exact ⟨Nat.add_comm _ _, trivial⟩
    | succ j =>
      simp only [List.get?_cons_succ] at h
      obtain ⟨h1, h2⟩ := ih j e h
      simp only [List.eraseIdx_cons_succ, List.map_cons, List.sum_cons, List.length_cons]
      exact ⟨by omega, by omega⟩

/-- The function `insertNode` keeps the offset bookkeeping when the key
differs from every key of the page and the two 16-bit sums do not wrap. -/
theorem insertNode_offsets (env : Env) (s s1 : HBtreePrivate) (page page1 : NodePage)
    (key : Bytes) (value : NodeValue)
    (hnew : ∀ e ∈ page.nodes, NodeKey.lt env key e.1 = true ∨ NodeKey.lt env e.1 key = true)
    (hinv : offsetsKept env.sizes page)
    (hlow : page.info.lowerOffset + 2 < 65536)
    (hup : page.info.upperOffset + env.sizes.nodeHeader + key.length + value.data.length < 65536)
    (h : insertNode env s page key value = some (s1, page1)) :
    offsetsKept env.sizes page1 := by
  obtain ⟨hl, hu⟩ := hinv
  have key1 : ∀ (valueCopy : NodeValue) (flags : Nat), valueCopy.data.length ≤ value.data.length →
      offsetsKept env.sizes { page with
        nodes := OrderedList.insert env key valueCopy page.nodes,
        meta := { page.meta with flags := flags },
        info := { page.info with
          lowerOffset := u16 (page.info.lowerOffset + 2),
          upperOffset := u16 (page.info.upperOffset + env.sizes.nodeHeader + key.length
            + valueCopy.data.length) } } := by
    intro valueCopy flags hle
    unfold offsetsKept
    simp only
    rw [insert_new_length env key valueCopy page.nodes hnew,
      insert_new_sum env key valueCopy _ page.nodes hnew]
    constructor
    · have : u16 ((page.info.lowerOffset + 2 : Nat) : Int) = page.info.lowerOffset + 2 := by
        rw [u16_natCast]; exact Nat.mod_eq_of_lt hlow
      push_cast at this
      rw [this, hl]; ring
    · have : u16 ((page.info.upperOffset + env.sizes.nodeHeader + key.length
          + valueCopy.data.length : Nat) : Int) = page.info.upperOffset + env.sizes.nodeHeader
            + key.length + valueCopy.data.length := by
        rw [u16_natCast]; exact Nat.mod_eq_of_lt (by omega)
      push_cast at this
      rw [this, hu]; ring
  unfold insertNode at h
  simp only at h
  split at h
  · cases h
  · rename_i s2 valueCopy setFlag hr
    simp only [Option.some.injEq, Prod.mk.injEq] at h
    obtain ⟨-, hp⟩ := h
    subst hp
    apply key1
    split at hr
    · split at hr
      · simp only [Option.some.injEq, Prod.mk.injEq] at hr
        obtain ⟨-, hv, -⟩ := hr
        subst hv; simp
      · cases hr
    · split at hr
      · simp only [Option.some.injEq, Prod.mk.injEq] at hr
        obtain ⟨-, hv, -⟩ := hr
        subst hv; simp
      · split at hr
        · simp only [Option.some.injEq, Prod.mk.injEq] at hr
          obtain ⟨-, hv, -⟩ := hr
          subst hv; simp
        · simp only [Option.some.injEq, Prod.mk.injEq] at hr
          obtain ⟨-, hv, -⟩ := hr
          subst hv; simp

/-- The function `removeNode` with a key that is not on the page returns true
and changes nothing. -/
theorem removeNode_absent (env : Env) (s : HBtreePrivate) (pgno : Nat) (page : NodePage)
    (key : Bytes) (isTransfer : Bool) (hp : findNode s pgno = some page)
    (hc : OrderedList.contains env key page.nodes = false) :
    removeNode env s pgno key isTransfer = some (s, true) := by
  unfold removeNode
  rw [hp]
  simp only [hc, Bool.not_false, if_true]

/-- The function `removeNode` with a key on the page, whose value is stored on
the page or is transferred, takes the entry out and keeps the offset
bookkeeping. -/
theorem removeNode_offsets (env : Env) (ko : KeyOrder env) (s : HBtreePrivate) (pgno : Nat)
    (page : NodePage) (key : Bytes) (isTransfer : Bool) (hp : findNode s pgno = some page)
    (hc : OrderedList.contains env key page.nodes = true)
    (hinv : offsetsKept env.sizes page)
    (hlow : page.info.lowerOffset < 65536) (hup : page.info.upperOffset < 65536)
    (hv : (OrderedList.value env key page.nodes {}).isOverflow = false ∨ isTransfer = true) :
    ∃ page1, removeNode env s pgno key isTransfer = some (setNode s pgno page1, true)
      ∧ page1.nodes = OrderedList.remove env key page.nodes
      ∧ page1.nodes.length + 1 = page.nodes.length
      ∧ offsetsKept env.sizes page1 := by
  obtain ⟨hl, hu⟩ := hinv
  obtain ⟨v, hget, hval⟩ := find_entry env ko key page.nodes hc
  obtain ⟨hsum, hlen⟩ := eraseIdx_sum
    (fun e => env.sizes.nodeHeader + e.1.length + e.2.data.length) page.nodes _ _ hget
  have hcond : ((OrderedList.value env key page.nodes {}).isOverflow && !isTransfer) = false := by
    rcases hv with h | h
    · rw [h]; rfl
    · rw [h]; simp
  refine ⟨{ page with
      nodes := OrderedList.remove env key page.nodes,
      info := { page.info with
        lowerOffset := u16 ((page.info.lowerOffset : Int) - 2),
        upperOffset := u16 ((page.info.upperOffset : Int)
          - (env.sizes.nodeHeader + key.length + (OrderedList.value env key page.nodes {}).data.length)) } },
    ?_, rfl, hlen, ?_⟩
  · unfold removeNode
    rw [hp]
    simp only [hc, Bool.not_true, hcond]
    simp only [Bool.false_eq_true, if_false, hp]
  · unfold offsetsKept
    simp only
    unfold OrderedList.remove
    rw [hval]
    simp only at hsum
    constructor
    · have : ((page.info.lowerOffset : Int) - 2) = (((page.nodes.eraseIdx (OrderedList.find env key page.nodes)).length * 2 : Nat) : Int) := by
        push_cast; omega
      rw [this, u16_natCast, Nat.mod_eq_of_lt (by omega)]; ring
    · generalize (List.map (fun e => env.sizes.nodeHeader + e.1.length + e.2.data.length)
          (page.nodes.eraseIdx (OrderedList.find env key page.nodes))).sum = total at hsum ⊢
      have : ((page.info.upperOffset : Int) - (env.sizes.nodeHeader + key.length + v.data.length))
          = ((total : Nat) : Int) := by
        omega
      rw [this, u16_natCast, Nat.mod_eq_of_lt (by omega)]

/-- The function `insertNode` on a leaf with a value that carries the overflow
flag (the entry comes from `split`, `mergePages` or `moveNode`): the entry keeps
the chain head and the state is not changed, so no page enters the residue. -/
theorem insertNode_keeps_chain (env : Env) (s : HBtreePrivate) (page : NodePage) (key : Bytes)
    (value : NodeValue) (hleaf : page.info.type = PageType.Leaf)
    (hflag : value.isOverflow = true)
    (hsmall : willCauseOverflow s.spec_ key value.data = false) :
    ∃ page1, insertNode env s page key value = some (s, page1)
      ∧ page1.nodes = OrderedList.insert env key
          { flags := value.flags, overflowPage := value.overflowPage } page.nodes := by
  unfold insertNode
  simp only [hleaf, hsmall, hflag, Bool.and_false, Bool.false_eq_true, if_false, if_true,
    reduceCtorEq, decide_False, decide_True, Bool.and_true, Bool.true_and]
  exact ⟨_, rfl, rfl⟩

/-- The function `removeNode` with `isTransfer` set, as `moveNode` calls it,
leaves the residue set and the collectible pages as they are. -/
theorem removeNode_transfer_residue (env : Env) (s s1 : HBtreePrivate) (pgno : Nat) (key : Bytes)
    (ok : Bool) (h : removeNode env s pgno key true = some (s1, ok)) :
    s1.residueHistory_ = s.residueHistory_ ∧ s1.collectiblePages_ = s.collectiblePages_ := by
  unfold removeNode at h
  split at h
  · cases h
  · rename_i page hp
    split at h
    · simp only [Option.some.injEq, Prod.mk.injEq] at h
      obtain ⟨h1, -⟩ := h
      subst h1
      exact ⟨rfl, rfl⟩
    · simp only [Bool.not_true, Bool.and_false, Bool.false_eq_true, if_false, hp,
        Option.some.injEq, Prod.mk.injEq] at h
      obtain ⟨h1, -⟩ := h
      subst h1
      exact ⟨rfl, rfl⟩

/-- The bytes of the buffer after a `memcpy`. -/
theorem memcpyAt_getElem {buffer buffer1 src : Bytes} {offset : Nat}
    (h : memcpyAt buffer offset src = some buffer1) (j : Nat) :
    buffer1[j]? = if j < offset then buffer[j]?
      else if j < offset + src.length then src[j - offset]? else buffer[j]? := by
  unfold memcpyAt at h
  split at h
  · rename_i hle
    simp only [Option.some.injEq] at h
    subst h
    have hlen : (buffer.take offset).length = offset := by
      rw [List.length_take]; omega
    by_cases h1 : j < offset
    · rw [if_pos h1, List.append_assoc, List.getElem?_append_left (by omega),
        List.getElem?_take_of_lt h1]
    · rw [if_neg h1, List.append_assoc, List.getElem?_append_right (by omega), hlen]
      by_cases h2 : j < offset + src.length
      · rw [if_pos h2, List.getElem?_append_left (by omega)]
      · rw [if_neg h2, List.getElem?_append_right (by omega), List.getElem?_drop]
        congr 1
        omega
  · cases h

/-- A `memcpy` keeps the length of the buffer. -/
theorem memcpyAt_length {buffer buffer1 src : Bytes} {offset : Nat}
    (h : memcpyAt buffer offset src = some buffer1) : buffer1.length = buffer.length := by
  unfold memcpyAt at h
  split at h
  · simp only [Option.some.injEq] at h
    subst h
    simp only [List.length_append, List.length_take, List.length_drop]
    omega
  · cases h

/-- A `memcpy` inside the buffer has a result. -/
theorem memcpyAt_some (buffer src : Bytes) (offset : Nat) (h : offset + src.length ≤ buffer.length) :
    ∃ buffer1, memcpyAt buffer offset src = some buffer1 := by
  unfold memcpyAt
  rw [if_pos h]
  exact ⟨_, rfl⟩

/-- The bytes written by a `memcpy` stand in the buffer. -/
theorem holds_memcpyAt {buffer buffer1 src : Bytes} {offset : Nat}
    (h : memcpyAt buffer offset src = some buffer1) : holds buffer1 offset src := by
  intro j hj
  rw [memcpyAt_getElem h, if_neg (by omega), if_pos (by omega)]
  congr 1
  omega

/-- A `memcpy` keeps the bytes that lie before or behind the bytes written. -/
theorem holds_frame {buffer buffer1 src w : Bytes} {offset x : Nat}
    (h : memcpyAt buffer offset src = some buffer1) (hw : holds buffer x w)
    (hd : x + w.length ≤ offset ∨ offset + src.length ≤ x) : holds buffer1 x w := by
  intro j hj
  rw [memcpyAt_getElem h, ← hw j hj]
  rcases hd with hd | hd
  · rw [if_pos (by omega)]
  · rw [if_neg (by omega), if_neg (by omega)]

/-- The two parts of bytes that stand in the buffer. -/
theorem holds_append {buffer w1 w2 : Bytes} {x : Nat} (h : holds buffer x (w1 ++ w2)) :
    holds buffer x w1 ∧ holds buffer (x + w1.length) w2 := by
  constructor
  · intro j hj
    rw [h j (by rw [List.length_append]; omega), List.getElem?_append_left hj]
  · intro j hj
    have := h (w1.length + j) (by rw [List.length_append]; omega)
    rw [List.getElem?_append_right (by omega)] at this
    rw [Nat.add_assoc, this]
    congr 1
    omega

/-- Bytes that stand in the buffer are read by `slice`. -/
theorem slice_of_holds {buffer w : Bytes} {x : Nat} (h : holds buffer x w) (e : Nat)
    (he : e = x + w.length) : slice buffer x e = w := by
  subst he
  unfold slice
  apply List.ext_getElem?
  intro n
  rw [List.getElem?_take]
  by_cases hn : n < w.length
  · rw [if_pos (by omega), List.getElem?_drop, h n hn]
  · rw [if_neg (by omega), List.getElem?_eq_none (by omega)]

theorem u16OfBytes_bytesOfU16 (n : Nat) (h : n < 65536) : u16OfBytes (bytesOfU16 n) = n := by
  unfold bytesOfU16 u16OfBytes
  simp only [Nat.mod_mod]
  omega

theorem u64OfBytes_bytesOfU64 (n : Nat) (h : n < 18446744073709551616) :
    u64OfBytes (bytesOfU64 n) = n := by
  unfold u64OfBytes bytesOfU64
  have h1 : (bytesOfU32 (n % 4294967296) ++ bytesOfU32 (n / 4294967296)).take 4
      = bytesOfU32 (n % 4294967296) := rfl
  have h2 : (bytesOfU32 (n % 4294967296) ++ bytesOfU32 (n / 4294967296)).drop 4
      = bytesOfU32 (n / 4294967296) := rfl
  rw [h1, h2, u32OfBytes_bytesOfU32 _ (by omega), u32OfBytes_bytesOfU32 _ (by omega)]
  omega

theorem pageTypeOfTag_tagOfPageType (t : PageType) : pageTypeOfTag (tagOfPageType t) = t := by
  cases t <;> rfl

theorem holds_at {buffer w : Bytes} {x y : Nat} (h : holds buffer x w) (e : x = y) :
    holds buffer y w := by
  subst e; exact h

/-- Bytes that stand one behind the other stand as a whole. -/
theorem holds_append_intro {buffer w1 w2 : Bytes} {x : Nat} (h1 : holds buffer x w1)
    (h2 : holds buffer (x + w1.length) w2) : holds buffer x (w1 ++ w2) := by
  intro j hj
  rw [List.length_append] at hj
  by_cases h : j < w1.length
  · rw [h1 j h, List.getElem?_append_left h]
  · rw [List.getElem?_append_right (by omega)]
    have := h2 (j - w1.length) (by omega)
    rw [← this]
    congr 1
    omega

/-- The loop over the history writes the nodes one behind the other and
leaves the bytes before and behind them. -/
theorem serializeHistory_spec :
    ∀ (history : List HistoryNode) (j : Nat) (buffer : Bytes),
      32 + 16 * (j + history.length) ≤ buffer.length →
      ∃ buffer1, serializeHistory history (32 + 16 * j) buffer = some buffer1
        ∧ buffer1.length = buffer.length
        ∧ (∀ x w, holds buffer x w →
            (x + w.length ≤ 32 + 16 * j ∨ 32 + 16 * (j + history.length) ≤ x) → holds buffer1 x w)
        ∧ historyAt buffer1 history j := by
  intro history
  induction history with
  | nil =>
    intro j buffer _
    exact ⟨buffer, rfl, rfl, fun x w h _ => h, trivial⟩
  | cons hn rest ih =>
    intro j buffer hfit
    simp only [List.length_cons] at hfit
    have hlen : (bytesOfHistoryNode hn).length = 16 := rfl
    obtain ⟨b1, hb1⟩ := memcpyAt_some buffer (bytesOfHistoryNode hn) (32 + 16 * j)
      (by rw [hlen]; omega)
    have hl1 := memcpyAt_length hb1
    obtain ⟨b2, hb2, hl2, hframe, hrest⟩ := ih (j + 1) b1 (by rw [hl1]; omega)
    refine ⟨b2, ?_, by rw [hl2, hl1], ?_, ?_, hrest⟩
    · unfold serializeHistory
      rw [hb1]
      simp only
      have e : 32 + 16 * j + 16 = 32 + 16 * (j + 1) := by omega
      rw [e]
      exact hb2
    · intro x w hw hd
      simp only [List.length_cons] at hd
      apply hframe x w
      · apply holds_frame hb1 hw
        rw [hlen]
        omega
      · omega
    · apply hframe
      · exact holds_memcpyAt hb1
      · left; rw [hlen]; omega

/-- The loop over the entries writes the indices upwards and the entries
downwards from the end and leaves the bytes before the indices and behind
the entries. -/
theorem serializeNodes_spec (type : PageType) (offset : Nat) :
    ∀ (nodes : List (Bytes × NodeValue)) (i upper : Nat) (buffer : Bytes),
      offset + 2 * (i + nodes.length) + upper + recordsSize nodes ≤ buffer.length →
      upper + recordsSize nodes < 65536 →
      ∃ buffer1, serializeNodes type offset nodes i upper buffer = some buffer1
        ∧ buffer1.length = buffer.length
        ∧ (∀ x w, holds buffer x w →
            (x + w.length ≤ offset + 2 * i ∨ buffer.length - upper ≤ x) → holds buffer1 x w)
        ∧ recordsAt type offset buffer1 nodes i upper := by
  intro nodes
  induction nodes with
  | nil =>
    intro i upper buffer _ _
    exact ⟨buffer, rfl, rfl, fun x w h _ => h, trivial⟩
  | cons e rest ih =>
    obtain ⟨key, value⟩ := e
    intro i upper buffer hfit hup
    have htot : recordsSize ((key, value) :: rest)
        = 8 + key.length + value.data.length + recordsSize rest := by
      unfold recordsSize
      simp only [List.map_cons, List.sum_cons]
    rw [htot] at hfit hup
    simp only [List.length_cons] at hfit
    obtain ⟨context, hctx⟩ : ∃ c, c = (if value.isOverflow || type == PageType.Branch
      then value.overflowPage else value.data.length) := ⟨_, rfl⟩
    obtain ⟨upper1, hu1⟩ : ∃ u, u = upper + (8 + key.length + value.data.length) := ⟨_, rfl⟩
    have hsz : (value.data.length + key.length + 8) % 65536 = 8 + key.length + value.data.length := by
      omega
    have hhl : (bytesOfNodeHeader value.flags key.length context).length = 8 := rfl
    have hil : (bytesOfU16 upper1).length = 2 := rfl
    obtain ⟨b1, hb1⟩ := memcpyAt_some buffer (bytesOfNodeHeader value.flags key.length context)
      (buffer.length - upper1) (by rw [hhl]; omega)
    have hl1 := memcpyAt_length hb1
    obtain ⟨b2, hb2⟩ := memcpyAt_some b1 key (buffer.length - upper1 + 8) (by rw [hl1]; omega)
    have hl2 := memcpyAt_length hb2
    obtain ⟨b3, hb3⟩ := memcpyAt_some b2 value.data (buffer.length - upper1 + 8 + key.length)
      (by rw [hl2, hl1]; omega)
    have hl3 := memcpyAt_length hb3
    obtain ⟨b4, hb4⟩ := memcpyAt_some b3 (bytesOfU16 upper1) (offset + 2 * i)
      (by rw [hl3, hl2, hl1, hil]; omega)
    have hl4 := memcpyAt_length hb4
    have hl : b4.length = buffer.length := by rw [hl4, hl3, hl2, hl1]
    obtain ⟨b5, hb5, hl5, hframe, hrest⟩ := ih (i + 1) upper1 b4 (by rw [hl]; omega) (by omega)
    refine ⟨b5, ?_, by rw [hl5, hl], ?_, ?_⟩
    · unfold serializeNodes
      simp only [hsz, ← hu1, ← hctx]
      rw [if_neg (by omega)]
      simp only [hb1, hb2, hb3, hb4]
      exact hb5
    · intro x w hw hd
      apply hframe x w
      · apply holds_frame hb4
        · apply holds_frame hb3
          · apply holds_frame hb2
            · apply holds_frame hb1 hw
              rw [hhl]; omega
            · omega
          · omega
        · rw [hil]; omega
      · rw [hl]; omega
    · have hidx : holds b5 (offset + 2 * i) (bytesOfU16 upper1) := by
        apply hframe
        · exact holds_memcpyAt hb4
        · left; rw [hil]; omega
      have hh : holds b3 (buffer.length - upper1) (bytesOfNodeHeader value.flags key.length context) := by
        apply holds_frame hb3
        · apply holds_frame hb2 (holds_memcpyAt hb1)
          rw [hhl]; omega
        · rw [hhl]; omega
      have hk : holds b3 (buffer.length - upper1 + 8) key :=
        holds_frame hb3 (holds_memcpyAt hb2) (by omega)
      have hd : holds b3 (buffer.length - upper1 + 8 + key.length) value.data := holds_memcpyAt hb3
      have hrec3 : holds b3 (buffer.length - upper1)
          (bytesOfNodeHeader value.flags key.length context ++ key ++ value.data) := by
        apply holds_append_intro
        · apply holds_append_intro hh
          rw [hhl]; exact hk
        · rw [List.length_append, hhl]
          exact holds_at hd (by omega)
      have hrec : holds b5 (buffer.length - upper1)
          (bytesOfNodeHeader value.flags key.length context ++ key ++ value.data) := by
        apply hframe
        · apply holds_frame hb4 hrec3
          right; rw [hil]; omega
        · right; rw [hl]
      unfold recordsAt
      rw [← hu1, ← hctx, hl5, hl]
      exact ⟨hidx, hrec, hrest⟩

/-- The two parts of bytes that stand in the buffer, with the length of the
first part and the offset of the second given. -/
theorem holds_split {buffer w1 w2 : Bytes} {x : Nat} (h : holds buffer x (w1 ++ w2)) (n y : Nat)
    (hn : w1.length = n) (hy : x + n = y) : holds buffer x w1 ∧ holds buffer y w2 := by
  subst hn hy
  exact holds_append h

/-- The function `deserializePageInfo` reads back the bytes of a `PageInfo`
whose fields fit their widths. -/
theorem deserializePageInfo_of_holds {buffer : Bytes} {info : PageInfo}
    (h : holds buffer 0 (bytesOfPageInfo info))
    (hc : info.checksum < 4294967296) (hn : info.number < 4294967296)
    (hl : info.lowerOffset < 65536) (hu : info.upperOffset < 65536) :
    deserializePageInfo buffer = info := by
  unfold bytesOfPageInfo at h
  obtain ⟨h1, h5⟩ := holds_split h 14 14 rfl rfl
  obtain ⟨h2, h4⟩ := holds_split h1 12 12 rfl rfl
  obtain ⟨h3, h3b⟩ := holds_split h2 8 8 rfl rfl
  obtain ⟨h0, h0b⟩ := holds_split h3 4 4 rfl rfl
  unfold deserializePageInfo
  rw [slice_of_holds h0 4 rfl, slice_of_holds h0b 8 rfl, slice_of_holds h3b 12 rfl,
    slice_of_holds h4 14 rfl, slice_of_holds h5 16 rfl,
    u32OfBytes_bytesOfU32 _ hc, u32OfBytes_bytesOfU32 _ hn, u16OfBytes_bytesOfU16 _ hl,
    u16OfBytes_bytesOfU16 _ hu, u32OfBytes_bytesOfU32 _ (by cases info.type <;> decide),
    pageTypeOfTag_tagOfPageType]

/-- The history nodes that stand in the buffer are read back. -/
theorem historyAt_read (buffer : Bytes) :
    ∀ (history : List HistoryNode) (j : Nat), historyAt buffer history j →
      (∀ hn ∈ history, hn.pageNumber < 4294967296 ∧ hn.syncId < 18446744073709551616) →
      (List.range' j history.length).map (fun i => deserializeHistoryNode buffer (32 + 16 * i))
        = history := by
  intro history
  induction history with
  | nil => intro j _ _; rfl
  | cons hn rest ih =>
    intro j hat hr
    obtain ⟨hh, hrest⟩ := hat
    obtain ⟨hp, hs⟩ := hr hn (List.mem_cons_self _ _)
    simp only [List.length_cons, List.range'_succ, List.map_cons]
    rw [ih (j + 1) hrest (fun x hx => hr x (List.mem_cons_of_mem _ hx))]
    congr 1
    unfold bytesOfHistoryNode at hh
    obtain ⟨h1, h3⟩ := holds_split hh 8 (32 + 16 * j + 8) rfl rfl
    obtain ⟨h1, h2⟩ := holds_split h1 4 (32 + 16 * j + 4) rfl rfl
    unfold deserializeHistoryNode
    rw [slice_of_holds h1 (32 + 16 * j + 4) rfl, slice_of_holds h3 (32 + 16 * j + 16) rfl,
      u32OfBytes_bytesOfU32 _ hp, u64OfBytes_bytesOfU64 _ hs]

/-- An entry that stands in the buffer is read back: the key, the value
bytes or the page number, and the overflow flag. -/
theorem deserializeNode_spec (type : PageType) (offset i upper1 : Nat) (buffer : Bytes)
    (key : Bytes) (value : NodeValue)
    (hidx : holds buffer (offset + 2 * i) (bytesOfU16 upper1))
    (hrec : holds buffer (buffer.length - upper1)
      (bytesOfNodeHeader value.flags key.length
        (if value.isOverflow || type == PageType.Branch then value.overflowPage
         else value.data.length) ++ key ++ value.data))
    (hu : upper1 < 65536) (hk : 8 + key.length + value.data.length ≤ upper1)
    (hf : value.flags < 65536) (ho : value.overflowPage < 4294967296)
    (htype : type = PageType.Branch ∨ type = PageType.Leaf)
    (hbranch : type = PageType.Branch → value.isOverflow = false) :
    storedEntry type (deserializeNode type buffer offset i) = storedEntry type (key, value) := by
  obtain ⟨hhk, hd⟩ := holds_split hrec (8 + key.length) (buffer.length - upper1 + 8 + key.length)
    (by rw [List.length_append]; rfl) (by omega)
  obtain ⟨hh, hkey⟩ := holds_split hhk 8 (buffer.length - upper1 + 8) rfl rfl
  unfold bytesOfNodeHeader at hh
  obtain ⟨hfk, hc⟩ := holds_split hh 4 (buffer.length - upper1 + 4) rfl rfl
  obtain ⟨hfl, hks⟩ := holds_split hfk 2 (buffer.length - upper1 + 2) rfl rfl
  have e1 : u16OfBytes (slice buffer (offset + 2 * i) (offset + 2 * i + 2)) = upper1 := by
    rw [slice_of_holds hidx (offset + 2 * i + 2) rfl, u16OfBytes_bytesOfU16 _ hu]
  have e2 : u16OfBytes (slice buffer (buffer.length - upper1) (buffer.length - upper1 + 2))
      = value.flags := by
    rw [slice_of_holds hfl (buffer.length - upper1 + 2) rfl, u16OfBytes_bytesOfU16 _ hf]
  have e3 : u16OfBytes (slice buffer (buffer.length - upper1 + 2) (buffer.length - upper1 + 4))
      = key.length := by
    rw [slice_of_holds hks (buffer.length - upper1 + 4) rfl, u16OfBytes_bytesOfU16 _ (by omega)]
  have e5 : slice buffer (buffer.length - upper1 + 8) (buffer.length - upper1 + 8 + key.length)
      = key := slice_of_holds hkey _ rfl
  unfold deserializeNode
  simp only [e1, e2, e3, e5]
  have hflag : (value.flags % 2 == 1) = value.isOverflow := rfl
  rw [hflag]
  by_cases hov : (value.isOverflow || type == PageType.Branch) = true
  · rw [if_pos hov] at hc
    have e4 : u32OfBytes (slice buffer (buffer.length - upper1 + 4) (buffer.length - upper1 + 8))
        = value.overflowPage := by
      rw [slice_of_holds hc (buffer.length - upper1 + 8) rfl, u32OfBytes_bytesOfU32 _ ho]
    rw [if_pos hov, e4]
    unfold storedEntry
    rcases htype with ht | ht
    · subst ht
      rw [hbranch rfl]
      rfl
    · subst ht
      have hv : value.isOverflow = true := by simpa using hov
      rw [hv]
      rfl
  · rw [if_neg hov] at hc
    have e4 : u32OfBytes (slice buffer (buffer.length - upper1 + 4) (buffer.length - upper1 + 8))
        = value.data.length := by
      rw [slice_of_holds hc (buffer.length - upper1 + 8) rfl, u32OfBytes_bytesOfU32 _ (by omega)]
    have e6 : slice buffer (buffer.length - upper1 + 8 + key.length)
        (buffer.length - upper1 + 8 + key.length + value.data.length) = value.data :=
      slice_of_holds hd _ rfl
    rw [if_neg hov, e4, e6]
    unfold storedEntry
    have h1 : (value.isOverflow || type == PageType.Branch) = false := by simpa using hov
    have h2 : ((({ data := value.data } : NodeValue).isOverflow) || type == PageType.Branch) = false := by
      simp only [Bool.or_eq_false_iff] at h1 ⊢
      exact ⟨rfl, h1.2⟩
    simp only [h1, h2, Bool.false_eq_true, if_false]

/-- The entries that stand in the buffer are read back in their order. -/
theorem recordsAt_read (type : PageType) (offset : Nat) (buffer : Bytes)
    (htype : type = PageType.Branch ∨ type = PageType.Leaf) :
    ∀ (nodes : List (Bytes × NodeValue)) (i upper : Nat),
      recordsAt type offset buffer nodes i upper →
      upper + recordsSize nodes < 65536 →
      (∀ e ∈ nodes, e.2.flags < 65536 ∧ e.2.overflowPage < 4294967296) →
      (type = PageType.Branch → ∀ e ∈ nodes, e.2.isOverflow = false) →
      ((List.range' i nodes.length).map (deserializeNode type buffer offset)).map (storedEntry type)
        = nodes.map (storedEntry type) := by
  intro nodes
  induction nodes with
  | nil => intro i upper _ _ _ _; rfl
  | cons e rest ih =>
    obtain ⟨key, value⟩ := e
    intro i upper hat hup hr hb
    obtain ⟨hidx, hrec, hrest⟩ := hat
    have htot : recordsSize ((key, value) :: rest)
        = 8 + key.length + value.data.length + recordsSize rest := by
      unfold recordsSize
      simp only [List.map_cons, List.sum_cons]
    rw [htot] at hup
    obtain ⟨hf, ho⟩ := hr (key, value) (List.mem_cons_self _ _)
    simp only [List.length_cons, List.range'_succ, List.map_cons]
    rw [ih (i + 1) _ hrest (by omega) (fun x hx => hr x (List.mem_cons_of_mem _ hx))
      (fun ht x hx => hb ht x (List.mem_cons_of_mem _ hx))]
    rw [deserializeNode_spec type offset i _ buffer key value hidx hrec (by omega) (by omega) hf ho
      htype (fun ht => hb ht (key, value) (List.mem_cons_self _ _))]

/-- History nodes that stand in a buffer stand in every buffer that keeps
the bytes before `bound`. -/
theorem historyAt_frame {buffer buffer1 : Bytes} (bound : Nat)
    (hframe : ∀ x w, holds buffer x w → x + w.length ≤ bound → holds buffer1 x w) :
    ∀ (history : List HistoryNode) (j : Nat), historyAt buffer history j →
      32 + 16 * (j + history.length) ≤ bound → historyAt buffer1 history j := by
  intro history
  induction history with
  | nil => intro j _ _; trivial
  | cons hn rest ih =>
    intro j hat hb
    simp only [List.length_cons] at hb
    obtain ⟨h1, h2⟩ := hat
    refine ⟨hframe _ _ h1 ?_, ih (j + 1) h2 (by omega)⟩
    have hlen : (bytesOfHistoryNode hn).length = 16 := rfl
    rw [hlen]; omega

/-- The round trip of a node page through `serializeNodePage` and
`deserializeNodePage`. -/
theorem serializeNodePage_spec (spec : Spec) (p : NodePage)
    (htype : p.info.type = PageType.Branch ∨ p.info.type = PageType.Leaf)
    (hcap : 32 + 16 * p.history.length + p.info.lowerOffset + p.info.upperOffset ≤ spec.pageSize)
    (hlow : p.info.lowerOffset = 2 * p.nodes.length)
    (hupp : p.info.upperOffset = recordsSize p.nodes)
    (hhist : p.meta.historySize = p.history.length)
    (hfit : p.fieldsFit)
    (hbranch : p.info.type = PageType.Branch → ∀ e ∈ p.nodes, e.2.isOverflow = false) :
    ∃ buffer, serializeNodePage spec p = some buffer ∧ buffer.length = spec.pageSize
      ∧ (deserializeNodePage buffer).info = p.info
      ∧ (deserializeNodePage buffer).meta = p.meta
      ∧ (deserializeNodePage buffer).history = p.history
      ∧ (deserializeNodePage buffer).nodes.map (storedEntry p.info.type)
          = p.nodes.map (storedEntry p.info.type) := by
  obtain ⟨hc, hn, hl, hu, hs, hh, hf, hhn, hen⟩ := hfit
  have hil : (bytesOfPageInfo p.info).length = 16 := rfl
  have hml : (bytesOfNodeMeta p.meta).length = 16 := rfl
  have hl0 : (qInitializedByteArray spec).length = spec.pageSize := by
    unfold qInitializedByteArray
    rw [List.length_replicate]
  obtain ⟨b1, hb1⟩ := memcpyAt_some (qInitializedByteArray spec) (bytesOfPageInfo p.info) 0
    (by rw [hil, hl0]; omega)
  have hl1 := memcpyAt_length hb1
  obtain ⟨b2, hb2⟩ := memcpyAt_some b1 (bytesOfNodeMeta p.meta) 16 (by rw [hml, hl1, hl0]; omega)
  have hl2 := memcpyAt_length hb2
  obtain ⟨b3, hb3, hl3, hframe3, hhist3⟩ := serializeHistory_spec p.history 0 b2
    (by rw [hl2, hl1, hl0]; omega)
  simp only [Nat.mul_zero, Nat.add_zero, Nat.zero_add] at hb3 hframe3
  have hlen3 : b3.length = spec.pageSize := by rw [hl3, hl2, hl1, hl0]
  have hinfo3 : holds b3 0 (bytesOfPageInfo p.info) := by
    apply hframe3
    · exact holds_frame hb2 (holds_memcpyAt hb1) (by rw [hil]; omega)
    · left; rw [hil]; omega
  have hmeta3 : holds b3 16 (bytesOfNodeMeta p.meta) := by
    apply hframe3
    · exact holds_memcpyAt hb2
    · left; rw [hml]
  obtain ⟨bf, hbf, hlf, hframe, hrec⟩ : ∃ bf,
      (if p.info.hasPayload then
        serializeNodes p.info.type (32 + 16 * p.history.length) p.nodes 0 0 b3
       else some b3) = some bf
      ∧ bf.length = b3.length
      ∧ (∀ x w, holds b3 x w → x + w.length ≤ 32 + 16 * p.history.length → holds bf x w)
      ∧ recordsAt p.info.type (32 + 16 * p.history.length) bf p.nodes 0 0 := by
    by_cases hp : p.info.hasPayload = true
    · obtain ⟨b4, hb4, hl4, hframe4, hrec4⟩ := serializeNodes_spec p.info.type
        (32 + 16 * p.history.length) p.nodes 0 0 b3 (by rw [hlen3]; omega) (by omega)
      refine ⟨b4, by rw [if_pos hp]; exact hb4, hl4, ?_, hrec4⟩
      intro x w hw hx
      exact hframe4 x w hw (Or.inl (by omega))
    · refine ⟨b3, by rw [if_neg hp], rfl, fun x w hw _ => hw, ?_⟩
      have h0 : p.nodes = [] := by
        unfold PageInfo.hasPayload at hp
        simp only [gt_iff_lt, Bool.or_eq_true, decide_eq_true_eq, not_or, not_lt,
          Nat.le_zero_eq] at hp
        have : p.nodes.length = 0 := by omega
        exact List.length_eq_zero.mp this
      rw [h0]
      trivial
  have hinfo : holds bf 0 (bytesOfPageInfo p.info) := hframe _ _ hinfo3 (by rw [hil]; omega)
  have hmeta : holds bf 16 (bytesOfNodeMeta p.meta) := hframe _ _ hmeta3 (by rw [hml]; omega)
  have hhistf : historyAt bf p.history 0 :=
    historyAt_frame (32 + 16 * p.history.length) hframe p.history 0 hhist3 (by omega)
  have einfo : deserializePageInfo bf = p.info := deserializePageInfo_of_holds hinfo hc hn hl hu
  unfold bytesOfNodeMeta at hmeta
  obtain ⟨hm1, hm4⟩ := holds_split hmeta 12 28 rfl rfl
  obtain ⟨hm2, hm3⟩ := holds_split hm1 10 26 rfl rfl
  obtain ⟨hm1, hm2⟩ := holds_split hm2 8 24 rfl rfl
  have e1 : u64OfBytes (slice bf 16 24) = p.meta.syncId := by
    rw [slice_of_holds hm1 24 rfl, u64OfBytes_bytesOfU64 _ hs]
  have e2 : u16OfBytes (slice bf 24 26) = p.meta.historySize := by
    rw [slice_of_holds hm2 26 rfl, u16OfBytes_bytesOfU16 _ hh]
  have e3 : u16OfBytes (slice bf 26 28) = p.meta.flags := by
    rw [slice_of_holds hm3 28 rfl, u16OfBytes_bytesOfU16 _ hf]
  refine ⟨bf, ?_, by rw [hlf, hlen3], ?_, ?_, ?_, ?_⟩
  · unfold serializeNodePage serializePageInfo
    rw [hb1]
    simp only [hb2, hb3]
    exact hbf
  · exact einfo
  · unfold deserializeNodePage
    simp only [e1, e2, e3]
  · unfold deserializeNodePage
    simp only [e2, hhist, List.range_eq_range']
    exact historyAt_read bf p.history 0 hhistf hhn
  · unfold deserializeNodePage
    simp only [e2, hhist, einfo]
    by_cases hp : p.info.hasPayload = true
    · rw [if_pos hp, hlow]
      have : 2 * p.nodes.length / 2 = p.nodes.length := by omega
      rw [this, List.range_eq_range']
      exact recordsAt_read p.info.type _ bf htype p.nodes 0 0 hrec (by omega) hen hbranch
    · rw [if_neg hp]
      have h0 : p.nodes = [] := by
        unfold PageInfo.hasPayload at hp
        simp only [gt_iff_lt, Bool.or_eq_true, decide_eq_true_eq, not_or, not_lt,
          Nat.le_zero_eq] at hp
        have : p.nodes.length = 0 := by omega
        exact List.length_eq_zero.mp this
      rw [h0]

/-- The round trip of an overflow page through `serializeOverflowPage` and
`deserializeOverflowPage`. -/
theorem serializeOverflowPage_spec (spec : Spec) (o : OverflowPage)
    (hcap : 24 + o.data.length ≤ spec.pageSize) (hfit : o.fieldsFit) :
    ∃ buffer, serializeOverflowPage spec o = some buffer ∧ buffer.length = spec.pageSize
      ∧ (deserializeOverflowPage buffer).info = o.info
      ∧ (deserializeOverflowPage buffer).data = o.data
      ∧ (deserializeOverflowPage buffer).nextPage = o.nextPage := by
  obtain ⟨hc, hn, hl, hu, hnext, hd⟩ := hfit
  have hil : (bytesOfPageInfo o.info).length = 16 := rfl
  have hhl : (bytesOfNodeHeader 0 o.data.length o.nextPage).length = 8 := rfl
  have hl0 : (qInitializedByteArray spec).length = spec.pageSize := by
    unfold qInitializedByteArray
    rw [List.length_replicate]
  obtain ⟨b1, hb1⟩ := memcpyAt_some (qInitializedByteArray spec) (bytesOfPageInfo o.info) 0
    (by rw [hil, hl0]; omega)
  have hl1 := memcpyAt_length hb1
  obtain ⟨b2, hb2⟩ := memcpyAt_some b1 (bytesOfNodeHeader 0 o.data.length o.nextPage) 16
    (by rw [hhl, hl1, hl0]; omega)
  have hl2 := memcpyAt_length hb2
  obtain ⟨b3, hb3⟩ := memcpyAt_some b2 o.data 24 (by rw [hl2, hl1, hl0]; omega)
  have hl3 := memcpyAt_length hb3
  have hinfo : holds b3 0 (bytesOfPageInfo o.info) := by
    apply holds_frame hb3
    · exact holds_frame hb2 (holds_memcpyAt hb1) (by rw [hil]; omega)
    · left; rw [hil]; omega
  have hhdr : holds b3 16 (bytesOfNodeHeader 0 o.data.length o.nextPage) :=
    holds_frame hb3 (holds_memcpyAt hb2) (by rw [hhl]; omega)
  have hdata : holds b3 24 o.data := holds_memcpyAt hb3
  unfold bytesOfNodeHeader at hhdr
  obtain ⟨h1, h3⟩ := holds_split hhdr 4 20 rfl rfl
  obtain ⟨h1, h2⟩ := holds_split h1 2 18 rfl rfl
  have e1 : u16OfBytes (slice b3 18 20) = o.data.length := by
    rw [slice_of_holds h2 20 rfl, u16OfBytes_bytesOfU16 _ hd]
  have e2 : u32OfBytes (slice b3 20 24) = o.nextPage := by
    rw [slice_of_holds h3 24 rfl, u32OfBytes_bytesOfU32 _ hnext]
  refine ⟨b3, ?_, by rw [hl3, hl2, hl1, hl0], ?_, ?_, ?_⟩
  · unfold serializeOverflowPage serializePageInfo
    rw [hb1]
    simp only [hb2]
    exact hb3
  · exact deserializePageInfo_of_holds hinfo hc hn hl hu
  · unfold deserializeOverflowPage
    simp only [e1]
    exact slice_of_holds hdata _ rfl
  · unfold deserializeOverflowPage
    simp only [e2]

theorem Snap.node {c : Shot} {live : Bool} {s : HBtreePrivate} (h : Snap c live s) {x : Nat}
    {p : NodePage} (hp : findNode s x = some p) : PageOk c live x (Page.node p) :=
  h.cacheOk x _ (findNode_iff.mp hp)

theorem Snap.overflow {c : Shot} {live : Bool} {s : HBtreePrivate} (h : Snap c live s) {x : Nat}
    {o : OverflowPage} (ho : findOverflow s x = some o) : PageOk c live x (Page.overflow o) :=
  h.cacheOk x _ (findOverflow_iff.mp ho)

/-- C1, failing input: in the fourth transaction of the run `exA1` to
`exA13`, `get("2")` returns the 1025 bytes 2 stored under "2"; `put("20", v)`
with 1025 bytes 4 returns true; afterwards `get("20")` returns `v`, but
`get("2")` returns `v` too: the put has written its overflow page over the
page that holds the value of "2". -/
theorem put_overwrites_other_key :
    exGet (get exEnv exA11 (some 3) [50]) = some (exValue 1025 2) ∧
    exOk (put exEnv exA12 3 [50, 48] (exValue 1025 4)) = some true ∧
    exGet (get exEnv exA13 (some 3) [50, 48]) = some (exValue 1025 4) ∧
    exGet (get exEnv exA13 (some 3) [50]) = some (exValue 1025 4) ∧
    exA6.residueHistory_ = [4, 5] ∧
    exA7.residueHistory_ = [4, 5] ∧
    exA10.collectiblePages_ = [4, 5] := by
  decide!

/-- C2, failing input: in the third transaction of the run `exE1` to `exE7`
both puts of "k" return true, and `get("k")` then has no result: page 3, the
root leaf in use, was still in `collectiblePages_` after the abort, and the
second put takes it for its overflow page, so the entry of "k" points to the
leaf itself. -/
theorem put_put_get_fails :
    exE4.collectiblePages_ = [3] ∧
    exE5.dirtyPages_ = [] ∧
    exOk (put exEnv exE5 2 [107] [1]) = some true ∧
    exE6.dirtyPages_ = [3] ∧
    exOk (put exEnv exE6 2 [107] (exValue 1025 2)) = some true ∧
    exE7.collectiblePages_ = [] ∧
    (findNode exE7 3).map (fun p => p.nodes.map (fun e => (e.1, e.2.overflowPage)))
      = some [([107], 3)] ∧
    get exEnv exE7 (some 2) [107] = none := by
  decide!

/-- C3, failing input: in the fourth transaction of the run `exB1` to
`exB12`, `get("e")` returns the 1000 bytes stored under "e"; `del("g")` returns
true; afterwards `get("g")` is empty, and `get("e")` is empty too: the aborted
dels have left the live leaves 5 and 6 in `residueHistory_`, and the del copies
the root to page 5 and the leaf of "g" to page 6, the leaf that holds "e" and
"f". -/
theorem del_loses_other_key :
    exB5.residueHistory_ = [5, 6] ∧
    exB6.residueHistory_ = [5, 6] ∧
    exB9.collectiblePages_ = [5, 6] ∧
    exGet (get exEnv exB10 (some 3) [101]) = some (exValue 1000 101) ∧
    exOk (del exEnv exB11 3 [103]) = some true ∧
    exGet (get exEnv exB12 (some 3) [103]) = some [] ∧
    exGet (get exEnv exB12 (some 3) [101]) = some [] ∧
    exGet (get exEnv exB12 (some 3) [104]) = some (exValue 1000 104) := by
  decide!

/-- C5, failing input: the run `exA1` to `exA13` against the run `exG1` to
`exG6`, which is the same without the aborted transaction. The abort leaves
`residueHistory_` and `lastPage_` as the aborted transaction set them (page 5,
the overflow page of "2", stays in the residue). A transaction begun right
after the abort still gets the old value of "2"; but after the next commit and
sync page 5 is collectible, and the transaction that then puts "20" gets the
value of "20" for "2", where the run without the aborted transaction gets the
old value. For every state, `abort` leaves the file and the marker alone and
empties `dirtyPages_`, and it returns `residueHistory_`, `collectiblePages_`
and `lastPage_` as it finds them. -/
theorem abort_keeps_residue :
    (∀ s t s1, abort s t = some s1 →
      s1.file = s.file ∧ s1.marker_ = s.marker_ ∧ s1.dirtyPages_ = [] ∧
      s1.residueHistory_ = s.residueHistory_ ∧
      s1.collectiblePages_ = s.collectiblePages_ ∧ s1.lastPage_ = s.lastPage_) ∧
    (exA5.residueHistory_, exA5.collectiblePages_, exA5.lastPage_) = ([4], [], 6) ∧
    (exA7.residueHistory_, exA7.collectiblePages_, exA7.lastPage_) = ([4, 5], [], 7) ∧
    exGet (get exEnv exA5 (some 1) [50]) = some (exValue 1025 2) ∧
    exGet (get exEnv exA8 (some 2) [50]) = some (exValue 1025 2) ∧
    exA10.collectiblePages_ = [4, 5] ∧
    exG3.collectiblePages_ = [4] ∧
    exOk (put exEnv exA12 3 [50, 48] (exValue 1025 4)) = some true ∧
    exOk (put exEnv exG5 2 [50, 48] (exValue 1025 4)) = some true ∧
    exGet (get exEnv exA13 (some 3) [50]) = some (exValue 1025 4) ∧
    exGet (get exEnv exG6 (some 2) [50]) = some (exValue 1025 2) := by
  refine ⟨?_, ?_⟩
  · intro s t s1 h
    obtain ⟨txn, _, hr⟩ := abort_rest h
    exact ⟨(congrArg HBtreePrivate.file hr :), (congrArg HBtreePrivate.marker_ hr :),
      (congrArg HBtreePrivate.dirtyPages_ hr :), (congrArg HBtreePrivate.residueHistory_ hr :),
      (congrArg HBtreePrivate.collectiblePages_ hr :), (congrArg HBtreePrivate.lastPage_ hr :)⟩
  · decide!

/-- C7: `put` and `del` called with a read-only transaction return `false`
and leave the whole state as it was, so the tree contents, the dirty pages,
the free-page sets and the root of the transaction are all unchanged. -/
theorem put_del_readOnly (env : Env) (s : HBtreePrivate) (t : Nat) (txn : HBtreeTransaction)
    (key value : Bytes) (hfind : mapFind t s.transactions = some txn)
    (hro : txn.type = TransactionType.ReadOnly) :
    put env s t key value = some (s, false) ∧ del env s t key = some (s, false) := by
  constructor
  · simp [put, hfind, hro]
  · simp [del, hfind, hro]

/-- Witness of C7 on a new file with a read transaction open. -/
theorem put_del_readOnly_witness :
    put exEnv exReader 0 [107] [118] = some (exReader, false)
      ∧ del exEnv exReader 0 [107] = some (exReader, false) :=
  put_del_readOnly exEnv exReader 0
    { type := TransactionType.ReadOnly, rootPage_ := INVALID_PAGE, tag_ := 0, revision_ := 0 }
    [107] [118] (by decide) (by decide)

/-- C8: `beginTransaction(ReadWrite)` returns no transaction and the state as
it was when a writer is registered, when the tree is read-only or when the
file lock is taken; a successful `beginTransaction(ReadWrite)` finds no writer
registered and registers the new transaction, a read transaction leaves the
registration alone; `put`, `del` and `get` leave it alone; `abort` and a
successful `commit` of a write transaction clear it, of a read transaction
leave it alone, and a failed `commit` leaves it alone; and each of these steps
keeps the property that every read-write transaction object is the registered
writer. -/
theorem one_writer (env : Env) (s : HBtreePrivate) :
    ((s.writeTransaction_.isSome ∨ s.openMode_ = OpenMode.ReadOnly ∨ s.lockHeld = true) →
      beginTransaction s TransactionType.ReadWrite = (s, none)) ∧
    (∀ s1 t, beginTransaction s TransactionType.ReadWrite = (s1, some t) →
      s.writeTransaction_ = none ∧ s1.writeTransaction_ = some t ∧
      (mapFind t s1.transactions).map (fun x => x.type) = some TransactionType.ReadWrite) ∧
    (∀ s1 t, beginTransaction s TransactionType.ReadOnly = (s1, some t) →
      s1.writeTransaction_ = s.writeTransaction_) ∧
    (∀ t k v r, put env s t k v = some r → r.1.writeTransaction_ = s.writeTransaction_) ∧
    (∀ t k r, del env s t k = some r → r.1.writeTransaction_ = s.writeTransaction_) ∧
    (∀ t k r, get env s t k = some r → r.1.writeTransaction_ = s.writeTransaction_) ∧
    (∀ t txn s1, mapFind t s.transactions = some txn → abort s t = some s1 →
      s1.writeTransaction_ =
        if txn.type = TransactionType.ReadWrite then none else s.writeTransaction_) ∧
    (∀ t tag txn s1, mapFind t s.transactions = some txn → commit s t tag = some (s1, true) →
      s1.writeTransaction_ =
        if txn.type = TransactionType.ReadWrite then none else s.writeTransaction_) ∧
    (∀ t tag s1, commit s t tag = some (s1, false) →
      s1.writeTransaction_ = s.writeTransaction_) ∧
    (oneWriter s →
      (∀ ty s1 t, beginTransaction s ty = (s1, some t) → oneWriter s1) ∧
      (∀ t k v r, put env s t k v = some r → oneWriter r.1) ∧
      (∀ t k r, del env s t k = some r → oneWriter r.1) ∧
      (∀ t k r, get env s t k = some r → oneWriter r.1) ∧
      (∀ t s1, abort s t = some s1 → oneWriter s1) ∧
      (∀ t tag r, commit s t tag = some r → oneWriter r.1)) := by
  refine ⟨begin_refused s, ?_, ?_, ?_, ?_, ?_, ?_, ?_, ?_, ?_⟩
  · intro s1 t h
    obtain ⟨_, hnone, hs⟩ := begin_done h
    refine ⟨hnone rfl, ?_, ?_⟩
    · rw [hs]
      simp
    · rw [hs]
      simp [mapFind_mapInsert]
  · intro s1 t h
    obtain ⟨_, _, hs⟩ := begin_done h
    rw [hs]
    simp
  · intro t k v r h
    exact same_writer (put_frame h).1
  · intro t k r h
    exact same_writer (del_frame h).1
  · intro t k r h
    exact same_writer (get_same h).1
  · intro t txn s1 hfind h
    obtain ⟨txn1, hfind1, hr⟩ := abort_rest h
    rw [hfind] at hfind1
    simp only [Option.some.injEq] at hfind1
    subst hfind1
    exact congrArg HBtreePrivate.writeTransaction_ hr
  · intro t tag txn s1 hfind h
    obtain ⟨txn1, hfind1, hc, _⟩ := commit_core h
    rw [hfind] at hfind1
    simp only [Option.some.injEq] at hfind1
    subst hfind1
    exact congrArg HBtreePrivate.writeTransaction_ hc
  · intro t tag s1 h
    exact (congrArg HBtreePrivate.writeTransaction_ (commit_false_core h) :
      (core s1).writeTransaction_ = (core s).writeTransaction_)
  · intro hw
    refine ⟨?_, ?_, ?_, ?_, ?_, ?_⟩
    · intro ty s1 t h
      exact oneWriter_begin h hw
    · intro t k v r h
      exact oneWriter_frame (put_frame h) hw
    · intro t k r h
      exact oneWriter_frame (del_frame h) hw
    · intro t k r h
      exact oneWriter_frame ((get_same h).frame 0) hw
    · intro t s1 h
      exact oneWriter_abort h hw
    · intro t tag r h
      exact oneWriter_commit h hw

/-- Witness of C8: on a new file a second write transaction is refused, the
first is registered, stays registered over a `put`, and is unregistered by its
commit. -/
theorem one_writer_witness :
    beginTransaction exWriter TransactionType.ReadWrite = (exWriter, none) ∧
    exWriter.writeTransaction_ = some 0 ∧
    (exState (put exEnv exWriter 0 [107] [118])).writeTransaction_ = some 0 ∧
    exCommitted.writeTransaction_ = none :=
  ⟨(one_writer exEnv exWriter).1 (Or.inl (by decide)),
   ((one_writer exEnv exNew).2.1 exWriter 0 (by decide)).2.1,
   ((one_writer exEnv exWriter).2.2.2.1 0 [107] [118] (exPut, true) (by decide!)).trans (by decide),
   (one_writer exEnv exPut).2.2.2.2.2.2.2.1 0 7
     { type := TransactionType.ReadWrite, rootPage_ := 3, tag_ := 0, revision_ := 0 }
     exCommitted (by decide!) (by decide!)⟩

/-- C9, counterexample: on a new file with 4 KiB pages `put` in a write
transaction accepts a key of 256 bytes: it returns true, and `get` then
returns the value stored under that key. -/
theorem put_key256_accepted :
    exOk (put exEnv exWriter 0 (exValue 256 107) [118]) = some true ∧
    exGet (get exEnv exLongKey (some 0) (exValue 256 107)) = some [118] := by
  constructor
  · decide!
  · decide!

/-- C9, amended: in a write transaction `put` rejects a key exactly when it is
longer than `spec_.overflowThreshold` bytes: such a key gives false and the
state as it was, and every other key passes the size check, the call being
the insertion `putInsert`. -/
theorem put_key_limit (env : Env) (s : HBtreePrivate) (t : Nat) (txn : HBtreeTransaction)
    (key value : Bytes) (hfind : mapFind t s.transactions = some txn)
    (hrw : txn.type = TransactionType.ReadWrite) :
    (key.length > s.spec_.overflowThreshold → put env s t key value = some (s, false)) ∧
    (key.length ≤ s.spec_.overflowThreshold →
      put env s t key value = putInsert env s t txn key value) := by
  constructor
  · intro h
    simp [put, hfind, hrw, h]
  · intro h
    have h1 : ¬ key.length > s.spec_.overflowThreshold := Nat.not_lt.mpr h
    simp [put, hfind, hrw, h1]

/-- Witness of C9: on a new file a key of 1025 bytes is rejected, and the put
of a key of 256 bytes is the insertion. -/
theorem put_key_limit_witness :
    put exEnv exWriter 0 (exValue 1025 107) [118] = some (exWriter, false) ∧
    put exEnv exWriter 0 (exValue 256 107) [118]
      = putInsert exEnv exWriter 0
          { type := TransactionType.ReadWrite, rootPage_ := INVALID_PAGE, tag_ := 0, revision_ := 0 }
          (exValue 256 107) [118] :=
  ⟨(put_key_limit exEnv exWriter 0
      { type := TransactionType.ReadWrite, rootPage_ := INVALID_PAGE, tag_ := 0, revision_ := 0 }
      (exValue 1025 107) [118] (by decide) (by decide)).1 (by decide!),
   (put_key_limit exEnv exWriter 0
      { type := TransactionType.ReadWrite, rootPage_ := INVALID_PAGE, tag_ := 0, revision_ := 0 }
      (exValue 256 107) [118] (by decide) (by decide)).2 (by decide!)⟩

/-- C10: when `commit(txn, tag)` returns true, the marker `marker_` is the
marker of before with the revision one higher, `syncId = lastSyncedId_ + 1`,
the root of the transaction, the tag of the caller and the residue set
`residueHistory_` as it stood at the call; `dirtyPages_` is empty; every other
transaction object is as before (a reader keeps the tag it took at its
begin); and a transaction begun afterwards has the new tag. -/
theorem commit_marker (s s1 : HBtreePrivate) (t tag : Nat) (txn : HBtreeTransaction)
    (hfind : mapFind t s.transactions = some txn)
    (h : commit s t tag = some (s1, true)) :
    s1.marker_.meta.revision = s.marker_.meta.revision + 1 ∧
    s1.marker_.meta.syncId = s.lastSyncedId_ + 1 ∧
    s1.marker_.meta.root = txn.rootPage_ ∧
    s1.marker_.meta.tag = tag ∧
    s1.marker_.residueHistory = s.residueHistory_ ∧
    s1.dirtyPages_ = [] ∧
    (∀ r, r ≠ t → mapFind r s1.transactions = mapFind r s.transactions) ∧
    (∀ ty s2 r, beginTransaction s1 ty = (s2, some r) →
      (mapFind r s2.transactions).map (fun x => x.tag_) = some tag) := by
  obtain ⟨txn1, hfind1, hc, hd⟩ := commit_core h
  rw [hfind] at hfind1
  simp only [Option.some.injEq] at hfind1
  subst hfind1
  have hm : s1.marker_ = commitMarker s.marker_ s.lastSyncedId_ txn.rootPage_ tag s.residueHistory_ :=
    congrArg HBtreePrivate.marker_ hc
  have ht : s1.transactions = mapRemove t s.transactions :=
    congrArg HBtreePrivate.transactions hc
  refine ⟨?_, ?_, ?_, ?_, ?_, hd, ?_, ?_⟩
  · rw [hm]; rfl
  · rw [hm]; rfl
  · rw [hm]; rfl
  · rw [hm]; rfl
  · rw [hm]; rfl
  · intro r hr
    rw [ht, mapFind_mapRemove]
    simp [hr]
  · intro ty s2 r hb
    obtain ⟨_, _, hs⟩ := begin_done hb
    rw [hs]
    simp only [mapFind_mapInsert, if_true, Option.map_some', Option.some.injEq]
    rw [hm]; rfl

/-- Witness of C10: the commit with tag 7 of the transaction that has put
"k". -/
theorem commit_marker_witness :
    exCommitted.marker_.meta.revision = exPut.marker_.meta.revision + 1 ∧
    exCommitted.marker_.meta.syncId = exPut.lastSyncedId_ + 1 ∧
    exCommitted.marker_.meta.root = 3 ∧
    exCommitted.marker_.meta.tag = 7 ∧
    exCommitted.marker_.residueHistory = exPut.residueHistory_ ∧
    exCommitted.dirtyPages_ = [] ∧
    (∀ r, r ≠ 0 → mapFind r exCommitted.transactions = mapFind r exPut.transactions) ∧
    (∀ ty s2 r, beginTransaction exCommitted ty = (s2, some r) →
      (mapFind r s2.transactions).map (fun x => x.tag_) = some 7) :=
  commit_marker exPut exCommitted 0 7
    { type := TransactionType.ReadWrite, rootPage_ := 3, tag_ := 0, revision_ := 0 }
    (by decide!) (by decide!)

/-- C16 (failing run): after a sync whose marker names a residue page, sync
marker 2 does not decode to the contents of sync marker 1. `writeMarker` keeps
the length of the residue list in the page information of marker 2 but clears
the list before it is copied, so `readMarker` reads zeros. With marker 1
corrupted `open` succeeds with the same root, revision, sync id and tag, but
the collectible set is page 0 instead of page 4; the next committed put then
writes a leaf over the spec page and the following `open` fails. -/
theorem marker2_residue_is_page0 :
    exOk (sync exEnv exH6) = some true ∧
    exOk (openExisting exEnv exH8) = some true ∧
    exOk (openExisting exEnv (corruptPage exH8 1)) = some true ∧
    exH10.marker_.meta = exH9.marker_.meta ∧
    exH9.marker_.meta.root = 5 ∧ exH9.marker_.meta.revision = 2 ∧ exH9.marker_.meta.tag = 7 ∧
    exH9.collectiblePages_ = [4] ∧
    exH10.collectiblePages_ = [0] ∧
    mapFind 0 exH8.file = some (DiskPage.spec exNew.spec_) ∧
    exGet (get exEnv exH11 (some 2) [49]) = some (exValue 1025 2) ∧
    exOk (put exEnv exH11 2 [50] [120]) = some true ∧
    exOk (commit exH12 2 8) = some true ∧
    exH13.marker_.meta.root = 0 ∧
    (mapFind 0 exH14.file).map (fun d => decide (d = DiskPage.spec exNew.spec_)) = some false ∧
    exOk (openExisting exEnv exH14) = some false := by
  decide!

/-- C17 (refuted for this source): `open` has no marker to fall back to when
both sync markers are unreadable. On a file whose spec page is intact and
whose pages 1 and 2 cannot be read back, `open` returns `false`. -/
theorem open_fails_without_sync_markers (env : Env) (s : HBtreePrivate) (sp : Spec)
    (h0 : mapFind 0 s.file = some (DiskPage.spec sp)) (hv : sp.version = 0xdeadc0de)
    (hp : sp.pageSize ≠ 0)
    (h1 : mapFind 1 s.file = none) (h2 : mapFind 2 s.file = none) :
    ∃ s1, openExisting env s = some (s1, false) := by
  unfold openExisting
  simp only [h0, hv, hp, bne_self_eq_false, Bool.false_eq_true, if_false]
  simp [readSyncedMarker, readMarker, h1, h2]

/-- Witness of C17: the run of `corruptBothSyncMarkers`. Ten commits (the last
marker has revision 10 and every key is readable after `close` and `open`),
then `close`, both sync markers corrupted: `open` returns `false`. -/
theorem open_fails_without_sync_markers_witness :
    exJ1.marker_.meta.revision = 10 ∧
    exGet (get exEnv (exState (openExisting exEnv exJ2)) none [57]) = some [57] ∧
    ∃ s1, openExisting exEnv exJ3 = some (s1, false) :=
  ⟨by decide!, by decide!,
    open_fails_without_sync_markers exEnv exJ3 exNew.spec_ (by decide!) (by decide!) (by decide!)
      (by decide!) (by decide!)⟩

/-- C19 (refuted): `putDataOnOverflow` does not terminate on a value of 65536
bytes or more. The remaining size never falls below 65536, because a step
takes at most the remaining size modulo 65536 (nothing at all at a multiple of
65536), so the loop has no result for any number of iterations, and neither
has the model of the function. -/
theorem putDataOnOverflow_diverges (env : Env) (s : HBtreePrivate) (value : Bytes)
    (h : 65536 ≤ value.length) :
    (∀ fuel, putDataOnOverflowLoop env fuel s value INVALID_PAGE none = none) ∧
    putDataOnOverflow env s value = none :=
  ⟨fun fuel => putDataOnOverflowLoop_none env fuel s value INVALID_PAGE none h,
   putDataOnOverflowLoop_none env _ s value INVALID_PAGE none h⟩

/-- Witness of C19: a value of 65536 zero bytes on a new file. -/
theorem putDataOnOverflow_diverges_witness :
    (∀ fuel, putDataOnOverflowLoop exEnv fuel exWriter (List.replicate 65536 0) INVALID_PAGE none
      = none) ∧
    putDataOnOverflow exEnv exWriter (List.replicate 65536 0) = none :=
  putDataOnOverflow_diverges exEnv exWriter (List.replicate 65536 0)
    (List.length_replicate 65536 0).ge

/-- The overflow round trip for a non-empty value below 65536
bytes. With an allocator state in order (distinct collectible pages below
`lastPage_`, page numbers below `INVALID_PAGE`) `putDataOnOverflow` returns
the head of a chain from which `getOverflowData` reads back exactly the value;
the chain has `ceil(|V| / capacity)` pages, starts at the head, page `i` holds
the bytes from offset `i * capacity` on (exactly `capacity` bytes unless it is
the last page) and links to page `i + 1`, and the last page links to
`INVALID_PAGE`. -/
theorem overflow_round_trip (env : Env) (s : HBtreePrivate) (value : Bytes)
    (hv : value ≠ []) (hlt : value.length < 65536)
    (hcap : 0 < capacity env s.spec_ { type := PageType.Overflow } 0)
    (hnd : s.collectiblePages_.Nodup) (hbd : ∀ n ∈ s.collectiblePages_, n < s.lastPage_)
    (hinv : s.lastPage_ + value.length < INVALID_PAGE) :
    ∃ s1 head pages,
      putDataOnOverflow env s value = some (s1, head) ∧
      (∃ s2, getOverflowData s1 head = some (s2, true, value)) ∧
      (∃ s2, getOverflowPageNumbers s1 head = some (s2, true, pages)) ∧
      pages.length = (value.length + capacity env s.spec_ { type := PageType.Overflow } 0 - 1)
        / capacity env s.spec_ { type := PageType.Overflow } 0 ∧
      pages.head? = some head ∧
      ∀ i p, pages.get? i = some p →
        ∃ op, findOverflow s1 p = some op ∧
          op.data = (value.drop (i * capacity env s.spec_ { type := PageType.Overflow } 0)).take
            (capacity env s.spec_ { type := PageType.Overflow } 0) ∧
          (i + 1 < pages.length →
            op.data.length = capacity env s.spec_ { type := PageType.Overflow } 0) ∧
          op.nextPage = (pages.get? (i + 1)).getD INVALID_PAGE := by
  generalize hc : capacity env s.spec_ { type := PageType.Overflow } 0 = cap at hcap ⊢
  obtain ⟨s1, ps, e1, e2, e3, e4, e5, _, _⟩ :=
    putDataOnOverflowLoop_chain env cap hcap (value.length + 1) s value INVALID_PAGE none hc.symm
      ⟨hnd, hbd, hinv⟩ hlt (Nat.lt_succ_self _) (by intro pn hp; simp at hp)
  simp only [if_true] at e1
  have hlen := isChain_length s1 cap hcap ps _ value e2
  have hps : ps ≠ [] := by
    intro e
    rw [e] at e2
    exact hv e2.2
  obtain ⟨p0, ps0, hp0⟩ := List.exists_cons_of_ne_nil hps
  have hfuel : ps.length < s1.lastPage_ + 1 :=
    Nat.lt_succ_of_le (nodup_length_le ps s1.lastPage_ e4 (fun p hp => (e3 p hp).2))
  obtain ⟨s3, w1, _⟩ := walkOverflowPagesLoop_chain s1 cap ps _ value e2 (s1.lastPage_ + 1) s1 [] []
    hfuel rfl
  simp only [List.nil_append] at w1
  refine ⟨s1, ps.headD INVALID_PAGE, ps, e1, ⟨s3, ?_⟩, ⟨s3, ?_⟩, hlen, ?_, ?_⟩
  · unfold getOverflowData walkOverflowPages
    rw [w1]
  · unfold getOverflowPageNumbers walkOverflowPages
    rw [w1]
  · rw [hp0]; rfl
  · intro i p hi
    obtain ⟨op, o1, o2, o3⟩ := isChain_pages s1 cap ps _ value e2 i p hi
    refine ⟨op, o1, o2, ?_, o3⟩
    intro hi2
    rw [o2, List.length_take, List.length_drop]
    rw [hlen] at hi2
    have h1 : i + 2 ≤ (value.length + cap - 1) / cap := hi2
    have h2 := (Nat.le_div_iff_mul_le hcap).mp h1
    have h3 : (i + 2) * cap = i * cap + 2 * cap := by ring
    omega

/-- Example of the round trip: the value of 20000 bytes of `testMultiOverflow_20K` on a
new file with pages of 4096 bytes. -/
theorem overflow_round_trip_witness :
    capacity exEnv exWriter.spec_ { type := PageType.Overflow } 0 = 4072 ∧
    ∃ s1 head pages,
      putDataOnOverflow exEnv exWriter (exValue 20000 7) = some (s1, head) ∧
      (∃ s2, getOverflowData s1 head = some (s2, true, exValue 20000 7)) ∧
      (∃ s2, getOverflowPageNumbers s1 head = some (s2, true, pages)) ∧
      pages.length = ((exValue 20000 7).length
          + capacity exEnv exWriter.spec_ { type := PageType.Overflow } 0 - 1)
        / capacity exEnv exWriter.spec_ { type := PageType.Overflow } 0 ∧
      pages.head? = some head ∧
      ∀ i p, pages.get? i = some p →
        ∃ op, findOverflow s1 p = some op ∧
          op.data = ((exValue 20000 7).drop
              (i * capacity exEnv exWriter.spec_ { type := PageType.Overflow } 0)).take
            (capacity exEnv exWriter.spec_ { type := PageType.Overflow } 0) ∧
          (i + 1 < pages.length →
            op.data.length = capacity exEnv exWriter.spec_ { type := PageType.Overflow } 0) ∧
          op.nextPage = (pages.get? (i + 1)).getD INVALID_PAGE :=
  ⟨by decide!,
   overflow_round_trip exEnv exWriter (exValue 20000 7)
    (by decide!) (by rw [exValue, List.length_replicate]; decide) (by decide!) (by decide!)
    (by decide!) (by rw [exValue, List.length_replicate]; decide!)⟩

/-- C18 (failing input): a non-empty value of 65536 bytes has no round trip:
`putDataOnOverflow` has no result for it, since the remaining size is narrowed
to 16 bits and the loop places no byte on the pages it allocates. -/
theorem overflow_round_trip_64k :
    putDataOnOverflow exEnv exWriter (exValue 65536 7) = none ∧
    (exValue 65536 7 ≠ []) :=
  ⟨putDataOnOverflowLoop_none exEnv _ exWriter _ INVALID_PAGE none
      (by rw [exValue, List.length_replicate]),
   by
    rw [exValue]
    intro h
    have h1 := congrArg List.length h
    rw [List.length_replicate, List.length_nil] at h1
    exact absurd h1 (by decide)⟩

/-- The step across `close` and `open`. In a state without uncommitted
changes (every cached page agrees with its image in the file, pages 1 and 2
are the sync markers, `lastPage_` is the length of the file) that has a commit
since the last sync and whose residue list fits into the marker page, `close`
syncs, `open` succeeds on the file, the marker read back has the root, the
revision and the tag of the last commit, and for every key `get` returns
after the reopen what it returned for the committed tree before `close`. -/
theorem reopen_get (env : Env) (s : HBtreePrivate)
    (hmode : s.openMode_ = OpenMode.ReadWrite)
    (hcommit : s.marker_.meta.syncId ≠ s.lastSyncedId_)
    (hsize0 : s.marker_.meta.size = 0)
    (hmf : s.marker_.meta.flags % 2 = 0) (hsf : s.synced_.meta.flags % 2 = 0)
    (hmt : s.marker_.info.type = PageType.Marker)
    (hfit : u16 (s.marker_.residueHistory.length * 4) ≤
      capacity env s.spec_ { type := PageType.Marker } 0)
    (hw1 : 1 ∉ s.failWrites) (hw2 : 2 ∉ s.failWrites)
    (hspec : mapFind 0 s.file = some (DiskPage.spec s.spec_))
    (hver : s.spec_.version = 0xdeadc0de) (hps : 0 < s.spec_.pageSize)
    (hpages : 3 ≤ s.filePages) (hlast : s.lastPage_ = s.filePages)
    (hm1 : readPage s 1 = none) (hm2 : readPage s 2 = none)
    (hclean : ∀ e ∈ s.cache_, readPage s e.1 = some e.2.content) :
    ∃ sc s1, close env s true = some sc ∧ openExisting env sc = some (s1, true) ∧
      s1.marker_.meta.root = s.marker_.meta.root ∧
      s1.marker_.meta.revision = s.marker_.meta.revision ∧
      s1.marker_.meta.tag = s.marker_.meta.tag ∧
      ∀ key, (get env s1 none key).map Prod.snd = (get env s none key).map Prod.snd := by
  obtain ⟨s5, hs, hfile, hfp, hom, hsp, htx, hfw⟩ :=
    sync_inline env s hmode hcommit hsf hmt hfit hw1 hw2
  have hclose : close env s true = some { (cacheClear s5) with
      dirtyPages_ := [], collectiblePages_ := [], spec_ := {}, lastSyncedId_ := 0,
      residueHistory_ := [],
      marker_ := { info := { type := PageType.Marker, number := 0 } },
      synced_ := { info := { type := PageType.Marker, number := 0 } } } := by
    unfold close
    simp only [if_true, hs]
  generalize hm1d : markerImage (copyMarker s.marker_ { info := { type := PageType.Marker, number := 1 } })
    (s.filePages * s.spec_.pageSize) = m1 at hfile
  have hm1root : m1.meta.root = s.marker_.meta.root := by rw [← hm1d]; rfl
  have hm1rev : m1.meta.revision = s.marker_.meta.revision := by rw [← hm1d]; rfl
  have hm1tag : m1.meta.tag = s.marker_.meta.tag := by rw [← hm1d]; rfl
  have hm1flags : m1.meta.flags = s.marker_.meta.flags := by rw [← hm1d]; rfl
  have hm1size : m1.meta.size = s.filePages * s.spec_.pageSize := by
    rw [← hm1d]; simp [markerImage, copyMarker, hsize0]
  have hm1num : m1.info.number = 1 := by rw [← hm1d]; rfl
  have hm1type : m1.info.type = PageType.Marker := by rw [← hm1d]; exact hmt
  have hm1up : m1.info.upperOffset = u16 (s.marker_.residueHistory.length * 4) := by
    rw [← hm1d]; rfl
  have hfp3 : s5.filePages = s.filePages := by rw [hfp]; omega
  obtain ⟨s1, ho, o1, o2, o3, o4, o5⟩ := openExisting_inline env
    { (cacheClear s5) with
      dirtyPages_ := [], collectiblePages_ := [], spec_ := {}, lastSyncedId_ := 0,
      residueHistory_ := [],
      marker_ := { info := { type := PageType.Marker, number := 0 } },
      synced_ := { info := { type := PageType.Marker, number := 0 } } } s.spec_ m1
    (by show mapFind 0 s5.file = _; rw [hfile, mapFind_mapInsert, mapFind_mapInsert]; simpa using hspec)
    hver (by omega)
    (by show mapFind 1 s5.file = _; rw [hfile, mapFind_mapInsert, mapFind_mapInsert]; simp)
    hm1num
    (by rw [hm1flags]; exact hmf)
    (by rw [hm1up, capacity_of_type env s.spec_ _ hm1type]; exact hfit)
    (by rw [hm1up]; exact u16_mul4_mod _)
    (by show s5.openMode_ = _; rw [hom, hmode])
    (by show s5.filePages ≤ _
        rw [hm1size, hfp3, Nat.mul_div_cancel _ hps])
  refine ⟨_, s1, hclose, ho, by rw [o3, hm1root], by rw [o3, hm1rev], by rw [o3, hm1tag], ?_⟩
  intro key
  have hroot : s1.marker_.meta.root = s.marker_.meta.root := by rw [o3, hm1root]
  rw [get_value env s1 none s.marker_.meta.root key (by simp only; rw [hroot]),
      get_value env s none s.marker_.meta.root key rfl]
  have hlp : s1.lastPage_ = s.lastPage_ := by
    rw [o4, hm1size, hlast, Nat.mul_div_cancel _ hps]
  have hview : contentAt s1 = contentAt s := by
    funext pg
    have hr1 : readPage s1 pg = if pg = 1 ∨ pg = 2 then none else readPage s pg := by
      by_cases h2 : pg = 2
      · simp only [h2, or_true, if_true]
        exact readPage_marker (by
          rw [o1]; show mapFind 2 s5.file = _
          rw [hfile, mapFind_mapInsert]; exact if_pos rfl)
      · by_cases h1 : pg = 1
        · simp only [h1, true_or, if_true]
          exact readPage_marker (by
            rw [o1]; show mapFind 1 s5.file = _
            rw [hfile, mapFind_mapInsert, mapFind_mapInsert, if_neg (by decide)]
            exact if_pos rfl)
        · simp only [h1, h2, or_self, if_false]
          exact readPage_entry (by
            rw [o1]; show mapFind pg s5.file = _
            rw [hfile, mapFind_mapInsert, mapFind_mapInsert]; simp [h1, h2])
    have hc1 : cacheFind s1 pg = none := by
      unfold cacheFind
      rw [o2]
      rfl
    unfold contentAt
    rw [hc1]
    simp only
    rw [hr1]
    cases hc : cacheFind s pg with
    | none =>
      simp only
      by_cases h12 : pg = 1 ∨ pg = 2
      · simp only [h12, if_true]
        rcases h12 with h | h <;> rw [h] <;> [exact hm1.symm; exact hm2.symm]
      · simp only [h12, if_false]
    | some p =>
      simp only
      have hcl := hclean (pg, p) (mapFind_mem pg p s.cache_ hc)
      simp only at hcl
      by_cases h12 : pg = 1 ∨ pg = 2
      · rcases h12 with h | h
        · rw [h, hm1] at hcl; simp at hcl
        · rw [h, hm2] at hcl; simp at hcl
      · simp only [h12, if_false]
        exact hcl
  rw [hview, hlp]

/-- Example of the step across `close` and `open`: the state after the ten commits of `put(i, i)`, `i` from
"0" to "9". After `close` and `open` every key has its value and an absent
key has none. -/
theorem reopen_get_witness :
    (∃ sc s1, close exEnv exJ1 true = some sc ∧ openExisting exEnv sc = some (s1, true) ∧
      s1.marker_.meta.root = exJ1.marker_.meta.root ∧
      s1.marker_.meta.revision = exJ1.marker_.meta.revision ∧
      s1.marker_.meta.tag = exJ1.marker_.meta.tag ∧
      ∀ key, (get exEnv s1 none key).map Prod.snd = (get exEnv exJ1 none key).map Prod.snd) ∧
    (List.range 10).all (fun i =>
      exGet (get exEnv (exState (openExisting exEnv exJ2)) none [48 + i]) == some [48 + i]) = true ∧
    exGet (get exEnv (exState (openExisting exEnv exJ2)) none [49, 48]) = some [] :=
  ⟨reopen_get exEnv exJ1 (by decide!) (by decide!) (by decide!) (by decide!) (by decide!)
      (by decide!) (by decide!) (by decide!) (by decide!) (by decide!) (by decide!) (by decide!)
      (by decide!) (by decide!) (by decide!) (by decide!) (by decide!),
    by decide!, by decide!⟩

/-- C21 (failing run): five puts in one write transaction on a new file, all
returning true, leave the leaf page 5 with 4558 bytes of index and entries and
a block of 4590 bytes, more than the page size 4096. `split` takes the first
two entries for the left page and hands the other three to the right page
without looking at the room there; `spaceLeft` of that page wraps around to
65042. All five keys are still readable, and the commit succeeds. -/
theorem split_overfills_right_page :
    exOk (put exEnv exWriter 0 [49] (exValue 739 1)) = some true ∧
    exOk (put exEnv exN1 0 [50] (exValue 739 2)) = some true ∧
    exOk (put exEnv exN2 0 (exWideKey 51) (exValue 1000 3)) = some true ∧
    exOk (put exEnv exN3 0 [52] (exValue 527 4)) = some true ∧
    exOk (put exEnv exN4 0 (exWideKey 53) (exValue 1000 5)) = some true ∧
    transactionRoot exN5 0 = some 4 ∧
    exEntries exN5 4 = some [([], 3), ([51, 120], 5)] ∧
    exEntries exN5 5 = some [([51, 120], INVALID_PAGE), ([52], INVALID_PAGE), ([53, 120], INVALID_PAGE)] ∧
    exPageBytes exN5 5 = some 4590 ∧
    exN5.spec_.pageSize = 4096 ∧
    (findNode exN5 5).map (fun p => p.spaceLeft exEnv exN5.spec_) = some 65042 ∧
    exGet (get exEnv exN5 (some 0) (exWideKey 53)) = some (exValue 1000 5) ∧
    exOk (commit exN5 0 0) = some true := by
  decide!

/-- C24 (failing run): a new file has three pages, the spec page and the two
sync markers; there are no working markers. The first page that `newPage`
hands out is page 3, for a leaf as for an overflow page, and the root of the
first put is page 3. In the run `exH1` to `exH11` the page handed out is
page 0, the spec page. -/
theorem newPage_hands_out_page_3 :
    exNew.filePages = 3 ∧ exNew.size_ = 3 * 4096 ∧ exNew.lastPage_ = 3 ∧
    (mapFind 3 exNew.file).isNone = true ∧
    (newPage exWriter PageType.Leaf).map Prod.snd = some 3 ∧
    (newPage exWriter PageType.Overflow).map Prod.snd = some 3 ∧
    transactionRoot exPut 0 = some 3 ∧
    (newPage exH11 PageType.Leaf).map Prod.snd = some 0 := by
  decide!

/-- C25 (failing run): after `put("k", "v")` the counter is 1. `del("x")` of a
key that is not in the tree returns false and leaves "k" in place, but the
counter goes down to 0, and to -1 with a second `del("x")`: `del` decrements
`numEntries` whatever the search finds. -/
theorem del_absent_key_decrements_numEntries :
    exPut.stats_.numEntries = 1 ∧
    exOk (del exEnv exPut 0 [120]) = some false ∧
    exGet (get exEnv (exState (del exEnv exPut 0 [120])) (some 0) [107]) = some [118] ∧
    (exState (del exEnv exPut 0 [120])).stats_.numEntries = 0 ∧
    exOk (del exEnv (exState (del exEnv exPut 0 [120])) 0 [120]) = some false ∧
    (exState (del exEnv (exState (del exEnv exPut 0 [120])) 0 [120])).stats_.numEntries = -1 := by
  decide!

/-- C23 (failing run): in the run `exA1` to `exA9` the marker that the commit
of transaction 2 produces has the residue set {4, 5} and the root 3, and the
entry of "2" on the root leaf refers to the overflow page 5. Transaction 1 had
replaced the value of "2", which put page 5 into `residueHistory_`, and was
aborted; `abort` keeps `residueHistory_`, so the next commit copies it into
its marker although the tree of that marker still reads the value of "2" from
page 5. -/
theorem marker_residue_reachable :
    exOk (commit exA8 2 0) = some true ∧
    exA9.marker_.meta.root = 3 ∧
    exA9.marker_.residueHistory = [4, 5] ∧
    (getNodePage exA9 3).2.map (fun p => p.nodes.map (fun e => (e.1, e.2.flags, e.2.overflowPage)))
      = some [([50], NodeHeader_Overflow, 5)] ∧
    exGet (get exEnv exA9 none [50]) = some (exValue 1025 2) := by
  decide!

/-- C29 (failing run): the put of the eleventh key splits leaf 7 into 7 and
the new leaf 8; the parent, branch 4, has no room for the separator and is
split into 4 and the new branch 10. The separators of leaf 7 and of leaf 8 are
both on branch 10 afterwards and branch 4 has neither, yet both leaves still
name branch 4 as their parent, and the parent key of leaf 8 is the empty key
it was created with: `split` assigns `right->parent = left->parent` before the
recursive call and nothing after it. -/
theorem split_leaves_stale_parent :
    exOk (put exEnv exR1 0 (exWideKey 75) [75]) = some true ∧
    exEntries exR1 4 = some [([], 3), ([67, 120], 5), ([69, 120], 6), ([71, 120], 7)] ∧
    exEntries exR2 4 = some [([], 3), ([67, 120], 5), ([69, 120], 6)] ∧
    exEntries exR2 10 = some [([71, 120], 7), ([73, 120], 8)] ∧
    (findNode exR2 8).map (fun p => (p.parent, p.parentKey)) = some (some 4, []) ∧
    (findNode exR2 7).map (fun p => (p.parent, p.parentKey.take 2)) = some (some 4, [71, 120]) ∧
    (findNode exR2 10).map (fun p => p.parent) = some (some 9) ∧
    exEntries exR2 9 = some [([], 4), ([71, 120], 10)] := by
  decide!

/-- C20 (failing run): the thirty-one calls of `exOps` all return true and
leave a tree that satisfies the branch ordering invariant; the del of "10"
returns true as well and leaves a tree that does not. Branch 4 then has the
slots "" -> 3, "15" -> 13, "19" -> 5 and "23" -> 9, and leaf 13, the child of
the slot "15", holds "1w" and "1x", which are greater than the key "19" of the
next slot: `mergePages` has copied the entries of branch 14 into branch 4 with
the stale key "19" of its first entry. -/
theorem mergePages_breaks_branch_order :
    (exRun 0 exOps exWriter).isSome = true ∧
    transactionRoot exT1 0 = some 10 ∧
    exBranchOrdered exT1 10 10 = true ∧
    exEntries exT1 10 = some [([], 4), ([50, 48], 14), ([50, 120], 11)] ∧
    exEntries exT1 4 = some [([], 3), ([49, 49], 8), ([49, 53], 13)] ∧
    exEntries exT1 14 = some [([49, 57], 5), ([50, 51], 9)] ∧
    exOk (del exEnv exT1 0 (exKey [49, 48])) = some true ∧
    transactionRoot exT2 0 = some 10 ∧
    exBranchOrdered exT2 10 10 = false ∧
    exEntries exT2 10 = some [([], 4), ([50, 120], 11)] ∧
    exEntries exT2 4 = some [([], 3), ([49, 53], 13), ([49, 57], 5), ([50, 51], 9)] ∧
    (findNode exT2 13).map (fun p => p.nodes.map Prod.fst)
      = some [exKey [49, 53], exKey [49, 55], exKey [49, 119], exKey [49]] ∧
    NodeKey.lt exEnv (exKey [49, 57]) (exKey [49, 119]) = true ∧
    NodeKey.lt exEnv (exKey [49, 57]) (exKey [49]) = true := by
  decide!

/-- C11 (failing run): in the tree that the thirty-two calls leave, eighteen
keys are stored on the leaves, "1x" among them, which was put and not deleted.
The loop `while (cursor.next())` on a new cursor ends after seventeen keys:
after "1w" it delivers "20", and "1x", the key between them, is not visited.
The search for "1w" is led to leaf 5 by the misplaced separator "19". -/
theorem next_skips_key :
    (exRun 0 exOps exWriter).isSome = true ∧
    exOk (del exEnv exT1 0 (exKey [49, 48])) = some true ∧
    (exSubtreeKeys exT2 10 10).map (fun k => k.take 2)
      = [[48, 120], [49, 49], [49, 51], [49, 53], [49, 55], [49, 119], [49, 120], [50, 48],
         [50, 50], [50, 51], [50, 55], [50, 57], [50, 120], [51, 49], [51, 51], [51, 56],
         [52, 51], [55, 120]] ∧
    exCursorLoop CursorOp.Next 30 exT2 { transaction_ := some 0 }
      = some ([[48, 120], [49, 49], [49, 51], [49, 53], [49, 55], [49, 119], [50, 48],
               [50, 50], [50, 51], [50, 55], [50, 57], [50, 120], [51, 49], [51, 51],
               [51, 56], [52, 51], [55, 120]], true) := by
  decide!

/-- C12 (failing run): in the tree that the thirty-two calls leave, the loop
`while (cursor.previous())` on a new cursor does not come to an end within
thirty calls, for a tree of eighteen keys: after "20" it delivers "1x", and
from "1x" it goes back to "22", so that "22", "20" and "1x" repeat. The search
for "1x" is led to leaf 5, where `find` returns the end of the page and the
step back from it gives the last entry, "22". -/
theorem previous_cycles :
    (exRun 0 exOps exWriter).isSome = true ∧
    exOk (del exEnv exT1 0 (exKey [49, 48])) = some true ∧
    (exSubtreeKeys exT2 10 10).length = 18 ∧
    exCursorLoop CursorOp.Previous 30 exT2 { transaction_ := some 0 }
      = some ([[55, 120], [52, 51], [51, 56], [51, 51], [51, 49], [50, 120], [50, 57],
               [50, 55], [50, 51], [50, 50], [50, 48], [49, 120],
               [50, 50], [50, 48], [49, 120], [50, 50], [50, 48], [49, 120],
               [50, 50], [50, 48], [49, 120], [50, 50], [50, 48], [49, 120],
               [50, 50], [50, 48], [49, 120], [50, 50], [50, 48], [49, 120]], false) := by
  decide!

/-- C13 (failing run): in the tree that the thirty-two calls leave,
`seekRange` of the key "19", which is not in the tree, returns true with the
cursor on "20", although "1w" and "1x" are in the tree and lie between "19"
and "20"; `seekRange` of "1x" itself positions the cursor on "20" too. Before
the last call `seekRange("19")` positioned the cursor on "1w". -/
theorem seekRange_passes_over_keys :
    (exRun 0 exOps exWriter).isSome = true ∧
    exOk (del exEnv exT1 0 (exKey [49, 48])) = some true ∧
    (findNode exT2 13).map (fun p => p.nodes.map Prod.fst)
      = some [exKey [49, 53], exKey [49, 55], exKey [49, 119], exKey [49]] ∧
    NodeKey.lt exEnv (exKey [49, 57]) (exKey [49, 119]) = true ∧
    NodeKey.lt exEnv (exKey [49, 119]) (exKey [49]) = true ∧
    NodeKey.lt exEnv (exKey [49]) (exKey [50, 48]) = true ∧
    exCursor (doCursorOp exEnv exT1 { transaction_ := some 0 } CursorOp.FuzzyMatch (exKey [49, 57]))
      = some (true, true, [49, 119], [0, 0, 0]) ∧
    exCursor (doCursorOp exEnv exT2 { transaction_ := some 0 } CursorOp.FuzzyMatch (exKey [49, 57]))
      = some (true, true, [50, 48], [0, 0, 0]) ∧
    exCursor (doCursorOp exEnv exT2 { transaction_ := some 0 } CursorOp.FuzzyMatch (exKey [49]))
      = some (true, true, [50, 48], [0, 0, 0]) := by
  decide!

/-- C14 (failing run): in the tree that the thirty-two calls leave, `seek` of
the key "1x" returns false, and so does `seek` of "1w", although both keys are
stored on leaf 13; `get("1x")` is empty. Before the last call, the del of
another key, `seek("1x")` returned true with the value of seven bytes. -/
theorem seek_misses_stored_key :
    (exRun 0 exOps exWriter).isSome = true ∧
    exOk (del exEnv exT1 0 (exKey [49, 48])) = some true ∧
    (findNode exT2 13).map (fun p => p.nodes.map (fun e => (e.1, e.2.data)))
      = some [(exKey [49, 53], exValue 6 0), (exKey [49, 55], exValue 6 0),
              (exKey [49, 119], exValue 3 0), (exKey [49], exValue 7 0)] ∧
    exCursor (doCursorOp exEnv exT1 { transaction_ := some 0 } CursorOp.ExactMatch (exKey [49]))
      = some (true, true, [49, 120], exValue 7 0) ∧
    exCursor (doCursorOp exEnv exT2 { transaction_ := some 0 } CursorOp.ExactMatch (exKey [49]))
      = some (false, false, [], []) ∧
    exCursor (doCursorOp exEnv exT2 { transaction_ := some 0 } CursorOp.ExactMatch (exKey [49, 119]))
      = some (false, false, [], []) ∧
    exGet (get exEnv exT2 (some 0) (exKey [49])) = some [] := by
  decide!

/-- C30 (counterexample): for the buffer `exFullUpper`, a leaf whose
`upperOffset` is the page size, the second region of the checksum is the whole
page, the checksum word included, and the checksum changes with byte 0. -/
theorem checksum_covers_checksum_word :
    exFullUpper.length = exNew.spec_.pageSize ∧
    (deserializePageInfo exFullUpper).type = PageType.Leaf ∧
    (deserializePageInfo exFullUpper).upperOffset = 4096 ∧
    calculateChecksum exEnv exNew.spec_ exFullUpper = some 1446018878 ∧
    calculateChecksum exEnv exNew.spec_ ([1, 0, 0, 0] ++ exFullUpper.drop 4) = some 1171052064 := by
  decide!

/-- C30 (amended): for a buffer of the page size in which the upper region of
a node page does not reach into the first four bytes, the checksum does not
depend on bytes 0 to 3. For a Branch or Leaf page whose lower region ends
inside the page, the checksum is the checksum of the bytes from 4 up to
`lower` (header, meta data, history and index) XOR the checksum of the last
`upperOffset` bytes, and it does not change with a byte from `lower` up to the
upper region. -/
theorem calculateChecksum_regions (env : Env) (spec : Spec) (buffer : Bytes)
    (hlen : buffer.length = spec.pageSize) (h16 : 16 ≤ buffer.length) (hs : env.sizes = {})
    (hup : (deserializePageInfo buffer).type = PageType.Branch ∨
        (deserializePageInfo buffer).type = PageType.Leaf →
      (deserializePageInfo buffer).upperOffset + 4 ≤ spec.pageSize) :
    (∀ w : Bytes, w.length = 4 →
      calculateChecksum env spec (w ++ buffer.drop 4) = calculateChecksum env spec buffer) ∧
    ((deserializePageInfo buffer).type = PageType.Branch ∨
        (deserializePageInfo buffer).type = PageType.Leaf →
      ∀ lower, lower = 32 + deserializeHistorySize env buffer * 16
          + (deserializePageInfo buffer).lowerOffset →
        lower ≤ spec.pageSize →
        calculateChecksum env spec buffer
          = some (calculateChecksumRange (slice buffer 4 lower) ^^^
              calculateChecksumRange (slice buffer
                (spec.pageSize - (deserializePageInfo buffer).upperOffset) spec.pageSize)) ∧
        ∀ i x, lower ≤ i → i + (deserializePageInfo buffer).upperOffset < spec.pageSize →
          calculateChecksum env spec (buffer.set i x) = calculateChecksum env spec buffer) := by
  refine ⟨fun w hw => calculateChecksum_splice env spec buffer w hw h16 hup, ?_⟩
  intro hty lower hlower hle
  have hup1 := hup hty
  have hpi : env.sizes.pageInfo = 16 := by rw [hs]
  have hnm : env.sizes.nodeMeta = 16 := by rw [hs]
  have hhn : env.sizes.historyNode = 16 := by rw [hs]
  have hhs : (deserializePageInfo buffer).headerSize env = 32 := by
    unfold PageInfo.headerSize
    rcases hty with h | h <;> rw [h] <;> simp only [hpi, hnm] <;> rfl
  have hform : ∀ b : Bytes, b.length = spec.pageSize → 16 ≤ b.length →
      (deserializePageInfo b).type = (deserializePageInfo buffer).type →
      (deserializePageInfo b).lowerOffset = (deserializePageInfo buffer).lowerOffset →
      (deserializePageInfo b).upperOffset = (deserializePageInfo buffer).upperOffset →
      deserializeHistorySize env b = deserializeHistorySize env buffer →
      calculateChecksum env spec b
        = some (calculateChecksumRange (slice b 4 lower) ^^^
            calculateChecksumRange (slice b
              (spec.pageSize - (deserializePageInfo buffer).upperOffset) spec.pageSize)) := by
    intro b hb hb16 h1 h2 h3 h4
    have hhb : (deserializePageInfo b).headerSize env = 32 := by
      rw [headerSize_type env _ _ h1]; exact hhs
    have hu : (deserializePageInfo buffer).upperOffset ≤ spec.pageSize := by omega
    have hg : ¬ (b.length ≠ spec.pageSize ∨ b.length < 16) := by
      intro hh; rcases hh with hh | hh
      · exact hh hb
      · omega
    have hle2 : lower ≤ b.length := by rw [hb]; exact hle
    unfold calculateChecksum checksumOf
    dsimp only
    rw [if_neg hg, hhb, h2, h3, h4, hhn, ← hlower, h1]
    rcases hty with h | h <;> rw [h] <;> simp only [if_pos hu, if_pos hle2]
  refine ⟨hform buffer hlen h16 rfl rfl rfl rfl, ?_⟩
  intro i x hli hiu
  have h32 : 32 ≤ i := by omega
  have hf : ∀ b e, e ≤ 32 → slice (buffer.set i x) b e = slice buffer b e :=
    fun b e he => slice_set_low buffer i x b e (by omega)
  rw [hform buffer hlen h16 rfl rfl rfl rfl,
    hform (buffer.set i x) (by rw [List.length_set]; exact hlen) (by rw [List.length_set]; exact h16)
      (by simp only [deserializePageInfo, hf _ _ (by decide : 8 ≤ 32)])
      (by simp only [deserializePageInfo, hf _ _ (by decide : 14 ≤ 32)])
      (by simp only [deserializePageInfo, hf _ _ (by decide : 16 ≤ 32)])
      (by unfold deserializeHistorySize; rw [hpi, hf _ _ (by decide)]),
    slice_set_low buffer i x 4 lower hli,
    slice_set_high buffer i x _ _ (by omega)]

/-- Witness of C30: the image of a leaf with one entry, whose lower region ends
at byte 34 and whose upper region is the last ten bytes; byte 100 lies between
them. -/
theorem calculateChecksum_regions_witness :
    (∀ w : Bytes, w.length = 4 →
      calculateChecksum exEnv exNew.spec_ (w ++ exLeafImage.drop 4)
        = calculateChecksum exEnv exNew.spec_ exLeafImage) ∧
    calculateChecksum exEnv exNew.spec_ exLeafImage = some 349006911 ∧
    calculateChecksum exEnv exNew.spec_ (exLeafImage.set 100 255)
      = calculateChecksum exEnv exNew.spec_ exLeafImage :=
  have h := calculateChecksum_regions exEnv exNew.spec_ exLeafImage (by decide!) (by decide!) rfl
    (fun _ => by decide!)
  ⟨h.1, by decide!,
    ((h.2 (Or.inr (by decide!)) 34 (by decide!) (by decide!)).2 100 255 (by decide) (by decide!))⟩

/-- C22: `readPage(n)` returns the empty buffer when the page number
in the bytes read is not `n`, and when the checksum in the bytes read is not
the one calculated from them. `writePage` of a buffer whose checksum is defined
and, for a node page, does not cover the first four bytes, returns true, and
`readPage` of its page number from the file it leaves returns the buffer as
written, with the checksum in its first four bytes. -/
theorem readPage_checks_writePage (env : Env) (spec : Spec) (f : RawFile) (buffer : Bytes) (c : Nat)
    (hc : calculateChecksum env spec buffer = some c)
    (hup : (deserializePageInfo buffer).type = PageType.Branch ∨
        (deserializePageInfo buffer).type = PageType.Leaf →
      (deserializePageInfo buffer).upperOffset + 4 ≤ spec.pageSize) :
    (∀ n b, b = (f.bytes.drop (pageOffset spec n)).take spec.pageSize →
      b.length = spec.pageSize → 16 ≤ b.length →
      ((deserializePageInfo b).number ≠ n → readPageBuffer env spec f n = some (f, [])) ∧
      (∀ c1, calculateChecksum env spec b = some c1 → (deserializePageInfo b).checksum ≠ c1 →
        readPageBuffer env spec f n = some (f, []))) ∧
    writePageBuffer env spec f buffer
      = some ({ f with bytes := pwrite f.bytes (serializeChecksum c buffer)
                         (pageOffset spec (deserializePageNumber buffer)),
                       writes := f.writes + 1 }, serializeChecksum c buffer, true) ∧
    readPageBuffer env spec
        { f with bytes := pwrite f.bytes (serializeChecksum c buffer)
                   (pageOffset spec (deserializePageNumber buffer)),
                 writes := f.writes + 1 } (deserializePageNumber buffer)
      = some ({ f with bytes := pwrite f.bytes (serializeChecksum c buffer)
                         (pageOffset spec (deserializePageNumber buffer)),
                       writes := f.writes + 1, reads := f.reads + 1 },
              serializeChecksum c buffer) := by
  obtain ⟨hlen, h16⟩ := calculateChecksum_length hc
  have hw : (bytesOfU32 c).length = 4 := rfl
  have hl1 : (serializeChecksum c buffer).length = spec.pageSize := by
    unfold serializeChecksum; rw [splice_length _ buffer hw (by omega)]; exact hlen
  have hnum : deserializePageNumber (serializeChecksum c buffer) = deserializePageNumber buffer := by
    unfold deserializePageNumber serializeChecksum
    rw [slice_splice _ buffer 8 12 hw (by decide)]
  refine ⟨?_, ?_, ?_⟩
  · intro n b hb hbl hb16
    have hg : ¬ b.length ≠ spec.pageSize := fun h => h hbl
    have hg2 : ¬ b.length < 16 := by omega
    constructor
    · intro hne
      unfold readPageBuffer
      dsimp only
      rw [← hb, if_neg hg, if_neg hg2, if_pos hne]
    · intro c1 hc1 hne
      unfold readPageBuffer
      dsimp only
      rw [← hb, if_neg hg, if_neg hg2, hc1]
      by_cases hn : (deserializePageInfo b).number ≠ n
      · rw [if_pos hn]
      · rw [if_neg hn]; simp only [if_pos hne]
  · unfold writePageBuffer
    rw [hc]
    simp only [hnum]
  · have hrd : ((pwrite f.bytes (serializeChecksum c buffer)
        (pageOffset spec (deserializePageNumber buffer))).drop
          (pageOffset spec (deserializePageNumber buffer))).take spec.pageSize
        = serializeChecksum c buffer := by
      rw [← hl1]; exact pwrite_read _ _ _
    have hck : (deserializePageInfo (serializeChecksum c buffer)).checksum = c := by
      simp only [deserializePageInfo, serializeChecksum, slice]
      have : ((bytesOfU32 c ++ buffer.drop 4).drop 0).take (4 - 0) = bytesOfU32 c := by
        rw [List.drop_zero]
        exact List.take_left' hw
      rw [this]
      exact u32OfBytes_bytesOfU32 c (calculateChecksum_lt hc)
    have hn : (deserializePageInfo (serializeChecksum c buffer)).number
        = deserializePageNumber buffer := by
      rw [← hnum]; rfl
    have hcs : calculateChecksum env spec (serializeChecksum c buffer) = some c := by
      unfold serializeChecksum
      rw [calculateChecksum_splice env spec buffer _ hw h16 hup]; exact hc
    unfold readPageBuffer
    dsimp only
    rw [hrd, if_neg (fun h => h hl1), if_neg (by rw [hl1, ← hlen]; omega), hn,
      if_neg (fun h => h rfl), hcs]
    simp only [hck, ne_eq, not_true_eq_false, if_false]

/-- Witness of C22: the image of a leaf with one entry, written to the empty
file and read back as page 0. -/
theorem readPage_checks_writePage_witness :
    calculateChecksum exEnv exNew.spec_ exLeafImage = some 349006911 ∧
    writePageBuffer exEnv exNew.spec_ {} exLeafImage
      = some ({ ({} : RawFile) with
                  bytes := pwrite ({} : RawFile).bytes (serializeChecksum 349006911 exLeafImage)
                    (pageOffset exNew.spec_ (deserializePageNumber exLeafImage)),
                  writes := ({} : RawFile).writes + 1 },
              serializeChecksum 349006911 exLeafImage, true) ∧
    readPageBuffer exEnv exNew.spec_
        { ({} : RawFile) with
            bytes := pwrite ({} : RawFile).bytes (serializeChecksum 349006911 exLeafImage)
              (pageOffset exNew.spec_ (deserializePageNumber exLeafImage)),
            writes := ({} : RawFile).writes + 1 } (deserializePageNumber exLeafImage)
      = some ({ ({} : RawFile) with
                  bytes := pwrite ({} : RawFile).bytes (serializeChecksum 349006911 exLeafImage)
                    (pageOffset exNew.spec_ (deserializePageNumber exLeafImage)),
                  writes := ({} : RawFile).writes + 1, reads := ({} : RawFile).reads + 1 },
              serializeChecksum 349006911 exLeafImage) :=
  have h := readPage_checks_writePage exEnv exNew.spec_ {} exLeafImage 349006911 (by decide!)
    (fun _ => by decide!)
  ⟨by decide!, h.2.1, h.2.2⟩

/-- C27 (counterexample): for a branch page that holds five entries with the
new one, `split` computes the index 5 / 2 + 1 = 3, not 5 / 2 - 1 = 1; in the
run `exR1`, `exR2` the left branch 4 keeps three entries and the right branch
10 gets two. For a leaf of three entries that take 760 bytes each, with the
threshold 1520, the loop stops after two entries, where the sum is equal to
the threshold and does not exceed it. -/
theorem splitIndex_not_mid_minus_one :
    exBranchCopy.nodes.length = 5 ∧
    splitIndex exEnv exNew.spec_ exBranchCopy exBranchCopy = some 3 ∧
    (exEntries exR2 4).map List.length = some 3 ∧
    (exEntries exR2 10).map List.length = some 2 ∧
    splitThreshold exEnv exNew.spec_ exLeafCopy = 1520 ∧
    splitCurrent exEnv exNew.spec_ exLeafCopy.nodes 2 = 1520 ∧
    splitIndex exEnv exNew.spec_ exLeafCopy exLeafCopy = some 2 := by
  decide!

/-- C27 (amended): for a branch page that holds `n` entries with the new one,
the split index is `n / 2 + 1`. For a leaf it is the length `idx` of the
shortest prefix of the entries (the new one in its sorted place) whose sum of
`spaceNeededForNode`, in `quint16`, is not below the threshold
`capacity(left) / 2 - overflowThreshold / 2`, and the number of entries when
no prefix reaches it. -/
theorem splitIndex_spec (env : Env) (spec : Spec) (copy left : NodePage) :
    (copy.info.type = PageType.Branch →
      splitIndex env spec copy left = some (copy.nodes.length / 2 + 1)) ∧
    (copy.info.type = PageType.Leaf →
      ∃ idx, splitIndex env spec copy left = some idx ∧ idx ≤ copy.nodes.length ∧
        (∀ j, j < idx → splitCurrent env spec copy.nodes j < splitThreshold env spec left) ∧
        (idx < copy.nodes.length →
          splitThreshold env spec left ≤ splitCurrent env spec copy.nodes idx)) := by
  constructor
  · intro h
    unfold splitIndex
    rw [if_pos h]
  · intro h
    have hb : ¬ copy.info.type = PageType.Branch := by rw [h]; decide
    obtain ⟨h1, h2, h3⟩ := splitIndexLeaf_spec env spec (splitThreshold env spec left) copy.nodes 0
    refine ⟨splitIndexLeaf env spec (splitThreshold env spec left) copy.nodes 0, ?_, h1, h2, h3⟩
    unfold splitIndex
    rw [if_neg hb, if_pos h]
    rfl

/-- Witness of C27: the branch copy and the leaf copy of the examples. -/
theorem splitIndex_spec_witness :
    splitIndex exEnv exNew.spec_ exBranchCopy exBranchCopy = some (exBranchCopy.nodes.length / 2 + 1) ∧
    ∃ idx, splitIndex exEnv exNew.spec_ exLeafCopy exLeafCopy = some idx ∧
      idx ≤ exLeafCopy.nodes.length ∧
      (∀ j, j < idx → splitCurrent exEnv exNew.spec_ exLeafCopy.nodes j
        < splitThreshold exEnv exNew.spec_ exLeafCopy) ∧
      (idx < exLeafCopy.nodes.length →
        splitThreshold exEnv exNew.spec_ exLeafCopy
          ≤ splitCurrent exEnv exNew.spec_ exLeafCopy.nodes idx) :=
  ⟨(splitIndex_spec exEnv exNew.spec_ exBranchCopy exBranchCopy).1 (by decide),
   (splitIndex_spec exEnv exNew.spec_ exLeafCopy exLeafCopy).2 (by decide)⟩

/-- C26 (counterexample): in transaction 2 of the run `exU1` to `exU8` the
root, page 6, is not dirty, has the sync id 2 = `lastSyncedId_` and the
history [(4, 1)]. `touchNodePage` copies it to page 4, the page it has just
collected from that history, and the copy is dirty with the sync id 3, the
entries of page 6 and the history [(6, 2)]. Page 6 itself is changed in the
cache: its history is empty and its `historySize` 0, while the image of page 6
in the file still has the history [(4, 1)]. -/
theorem touchNodePage_changes_page :
    exU8.lastSyncedId_ = 2 ∧
    (findNode exU8 6).map (fun p => (p.dirty, p.meta.syncId)) = some (false, 2) ∧
    exHistory exU8 6 = some ([(4, 1)], 1) ∧
    (touchNodePage exEnv exU8 6).map Prod.snd = some 4 ∧
    (findNode exU9 4).map (fun p => (p.dirty, p.meta.syncId)) = some (true, 3) ∧
    exEntries exU9 4 = exEntries exU8 6 ∧
    exHistory exU9 4 = some ([(6, 2)], 1) ∧
    exHistory exU9 6 = some ([], 0) ∧
    (readPage exU9 6).map (fun pg => decide (pg = Page.node (exNode exU8 6))) = some true := by
  decide!

/-- C26 (amended): `touchNodePage` of the cached page `p` under the number
`pgno`. A dirty page is returned as it is, with the state unchanged. A page
that is not dirty first has its history collected (`afterCollect`), which
changes the cached page itself. If its sync id is above `lastSyncedId_` the
same number is returned and the page is marked dirty. Otherwise the result is
the number that `newPage` hands out (`touchedNumber`); the page under it is
dirty, has the entries of `p` and the sync id `lastSyncedId_ + 1`; if it has
room for a history entry, its history begins with the number and sync id of
`p`; the parent named by `p` has its entry for the parent key of `p` set to
the new number; the page under `pgno` is `p` with its history collected. The
new number is assumed to differ from `pgno`, and the pages of the parent and
of the two siblings to differ from `pgno`, from the new number and from each
other. -/
theorem touchNodePage_spec (env : Env) (s : HBtreePrivate) (pgno : Nat) (p : NodePage)
    (hp : findNode s pgno = some p) :
    (p.dirty = true → touchNodePage env s pgno = some (s, pgno)) ∧
    (p.dirty = false → pgno ∉ (collectedHistory s p).2 →
      (s.lastSyncedId_ < p.meta.syncId →
        ∃ s1, touchNodePage env s pgno = some (s1, pgno) ∧
          findNode s1 pgno = some { afterCollect s p with dirty := true }) ∧
      (p.meta.syncId ≤ s.lastSyncedId_ →
        (p.info.type = PageType.Leaf ∨ p.info.type = PageType.Branch) →
        touchedNumber s p ≠ pgno →
        (∀ par, p.parent = some par →
          par ≠ pgno ∧ par ≠ touchedNumber s p ∧ par ∉ (collectedHistory s p).2 ∧
          (findNode s par).isSome = true ∧ p.rightPageNumber ≠ par ∧ p.leftPageNumber ≠ par) →
        p.rightPageNumber ≠ pgno → p.rightPageNumber ≠ touchedNumber s p →
        p.leftPageNumber ≠ pgno → p.leftPageNumber ≠ touchedNumber s p →
        ∃ s1 q, touchNodePage env s pgno = some (s1, touchedNumber s p) ∧
          findNode s1 (touchedNumber s p) = some q ∧
          q.dirty = true ∧ q.nodes = p.nodes ∧ q.info.number = touchedNumber s p ∧
          q.meta.syncId = s.lastSyncedId_ + 1 ∧
          ((afterCollect s p).spaceLeft env s.spec_ ≥ env.sizes.historyNode →
            q.history = { pageNumber := p.info.number, syncId := p.meta.syncId }
              :: (collectedHistory s p).1) ∧
          (∀ par pp, p.parent = some par → findNode s par = some pp →
            ∃ pp', findNode s1 par = some pp' ∧
              pp'.nodes = (setChildPage env pp p.parentKey (touchedNumber s p)).nodes) ∧
          findNode s1 pgno = some (afterCollect s p))) := by
  constructor
  · intro hd
    unfold touchNodePage
    rw [hp]
    simp only [hd, if_true]
  intro hd hself
  have hce := collectHistory_eq hp hself
  obtain ⟨hf1, hcol, hlp⟩ := collectFold_spec (collectedHistory s p).2 s
  generalize hfold : (collectedHistory s p).2.foldl (fun acc n =>
        cacheDelete { acc with collectiblePages_ := setInsert n acc.collectiblePages_ } n) s = sf
    at hce hf1 hcol hlp
  have hsame := collectHistory_same hce
  have hls : (setNode sf pgno (afterCollect s p)).lastSyncedId_ = s.lastSyncedId_ := by
    have := congrArg (fun c => c.2.2.2.1) hsame.1
    exact this
  have hspec : (setNode sf pgno (afterCollect s p)).spec_ = s.spec_ := by
    have := congrArg (fun c => c.2.2.2.2.1) hsame.1
    exact this
  have hfp : findNode (setNode sf pgno (afterCollect s p)) pgno = some (afterCollect s p) := by
    rw [findNode_setNode, if_pos rfl]
  constructor
  · intro hgt
    refine ⟨{ (setNode (setNode sf pgno (afterCollect s p)) pgno
        { afterCollect s p with dirty := true }) with
        dirtyPages_ := setInsert pgno (setNode sf pgno (afterCollect s p)).dirtyPages_ }, ?_, ?_⟩
    · unfold touchNodePage
      rw [hp]
      simp only [hd, Bool.false_eq_true, if_false, hce, hfp, hls]
      have : (afterCollect s p).meta.syncId > s.lastSyncedId_ := hgt
      rw [if_pos this]
    · show findNode (setNode _ pgno _) pgno = _
      rw [findNode_setNode, if_pos rfl]
  · intro hle hty hnew hpar hr1 hr2 hl1 hl2
    have htn : (setNode sf pgno (afterCollect s p)).collectiblePages_.headD
        (setNode sf pgno (afterCollect s p)).lastPage_ = touchedNumber s p := by
      show sf.collectiblePages_.headD sf.lastPage_ = _
      rw [hcol, hlp]; rfl
    obtain ⟨s2, hnp, hf2⟩ := newPage_node (setNode sf pgno (afterCollect s p)) p.info.type hty
    rw [htn] at hnp hf2
    rw [hls] at hf2
    have hsame2 := newPage_same hnp
    have hls2 : s2.lastSyncedId_ = s.lastSyncedId_ := by
      have := congrArg (fun c => c.2.2.2.1) hsame2.1
      exact this.trans hls
    have hspec2 : s2.spec_ = s.spec_ := by
      have := congrArg (fun c => c.2.2.2.2.1) hsame2.1
      exact this.trans hspec
    have hfp2 : findNode s2 pgno = some (afterCollect s p) := by
      rw [hf2, if_neg (fun h => hnew h.symm), hfp]
    have hngt : ¬ (afterCollect s p).meta.syncId > s.lastSyncedId_ := by
      show ¬ p.meta.syncId > s.lastSyncedId_
      omega
    have hnp1 : newPage (setNode sf pgno (afterCollect s p)) (afterCollect s p).info.type
        = some (s2, touchedNumber s p) := hnp
    have hstart : touchNodePage env s pgno =
        (match
          (match (afterCollect s p).parent with
            | some par =>
              match findNode (setNode s2 (touchedNumber s p)
                  { afterCollect s p with
                    info := { (afterCollect s p).info with number := touchedNumber s p },
                    meta := { (afterCollect s p).meta with syncId := s2.lastSyncedId_ + 1 } }) par with
              | some pp => some (setNode (setNode s2 (touchedNumber s p)
                  { afterCollect s p with
                    info := { (afterCollect s p).info with number := touchedNumber s p },
                    meta := { (afterCollect s p).meta with syncId := s2.lastSyncedId_ + 1 } }) par
                  (setChildPage env pp (afterCollect s p).parentKey (touchedNumber s p)))
              | none => none
            | none => some (setNode s2 (touchedNumber s p)
                  { afterCollect s p with
                    info := { (afterCollect s p).info with number := touchedNumber s p },
                    meta := { (afterCollect s p).meta with syncId := s2.lastSyncedId_ + 1 } })) with
          | none => none
          | some s4 =>
            match findNode
                (if (afterCollect s p).leftPageNumber != INVALID_PAGE then
                  setRightOf (if (afterCollect s p).rightPageNumber != INVALID_PAGE then
                      setLeftOf s4 (afterCollect s p).rightPageNumber (touchedNumber s p) else s4)
                    (afterCollect s p).leftPageNumber (touchedNumber s p)
                else (if (afterCollect s p).rightPageNumber != INVALID_PAGE then
                      setLeftOf s4 (afterCollect s p).rightPageNumber (touchedNumber s p) else s4))
                (touchedNumber s p) with
            | none => none
            | some t6 =>
              match addHistoryNode env
                  (setNode
                    (if (afterCollect s p).leftPageNumber != INVALID_PAGE then
                      setRightOf (if (afterCollect s p).rightPageNumber != INVALID_PAGE then
                          setLeftOf s4 (afterCollect s p).rightPageNumber (touchedNumber s p) else s4)
                        (afterCollect s p).leftPageNumber (touchedNumber s p)
                    else (if (afterCollect s p).rightPageNumber != INVALID_PAGE then
                          setLeftOf s4 (afterCollect s p).rightPageNumber (touchedNumber s p) else s4))
                    (touchedNumber s p) { t6 with dirty := true })
                  (some (touchedNumber s p))
                  { pageNumber := (afterCollect s p).info.number,
                    syncId := (afterCollect s p).meta.syncId } with
              | none => none
              | some s8 => some (s8, touchedNumber s p)) := by
      unfold touchNodePage
      rw [hp]
      simp only [hd, Bool.false_eq_true, if_false, hce, hfp, hls, if_neg hngt, hnp1, hfp2]
    rw [hstart]
    clear hstart
    generalize hT : ({ afterCollect s p with
        info := { (afterCollect s p).info with number := touchedNumber s p },
        meta := { (afterCollect s p).meta with syncId := s2.lastSyncedId_ + 1 } } : NodePage) = T
    have hTn : T.nodes = p.nodes := by rw [← hT]; rfl
    have hTnum : T.info.number = touchedNumber s p := by rw [← hT]
    have hTsid : T.meta.syncId = s.lastSyncedId_ + 1 := by rw [← hT]; exact congrArg (· + 1) hls2
    have hThist : T.history = (collectedHistory s p).1 := by rw [← hT]; rfl
    have hTsl : NodePage.spaceLeft env s.spec_ { T with dirty := true }
        = NodePage.spaceLeft env s.spec_ (afterCollect s p) := by rw [← hT]; rfl
    have hrt : touchedNumber s p ≠ (afterCollect s p).rightPageNumber := fun h => hr2 h.symm
    have hlt : touchedNumber s p ≠ (afterCollect s p).leftPageNumber := fun h => hl2 h.symm
    have tail : ∀ s4 : HBtreePrivate, findNode s4 (touchedNumber s p) = some T → s4.spec_ = s.spec_ →
        ∃ s1 q,
          (match findNode
                (if (afterCollect s p).leftPageNumber != INVALID_PAGE then
                  setRightOf (if (afterCollect s p).rightPageNumber != INVALID_PAGE then
                      setLeftOf s4 (afterCollect s p).rightPageNumber (touchedNumber s p) else s4)
                    (afterCollect s p).leftPageNumber (touchedNumber s p)
                else (if (afterCollect s p).rightPageNumber != INVALID_PAGE then
                      setLeftOf s4 (afterCollect s p).rightPageNumber (touchedNumber s p) else s4))
                (touchedNumber s p) with
            | none => none
            | some t6 =>
              match addHistoryNode env
                  (setNode
                    (if (afterCollect s p).leftPageNumber != INVALID_PAGE then
                      setRightOf (if (afterCollect s p).rightPageNumber != INVALID_PAGE then
                          setLeftOf s4 (afterCollect s p).rightPageNumber (touchedNumber s p) else s4)
                        (afterCollect s p).leftPageNumber (touchedNumber s p)
                    else (if (afterCollect s p).rightPageNumber != INVALID_PAGE then
                          setLeftOf s4 (afterCollect s p).rightPageNumber (touchedNumber s p) else s4))
                    (touchedNumber s p) { t6 with dirty := true })
                  (some (touchedNumber s p))
                  { pageNumber := (afterCollect s p).info.number,
                    syncId := (afterCollect s p).meta.syncId } with
              | none => none
              | some s8 => some (s8, touchedNumber s p)) = some (s1, touchedNumber s p) ∧
          findNode s1 (touchedNumber s p) = some q ∧
          q.dirty = true ∧ q.nodes = p.nodes ∧ q.info.number = touchedNumber s p ∧
          q.meta.syncId = s.lastSyncedId_ + 1 ∧
          ((afterCollect s p).spaceLeft env s.spec_ ≥ env.sizes.historyNode →
            q.history = { pageNumber := p.info.number, syncId := p.meta.syncId }
              :: (collectedHistory s p).1) ∧
          ∀ x, x ≠ touchedNumber s p → x ≠ (afterCollect s p).rightPageNumber →
            x ≠ (afterCollect s p).leftPageNumber → findNode s1 x = findNode s4 x := by
      intro s4 h4 hsp4
      have h6 : ∀ x, x ≠ (afterCollect s p).rightPageNumber → x ≠ (afterCollect s p).leftPageNumber →
          findNode
            (if (afterCollect s p).leftPageNumber != INVALID_PAGE then
              setRightOf (if (afterCollect s p).rightPageNumber != INVALID_PAGE then
                  setLeftOf s4 (afterCollect s p).rightPageNumber (touchedNumber s p) else s4)
                (afterCollect s p).leftPageNumber (touchedNumber s p)
            else (if (afterCollect s p).rightPageNumber != INVALID_PAGE then
                  setLeftOf s4 (afterCollect s p).rightPageNumber (touchedNumber s p) else s4)) x
            = findNode s4 x := by
        intro x hx1 hx2
        rw [findNode_linkRight _ _ _ _ x hx2, findNode_linkLeft _ _ _ _ x hx1]
      have hsp6 :
          (if (afterCollect s p).leftPageNumber != INVALID_PAGE then
              setRightOf (if (afterCollect s p).rightPageNumber != INVALID_PAGE then
                  setLeftOf s4 (afterCollect s p).rightPageNumber (touchedNumber s p) else s4)
                (afterCollect s p).leftPageNumber (touchedNumber s p)
            else (if (afterCollect s p).rightPageNumber != INVALID_PAGE then
                  setLeftOf s4 (afterCollect s p).rightPageNumber (touchedNumber s p) else s4)).spec_
            = s.spec_ := by
        rw [spec_linkRight, spec_linkLeft, hsp4]
      generalize (if (afterCollect s p).leftPageNumber != INVALID_PAGE then
              setRightOf (if (afterCollect s p).rightPageNumber != INVALID_PAGE then
                  setLeftOf s4 (afterCollect s p).rightPageNumber (touchedNumber s p) else s4)
                (afterCollect s p).leftPageNumber (touchedNumber s p)
            else (if (afterCollect s p).rightPageNumber != INVALID_PAGE then
                  setLeftOf s4 (afterCollect s p).rightPageNumber (touchedNumber s p) else s4)) = s6
        at h6 hsp6
      have h6t : findNode s6 (touchedNumber s p) = some T := by rw [h6 _ hrt hlt, h4]
      have h7 : findNode (setNode s6 (touchedNumber s p) { T with dirty := true }) (touchedNumber s p)
          = some { T with dirty := true } := by rw [findNode_setNode, if_pos rfl]
      obtain ⟨r, hr⟩ : ∃ r, r = addHistoryNodeTo env
          (setNode s6 (touchedNumber s p) { T with dirty := true }).spec_
          (setNode s6 (touchedNumber s p) { T with dirty := true }).residueHistory_
          { T with dirty := true }
          { pageNumber := (afterCollect s p).info.number, syncId := (afterCollect s p).meta.syncId } :=
        ⟨_, rfl⟩
      obtain ⟨f1, f2, f3, f4, f5⟩ := addHistoryNodeTo_fields env
        (setNode s6 (touchedNumber s p) { T with dirty := true }).spec_
        (setNode s6 (touchedNumber s p) { T with dirty := true }).residueHistory_
        { T with dirty := true }
        { pageNumber := (afterCollect s p).info.number, syncId := (afterCollect s p).meta.syncId }
      rw [← hr] at f1 f2 f3 f4 f5
      refine ⟨{ (setNode (setNode s6 (touchedNumber s p) { T with dirty := true })
          (touchedNumber s p) r.1) with residueHistory_ := r.2 }, r.1, ?_, ?_, f1,
        f2.trans hTn, (congrArg PageInfo.number f3).trans hTnum, f4.trans hTsid, ?_, ?_⟩
      · rw [h6t]
        simp only [addHistoryNode, h7, ← hr]
      · show findNode (setNode _ _ _) _ = _
        rw [findNode_setNode, if_pos rfl]
      · intro hroom
        have hsp7 : (setNode s6 (touchedNumber s p) { T with dirty := true }).spec_ = s.spec_ := hsp6
        rw [hsp7, hTsl] at f5
        rw [f5 hroom]
        show _ :: T.history = _
        rw [hThist]
        rfl
      · intro x hx1 hx2 hx3
        show findNode (setNode (setNode s6 _ _) _ _) x = _
        rw [findNode_setNode, if_neg hx1, findNode_setNode, if_neg hx1, h6 x hx2 hx3]
    have h3 : ∀ q, findNode (setNode s2 (touchedNumber s p) T) q
        = if q = touchedNumber s p then some T else findNode s2 q :=
      fun q => findNode_setNode s2 (touchedNumber s p) q T
    have hs2x : ∀ x, x ≠ touchedNumber s p → x ≠ pgno → x ∉ (collectedHistory s p).2 →
        findNode s2 x = findNode s x := by
      intro x h1 h2 h3
      rw [hf2, if_neg h1, findNode_setNode, if_neg h2, hf1 x h3]
    have hpt : pgno ≠ touchedNumber s p := fun h => hnew h.symm
    have hpr : pgno ≠ (afterCollect s p).rightPageNumber := fun h => hr1 h.symm
    have hpl : pgno ≠ (afterCollect s p).leftPageNumber := fun h => hl1 h.symm
    by_cases hq : p.parent = none
    · have hpp1 : (afterCollect s p).parent = none := hq
      simp only [hpp1]
      obtain ⟨s1, q, e1, e2, e3, e4, e5, e6, e7, e8⟩ :=
        tail (setNode s2 (touchedNumber s p) T) (by rw [h3, if_pos rfl]) hspec2
      refine ⟨s1, q, e1, e2, e3, e4, e5, e6, e7, ?_, ?_⟩
      · intro par pp h1 _
        rw [hq] at h1
        exact absurd h1 (by simp)
      · rw [e8 pgno hpt hpr hpl, h3, if_neg hpt, hfp2]
    · obtain ⟨par, hpar1⟩ := Option.ne_none_iff_exists'.mp hq
      obtain ⟨hpa, hpb, hpc, hpd, hpe, hpf⟩ := hpar par hpar1
      obtain ⟨pp, hppf⟩ := Option.isSome_iff_exists.mp hpd
      have hpp1 : (afterCollect s p).parent = some par := hpar1
      have hfpar : findNode (setNode s2 (touchedNumber s p) T) par = some pp := by
        rw [h3, if_neg hpb, hs2x par hpb hpa hpc, hppf]
      simp only [hpp1, hfpar]
      obtain ⟨s1, q, e1, e2, e3, e4, e5, e6, e7, e8⟩ :=
        tail (setNode (setNode s2 (touchedNumber s p) T) par
            (setChildPage env pp (afterCollect s p).parentKey (touchedNumber s p)))
          (by rw [findNode_setNode, if_neg (fun h => hpb h.symm), h3, if_pos rfl]) hspec2
      refine ⟨s1, q, e1, e2, e3, e4, e5, e6, e7, ?_, ?_⟩
      · intro par1 pp1 h1 h2
        rw [hpar1] at h1
        simp only [Option.some.injEq] at h1
        subst h1
        rw [hppf] at h2
        simp only [Option.some.injEq] at h2
        subst h2
        refine ⟨_, ?_, rfl⟩
        rw [e8 par hpb (fun h => hpe h.symm) (fun h => hpf h.symm), findNode_setNode, if_pos rfl]
        rfl
      · rw [e8 pgno hpt hpr hpl, findNode_setNode, if_neg (fun h => hpa h.symm), h3, if_neg hpt, hfp2]

/-- Witness of C26: `touchNodePage` of leaf 7 in the state `exU10`. The page
is copied to page 3, which `collectHistory` has just made collectible; the
slot of the empty key on the parent, page 4, is set to 3. -/
theorem touchNodePage_spec_witness :
    touchedNumber exU10 (exNode exU10 7) = 3 ∧
    ∃ s1 q, touchNodePage exEnv exU10 7 = some (s1, touchedNumber exU10 (exNode exU10 7)) ∧
      findNode s1 (touchedNumber exU10 (exNode exU10 7)) = some q ∧
      q.dirty = true ∧ q.nodes = (exNode exU10 7).nodes ∧
      q.info.number = touchedNumber exU10 (exNode exU10 7) ∧
      q.meta.syncId = exU10.lastSyncedId_ + 1 ∧
      ((afterCollect exU10 (exNode exU10 7)).spaceLeft exEnv exU10.spec_ ≥ exEnv.sizes.historyNode →
        q.history = { pageNumber := (exNode exU10 7).info.number,
                      syncId := (exNode exU10 7).meta.syncId }
          :: (collectedHistory exU10 (exNode exU10 7)).1) ∧
      (∀ par pp, (exNode exU10 7).parent = some par → findNode exU10 par = some pp →
        ∃ pp1, findNode s1 par = some pp1 ∧
          pp1.nodes = (setChildPage exEnv pp (exNode exU10 7).parentKey
            (touchedNumber exU10 (exNode exU10 7))).nodes) ∧
      findNode s1 7 = some (afterCollect exU10 (exNode exU10 7)) :=
  ⟨by decide!,
   ((touchNodePage_spec exEnv exU10 7 (exNode exU10 7) (by decide!)).2 (by decide!) (by decide!)).2
     (by decide!) (Or.inl (by decide!)) (by decide!)
     (fun par h => by
       have h4 : (exNode exU10 7).parent = some 4 := by decide!
       rw [h4] at h
       cases h
       decide!)
     (by decide!) (by decide!) (by decide!) (by decide!)⟩

/-- C31 (counterexample): in the state `exQ2` the list `lru_` holds 22 pages,
two more than `cacheSize_`. The least recently used page, 6, is dirty, as are
all pages but the last one, the clean leaf 3. `cachePrune` does not stop at
page 6: it passes over the 21 dirty pages and evicts page 3, the most
recently used page. -/
theorem cachePrune_skips_dirty_pages :
    exQ2.cacheSize_ = 20 ∧
    exQ2.lru_ = [6, 7, 8, 9, 10, 11, 12, 13, 14, 15, 16, 17, 18, 19, 20, 21, 22, 23, 24, 5, 25, 3] ∧
    (cacheFind exQ2 6).map Page.dirty = some true ∧
    (cacheFind exQ2 3).map Page.dirty = some false ∧
    (cachePrune exQ2).lru_ =
      [6, 7, 8, 9, 10, 11, 12, 13, 14, 15, 16, 17, 18, 19, 20, 21, 22, 23, 24, 5, 25] ∧
    (cacheFind (cachePrune exQ2) 3).isNone = true := by
  decide!

/-- C31 (amended): `cachePrune` on any state. A dirty page of the cache stays
in the cache, and a page of `lru_` that is dirty in the cache stays in `lru_`;
the new `lru_` is a sublist of the old one, in the same order. At least
`min (size of lru_) cacheSize_` pages stay in `lru_`: nothing is evicted below
`cacheSize_`. On return `lru_` has at most `cacheSize_` pages or no page of it
is clean in the cache. When `lru_` has no duplicates, the function has visited
a prefix `pre` of `lru_`, from the least recently used page on: the pages of
`pre` that are clean in the cache are evicted from `lru_` and from the cache,
the other pages of `pre` (the dirty ones are passed over, the loop goes on
behind them) and the pages after `pre` stay. -/
theorem cachePrune_spec (s : HBtreePrivate) :
    (∀ q p, cacheFind s q = some p → p.dirty = true → cacheFind (cachePrune s) q = some p) ∧
    (cachePrune s).lru_.Sublist s.lru_ ∧
    (∀ n ∈ s.lru_, ∀ p, cacheFind s n = some p → p.dirty = true → n ∈ (cachePrune s).lru_) ∧
    min s.lru_.length s.cacheSize_ ≤ (cachePrune s).lru_.length ∧
    ((cachePrune s).lru_.length ≤ s.cacheSize_ ∨
      ∀ n ∈ (cachePrune s).lru_, ∀ p, cacheFind (cachePrune s) n = some p → p.dirty = true) ∧
    (s.lru_.Nodup → ∃ pre suf, s.lru_ = pre ++ suf ∧
      (cachePrune s).lru_ = pre.filter (fun n => !cleanCached s.cache_ n) ++ suf ∧
      (cachePrune s).cache_ =
        (pre.filter (cleanCached s.cache_)).foldl (fun c n => mapRemove n c) s.cache_) := by
  by_cases hgt : s.lru_.length > s.cacheSize_
  · have hl0 : (cachePrune s).lru_ = (cachePruneLoop s.cacheSize_ s.lru_ [] s.cache_).1 := by
      unfold cachePrune
      rw [if_pos hgt]
    have hc : (cachePrune s).cache_ = (cachePruneLoop s.cacheSize_ s.lru_ [] s.cache_).2 := by
      unfold cachePrune
      rw [if_pos hgt]
    obtain ⟨x, h1, h2, h3, h4, h5⟩ := cachePruneLoop_lru s.cacheSize_ s.lru_ [] s.cache_
    simp only [List.reverse_nil, List.nil_append, List.length_nil, Nat.zero_add] at h1 h4
    have hl : (cachePrune s).lru_ = x := by rw [hl0]; exact h1
    refine ⟨fun q p hp hd => ?_, (by rw [hl]; exact h2), fun n hn p hp hd => ?_, ?_, ?_, fun hnd => ?_⟩
    · unfold cacheFind at hp ⊢
      rw [hc]
      rcases cachePruneLoop_find s.cacheSize_ s.lru_ [] s.cache_ q with hf | hf
      · rw [hf, hp]
      · obtain ⟨p1, hp1, hd1⟩ := hf.2
        rw [hp] at hp1
        cases hp1
        rw [hd] at hd1
        cases hd1
    · rw [hl]
      exact h3 n hn p hp hd
    · rw [hl, ← h1]
      exact h4
    · rw [hl]
      rw [← h1]
      rcases h5 with h5 | h5
      · exact Or.inl h5
      · right
        intro n hn p hp
        unfold cacheFind at hp
        rw [hc] at hp
        exact h5 n (by rw [← h1]; exact hn) p hp
    · obtain ⟨pre, suf, e1, e2, e3⟩ := cachePruneLoop_order s.cacheSize_ s.lru_ [] s.cache_ hnd
      refine ⟨pre, suf, e1, ?_, ?_⟩
      · rw [hl, ← h1, e2]
        rfl
      · rw [hc, e3]
  · have he : cachePrune s = s := by
      unfold cachePrune
      rw [if_neg hgt]
    rw [he]
    refine ⟨fun q p hp _ => hp, List.Sublist.refl _, fun n hn _ _ _ => hn, Nat.min_le_left _ _,
      Or.inl (by omega), fun _ => ⟨[], s.lru_, rfl, rfl, rfl⟩⟩

/-- Witness of C31: the list `lru_` of `exQ2` has no duplicates, so the pages
that `cachePrune` evicts are the clean pages of a prefix of it. -/
theorem cachePrune_spec_witness :
    ∃ pre suf, exQ2.lru_ = pre ++ suf ∧
      (cachePrune exQ2).lru_ = pre.filter (fun n => !cleanCached exQ2.cache_ n) ++ suf ∧
      (cachePrune exQ2).cache_ =
        (pre.filter (cleanCached exQ2.cache_)).foldl (fun c n => mapRemove n c) exQ2.cache_ :=
  (cachePrune_spec exQ2).2.2.2.2.2 (by decide!)

/-- C32: `sync` returns true and leaves the state as it is when the sync id of
the current marker equals `lastSyncedId_`. Otherwise, with the file open for
writing, a `sync` that returns true has increased `lastSyncedId_` by exactly 1;
the meta data of the current marker are unchanged, so its sync id, which
`commit` sets to `lastSyncedId_ + 1`, now equals `lastSyncedId_`; every page of
the marker's residue list is in `collectiblePages_`; the residue list of the
marker and `residueHistory_` are empty; and a second `sync` returns true and
changes nothing. -/
theorem sync_spec (env : Env) (s : HBtreePrivate) :
    (s.marker_.meta.syncId = s.lastSyncedId_ → sync env s = some (s, true)) ∧
    (∀ s1, s.openMode_ ≠ OpenMode.ReadOnly → s.marker_.meta.syncId ≠ s.lastSyncedId_ →
      sync env s = some (s1, true) →
      s1.lastSyncedId_ = s.lastSyncedId_ + 1 ∧
      s1.marker_.meta = s.marker_.meta ∧
      (∀ p ∈ s.marker_.residueHistory, p ∈ s1.collectiblePages_) ∧
      s1.marker_.residueHistory = [] ∧ s1.residueHistory_ = [] ∧
      (s.marker_.meta.syncId = s.lastSyncedId_ + 1 →
        s1.marker_.meta.syncId = s1.lastSyncedId_ ∧ sync env s1 = some (s1, true))) := by
  have hnoop : ∀ x : HBtreePrivate, x.marker_.meta.syncId = x.lastSyncedId_ →
      sync env x = some (x, true) := by
    intro x hx
    unfold sync
    by_cases hro : x.openMode_ = OpenMode.ReadOnly
    · rw [if_pos hro]
    · rw [if_neg hro, if_pos hx]
  refine ⟨hnoop s, fun s1 hro hne h => ?_⟩
  unfold sync at h
  rw [if_neg hro, if_neg hne] at h
  simp only at h
  split at h
  · simp at h
  · simp at h
  · rename_i sa synced0w hw1
    have l1 := ledger_writeMarker hw1
    split at h
    · simp at h
    · simp at h
    · rename_i s3 hs2
      have l3 : ledger s3 = ledger sa := by
        split at hs2
        · split at hs2
          · simp at hs2
          · simp at hs2
          · rename_i sb pages hov
            simp only [Option.some.injEq, Prod.mk.injEq, and_true] at hs2
            rw [← hs2]
            exact (ledger_getOverflowPageNumbers hov).1
        · simp only [Option.some.injEq, Prod.mk.injEq, and_true] at hs2
          rw [hs2]
      have l13 : ledger s3 = ledger s := l3.trans l1.1
      have hm : s3.marker_ = s.marker_ := congrArg (fun c => c.1) l13
      have hl : s3.lastSyncedId_ = s.lastSyncedId_ := congrArg (fun c => c.2.2.1) l13
      split at h
      · simp at h
      · rename_i s5 mw ok hw2
        have l5 := ledger_writeMarker hw2
        simp only [Option.some.injEq, Prod.mk.injEq] at h
        obtain ⟨h5, hok⟩ := h
        rw [h5] at l5
        have e1 : s1.marker_.meta = s.marker_.meta := by
          have h0 : s1.marker_.meta = s3.marker_.meta := congrArg (fun c => c.1.meta) l5.1
          rw [h0, hm]
        have e2 : s1.lastSyncedId_ = s.lastSyncedId_ + 1 := by
          have h0 : s1.lastSyncedId_ = s3.lastSyncedId_ + 1 := congrArg (fun c => c.2.2.1) l5.1
          rw [h0, hl]
        have e3 : s1.marker_.residueHistory = [] := congrArg (fun c => c.1.residueHistory) l5.1
        have e4 : s1.residueHistory_ = [] := congrArg (fun c => c.2.2.2.1) l5.1
        have e5 : s1.collectiblePages_ = setUnite s3.collectiblePages_ s.marker_.residueHistory := by
          have h0 : s1.collectiblePages_ = setUnite s3.collectiblePages_ s3.marker_.residueHistory :=
            l5.2 (by show (2 : Nat) ≠ 1; decide)
          rw [h0, hm]
        refine ⟨e2, e1, fun p hp => ?_, e3, e4, fun hinv => ?_⟩
        · rw [e5, mem_setUnite]
          exact Or.inr hp
        · have e6 : s1.marker_.meta.syncId = s1.lastSyncedId_ := by rw [e1, e2, hinv]
          exact ⟨e6, hnoop s1 e6⟩

/-- Witness of C32: the `sync` of `exH6`, the state after a commit whose marker
has page 4 in its residue list. -/
theorem sync_spec_witness :
    exH6.marker_.residueHistory = [4] ∧
    (exH7.lastSyncedId_ = exH6.lastSyncedId_ + 1 ∧
      exH7.marker_.meta = exH6.marker_.meta ∧
      (∀ p ∈ exH6.marker_.residueHistory, p ∈ exH7.collectiblePages_) ∧
      exH7.marker_.residueHistory = [] ∧ exH7.residueHistory_ = [] ∧
      (exH6.marker_.meta.syncId = exH6.lastSyncedId_ + 1 →
        exH7.marker_.meta.syncId = exH7.lastSyncedId_ ∧ sync exEnv exH7 = some (exH7, true))) :=
  ⟨by decide!,
   (sync_spec exEnv exH6).2 exH7 (by decide!) (by decide!) (exState_eq _ true (by decide!))⟩

/-- The marker after a failed `commit`, in a state whose dirty pages are all in the cache under
their own numbers. The call returns false exactly when the write of one of the
dirty pages fails. When it returns false the current marker (root, revision,
sync id, tag, residue list) is what it was before the call, as is everything
else but the cache, the file and the counters; every page number delivers the
page it delivered before; and `beginTransaction` hands out the transaction it
would have handed out before the call, with the root, tag and revision of
that marker. -/
theorem commit_failure_keeps_marker (s : HBtreePrivate) (t tag : Nat)
    (hnd : s.dirtyPages_.Nodup)
    (hd : ∀ n ∈ s.dirtyPages_, (cacheFind s n).map (fun p => p.info.number) = some n) :
    ((∃ n ∈ s.dirtyPages_, n ∈ s.failWrites) ↔ ∃ s1, commit s t tag = some (s1, false)) ∧
    ∀ s1, commit s t tag = some (s1, false) →
      s1.marker_ = s.marker_ ∧ core s1 = core s ∧
      (∀ pg, contentAt s1 pg = contentAt s pg) ∧
      ∀ type, (beginTransaction s1 type).2 = (beginTransaction s type).2 ∧
        core (beginTransaction s1 type).1 = core (beginTransaction s type).1 := by
  obtain ⟨r, e1, e2, e3⟩ := commitLoop_spec s.dirtyPages_ s hnd (fun n hn => by
    have h0 := hd n hn
    cases hc : cacheFind s n with
    | none => rw [hc] at h0; cases h0
    | some p =>
      rw [hc] at h0
      exact ⟨p, rfl, Option.some.inj h0⟩)
  obtain ⟨sa, b⟩ := r
  have hfalse : ∀ s1, commit s t tag = some (s1, false) → b = false ∧ s1 = sa := by
    intro s1 h
    unfold commit at h
    rw [e1] at h
    cases b with
    | false =>
      simp only [Option.some.injEq, Prod.mk.injEq, and_true] at h
      exact ⟨rfl, h.symm⟩
    | true =>
      simp only at h
      split at h
      · cases h
      · split at h
        · cases h
        · simp at h
  refine ⟨⟨fun hf => ?_, fun ⟨s1, h⟩ => e2.mp (hfalse s1 h).1⟩, fun s1 h => ?_⟩
  · have hb : b = false := e2.mpr hf
    refine ⟨sa, ?_⟩
    unfold commit
    rw [e1, hb]
  · have hcore := commit_false_core h
    have hsa := (hfalse s1 h).2
    have f5 : s1.marker_ = s.marker_ := by
      have := congrArg HBtreePrivate.marker_ hcore
      exact this
    refine ⟨f5, hcore, fun pg => by rw [hsa]; exact e3 pg,
      fun type => ?_⟩
    have f1 : s1.writeTransaction_ = s.writeTransaction_ := by
      have := congrArg HBtreePrivate.writeTransaction_ hcore
      exact this
    have f2 : s1.openMode_ = s.openMode_ := by
      have := congrArg HBtreePrivate.openMode_ hcore
      exact this
    have f3 : s1.lockHeld = s.lockHeld := by
      have := congrArg HBtreePrivate.lockHeld hcore
      exact this
    have f4 : s1.nextTransaction = s.nextTransaction := by
      have := congrArg HBtreePrivate.nextTransaction hcore
      exact this
    have f6 : s1.transactions = s.transactions := by
      have := congrArg HBtreePrivate.transactions hcore
      exact this
    unfold beginTransaction
    rw [f1, f2, f3]
    split
    · exact ⟨rfl, hcore⟩
    · split
      · exact ⟨rfl, hcore⟩
      · split
        · exact ⟨rfl, hcore⟩
        · simp only [f4, f5, f6]
          refine ⟨trivial, ?_⟩
          exact congrArg (fun c : HBtreePrivate => { c with
            openMode_ := s.openMode_, marker_ := s.marker_, lockHeld := s.lockHeld,
            writeTransaction_ := if type = TransactionType.ReadWrite then some s.nextTransaction
              else s.writeTransaction_,
            transactions := mapInsert s.nextTransaction
              { type := type, rootPage_ := s.marker_.meta.root, tag_ := s.marker_.meta.tag,
                revision_ := s.marker_.meta.revision } s.transactions,
            nextTransaction := s.nextTransaction + 1 }) hcore

/-- Example of a failed commit: the commit of `exM1`, where the leaf 3 and the overflow
page 4 are dirty and the write of page 4 fails. -/
theorem commit_failure_keeps_marker_witness :
    exM1.dirtyPages_ = [3, 4] ∧
    (exM2.marker_ = exM1.marker_ ∧ core exM2 = core exM1 ∧
      (∀ pg, contentAt exM2 pg = contentAt exM1 pg) ∧
      ∀ type, (beginTransaction exM2 type).2 = (beginTransaction exM1 type).2 ∧
        core (beginTransaction exM2 type).1 = core (beginTransaction exM1 type).1) :=
  ⟨by decide!,
   (commit_failure_keeps_marker exM1 0 7 (by decide!) (by decide!)).2 exM2
     (exState_eq _ false (by decide!))⟩

/-- C34: with an overflow threshold for which
`sizeof(NodeHeader) + 2 * overflowThreshold + 2 + sizeof(HistoryNode)` fits in
16 bits (every threshold up to 32754 with the struct sizes of the source),
`spaceNeededForNode(k, v)` is the sum
`sizeof(NodeHeader) + |k| + (0 if |v| > overflowThreshold else |v|) + 2 +
sizeof(HistoryNode)` without wrap-around for every key that `put` accepts
(at most `overflowThreshold` bytes) and every value. In a write transaction
`put` with such a key, once the target leaf `pg` is found (`putFound`), calls
`insertNode` on it and returns true when that amount is at most the space left
on the leaf, and calls `split` otherwise. -/
theorem put_inserts_iff_space (env : Env) (s : HBtreePrivate) (t : Nat) (txn : HBtreeTransaction)
    (key value : Bytes) (hfind : mapFind t s.transactions = some txn)
    (hrw : txn.type = TransactionType.ReadWrite)
    (hk : key.length ≤ s.spec_.overflowThreshold) :
    (∀ spec : Spec, key.length ≤ spec.overflowThreshold →
      env.sizes.nodeHeader + 2 * spec.overflowThreshold + 2 + env.sizes.historyNode < 65536 →
      spaceNeededForNode env spec key value =
        env.sizes.nodeHeader + key.length
          + (if value.length > spec.overflowThreshold then 0 else value.length) + 2
          + env.sizes.historyNode) ∧
    ∀ s1 pg page, putFound env s t txn key = some (s1, some pg) → findNode s1 pg = some page →
      (spaceNeededForNode env s1.spec_ key value ≤ page.spaceLeft env s1.spec_ →
        put env s t key value =
          (insertNodeAt env s1 pg key { data := value }).map (fun s2 => (putDone s2, true))) ∧
      (¬ spaceNeededForNode env s1.spec_ key value ≤ page.spaceLeft env s1.spec_ →
        put env s t key value =
          (split env (s1.lastPage_ + 1) s1 pg key { data := value }).map
            (fun r => (putDone r.1, r.2.1))) := by
  have hins : putInsert env s t txn key value =
      match putFound env s t txn key with
      | none => none
      | some (s1, none) => some (s1, false)
      | some (s1, some pg) =>
        match findNode s1 pg with
        | none => none
        | some page =>
          match (if spaceNeededForNode env s1.spec_ key value ≤ page.spaceLeft env s1.spec_ then
              match insertNodeAt env s1 pg key { data := value } with
              | none => none
              | some s2 => some (s2, true)
            else
              match split env (s1.lastPage_ + 1) s1 pg key { data := value } with
              | none => none
              | some (s2, ok, _) => some (s2, ok) : Option (HBtreePrivate × Bool)) with
          | none => none
          | some (s2, ok) => some (putDone s2, ok) := rfl
  constructor
  · intro spec hks hb
    unfold spaceNeededForNode willCauseOverflow
    by_cases hv : value.length > spec.overflowThreshold
    · simp only [hv, decide_True, if_true]
      have := u16_natCast (env.sizes.nodeHeader + key.length + 2 + env.sizes.historyNode)
      push_cast at this
      rw [this, Nat.mod_eq_of_lt (by omega)]
    · simp only [hv, decide_False, if_false, Bool.false_eq_true]
      have := u16_natCast (env.sizes.nodeHeader + key.length + value.length + 2 + env.sizes.historyNode)
      push_cast at this
      rw [this, Nat.mod_eq_of_lt (by omega)]
  · intro s1 pg page hfound hpage
    have hput : put env s t key value = putInsert env s t txn key value := by
      have h1 : ¬ key.length > s.spec_.overflowThreshold := Nat.not_lt.mpr hk
      simp [put, hfind, hrw, h1]
    rw [hput, hins, hfound]
    simp only [hpage]
    constructor
    · intro hle
      rw [if_pos hle]
      cases insertNodeAt env s1 pg key { data := value } <;> rfl
    · intro hgt
      rw [if_neg hgt]
      cases h : split env (s1.lastPage_ + 1) s1 pg key { data := value } with
      | none => rfl
      | some r =>
        obtain ⟨a, b, c⟩ := r
        rfl

/-- Witness of C34: `put("k", "v")` in the write transaction 0 of `exWriter`,
with the overflow threshold 1024: the entry needs 8 + 1 + 1 + 2 + 16 = 28
bytes. -/
theorem put_inserts_iff_space_witness :
    spaceNeededForNode exEnv exWriter.spec_ [107] [118] =
      exEnv.sizes.nodeHeader + [107].length
        + (if [118].length > exWriter.spec_.overflowThreshold then 0 else [118].length) + 2
        + exEnv.sizes.historyNode ∧
    spaceNeededForNode exEnv exWriter.spec_ [107] [118] = 28 :=
  ⟨(put_inserts_iff_space exEnv exWriter 0
      { type := TransactionType.ReadWrite, rootPage_ := INVALID_PAGE, tag_ := 0, revision_ := 0 }
      [107] [118] (by decide!) (by decide!) (by decide!)).1 exWriter.spec_ (by decide!) (by decide!),
   by decide!⟩

/-- C35 (failing run): a new file with 4 KiB pages and an overflow
threshold of 1500 bytes. After `put("a", 1080 bytes)` the root leaf has 2973
bytes left; the put of a key of 1500 bytes with a value of 1500 bytes needs
3026 bytes, so `split` is called. The copy has two entries and the threshold is
4064 / 2 - 1500 / 2 = 1282: the first entry needs 1107 bytes, which is below
the threshold, so the loop counts both entries and `splitIndex` is 2, the
number of entries. The split key `copy.nodes.constBegin() + 2` is the end
iterator; the embedding has no result for the call. -/
theorem splitIndex_equals_entry_count :
    exOk (put exEnv exY1 0 [97] (exValue 1080 1)) = some true ∧
    (findNode exY2 3).map (fun p => p.spaceLeft exEnv exY2.spec_) = some 2973 ∧
    spaceNeededForNode exEnv exY2.spec_ (exValue 1500 98) (exValue 1500 2) = 3026 ∧
    splitThreshold exEnv exY2.spec_ exYLeft = 1282 ∧
    splitCurrent exEnv exY2.spec_ exYCopy.nodes 1 = 1107 ∧
    exYCopy.nodes.length = 2 ∧
    splitIndex exEnv exY2.spec_ exYCopy exYLeft = some 2 ∧
    (put exEnv exY2 0 (exValue 1500 98) (exValue 1500 2)).isNone = true := by
  decide!

/-- The split index of the copy `copy` (the entries of the page
with the new one) and the emptied page `left`. For a branch the index is at
least 1 and below the number of entries exactly when the copy has at least
three entries. For a leaf it is so exactly when the threshold
`capacity(left) / 2 - overflowThreshold / 2` is positive and the running sum of
`spaceNeededForNode` reaches the threshold before the last entry. That is the
case when the threshold is positive, the entries together need more than the
capacity of the page (the new entry does not fit), their sum fits in 16 bits,
and no entry needs more than the capacity less the threshold. -/
theorem splitIndex_in_range (env : Env) (spec : Spec) (copy left : NodePage) :
    (copy.info.type = PageType.Branch →
      ∃ idx, splitIndex env spec copy left = some idx ∧
        ((1 ≤ idx ∧ idx < copy.nodes.length) ↔ 3 ≤ copy.nodes.length)) ∧
    (copy.info.type = PageType.Leaf →
      ∃ idx, splitIndex env spec copy left = some idx ∧
        ((1 ≤ idx ∧ idx < copy.nodes.length) ↔
          (0 < splitThreshold env spec left ∧
            ∃ j, j < copy.nodes.length ∧
              splitThreshold env spec left ≤ splitCurrent env spec copy.nodes j)) ∧
        (0 < splitThreshold env spec left →
          (copy.nodes.map (fun e => spaceNeededForNode env spec e.1 e.2.data)).sum < 65536 →
          left.capacity env spec
            < (copy.nodes.map (fun e => spaceNeededForNode env spec e.1 e.2.data)).sum →
          (∀ e ∈ copy.nodes, spaceNeededForNode env spec e.1 e.2.data
            + splitThreshold env spec left ≤ left.capacity env spec) →
          1 ≤ idx ∧ idx < copy.nodes.length)) := by
  constructor
  · intro h
    refine ⟨copy.nodes.length / 2 + 1, ?_, ?_⟩
    · unfold splitIndex
      rw [if_pos h]
    · omega
  · intro h
    have hb : ¬ copy.info.type = PageType.Branch := by rw [h]; decide
    obtain ⟨h1, h2, h3⟩ := splitIndexLeaf_spec env spec (splitThreshold env spec left) copy.nodes 0
    have hiff : (1 ≤ splitIndexLeaf env spec (splitThreshold env spec left) copy.nodes 0 ∧
        splitIndexLeaf env spec (splitThreshold env spec left) copy.nodes 0 < copy.nodes.length) ↔
        (0 < splitThreshold env spec left ∧
          ∃ j, j < copy.nodes.length ∧
            splitThreshold env spec left ≤ splitCurrent env spec copy.nodes j) := by
      constructor
      · rintro ⟨a, b⟩
        refine ⟨?_, _, b, h3 b⟩
        have := h2 0 (by omega)
        simpa using this
      · rintro ⟨a, j, hj, hT⟩
        constructor
        · by_contra hc
          have h0 : splitIndexLeaf env spec (splitThreshold env spec left) copy.nodes 0 = 0 := by
            omega
          have := h3 (by omega)
          rw [h0] at this
          simp at this
          omega
        · by_contra hc
          have := h2 j (by omega)
          unfold splitCurrent at hT
          omega
    refine ⟨splitIndexLeaf env spec (splitThreshold env spec left) copy.nodes 0, ?_, hiff, ?_⟩
    · unfold splitIndex
      rw [if_neg hb, if_pos h]
      rfl
    · intro hT hsum hbig hno
      apply hiff.mpr
      refine ⟨hT, copy.nodes.length - 1, ?_, ?_⟩
      · have hne : copy.nodes ≠ [] := by
          intro he
          rw [he] at hbig
          simp at hbig
        have := List.length_pos.mpr hne
        omega
      · rw [splitCurrent_sum env spec copy.nodes _ hsum]
        have hne : copy.nodes.map (fun e => spaceNeededForNode env spec e.1 e.2.data) ≠ [] := by
          intro he
          rw [he] at hbig
          simp at hbig
        obtain ⟨x, hx, hs⟩ := sum_all_but_last _ hne
        obtain ⟨e, he, hex⟩ := List.mem_map.mp hx
        have hle := hno e he
        rw [hex] at hle
        rw [List.length_map, ← List.map_take] at hs
        omega

/-- Example of a split index in range: a leaf copy with five entries of 1027 bytes each and the
overflow threshold 1024: the entries need more than the capacity 4064, none
needs more than the capacity less the threshold 1520, and the split index is
in range. -/
theorem splitIndex_in_range_witness :
    ∃ idx, splitIndex exEnv exNew.spec_ exYFull exYFull = some idx ∧
      1 ≤ idx ∧ idx < exYFull.nodes.length := by
  obtain ⟨idx, h1, _, h3⟩ := (splitIndex_in_range exEnv exNew.spec_ exYFull exYFull).2 (by decide)
  exact ⟨idx, h1, h3 (by decide!) (by decide!) (by decide!) (by decide!)⟩

/-- C37 (failing run): three puts and a del, all returning true, on a new file.
The third put splits the root leaf: leaf 3 keeps one entry and the new leaf 5
gets two, which leave it 8 bytes. The del removes the only entry of leaf 3;
`rebalance` finds the neighbour 5 with two entries, so it does not borrow, and
neither page has room for the other (with 16 bytes for a history entry), so
it does not merge and returns true. Leaf 3 is empty and is the first child of
the root 4. `cursorFirst` then takes `constBegin()` of an empty list (no
result in the embedding), and `previous` from the first key goes to the empty
left sibling and returns false. The fourteen puts of `exZOps`, all returning
true, leave branch 16 with one entry under the root 9. -/
theorem del_leaves_empty_leaf :
    exOk (put exEnv exWriter 0 (exWideKey 97) (exValue 1010 1)) = some true ∧
    exOk (put exEnv exZ1 0 (exWideKey 98) (exValue 1010 2)) = some true ∧
    exOk (put exEnv exZ2 0 (99 :: exValue 1009 120) (exValue 1016 3)) = some true ∧
    exOk (del exEnv exZ3 0 (exWideKey 97)) = some true ∧
    (findNode exZ3 5).map (fun p => p.spaceLeft exEnv exZ3.spec_) = some 8 ∧
    transactionRoot exZ4 0 = some 4 ∧
    exEntries exZ4 4 = some [([], 3), ([98, 120], 5)] ∧
    (findNode exZ4 3).map (fun p => (p.info.type, p.nodes.length)) = some (PageType.Leaf, 0) ∧
    (exEntries exZ4 5).map List.length = some 2 ∧
    (doCursorOp exEnv exZ4 { transaction_ := some 0 } CursorOp.First []).isNone = true ∧
    exCursorLoop CursorOp.Previous 5 exZ4 { transaction_ := some 0 }
      = some ([[99, 120], [98, 120]], true) ∧
    (exZRun exZOps exWriter).isSome = true ∧
    transactionRoot exZ5 0 = some 9 ∧
    exEntries exZ5 9 = some [([], 4), ([52, 49], 13), ([53, 52], 16), ([53, 54], 10)] ∧
    (findNode exZ5 16).map (fun p => p.info.type) = some PageType.Branch ∧
    exEntries exZ5 16 = some [([53, 52], 7)] := by
  decide!

/-- C38 (failing run): transaction 0 puts "k" and commits; there is no sync, so
the root leaf 3 has a sync id above `lastSyncedId_`. Transaction 1 deletes "k":
the tree is empty and `removeFromTree` enters page 3 in `collectiblePages_`.
Transaction 1 is aborted. The marker still has the root 3 and a read of "k"
returns "v", but page 3 is in `collectiblePages_`: the next `newPage` hands it
out. Transaction 2 puts "x" with a value of 1025 bytes: the put returns true,
the overflow page of the value is page 3, the leaf itself, and the value of "x"
cannot be read. -/
theorem collectible_page_is_live_root :
    exOk (del exEnv exI1 1 [107]) = some true ∧
    (abort exI2 1).isSome = true ∧
    exI3.marker_.meta.root = 3 ∧
    exI3.collectiblePages_ = [3] ∧
    exGet (get exEnv exI3 none [107]) = some [118] ∧
    transactionRoot exI4 2 = some 3 ∧
    (newPage exI4 PageType.Leaf).map Prod.snd = some 3 ∧
    exOk (put exEnv exI4 2 [120] (exValue 1025 9)) = some true ∧
    (findNode exI5 3).map (fun p => p.nodes.map (fun e => (e.1, e.2.flags, e.2.overflowPage)))
      = some [([107], 0, INVALID_PAGE), ([120], NodeHeader_Overflow, 3)] ∧
    (get exEnv exI5 (some 2) [120]).isNone = true := by
  decide!

/-- C40 (fails): in the run of `exT2`, where leaf 13 holds the keys "1w" and
"1x" behind the misplaced separator "19", `put` of "1x" stores the key a
second time on leaf 5, and after `del` of "20" and "22" the page borrows the
last entry of leaf 13, which is "1x" again: `moveNode` calls `insertNode` with a
key that is on the page. Before the last `del` both leaves keep the offset
bookkeeping; after it, which returns true, leaf 5 has one entry (key "1x" with
the seven bytes from leaf 13) with `lowerOffset` 4 and `upperOffset` 2010, where
the bookkeeping asks for 2 and 1006 (the test `lowerOffset / 2 == nodes.size()`
of `verifyIntegrity` compares 2 with 1). -/
theorem moveNode_inserts_key_twice :
    [5, 13].map (exOffsets exV1) =
      [some ([([49, 120], 5), ([50, 50], 8)], 4, 2012, true),
       some ([([49, 53], 6), ([49, 55], 6), ([49, 119], 3), ([49, 120], 7)], 8, 4021, true)]
    ∧ exOk (del exEnv exV1 0 (exKey [50, 50])) = some true
    ∧ [5, 13].map (exOffsets exV2) =
      [some ([([49, 120], 7)], 4, 2010, false),
       some ([([49, 53], 6), ([49, 55], 6), ([49, 119], 3)], 6, 3015, true)] := by
  refine ⟨?_, ?_, ?_⟩
  · decide!
  · decide!
  · decide!

/-- C36 (fails): `del` of the key "22" in `exV1` takes the entry off leaf 5 and
calls `rebalance` in the state `exW1`, where the key "1x" is stored on leaf 13
with seven bytes (the older put, hidden behind the misplaced separator "19") and
on leaf 5 with five bytes (the last put, the one `get` returns). `rebalance`
returns true: it borrows the last entry of leaf 13 with `moveNode`, and
`insertNode` replaces the entry of leaf 5. The pair ("1x", five bytes) is no
longer on any leaf below the root 10 (16 entries are left of 17) and `get` of
"1x" returns the seven bytes of the older put. -/
theorem rebalance_replaces_value :
    exLookup exW1 = (some 10,
      [([48, 120], 1), ([49, 49], 6), ([49, 51], 6), ([49, 53], 6), ([49, 55], 6), ([49, 119], 3),
       ([49, 120], 7), ([49, 120], 5), ([50, 51], 8), ([50, 55], 8), ([50, 57], 8), ([50, 120], 1),
       ([51, 49], 2), ([51, 51], 2), ([51, 56], 7), ([52, 51], 4), ([55, 120], 6)], some 5)
    ∧ exOk (rebalance exEnv (exW1.lastPage_ + 1) exW1 5) = some true
    ∧ exLookup exW2 = (some 10,
      [([48, 120], 1), ([49, 49], 6), ([49, 51], 6), ([49, 53], 6), ([49, 55], 6), ([49, 119], 3),
       ([49, 120], 7), ([50, 51], 8), ([50, 55], 8), ([50, 57], 8), ([50, 120], 1),
       ([51, 49], 2), ([51, 51], 2), ([51, 56], 7), ([52, 51], 4), ([55, 120], 6)], some 7) := by
  refine ⟨?_, ?_, ?_⟩
  · decide!
  · decide!
  · decide!

/-- C39: a Branch or Leaf page `p` whose header, indices and entries fit the
page (the capacity invariant), whose offsets match its entries and which is as
the engine holds it (`historySize` is the length of its history, the fields
hold values of their C types and the entries of a branch carry no overflow
flag, as `verifyIntegrity` checks), is serialised, and
the page read back from the buffer has the same `PageInfo`, meta data and
history and the same entries: key, value bytes or overflow or child page
number, and overflow flag. An overflow page `o` whose data fits the page is
serialised, and the page read back has the `PageInfo`, the data and the
`nextPage` of `o`. -/
theorem serialize_round_trip (spec : Spec) (p : NodePage) (o : OverflowPage)
    (htype : p.info.type = PageType.Branch ∨ p.info.type = PageType.Leaf)
    (hcap : 32 + 16 * p.history.length + p.info.lowerOffset + p.info.upperOffset ≤ spec.pageSize)
    (hlow : p.info.lowerOffset = 2 * p.nodes.length)
    (hupp : p.info.upperOffset = recordsSize p.nodes)
    (hhist : p.meta.historySize = p.history.length)
    (hfit : p.fieldsFit)
    (hbranch : p.info.type = PageType.Branch → ∀ e ∈ p.nodes, e.2.isOverflow = false)
    (hocap : 24 + o.data.length ≤ spec.pageSize) (hofit : o.fieldsFit) :
    (∃ buffer, serializeNodePage spec p = some buffer ∧ buffer.length = spec.pageSize
      ∧ (deserializeNodePage buffer).info = p.info
      ∧ (deserializeNodePage buffer).meta = p.meta
      ∧ (deserializeNodePage buffer).history = p.history
      ∧ (deserializeNodePage buffer).nodes.map (storedEntry p.info.type)
          = p.nodes.map (storedEntry p.info.type))
    ∧ (∃ buffer, serializeOverflowPage spec o = some buffer ∧ buffer.length = spec.pageSize
      ∧ (deserializeOverflowPage buffer).info = o.info
      ∧ (deserializeOverflowPage buffer).data = o.data
      ∧ (deserializeOverflowPage buffer).nextPage = o.nextPage) :=
  ⟨serializeNodePage_spec spec p htype hcap hlow hupp hhist hfit hbranch,
   serializeOverflowPage_spec spec o hocap hofit⟩

theorem serialize_round_trip_witness :
    (∃ buffer, serializeNodePage exImageSpec exImageLeaf = some buffer
      ∧ buffer.length = exImageSpec.pageSize
      ∧ (deserializeNodePage buffer).info = exImageLeaf.info
      ∧ (deserializeNodePage buffer).meta = exImageLeaf.meta
      ∧ (deserializeNodePage buffer).history = exImageLeaf.history
      ∧ (deserializeNodePage buffer).nodes.map (storedEntry exImageLeaf.info.type)
          = exImageLeaf.nodes.map (storedEntry exImageLeaf.info.type))
    ∧ (∃ buffer, serializeOverflowPage exImageSpec exImageOverflow = some buffer
      ∧ buffer.length = exImageSpec.pageSize
      ∧ (deserializeOverflowPage buffer).info = exImageOverflow.info
      ∧ (deserializeOverflowPage buffer).data = exImageOverflow.data
      ∧ (deserializeOverflowPage buffer).nextPage = exImageOverflow.nextPage) :=
  serialize_round_trip exImageSpec exImageLeaf exImageOverflow (by decide) (by decide) (by decide)
    (by decide) (by decide) (by unfold NodePage.fieldsFit; decide) (by decide) (by decide)
    (by unfold OverflowPage.fieldsFit; decide)

/-- C15 (failing run): the 32 calls of `exOps` and `del("10")` in one write
transaction, which all return true, then `commit`, `close` (with sync) and
`open`, which succeed. Every page written fits its buffer. In the transaction
"1x" was put with seven bytes and "1w" with three, and neither was deleted;
before the last `del` the transaction reads the seven bytes of "1x". After the
reopen the two entries are on a leaf below the root 10, but `get` returns the
empty array for both keys, while the key "20" has its value. -/
theorem reopen_loses_committed_put :
    exGet (get exEnv exT1 (some 0) (exKey [49])) = some (exValue 7 0)
    ∧ (exT2.dirtyPages_, exT2.dirtyPages_.map (exFits exT2))
        = ([3, 4, 5, 6, 7, 9, 10, 11, 13],
           [some true, some true, some true, some true, some true, some true, some true,
            some true, some true])
    ∧ (exOk (commit exT2 0 1), (close exEnv exL1 true).isSome, exOk (openExisting exEnv exL2))
        = (some true, true, some true)
    ∧ (exL3.marker_.meta.root, exL3.marker_.meta.tag,
        (exSubtreePairs exL3 4 10).filter (fun e => e.1 = [49, 120] || e.1 = [49, 119]))
        = (10, 1, [([49, 119], 3), ([49, 120], 7)])
    ∧ [exKey [49], exKey [49, 119], exKey [50, 48]].map (fun k => exGet (get exEnv exL3 none k))
        = [some [], some [], some (exValue 3 0)] := by
  refine ⟨?_, ?_, ?_, ?_, ?_⟩
  · decide!
  · decide!
  · decide!
  · decide!
  · decide!

/-- C33 (failing run): transaction 0 puts "foo" with [1] and commits with tag
42; there is no sync. Write transaction 1 puts "foo" with [2], which changes the
root leaf 3 in place, and "bar" with 1025 bytes, which go to the overflow page
4. The dirty pages are 3 and 4 and the file refuses the write of page 4.
`commit` writes page 3, marks it clean and returns false at page 4. The marker
is the one of before the call, and transaction 1 is aborted. Read transaction 2,
begun afterwards, has the root 3, the tag 42 and the revision 1 of that marker,
and its `get("foo")` returns [2], the value of the transaction whose commit
failed, where the prior committed tree has [1]. -/
theorem failed_commit_exposes_put :
    exGet (get exEnv exC1 none [102, 111, 111]) = some [1]
    ∧ (exF3.dirtyPages_, exF3.failWrites, exOk (commit exF3 1 64)) = ([3, 4], [4], some false)
    ∧ exF4.marker_ = exC1.marker_
    ∧ ((abort exF4 1).isSome, mapFind 2 exF6.transactions,
        exGet (get exEnv exF6 (some 2) [102, 111, 111]))
        = (true, some { type := TransactionType.ReadOnly, rootPage_ := 3, tag_ := 42, revision_ := 1 },
           some [2]) := by
  refine ⟨?_, ?_, ?_, ?_⟩
  · decide!
  · decide!
  · decide!
  · decide!

end HBtree
